import Mathlib

/-!
# yaftlib: the byte-stream interpreter of a VT102-style terminal emulator

A shallow embedding of `src/yaftlib.c` / `src/yaftlib.h`.

Conventions of the embedding

* A C `int` is a Lean `Int`.  Signed overflow is undefined in C: a function returns
  `none` where an `int` addition, subtraction or `abs` of the source leaves the range
  `in_int`.  Only the conversion `(int) estrtol(...)` of `dec2num`, which is
  implementation-defined and not undefined, is narrowed with `to_int` (two's complement
  wrap-around; the other uses of `to_int` sit behind an `in_int` test and change
  nothing).  Unsigned fields are `Nat`; a store into `uint8_t` / `uint16_t` /
  `uint32_t` narrows with `to_u8` / `to_u16` / `to_u32`.  `long` is taken to be 64 bits
  wide.
* Every function that reads or writes `cells[y][x]`, `line_dirty[y]` or `tabstop[x]`
  returns an `Option`: `none` is the index-error branch, taken exactly when the row
  index is outside `[0, lines-1]` or the column index is outside `[0, cols-1]`
  (or when a NULL glyph pointer is dereferenced).
* The escape buffer `esc.buf` of `esc.size` bytes is the list of the bytes stored so
  far, `esc.bp` being `esc.buf + buf.length`.  The terminating NUL that
  `control_character` and `esc_sequence` write at `esc.bp` falls outside the buffer
  when `buf.length ≥ esc.size`: this is `none` too.  `erealloc` is taken to succeed and
  `esc.size * 2` to stay in the range of `int` (a sequence shorter than 2^30 bytes).
* `glyph.h` and the C library are not part of the sources: the glyph map
  `terminal_t.glyph` (the array `term->glyph[]` built by `term_init`) is a field of the
  state, and `wcwidth` is a parameter of `add_char` and of everything above it.
* The bytes written to the pseudo terminal by `ewrite` are appended to `pty_out`.
-/

namespace Yaft

/-! ## yaftlib.h: constants -/

def BEL : Nat := 0x07
def BS : Nat := 0x08
def HT : Nat := 0x09
def LF : Nat := 0x0A
def VT : Nat := 0x0B
def FF : Nat := 0x0C
def CR : Nat := 0x0D
def ESC : Nat := 0x1B
def DEL : Nat := 0x7F
def SPACE : Nat := 0x20
def BACKSLASH : Nat := 0x5C

def ESCSEQ_SIZE : Nat := 1024
def MAX_ARGS : Nat := 16
def UCS2_CHARS : Nat := 0x10000
def DEFAULT_CHAR : Nat := SPACE
def BRIGHT_INC : Nat := 8

def ATTR_RESET : Nat := 0
def ATTR_BOLD : Nat := 1
def ATTR_UNDERLINE : Nat := 4
def ATTR_BLINK : Nat := 5
def ATTR_REVERSE : Nat := 7

/-- The table `attr_mask[]`: SGR number to attribute bit. -/
def attr_mask (i : Nat) : Nat :=
  [0x00, 0x01, 0x00, 0x00, 0x02, 0x04, 0x00, 0x08].getD i 0

def MODE_RESET : Nat := 0x00
def MODE_ORIGIN : Nat := 0x01
def MODE_CURSOR : Nat := 0x02
def MODE_AMRIGHT : Nat := 0x04
def MODE_VWBS : Nat := 0x08

inductive esc_state where
  | STATE_RESET
  | STATE_ESC
  | STATE_CSI
  | STATE_OSC
  | STATE_DCS
  deriving DecidableEq, Repr

open esc_state

/-- The enumerators of `enum glyph_width`. -/
def NEXT_TO_WIDE : Nat := 0
def HALF : Nat := 1
def WIDE : Nat := 2

def DEFAULT_FG : Nat := 7
def DEFAULT_BG : Nat := 0
def TABSTOP : Nat := 8
def SUBSTITUTE_HALF : Nat := 0x0020
def SUBSTITUTE_WIDE : Nat := 0x3000
def REPLACEMENT_CHAR : Nat := 0x003F

/-! ## Machine integers -/

/-- Narrowing of a mathematical integer to a 32-bit two's-complement `int`. -/
def to_int (v : Int) : Int := (v + 2147483648) % 4294967296 - 2147483648

/-- The value `v` is in the range of a 32-bit `int`: the C expression that computes it
does not overflow. -/
def in_int (v : Int) : Prop := -2147483648 ≤ v ∧ v ≤ 2147483647

instance (v : Int) : Decidable (in_int v) := inferInstanceAs (Decidable (_ ∧ _))

/-- Narrowing to `uint8_t`. -/
def to_u8 (v : Int) : Nat := (v % 256).toNat

/-- Narrowing to `uint16_t`. -/
def to_u16 (v : Int) : Nat := (v % 65536).toNat

/-- Narrowing to `uint32_t`. -/
def to_u32 (v : Int) : Nat := (v % 4294967296).toNat

/-- The C test `a & b` used as a condition. -/
def has_bit (a b : Nat) : Bool := a &&& b != 0

/-- The C expression `a & ~b` on a 32-bit value. -/
def clear_bit (a b : Nat) : Nat := a &&& (0xFFFFFFFF ^^^ b)

/-! ## yaftlib.h: data model -/

/-- A glyph descriptor of `glyph.h` (the bitmap is not modelled). -/
structure glyph_t where
  code : Nat
  width : Nat
  deriving DecidableEq, Repr

structure margin_t where
  top : Nat
  bottom : Nat
  deriving DecidableEq, Repr

structure point_t where
  x : Nat
  y : Nat
  deriving DecidableEq, Repr

structure color_pair_t where
  fg : Nat
  bg : Nat
  deriving DecidableEq, Repr

/-- A cell; `glyphp = none` is the NULL pointer. -/
structure cell_t where
  glyphp : Option glyph_t
  color_pair : color_pair_t
  attr : Nat
  width : Nat
  deriving DecidableEq, Repr

/-- The escape buffer: `buf` holds the bytes between `esc.buf` and `esc.bp`. -/
structure esc_t where
  buf : List Nat
  size : Nat
  state : esc_state
  deriving DecidableEq, Repr

structure charset_t where
  code : Nat
  following_byte : Int
  count : Int
  is_valid : Bool
  deriving DecidableEq, Repr

structure state_t where
  cursor : point_t
  mode : Nat
  attr : Nat
  deriving DecidableEq, Repr

structure terminal_t where
  cols : Nat
  lines : Nat
  cells : List (List cell_t)
  scroll : margin_t
  cursor : point_t
  line_dirty : List Bool
  tabstop : List Bool
  mode : Nat
  wrap_occured : Bool
  state : state_t
  color_pair : color_pair_t
  attr : Nat
  charset : charset_t
  esc : esc_t
  glyph : Nat → Option glyph_t
  pty_out : List Nat

structure parm_t where
  argc : Nat
  argv : List (Option (List Nat))
  deriving DecidableEq, Repr

/-! ## Loops and array accesses -/

/-- The loop `for (i = lo; n iterations; i++) body`, stopping at the first error. -/
def for_up_aux {σ : Type} (body : σ → Int → Option σ) : Nat → Int → σ → Option σ
  | 0, _, s => some s
  | n + 1, i, s =>
    match body s i with
    | none => none
    | some s1 => for_up_aux body n (i + 1) s1

/-- The loop `for (i = lo; i < hi; i++) body`. -/
def for_up {σ : Type} (lo hi : Int) (body : σ → Int → Option σ) (s : σ) : Option σ :=
  for_up_aux body (hi - lo).toNat lo s

/-- The loop `for (i = hi; n iterations; i--) body`, stopping at the first error. -/
def for_down_aux {σ : Type} (body : σ → Int → Option σ) : Nat → Int → σ → Option σ
  | 0, _, s => some s
  | n + 1, i, s =>
    match body s i with
    | none => none
    | some s1 => for_down_aux body n (i - 1) s1

/-- The loop `for (i = hi; i >= lo; i--) body`. -/
def for_down {σ : Type} (hi lo : Int) (body : σ → Int → Option σ) (s : σ) : Option σ :=
  for_down_aux body (hi - lo + 1).toNat hi s

/-- Read of `term->cells[y][x]`. -/
def cell_ref (t : terminal_t) (y x : Int) : Option cell_t :=
  if 0 ≤ y ∧ y < t.lines ∧ 0 ≤ x ∧ x < t.cols then
    match t.cells[y.toNat]? with
    | none => none
    | some row => row[x.toNat]?
  else none

/-- Write of `term->cells[y][x]`. -/
def cell_store (t : terminal_t) (y x : Int) (c : cell_t) : Option terminal_t :=
  if 0 ≤ y ∧ y < t.lines ∧ 0 ≤ x ∧ x < t.cols then
    some { t with cells := t.cells.set y.toNat ((t.cells.getD y.toNat []).set x.toNat c) }
  else none

/-- Write of `term->line_dirty[y]`. -/
def line_dirty_store (t : terminal_t) (y : Int) (b : Bool) : Option terminal_t :=
  if 0 ≤ y ∧ y < t.lines then
    some { t with line_dirty := t.line_dirty.set y.toNat b }
  else none

/-- Read of `term->tabstop[x]`. -/
def tabstop_ref (t : terminal_t) (x : Int) : Option Bool :=
  if 0 ≤ x ∧ x < t.cols then t.tabstop[x.toNat]? else none

/-- Write of `term->tabstop[x]`. -/
def tabstop_store (t : terminal_t) (x : Int) (b : Bool) : Option terminal_t :=
  if 0 ≤ x ∧ x < t.cols then
    some { t with tabstop := t.tabstop.set x.toNat b }
  else none

/-- The bytes of the C string starting at the head of `l`. -/
def c_str (l : List Nat) : List Nat := l.takeWhile (fun c => c != 0)

/-- Append of the bytes handed to `ewrite(term->fd, ...)`. -/
def ewrite (t : terminal_t) (bytes : List Nat) : terminal_t :=
  { t with pty_out := t.pty_out ++ bytes }

/-! ## terminal.h: grid primitives -/

def erase_cell (t : terminal_t) (y x : Int) : Option terminal_t :=
  match cell_store t y x
      { glyphp := t.glyph DEFAULT_CHAR, color_pair := t.color_pair,
        attr := ATTR_RESET, width := HALF } with
  | none => none
  | some t1 => line_dirty_store t1 y true

def copy_cell (t : terminal_t) (dst_y dst_x src_y src_x : Int) : Option terminal_t :=
  match cell_ref t src_y src_x with
  | none => none
  | some src =>
    if src.width = NEXT_TO_WIDE then some t
    else if src.width = WIDE ∧ dst_x = (t.cols : Int) - 1 then erase_cell t dst_y dst_x
    else
      match cell_store t dst_y dst_x src with
      | none => none
      | some t1 =>
        if src.width = WIDE then
          match cell_store t1 dst_y (dst_x + 1) { src with width := NEXT_TO_WIDE } with
          | none => none
          | some t2 => line_dirty_store t2 dst_y true
        else line_dirty_store t1 dst_y true

/-- The cell value assembled by `set_cell` from the current colours and attribute. -/
def make_cell (t : terminal_t) (glyphp : glyph_t) : cell_t :=
  let fg := if has_bit t.attr (attr_mask ATTR_BOLD) ∧ t.color_pair.fg ≤ 7
    then to_u8 (t.color_pair.fg + BRIGHT_INC) else t.color_pair.fg
  let bg := if has_bit t.attr (attr_mask ATTR_BLINK) ∧ t.color_pair.bg ≤ 7
    then to_u8 (t.color_pair.bg + BRIGHT_INC) else t.color_pair.bg
  let cp : color_pair_t :=
    if has_bit t.attr (attr_mask ATTR_REVERSE) then { fg := bg, bg := fg }
    else { fg := fg, bg := bg }
  { glyphp := some glyphp, color_pair := cp, attr := t.attr, width := glyphp.width }

def set_cell (t : terminal_t) (y x : Int) (glyphp : glyph_t) : Option (terminal_t × Int) :=
  let cell := make_cell t glyphp
  match cell_store t y x cell with
  | none => none
  | some t1 =>
    match line_dirty_store t1 y true with
    | none => none
    | some t2 =>
      if cell.width = WIDE ∧ x + 1 < (t2.cols : Int) then
        match cell_store t2 y (x + 1) { cell with width := NEXT_TO_WIDE } with
        | none => none
        | some t3 => some (t3, (WIDE : Int))
      else if cell.width = HALF ∧ x + 1 < (t2.cols : Int) then
        match cell_ref t2 y (x + 1) with
        | none => none
        | some nxt =>
          if nxt.width = NEXT_TO_WIDE then
            match erase_cell t2 y (x + 1) with
            | none => none
            | some t3 => some (t3, (HALF : Int))
          else some (t2, (HALF : Int))
      else some (t2, (HALF : Int))

def swap_lines (t : terminal_t) (i j : Int) : Option terminal_t :=
  if 0 ≤ i ∧ i < t.lines ∧ 0 ≤ j ∧ j < t.lines then
    some { t with cells :=
      (t.cells.set i.toNat (t.cells.getD j.toNat [])).set j.toNat (t.cells.getD i.toNat []) }
  else none

/-- The inner loop `for (x = 0; x < term->cols; x++) erase_cell(term, y, x)`. -/
def erase_row (t : terminal_t) (y : Int) : Option terminal_t :=
  for_up 0 t.cols (fun s x => erase_cell s y x) t

/-- The `int` expressions of `scroll_window` stay in range: the last `y++` of the
first loop, `abs(offset)` and `(to - from + 1) - abs_offset`; for a positive offset
`from + lines` and `to - offset + 1`; for a negative offset `from + abs_offset`. -/
def scroll_in_int (frm til offset : Int) : Prop :=
  in_int (til + 1) ∧ in_int (-offset) ∧ in_int (til - frm) ∧ in_int (til - frm + 1)
    ∧ in_int (til - frm + 1 - Int.natAbs offset)
    ∧ (offset > 0 → in_int (frm + (til - frm + 1 - Int.natAbs offset))
        ∧ in_int (til - offset) ∧ in_int (til - offset + 1))
    ∧ (offset < 0 → in_int (frm + Int.natAbs offset))

instance (frm til offset : Int) : Decidable (scroll_in_int frm til offset) :=
  inferInstanceAs (Decidable (_ ∧ _))

/-- The function `scroll_window`.  A signed overflow anywhere in the function makes the
call undefined, so the test `scroll_in_int` is made once, before the loops. -/
def scroll_window (t : terminal_t) (frm til offset : Int) : Option terminal_t :=
  if offset = 0 ∨ frm ≥ til then some t
  else if ¬ scroll_in_int frm til offset then none
  else
    match for_up frm (til + 1) (fun s y => line_dirty_store s y true) t with
    | none => none
    | some t1 =>
      let abs_offset : Int := to_int (Int.natAbs offset)
      let lines : Int := (til - frm + 1) - abs_offset
      if offset > 0 then
        match for_up frm (frm + lines) (fun s y => swap_lines s y (y + offset)) t1 with
        | none => none
        | some t2 => for_up (til - offset + 1) (til + 1) erase_row t2
      else
        match for_down til (to_int (frm + abs_offset))
            (fun s y => swap_lines s y (y - abs_offset)) t1 with
        | none => none
        | some t2 => for_up frm (to_int (frm + abs_offset)) erase_row t2

/-- The first half of `move_cursor`: the new column, clamped, and the wrap flag. -/
def move_cursor_x (t : terminal_t) (x_offset : Int) : terminal_t :=
  let x : Int := to_int (t.cursor.x + x_offset)
  if x < 0 then { t with cursor := { t.cursor with x := to_u16 0 } }
  else if x ≥ (t.cols : Int) then
    { t with
      wrap_occured := if has_bit t.mode MODE_AMRIGHT then true else t.wrap_occured
      cursor := { t.cursor with x := to_u16 ((t.cols : Int) - 1) } }
  else { t with cursor := { t.cursor with x := to_u16 x } }

/-- The store `term->cursor.y = y`. -/
def store_cursor_y (t : terminal_t) (y : Int) : terminal_t :=
  { t with cursor := { t.cursor with y := to_u16 y } }

/-- The function `move_cursor`; `none` when `cursor.x + x_offset` or
`cursor.y + y_offset` overflows, or when `scroll_window` fails. -/
def move_cursor (t : terminal_t) (y_offset x_offset : Int) : Option terminal_t :=
  if ¬ (in_int (t.cursor.x + x_offset) ∧ in_int (t.cursor.y + y_offset)) then none
  else
    let y : Int := to_int (t.cursor.y + y_offset)
    let top : Int := t.scroll.top
    let bottom : Int := t.scroll.bottom
    let t1 : terminal_t := move_cursor_x t x_offset
    let y : Int := if y < 0 then 0 else if y ≥ (t.lines : Int) then (t.lines : Int) - 1 else y
    if (t1.cursor.y : Int) = top ∧ y_offset < 0 then
      match scroll_window t1 top bottom y_offset with
      | none => none
      | some t2 => some (store_cursor_y t2 top)
    else if (t1.cursor.y : Int) = bottom ∧ y_offset > 0 then
      match scroll_window t1 top bottom y_offset with
      | none => none
      | some t2 => some (store_cursor_y t2 bottom)
    else some (store_cursor_y t1 y)

/-- The stores of `set_cursor`: both coordinates clamped, the row to the scroll region
in origin mode, and the wrap flag cleared. -/
def set_cursor_to (t : terminal_t) (y x : Int) : terminal_t :=
  let top : Int := if has_bit t.mode MODE_ORIGIN then t.scroll.top else 0
  let bottom : Int := if has_bit t.mode MODE_ORIGIN then t.scroll.bottom else (t.lines : Int) - 1
  let y : Int := if has_bit t.mode MODE_ORIGIN then to_int (y + t.scroll.top) else y
  let x : Int := if x < 0 then 0 else if x ≥ (t.cols : Int) then (t.cols : Int) - 1 else x
  let y : Int := if y < top then top else if y > bottom then bottom else y
  { t with cursor := { x := to_u16 x, y := to_u16 y }, wrap_occured := false }

/-- The function `set_cursor`; `none` when `y += term->scroll.top` overflows in origin
mode. -/
def set_cursor (t : terminal_t) (y x : Int) : Option terminal_t :=
  if has_bit t.mode MODE_ORIGIN = true ∧ ¬ in_int (y + t.scroll.top) then none
  else some (set_cursor_to t y x)

/-- The substitute glyph pointer of `add_char` for a character of the given width. -/
def substitute_glyph (t : terminal_t) (width : Int) : Option glyph_t :=
  if width = 1 then t.glyph SUBSTITUTE_HALF else t.glyph SUBSTITUTE_WIDE

/-- The glyph pointer chosen by `add_char`; `none` is a NULL pointer. -/
def select_glyph (t : terminal_t) (code : Nat) (width : Int) : Option glyph_t :=
  if code ≥ UCS2_CHARS then substitute_glyph t width
  else
    match t.glyph code with
    | none => substitute_glyph t width
    | some g => if (g.width : Int) ≠ width then substitute_glyph t width else some g

def add_char (wcwidth : Nat → Int) (t : terminal_t) (code : Nat) : Option terminal_t :=
  let width : Int := wcwidth code
  if width ≤ 0 then some t
  else
    match select_glyph t code width with
    | none => none
    | some glyphp =>
      match (if (t.wrap_occured = true ∧ (t.cursor.x : Int) = (t.cols : Int) - 1)
            ∨ (glyphp.width = WIDE ∧ (t.cursor.x : Int) = (t.cols : Int) - 1)
          then (set_cursor t t.cursor.y 0).bind (fun s => move_cursor s 1 0) else some t) with
      | none => none
      | some t1 =>
        match set_cell { t1 with wrap_occured := false } t1.cursor.y t1.cursor.x glyphp with
        | none => none
        | some (t3, w) => move_cursor t3 0 w

def reset_esc (t : terminal_t) : terminal_t :=
  { t with esc := { t.esc with buf := [], state := STATE_RESET } }

def push_esc (t : terminal_t) (ch : Nat) : terminal_t × Bool :=
  let t1 : terminal_t :=
    if t.esc.buf.length ≥ t.esc.size then { t with esc := { t.esc with size := t.esc.size * 2 } }
    else t
  let t2 : terminal_t := { t1 with esc := { t1.esc with buf := t1.esc.buf ++ [ch] } }
  match t2.esc.state with
  | STATE_ESC =>
    if 0x30 ≤ ch ∧ ch ≤ 0x7E then (t2, true)
    else if SPACE ≤ ch ∧ ch ≤ 0x2F then (t2, false)
    else (reset_esc t2, false)
  | STATE_CSI =>
    if 0x40 ≤ ch ∧ ch ≤ 0x7E then (t2, true)
    else if SPACE ≤ ch ∧ ch ≤ 0x3F then (t2, false)
    else (reset_esc t2, false)
  | _ =>
    if ch = BEL ∨ (ch = BACKSLASH ∧ t2.esc.buf.length ≥ 2
        ∧ t2.esc.buf.getD (t2.esc.buf.length - 2) 0 = ESC) then (t2, true)
    else if (ch = ESC ∨ ch = CR ∨ ch = LF ∨ ch = BS ∨ ch = HT)
        ∨ (SPACE ≤ ch ∧ ch ≤ 0x7E) then (t2, false)
    else (reset_esc t2, false)

def reset_charset (t : terminal_t) : terminal_t :=
  { t with charset := { code := 0, following_byte := 0, count := 0, is_valid := true } }

/-- The body of the inner loop of `reset`: erase the cell and set or clear the tabstop. -/
def reset_col (line : Int) (s : terminal_t) (col : Int) : Option terminal_t :=
  match erase_cell s line col with
  | none => none
  | some s1 => tabstop_store s1 col (col % (TABSTOP : Int) == 0)

/-- The body of the outer loop of `reset`. -/
def reset_line (s : terminal_t) (line : Int) : Option terminal_t :=
  match for_up 0 s.cols (reset_col line) s with
  | none => none
  | some s1 => line_dirty_store s1 line true

def reset (t : terminal_t) : Option terminal_t :=
  let mode : Nat := MODE_RESET ||| (MODE_CURSOR ||| MODE_AMRIGHT)
  let t1 : terminal_t :=
    { t with
      mode := mode
      wrap_occured := false
      scroll := { top := 0, bottom := to_u16 ((t.lines : Int) - 1) }
      cursor := { x := 0, y := 0 }
      state := { mode := mode, cursor := { x := 0, y := 0 }, attr := ATTR_RESET }
      color_pair := { fg := DEFAULT_FG, bg := DEFAULT_BG }
      attr := ATTR_RESET }
  match for_up 0 t1.lines reset_line t1 with
  | none => none
  | some t2 => some (reset_charset (reset_esc t2))

def redraw (t : terminal_t) : Option terminal_t :=
  for_up 0 t.lines (fun s i => line_dirty_store s i true) t

/-! ## esc.h: control characters and escape sequences -/

def bs (t : terminal_t) : Option terminal_t :=
  if has_bit t.mode MODE_VWBS ∧ (t.cursor.x : Int) - 1 ≥ 0 then
    match cell_ref t t.cursor.y ((t.cursor.x : Int) - 1) with
    | none => none
    | some c => if c.width = NEXT_TO_WIDE then move_cursor t 0 (-2) else move_cursor t 0 (-1)
  else move_cursor t 0 (-1)

/-- The loop of `tab`: the first tabstop among `n` columns from `i` on, else the last column. -/
def tab_loop (t : terminal_t) : Nat → Int → Option terminal_t
  | 0, _ => set_cursor t t.cursor.y ((t.cols : Int) - 1)
  | n + 1, i =>
    match tabstop_ref t i with
    | none => none
    | some true => set_cursor t t.cursor.y i
    | some false => tab_loop t n (i + 1)

def tab (t : terminal_t) : Option terminal_t :=
  tab_loop t ((t.cols : Int) - ((t.cursor.x : Int) + 1)).toNat ((t.cursor.x : Int) + 1)

def newline (t : terminal_t) : Option terminal_t := move_cursor t 1 0

def carriage_return (t : terminal_t) : Option terminal_t := set_cursor t t.cursor.y 0

def enter_esc (t : terminal_t) : Option terminal_t :=
  some { t with esc := { t.esc with state := STATE_ESC } }

def save_state (t : terminal_t) : Option terminal_t :=
  some { t with state := { mode := t.mode &&& MODE_ORIGIN, cursor := t.cursor, attr := t.attr } }

def restore_state (t : terminal_t) : Option terminal_t :=
  some { t with
    mode := if has_bit t.state.mode MODE_ORIGIN then t.mode ||| MODE_ORIGIN
      else clear_bit t.mode MODE_ORIGIN
    cursor := t.state.cursor
    attr := t.state.attr }

def crnl (t : terminal_t) : Option terminal_t :=
  match carriage_return t with
  | none => none
  | some t1 => newline t1

def set_tabstop (t : terminal_t) : Option terminal_t := tabstop_store t t.cursor.x true

def reverse_nl (t : terminal_t) : Option terminal_t := move_cursor t (-1) 0

/-- The device response `ESC [ ? 6 c`. -/
def identify (t : terminal_t) : Option terminal_t :=
  some (ewrite t [0x1B, 0x5B, 0x3F, 0x36, 0x63])

def enter_csi (t : terminal_t) : Option terminal_t :=
  some { t with esc := { t.esc with state := STATE_CSI } }

def enter_osc (t : terminal_t) : Option terminal_t :=
  some { t with esc := { t.esc with state := STATE_OSC } }

def enter_dcs (t : terminal_t) : Option terminal_t :=
  some { t with esc := { t.esc with state := STATE_DCS } }

def ris (t : terminal_t) : Option terminal_t := reset t

/-! ## util.h: parameters of a CSI sequence -/

def LONG_MAX : Int := 9223372036854775807
def LONG_MIN : Int := -9223372036854775808

def isdigit (c : Nat) : Bool := 0x30 ≤ c && c ≤ 0x39

def isspace (c : Nat) : Bool := c == 0x20 || (0x09 ≤ c && c ≤ 0x0D)

/-- The value of the leading run of decimal digits of `s`. -/
def digits_value (s : List Nat) : Nat :=
  (s.takeWhile isdigit).foldl (fun a c => 10 * a + (c - 0x30)) 0

/-- The C library function `strtol(nptr, NULL, 10)` on the bytes of a C string. -/
def strtol (s : List Nat) : Int :=
  let s1 := s.dropWhile isspace
  let v : Int :=
    match s1 with
    | 0x2D :: r => - (digits_value r : Int)
    | 0x2B :: r => (digits_value r : Int)
    | _ => (digits_value s1 : Int)
  if v > LONG_MAX then LONG_MAX else if v < LONG_MIN then LONG_MIN else v

def estrtol (s : List Nat) : Int :=
  let ret := strtol s
  if ret = LONG_MIN ∨ ret = LONG_MAX then 0 else ret

def reset_parm : parm_t := { argc := 0, argv := List.replicate MAX_ARGS none }

def add_parm (pt : parm_t) (cp : Option (List Nat)) : parm_t :=
  if pt.argc ≥ MAX_ARGS then pt
  else { argc := pt.argc + 1, argv := pt.argv.set pt.argc cp }

/-- The loop state of `parse_arg`: the (rewritten) buffer, `vp` and the argument
pointers found so far, each as an offset into the buffer. -/
structure parse_arg_state where
  buf : List Nat
  vp : Option Nat
  argc : Nat
  ptrs : List (Option Nat)
  deriving DecidableEq, Repr

/-- The effect of `add_parm` on the loop state of `parse_arg`. -/
def push_ptr (st : parse_arg_state) : parse_arg_state :=
  if st.argc ≥ MAX_ARGS then st
  else { st with argc := st.argc + 1, ptrs := st.ptrs.set st.argc st.vp }

/-- One iteration of the loop of `parse_arg`. -/
def parse_arg_step (delim : Nat) (is_valid : Nat → Bool) (length : Nat)
    (st : parse_arg_state) (i : Nat) : parse_arg_state :=
  let st1 : parse_arg_state :=
    if st.vp = none ∧ is_valid (st.buf.getD i 0) = true then { st with vp := some i } else st
  let st2 : parse_arg_state :=
    if st1.buf.getD i 0 = delim then
      { (push_ptr { st1 with buf := st1.buf.set i 0 }) with vp := none }
    else st1
  if i + 1 = length ∧ (st2.vp ≠ none ∨ st2.buf.getD i 0 = 0) then push_ptr st2 else st2

/-- The function `parse_arg(buf, pt, delim, is_valid)` started on an empty `parm_t`:
the rewritten buffer and the parameters, each argument being the C string at its
pointer in the rewritten buffer. -/
def parse_arg (buf : List Nat) (delim : Nat) (is_valid : Nat → Bool) : List Nat × parm_t :=
  let length := (c_str buf).length
  let st := (List.range length).foldl (parse_arg_step delim is_valid length)
    { buf := buf, vp := none, argc := 0, ptrs := List.replicate MAX_ARGS none }
  (st.buf, { argc := st.argc,
             argv := st.ptrs.map (fun p => p.map (fun i => c_str (st.buf.drop i))) })

def dec2num (str : Option (List Nat)) : Int :=
  match str with
  | none => 0
  | some s => to_int (estrtol s)

/-- The argument `parm->argv[i]`. -/
def parm_t.arg (parm : parm_t) (i : Nat) : Option (List Nat) := parm.argv.getD i none

/-- One round `sum += dec2num(parm->argv[i])` of the loop of `sum`. -/
def sum_step (parm : parm_t) (acc : Option Int) (i : Nat) : Option Int :=
  match acc with
  | none => none
  | some a => if in_int (a + dec2num (parm.arg i)) then some (a + dec2num (parm.arg i)) else none

/-- The function `sum`; `none` when one of the additions overflows. -/
def sum (parm : parm_t) : Option Int :=
  (List.range parm.argc).foldl (sum_step parm) (some 0)

/-! ## csi.h: handlers of CSI sequences

The cursor, `cols` and `lines` are not written inside any of the loops below, so the
loop bounds and the cursor position used by the loop bodies are those at loop entry. -/

/-- The value of `num` after the common prologue `num = sum(parm); if (num <= 0) num = 1;`
(the handlers below return `none` when the sum overflows). -/
def sum_or_one (parm : parm_t) : Int :=
  match sum parm with
  | none => 1
  | some s => if s ≤ 0 then 1 else s

def insert_blank (t : terminal_t) (parm : parm_t) : Option terminal_t :=
  if sum parm = none then none
  else
  let num := sum_or_one parm
  for_down ((t.cols : Int) - 1) t.cursor.x
    (fun s i =>
      if (t.cursor.x : Int) ≤ i - num then copy_cell s t.cursor.y i t.cursor.y (i - num)
      else erase_cell s t.cursor.y i) t

def curs_up (t : terminal_t) (parm : parm_t) : Option terminal_t :=
  if sum parm = none then none else move_cursor t (-(sum_or_one parm)) 0

def curs_down (t : terminal_t) (parm : parm_t) : Option terminal_t :=
  if sum parm = none then none else move_cursor t (sum_or_one parm) 0

def curs_forward (t : terminal_t) (parm : parm_t) : Option terminal_t :=
  if sum parm = none then none else move_cursor t 0 (sum_or_one parm)

def curs_back (t : terminal_t) (parm : parm_t) : Option terminal_t :=
  if sum parm = none then none else move_cursor t 0 (-(sum_or_one parm))

def curs_nl (t : terminal_t) (parm : parm_t) : Option terminal_t :=
  if sum parm = none then none else (move_cursor t (sum_or_one parm) 0).bind carriage_return

def curs_pl (t : terminal_t) (parm : parm_t) : Option terminal_t :=
  if sum parm = none then none else (move_cursor t (-(sum_or_one parm)) 0).bind carriage_return

/-- The expression `(parm->argc <= 0) ? 0: dec2num(parm->argv[parm->argc - 1])`. -/
def last_arg (parm : parm_t) : Int :=
  if parm.argc ≤ 0 then 0 else dec2num (parm.arg (parm.argc - 1))

def curs_col (t : terminal_t) (parm : parm_t) : Option terminal_t :=
  if 0 < parm.argc ∧ ¬ in_int (dec2num (parm.arg (parm.argc - 1)) - 1) then none
  else
  let num : Int := if parm.argc ≤ 0 then 0 else to_int (dec2num (parm.arg (parm.argc - 1)) - 1)
  set_cursor t t.cursor.y num

def curs_pos (t : terminal_t) (parm : parm_t) : Option terminal_t :=
  if parm.argc ≤ 0 then set_cursor t 0 0
  else if parm.argc = 2 then
    if ¬ (in_int (dec2num (parm.arg 0) - 1) ∧ in_int (dec2num (parm.arg 1) - 1)) then none
    else
    let line : Int := to_int (dec2num (parm.arg 0) - 1)
    let col : Int := to_int (dec2num (parm.arg 1) - 1)
    set_cursor t (if line < 0 then 0 else line) (if col < 0 then 0 else col)
  else some t

def curs_line (t : terminal_t) (parm : parm_t) : Option terminal_t :=
  if 0 < parm.argc ∧ ¬ in_int (dec2num (parm.arg (parm.argc - 1)) - 1) then none
  else
  let num : Int := if parm.argc ≤ 0 then 0 else to_int (dec2num (parm.arg (parm.argc - 1)) - 1)
  set_cursor t num t.cursor.x

def erase_display (t : terminal_t) (parm : parm_t) : Option terminal_t :=
  let mode := last_arg parm
  let cy : Int := t.cursor.y
  let cx : Int := t.cursor.x
  if mode < 0 ∨ 2 < mode then some t
  else if mode = 0 then
    for_up cy t.lines (fun s i =>
      for_up 0 t.cols (fun s1 j =>
        if i > cy ∨ (i = cy ∧ j ≥ cx) then erase_cell s1 i j else some s1) s) t
  else if mode = 1 then
    for_up 0 (cy + 1) (fun s i =>
      for_up 0 t.cols (fun s1 j =>
        if i < cy ∨ (i = cy ∧ j ≤ cx) then erase_cell s1 i j else some s1) s) t
  else
    for_up 0 t.lines (fun s i => for_up 0 t.cols (fun s1 j => erase_cell s1 i j) s) t

def erase_line (t : terminal_t) (parm : parm_t) : Option terminal_t :=
  let mode := last_arg parm
  let cy : Int := t.cursor.y
  let cx : Int := t.cursor.x
  if mode < 0 ∨ 2 < mode then some t
  else if mode = 0 then for_up cx t.cols (fun s i => erase_cell s cy i) t
  else if mode = 1 then for_up 0 (cx + 1) (fun s i => erase_cell s cy i) t
  else for_up 0 t.cols (fun s i => erase_cell s cy i) t

def insert_line (t : terminal_t) (parm : parm_t) : Option terminal_t :=
  if sum parm = none then none
  else if has_bit t.mode MODE_ORIGIN ∧ (t.cursor.y < t.scroll.top ∨ t.cursor.y > t.scroll.bottom) then
    some t
  else scroll_window t t.cursor.y t.scroll.bottom (-(sum_or_one parm))

def delete_line (t : terminal_t) (parm : parm_t) : Option terminal_t :=
  if sum parm = none then none
  else if has_bit t.mode MODE_ORIGIN ∧ (t.cursor.y < t.scroll.top ∨ t.cursor.y > t.scroll.bottom) then
    some t
  else scroll_window t t.cursor.y t.scroll.bottom (sum_or_one parm)

/-- The function `delete_char`; `none` when `sum` or, in some round of the loop,
`i + num` overflows. -/
def delete_char (t : terminal_t) (parm : parm_t) : Option terminal_t :=
  if sum parm = none then none
  else
  let num := sum_or_one parm
  for_up t.cursor.x t.cols
    (fun s i =>
      if ¬ in_int (i + num) then none
      else if to_int (i + num) < (t.cols : Int) then
        copy_cell s t.cursor.y i t.cursor.y (to_int (i + num))
      else erase_cell s t.cursor.y i) t

/-- The function `erase_char`; `none` when `sum`, `num + term->cursor.x` or the loop
bound `term->cursor.x + num` overflows. -/
def erase_char (t : terminal_t) (parm : parm_t) : Option terminal_t :=
  match sum parm with
  | none => none
  | some num0 =>
    if 0 < num0 ∧ ¬ in_int (num0 + t.cursor.x) then none
    else
      let num : Int :=
        if num0 ≤ 0 then 1
        else if num0 + t.cursor.x > (t.cols : Int) then (t.cols : Int) - t.cursor.x
        else num0
      if ¬ in_int (t.cursor.x + num) then none
      else for_up t.cursor.x (t.cursor.x + num) (fun s i => erase_cell s t.cursor.y i) t

/-- The table `values[]` of `rgb2index`: the six levels of a colour-cube channel. -/
def values (i : Nat) : Nat := [0x0, 0x5F, 0x87, 0xAF, 0xD7, 0xFF].getD i 0

/-- The inner loop of `rgb2index` for one channel (`closest_index[c]`). -/
def closest_index (v : Nat) : Nat :=
  (List.range 5).foldl (fun acc i =>
    if values i ≤ v ∧ v ≤ values (i + 1) then
      (if Int.natAbs ((v : Int) - values i) < Int.natAbs ((v : Int) - values (i + 1)) then i
       else i + 1)
    else acc) 0

def rgb2index (r g b : Nat) : Nat :=
  if r = g ∧ g = b then
    let padding : Int := Int.tdiv ((r : Int) - 0x08) 0x0A
    if padding ≥ 24 then 231
    else if padding ≤ 0 then 232
    else to_u8 (232 + padding)
  else
    to_u8 (16 + closest_index r * 36 + closest_index g * 6 + closest_index b)

/-- One SGR parameter at index `i`: the new state and the index of the last
parameter consumed. -/
def set_attr_step (t : terminal_t) (parm : parm_t) (i : Nat) : terminal_t × Nat :=
  let num := dec2num (parm.arg i)
  if num = 0 then
    ({ t with attr := ATTR_RESET, color_pair := { fg := DEFAULT_FG, bg := DEFAULT_BG } }, i)
  else if 1 ≤ num ∧ num ≤ 7 then
    ({ t with attr := t.attr ||| attr_mask num.toNat }, i)
  else if 21 ≤ num ∧ num ≤ 27 then
    ({ t with attr := clear_bit t.attr (attr_mask (num - 20).toNat) }, i)
  else if 30 ≤ num ∧ num ≤ 37 then
    ({ t with color_pair := { t.color_pair with fg := to_u8 (num - 30) } }, i)
  else if num = 38 then
    if i + 2 < parm.argc ∧ dec2num (parm.arg (i + 1)) = 5 then
      ({ t with color_pair := { t.color_pair with fg := to_u8 (dec2num (parm.arg (i + 2))) } },
        i + 2)
    else if i + 4 < parm.argc ∧ dec2num (parm.arg (i + 1)) = 2 then
      ({ t with color_pair := { t.color_pair with
          fg := rgb2index (to_u8 (dec2num (parm.arg (i + 2))))
            (to_u8 (dec2num (parm.arg (i + 3)))) (to_u8 (dec2num (parm.arg (i + 4)))) } },
        i + 4)
    else (t, i)
  else if num = 39 then
    ({ t with color_pair := { t.color_pair with fg := DEFAULT_FG } }, i)
  else if 40 ≤ num ∧ num ≤ 47 then
    ({ t with color_pair := { t.color_pair with bg := to_u8 (num - 40) } }, i)
  else if num = 48 then
    if i + 2 < parm.argc ∧ dec2num (parm.arg (i + 1)) = 5 then
      ({ t with color_pair := { t.color_pair with bg := to_u8 (dec2num (parm.arg (i + 2))) } },
        i + 2)
    else if i + 4 < parm.argc ∧ dec2num (parm.arg (i + 1)) = 2 then
      ({ t with color_pair := { t.color_pair with
          bg := rgb2index (to_u8 (dec2num (parm.arg (i + 2))))
            (to_u8 (dec2num (parm.arg (i + 3)))) (to_u8 (dec2num (parm.arg (i + 4)))) } },
        i + 4)
    else (t, i)
  else if num = 49 then
    ({ t with color_pair := { t.color_pair with bg := DEFAULT_BG } }, i)
  else if 90 ≤ num ∧ num ≤ 97 then
    ({ t with color_pair := { t.color_pair with fg := to_u8 (num - 90 + BRIGHT_INC) } }, i)
  else if 100 ≤ num ∧ num ≤ 107 then
    ({ t with color_pair := { t.color_pair with bg := to_u8 (num - 100 + BRIGHT_INC) } }, i)
  else (t, i)

/-- The loop `for (i = 0; i < parm->argc; i++)` of `set_attr`, from index `i` on. -/
def set_attr_loop (parm : parm_t) : Nat → Nat → terminal_t → terminal_t
  | 0, _, t => t
  | fuel + 1, i, t =>
    if i < parm.argc then
      set_attr_loop parm fuel ((set_attr_step t parm i).2 + 1) (set_attr_step t parm i).1
    else t

def set_attr (t : terminal_t) (parm : parm_t) : Option terminal_t :=
  if parm.argc ≤ 0 then
    some { t with attr := ATTR_RESET, color_pair := { fg := DEFAULT_FG, bg := DEFAULT_BG } }
  else some (set_attr_loop parm parm.argc 0 t)

/-- The bytes printed by the conversion `%d` for a value that is not negative. -/
def decimal (n : Nat) : List Nat := (Nat.toDigits 10 n).map Char.toNat

def status_report (t : terminal_t) (parm : parm_t) : Option terminal_t :=
  some ((List.range parm.argc).foldl (fun s i =>
    let num := dec2num (parm.arg i)
    if num = 5 then ewrite s [0x1B, 0x5B, 0x30, 0x6E]
    else if num = 6 then
      ewrite s ([0x1B, 0x5B] ++ decimal (s.cursor.y + 1) ++ [0x3B]
        ++ decimal (s.cursor.x + 1) ++ [0x52])
    else if num = 15 then ewrite s [0x1B, 0x5B, 0x3F, 0x31, 0x33, 0x6E]
    else s) t)

def device_attribute (t : terminal_t) (_parm : parm_t) : Option terminal_t :=
  some (ewrite t [0x1B, 0x5B, 0x3F, 0x36, 0x63])

/-- The body of the loop of `set_mode` for the parameter `argv[i]`. -/
def set_mode_body (parm : parm_t) (s : terminal_t) (i : Nat) : Option terminal_t :=
  let mode := dec2num (parm.arg i)
  if s.esc.buf.getD 1 0 ≠ 0x3F then some s
  else if mode = 6 then set_cursor { s with mode := s.mode ||| MODE_ORIGIN } 0 0
  else if mode = 7 then some { s with mode := s.mode ||| MODE_AMRIGHT }
  else if mode = 25 then some { s with mode := s.mode ||| MODE_CURSOR }
  else if mode = 8901 then some { s with mode := s.mode ||| MODE_VWBS }
  else some s

def set_mode (t : terminal_t) (parm : parm_t) : Option terminal_t :=
  (List.range parm.argc).foldl (fun o i => o.bind (fun s => set_mode_body parm s i)) (some t)

/-- The body of the loop of `reset_mode` for the parameter `argv[i]`. -/
def reset_mode_body (parm : parm_t) (s : terminal_t) (i : Nat) : Option terminal_t :=
  let mode := dec2num (parm.arg i)
  if s.esc.buf.getD 1 0 ≠ 0x3F then some s
  else if mode = 6 then set_cursor { s with mode := clear_bit s.mode MODE_ORIGIN } 0 0
  else if mode = 7 then some { s with mode := clear_bit s.mode MODE_AMRIGHT, wrap_occured := false }
  else if mode = 25 then some { s with mode := clear_bit s.mode MODE_CURSOR }
  else if mode = 8901 then some { s with mode := clear_bit s.mode MODE_VWBS }
  else some s

def reset_mode (t : terminal_t) (parm : parm_t) : Option terminal_t :=
  (List.range parm.argc).foldl (fun o i => o.bind (fun s => reset_mode_body parm s i)) (some t)

/-- The range checks of `set_margin`: a margin outside `[0, lines-1]` takes its default. -/
def margin_clamp (lines : Nat) (v dflt : Int) : Int :=
  if v < 0 ∨ v ≥ (lines : Int) then dflt else v

/-- The value of `top` that `set_margin` reads from the parameters. -/
def margin_top (parm : parm_t) : Int :=
  if parm.argc ≤ 0 then 0
  else if parm.arg 0 = none then 0 else to_int (dec2num (parm.arg 0) - 1)

/-- The value of `bottom` that `set_margin` reads from the parameters. -/
def margin_bottom (t : terminal_t) (parm : parm_t) : Int :=
  if parm.argc ≤ 0 then (t.lines : Int) - 1
  else if parm.arg 1 = none then (t.lines : Int) - 1 else to_int (dec2num (parm.arg 1) - 1)

/-- The `int` expressions `dec2num(parm->argv[0]) - 1` and `dec2num(parm->argv[1]) - 1`
of `set_margin` stay in range. -/
def margin_in_int (parm : parm_t) : Prop :=
  (parm.arg 0 ≠ none → in_int (dec2num (parm.arg 0) - 1))
    ∧ (parm.arg 1 ≠ none → in_int (dec2num (parm.arg 1) - 1))

instance (parm : parm_t) : Decidable (margin_in_int parm) :=
  inferInstanceAs (Decidable (_ ∧ _))

def set_margin (t : terminal_t) (parm : parm_t) : Option terminal_t :=
  if parm.argc = 2 ∧ ¬ margin_in_int parm then none
  else if parm.argc ≤ 0 ∨ parm.argc = 2 then
    if margin_clamp t.lines (margin_top parm) 0
        ≥ margin_clamp t.lines (margin_bottom t parm) ((t.lines : Int) - 1) then some t
    else
      set_cursor { t with scroll :=
        { top := to_u16 (margin_clamp t.lines (margin_top parm) 0),
          bottom := to_u16 (margin_clamp t.lines (margin_bottom t parm) ((t.lines : Int) - 1)) } }
        0 0
  else some t

/-- The loop of `clear_tabstop` over the parameters from index `i` on. -/
def clear_tabstop_loop (parm : parm_t) : Nat → Nat → terminal_t → Option terminal_t
  | 0, _, t => some t
  | fuel + 1, i, t =>
    if dec2num (parm.arg i) = 0 then
      match tabstop_store t t.cursor.x false with
      | none => none
      | some t1 => clear_tabstop_loop parm fuel (i + 1) t1
    else if dec2num (parm.arg i) = 3 then
      for_up 0 t.cols (fun s j => tabstop_store s j false) t
    else clear_tabstop_loop parm fuel (i + 1) t

def clear_tabstop (t : terminal_t) (parm : parm_t) : Option terminal_t :=
  if parm.argc ≤ 0 then tabstop_store t t.cursor.x false
  else clear_tabstop_loop parm parm.argc 0 t

/-! ## parse.h: dispatch tables and the parser -/

/-- The table `ctrl_func[]`; an empty slot does nothing. -/
def ctrl_func (ch : Nat) (t : terminal_t) : Option terminal_t :=
  if ch = BS then bs t
  else if ch = HT then tab t
  else if ch = LF ∨ ch = VT ∨ ch = FF then newline t
  else if ch = CR then carriage_return t
  else if ch = ESC then enter_esc t
  else some t

/-- The table `esc_func[]`; an empty slot does nothing. -/
def esc_func (ch : Nat) (t : terminal_t) : Option terminal_t :=
  if ch = 0x37 then save_state t
  else if ch = 0x38 then restore_state t
  else if ch = 0x44 then newline t
  else if ch = 0x45 then crnl t
  else if ch = 0x48 then set_tabstop t
  else if ch = 0x4D then reverse_nl t
  else if ch = 0x50 then enter_dcs t
  else if ch = 0x5A then identify t
  else if ch = 0x5B then enter_csi t
  else if ch = 0x5D then enter_osc t
  else if ch = 0x63 then ris t
  else some t

/-- The table `csi_func[]`; an empty slot does nothing. -/
def csi_func (ch : Nat) (t : terminal_t) (parm : parm_t) : Option terminal_t :=
  if ch = 0x40 then insert_blank t parm
  else if ch = 0x41 then curs_up t parm
  else if ch = 0x42 then curs_down t parm
  else if ch = 0x43 then curs_forward t parm
  else if ch = 0x44 then curs_back t parm
  else if ch = 0x45 then curs_nl t parm
  else if ch = 0x46 then curs_pl t parm
  else if ch = 0x47 then curs_col t parm
  else if ch = 0x48 then curs_pos t parm
  else if ch = 0x4A then erase_display t parm
  else if ch = 0x4B then erase_line t parm
  else if ch = 0x4C then insert_line t parm
  else if ch = 0x4D then delete_line t parm
  else if ch = 0x50 then delete_char t parm
  else if ch = 0x58 then erase_char t parm
  else if ch = 0x61 then curs_forward t parm
  else if ch = 0x63 then device_attribute t parm
  else if ch = 0x64 then curs_line t parm
  else if ch = 0x65 then curs_down t parm
  else if ch = 0x66 then curs_pos t parm
  else if ch = 0x67 then clear_tabstop t parm
  else if ch = 0x68 then set_mode t parm
  else if ch = 0x6C then reset_mode t parm
  else if ch = 0x6D then set_attr t parm
  else if ch = 0x6E then status_report t parm
  else if ch = 0x72 then set_margin t parm
  else if ch = 0x60 then curs_col t parm
  else some t

/-- The function `control_character`; `none` when the NUL it writes at `esc.bp` falls
outside the escape buffer. -/
def control_character (t : terminal_t) (ch : Nat) : Option terminal_t :=
  if t.esc.buf.length ≥ t.esc.size then none else ctrl_func ch t

/-- The function `esc_sequence`; `none` when the NUL it writes at `esc.bp` falls
outside the escape buffer, which is the case when the sequence fills the buffer. -/
def esc_sequence (t : terminal_t) (ch : Nat) : Option terminal_t :=
  if t.esc.buf.length ≥ t.esc.size then none
  else
  match (if (c_str t.esc.buf).length = 1 then esc_func ch t else some t) with
  | none => none
  | some t1 =>
    if ch = 0x5B ∨ ch = 0x5D ∨ ch = 0x50 then some t1 else some (reset_esc t1)

def csi_sequence (t : terminal_t) (ch : Nat) : Option terminal_t :=
  let buf0 := t.esc.buf.set (t.esc.buf.length - 1) 0
  let parsed := parse_arg (buf0.drop 1) 0x3B isdigit
  let t1 : terminal_t := { t with esc := { t.esc with buf := buf0.take 1 ++ parsed.1 } }
  match csi_func ch t1 parsed.2 with
  | none => none
  | some t2 => some (reset_esc t2)

def osc_sequence (t : terminal_t) (_ch : Nat) : Option terminal_t := some (reset_esc t)

def dcs_sequence (t : terminal_t) (_ch : Nat) : Option terminal_t := some (reset_esc t)

/-- The call `add_char(term, code); reset_charset(term);`. -/
def emit_char (wcwidth : Nat → Int) (t : terminal_t) (code : Nat) : Option terminal_t :=
  match add_char wcwidth t code with
  | none => none
  | some t1 => some (reset_charset t1)

/-- The accumulator after a continuation byte `0x80..0xBF`: the validity check of the
second byte, then `code <<= 6; code += ch & 0x3F; count++`. -/
def utf8_continue (cs : charset_t) (ch : Nat) : charset_t :=
  { cs with
    is_valid :=
      if cs.following_byte = 0
          ∨ (cs.following_byte = 1 ∧ cs.count = 0 ∧ cs.code ≤ 1)
          ∨ (cs.following_byte = 2 ∧ cs.count = 0 ∧ cs.code = 0 ∧ ch < 0xA0)
          ∨ (cs.following_byte = 3 ∧ cs.count = 0 ∧ cs.code = 0 ∧ ch < 0x90)
          ∨ (cs.following_byte = 4 ∧ cs.count = 0 ∧ cs.code = 0 ∧ ch < 0x88)
          ∨ (cs.following_byte = 5 ∧ cs.count = 0 ∧ cs.code = 0 ∧ ch < 0x84) then false
      else cs.is_valid
    code := to_u32 (to_u32 (cs.code <<< 6 : Nat) + (ch &&& 0x3F : Nat))
    count := cs.count + 1 }

/-- The test of `utf8_charset` on a completed sequence: the code point is illegal. -/
def utf8_illegal (cs : charset_t) : Bool :=
  cs.is_valid = false
    ∨ (0xD800 ≤ cs.code ∧ cs.code ≤ 0xDFFF)
    ∨ (0xFDD0 ≤ cs.code ∧ cs.code ≤ 0xFDEF)
    ∨ (cs.code &&& 0xFFFF = 0xFFFE ∨ cs.code &&& 0xFFFF = 0xFFFF)
    ∨ cs.code > 0x10FFFF

/-- The accumulator after a lead byte `0xC0..0xFD`. -/
def utf8_lead (cs : charset_t) (ch : Nat) : charset_t :=
  if 0xC0 ≤ ch ∧ ch ≤ 0xDF then { cs with code := ch &&& 0x1F, following_byte := 1, count := 0 }
  else if 0xE0 ≤ ch ∧ ch ≤ 0xEF then
    { cs with code := ch &&& 0x0F, following_byte := 2, count := 0 }
  else if 0xF0 ≤ ch ∧ ch ≤ 0xF7 then
    { cs with code := ch &&& 0x07, following_byte := 3, count := 0 }
  else if 0xF8 ≤ ch ∧ ch ≤ 0xFB then
    { cs with code := ch &&& 0x03, following_byte := 4, count := 0 }
  else { cs with code := ch &&& 0x01, following_byte := 5, count := 0 }

def utf8_charset (wcwidth : Nat → Int) (t : terminal_t) (ch : Nat) : Option terminal_t :=
  if 0x80 ≤ ch ∧ ch ≤ 0xBF then
    let t1 : terminal_t := { t with charset := utf8_continue t.charset ch }
    if t1.charset.count ≥ t1.charset.following_byte then
      if utf8_illegal t1.charset = true then emit_char wcwidth t1 REPLACEMENT_CHAR
      else emit_char wcwidth t1 t1.charset.code
    else some t1
  else if 0xC0 ≤ ch ∧ ch ≤ 0xFD then some { t with charset := utf8_lead t.charset ch }
  else emit_char wcwidth t REPLACEMENT_CHAR

/-- The body of the loop of `parse`: one input byte. -/
def parse_byte (wcwidth : Nat → Int) (t : terminal_t) (ch : Nat) : Option terminal_t :=
  match t.esc.state with
  | STATE_RESET =>
    match (if t.charset.following_byte > 0 ∧ (ch < 0x80 ∨ ch > 0xBF)
        then emit_char wcwidth t REPLACEMENT_CHAR else some t) with
    | none => none
    | some t1 =>
      if ch ≤ 0x1F then control_character t1 ch
      else if ch ≤ 0x7F then add_char wcwidth t1 ch
      else utf8_charset wcwidth t1 ch
  | STATE_ESC =>
    if (push_esc t ch).2 = true then esc_sequence (push_esc t ch).1 ch else some (push_esc t ch).1
  | STATE_CSI =>
    if (push_esc t ch).2 = true then csi_sequence (push_esc t ch).1 ch else some (push_esc t ch).1
  | STATE_OSC =>
    if (push_esc t ch).2 = true then osc_sequence (push_esc t ch).1 ch else some (push_esc t ch).1
  | STATE_DCS =>
    if (push_esc t ch).2 = true then dcs_sequence (push_esc t ch).1 ch else some (push_esc t ch).1

/-- The function `parse(term, buf, size)` on the bytes `buf[0 .. size-1]`. -/
def parse (wcwidth : Nat → Int) : terminal_t → List Nat → Option terminal_t
  | t, [] => some t
  | t, ch :: rest =>
    match parse_byte wcwidth t ch with
    | none => none
    | some t1 => parse wcwidth t1 rest

/-! ## Initialisation -/

/-- The state allocated by `term_init` before it calls `reset`: zero-filled arrays of
`lines` rows and `cols` columns and an empty escape buffer of `ESCSEQ_SIZE` bytes.
The cell geometry of `glyph.h` is not in the sources, so `cols` and `lines` are given
directly, and so is the glyph map. -/
def term_alloc (cols lines : Nat) (glyph : Nat → Option glyph_t) : terminal_t :=
  { cols := cols
    lines := lines
    cells := List.replicate lines (List.replicate cols
      { glyphp := none, color_pair := { fg := 0, bg := 0 }, attr := 0, width := 0 })
    scroll := { top := 0, bottom := 0 }
    cursor := { x := 0, y := 0 }
    line_dirty := List.replicate lines false
    tabstop := List.replicate cols false
    mode := 0
    wrap_occured := false
    state := { cursor := { x := 0, y := 0 }, mode := 0, attr := 0 }
    color_pair := { fg := 0, bg := 0 }
    attr := 0
    charset := { code := 0, following_byte := 0, count := 0, is_valid := false }
    esc := { buf := [], size := ESCSEQ_SIZE, state := STATE_RESET }
    glyph := glyph
    pty_out := [] }

/-- The function `term_init`: the essential glyphs are checked and the terminal is reset. -/
def term_init (cols lines : Nat) (glyph : Nat → Option glyph_t) : Option terminal_t :=
  if glyph DEFAULT_CHAR = none ∨ glyph SUBSTITUTE_HALF = none ∨ glyph SUBSTITUTE_WIDE = none
  then none
  else reset (term_alloc cols lines glyph)

end Yaft

/-! ## Well-formed states and the relations used to state the invariants -/

namespace Yaft

/-- The state is one a C `terminal_t` can hold: the arrays have the sizes they were
allocated with and the `uint16_t` fields are in the range of their type. -/
structure Shape (t : terminal_t) : Prop where
  rows : t.cells.length = t.lines
  row_len : ∀ row ∈ t.cells, row.length = t.cols
  dirty_len : t.line_dirty.length = t.lines
  tab_len : t.tabstop.length = t.cols
  top_u16 : t.scroll.top < 65536
  bottom_u16 : t.scroll.bottom < 65536
  x_u16 : t.cursor.x < 65536
  y_u16 : t.cursor.y < 65536
  saved_x_u16 : t.state.cursor.x < 65536
  saved_y_u16 : t.state.cursor.y < 65536

/-- The cursor, the saved cursor and the scroll margins lie inside the grid. -/
structure Bounds (t : terminal_t) : Prop where
  cols_pos : 1 ≤ t.cols
  lines_pos : 2 ≤ t.lines
  cur_x : t.cursor.x < t.cols
  cur_y : t.cursor.y < t.lines
  sav_x : t.state.cursor.x < t.cols
  sav_y : t.state.cursor.y < t.lines
  top_lt : t.scroll.top < t.lines
  bot_lt : t.scroll.bottom < t.lines
  margin : t.lines ≤ 65536 → t.scroll.top < t.scroll.bottom

/-- The state `t1` differs from `t` at most in the cell rows selected by `S` and in
dirty flags that were raised; the array sizes are kept. -/
structure Touch (S : Nat → Prop) (t t1 : terminal_t) : Prop where
  cols : t1.cols = t.cols
  lines : t1.lines = t.lines
  cursor : t1.cursor = t.cursor
  scroll : t1.scroll = t.scroll
  saved : t1.state.cursor = t.state.cursor
  tabs : t1.tabstop.length = t.tabstop.length
  rows : t1.cells.length = t.cells.length
  row_len : ∀ n, t.cells.length = t.lines → (∀ row ∈ t.cells, row.length = n) →
    ∀ row ∈ t1.cells, row.length = n
  dirty_len : t1.line_dirty.length = t.line_dirty.length
  mono : ∀ r : Nat, t.line_dirty[r]? = some true → t1.line_dirty[r]? = some true
  same : ∀ r : Nat, ¬ S r → t1.cells[r]? = t.cells[r]?

/-- One run of a piece of the interpreter from `t` to `t1`: the grid size is fixed,
well-formedness is kept, dirty flags are only raised, and every row whose cells
changed is flagged dirty. -/
structure Step (t t1 : terminal_t) : Prop where
  cols : t1.cols = t.cols
  lines : t1.lines = t.lines
  shape : Shape t → Shape t1
  bounds : Shape t → Bounds t → Bounds t1
  mono : ∀ r : Nat, t.line_dirty[r]? = some true → t1.line_dirty[r]? = some true
  chg : Shape t → ∀ r : Nat, t1.cells[r]? ≠ t.cells[r]? → t1.line_dirty[r]? = some true

end Yaft

/-! ## Definitions used to state the claims -/

namespace Yaft

/-- The distance between a channel value and the colour-cube level of index `i`. -/
def level_dist (v i : Nat) : Nat := Int.natAbs ((v : Int) - (values i : Int))

/-- The level of index `i` is nearest to `v` among the six cube levels, and among
equally near levels it is the upper one. -/
def nearest_level (v i : Nat) : Prop :=
  i ≤ 5 ∧ ∀ j, j ≤ 5 →
    level_dist v i ≤ level_dist v j ∧ (level_dist v j = level_dist v i → j ≤ i)

instance (v i : Nat) : Decidable (nearest_level v i) := by
  unfold nearest_level; infer_instance

/-- The gray level of a candidate palette entry, as the comments of `rgb2index` give
it: index 231 is white `0xFF`, index `232 + k` is `0x08 + 0x0A * k`. -/
def gray_value (index : Nat) : Nat := if index = 231 then 0xFF else 0x08 + 0x0A * (index - 232)

/-- The distance between a gray value `v` and a candidate palette entry. -/
def gray_dist (v index : Nat) : Nat := Int.natAbs ((v : Int) - (gray_value index : Int))

/-- A glyph map with the printable ASCII characters as half-width glyphs and
U+3000 as a wide glyph. -/
def ascii_glyphs : Nat → Option glyph_t := fun c =>
  if c = 0x3000 then some { code := 0x3000, width := 2 }
  else if 0x20 ≤ c ∧ c < 0x7F then some { code := c, width := 1 }
  else none

/-- A `wcwidth` that agrees with `ascii_glyphs`; U+0300 is a combining character. -/
def ascii_wcwidth : Nat → Int := fun c =>
  if c = 0x3000 then 2 else if 0x20 ≤ c ∧ c < 0x7F then 1 else if c = 0x300 then 0 else -1

/-- The input bytes fed to a terminal of the given size after `term_init`. -/
def run (cols lines : Nat) (bytes : List Nat) : Option terminal_t :=
  match term_init cols lines ascii_glyphs with
  | none => none
  | some t => parse ascii_wcwidth t bytes

/-- The cell `cells[y][x]` of the state a run ended in. -/
def cell_of (o : Option terminal_t) (y x : Nat) : Option cell_t :=
  match o with
  | none => none
  | some t =>
    match t.cells[y]? with
    | none => none
    | some row => row[x]?

/-- The code point of the glyph in `cells[y][x]` of the state a run ended in. -/
def code_of (o : Option terminal_t) (y x : Nat) : Option Nat :=
  match cell_of o y x with
  | none => none
  | some c => c.glyphp.map (fun g => g.code)

/-- A state in the middle of a CSI sequence, used as a concrete example. -/
def csi_pending : terminal_t :=
  { term_alloc 2 2 ascii_glyphs with esc := { buf := [0x5B, 0x31], size := 1024, state := esc_state.STATE_CSI } }

/-- The state after `push_esc` stored a byte and dropped the sequence with `reset_esc`:
only the escape buffer differs from `t` (it is empty, in state RESET, and its capacity
was doubled if it was full). -/
def esc_dropped (t : terminal_t) : terminal_t :=
  { t with esc :=
      { buf := []
        size := if t.esc.buf.length ≥ t.esc.size then t.esc.size * 2 else t.esc.size
        state := esc_state.STATE_RESET } }

/-- The capacity of the escape buffer after `push_esc`: doubled if the buffer was full. -/
def esc_grow (e : esc_t) : Nat := if e.buf.length ≥ e.size then e.size * 2 else e.size

/-- The state after `push_esc` stored a byte and kept the sequence. -/
def esc_pushed (t : terminal_t) (ch : Nat) : terminal_t :=
  { t with esc := { buf := t.esc.buf ++ [ch], size := esc_grow t.esc, state := t.esc.state } }

/-- The final bytes that have an entry in the table `csi_func[]`. -/
def csi_mapped : List Nat :=
  [0x40, 0x41, 0x42, 0x43, 0x44, 0x45, 0x46, 0x47, 0x48, 0x4A, 0x4B, 0x4C, 0x4D, 0x50, 0x58,
   0x61, 0x63, 0x64, 0x65, 0x66, 0x67, 0x68, 0x6C, 0x6D, 0x6E, 0x72, 0x60]

/-- The final bytes that have an entry in the table `esc_func[]`. -/
def esc_mapped : List Nat :=
  [0x37, 0x38, 0x44, 0x45, 0x48, 0x4D, 0x50, 0x5A, 0x5B, 0x5D, 0x63]

/-- The state `t1` differs from `t` at most in its escape buffer. -/
def EscOnly (t t1 : terminal_t) : Prop := t1 = { t with esc := t1.esc }

/-- The state after `push_esc` stored each byte of `ps` in turn and kept the sequence. -/
def esc_pushed_all (t : terminal_t) (ps : List Nat) : terminal_t := ps.foldl esc_pushed t

/-- The bytes of a UTF-8 sequence are complete: no continuation byte is awaited. -/
def charset_idle (t : terminal_t) : Prop := t.charset.following_byte ≤ 0

/-- The state between escape sequences: escape state RESET with an empty buffer, no
UTF-8 sequence under way, and an escape buffer of at least the `ESCSEQ_SIZE` bytes
that `term_init` allocates (`push_esc` only ever doubles the size). -/
def Ground (t : terminal_t) : Prop :=
  t.esc.state = esc_state.STATE_RESET ∧ t.esc.buf = [] ∧ charset_idle t
    ∧ ESCSEQ_SIZE ≤ t.esc.size

/-- The bytes `push_esc` keeps inside an OSC or DCS string, ESC apart: BS, HT, LF, CR
and `0x20..0x7E`. -/
def string_byte (b : Nat) : Prop := b = BS ∨ b = HT ∨ b = LF ∨ b = CR ∨ (0x20 ≤ b ∧ b ≤ 0x7E)

instance (b : Nat) : Decidable (string_byte b) := by
  unfold string_byte; infer_instance

/-- The state after `ESC` and an introducer byte in the ground state: the introducer
is in the escape buffer and the escape state is `st`. -/
def esc_entered (t : terminal_t) (intro : Nat) (st : esc_state) : terminal_t :=
  { t with esc := { buf := [intro], size := esc_grow t.esc, state := st } }

/-- The blank cell `erase_cell` writes: the glyph of `DEFAULT_CHAR` (space), the
current colour pair, no attribute, half width. -/
def blank_cell (t : terminal_t) : cell_t :=
  { glyphp := t.glyph DEFAULT_CHAR, color_pair := t.color_pair, attr := ATTR_RESET, width := HALF }

/-- The cell `cells[y][x]` of a grid. -/
def grid_at (cells : List (List cell_t)) (y x : Nat) : Option cell_t :=
  match cells[y]? with
  | none => none
  | some row => row[x]?

/-- The state `s` is `t` with the cells before position `(i, j)` in reading order
blank and their lines dirty; only the grid and the dirty flags may differ from `t`. -/
def Erased (t : terminal_t) (i j : Int) (s : terminal_t) : Prop :=
  { s with cells := t.cells, line_dirty := t.line_dirty } = t
  ∧ s.cells.length = t.lines
  ∧ (∀ row ∈ s.cells, row.length = t.cols)
  ∧ s.line_dirty.length = t.lines
  ∧ (∀ y x : Nat, x < t.cols → ((y : Int) < i ∨ ((y : Int) = i ∧ (x : Int) < j)) →
      grid_at s.cells y x = some (blank_cell t))
  ∧ (∀ y : Nat, ((y : Int) < i ∨ ((y : Int) = i ∧ 0 < j)) → s.line_dirty[y]? = some true)

/-- The state in which `csi_sequence` calls the handler of a CSI sequence with the
parameter bytes `ps`: the escape buffer holds the introducer and the parameters as
`parse_arg` rewrote them. -/
def csi_ready (t : terminal_t) (ps : List Nat) (sz : Nat) : terminal_t :=
  { t with esc :=
      { buf := 0x5B :: (parse_arg (ps ++ [0]) 0x3B isdigit).1
        size := sz
        state := esc_state.STATE_CSI } }

/-- The parameters `parse_arg` reads from the parameter bytes `ps` of a CSI sequence. -/
def csi_parm (ps : List Nat) : parm_t := (parse_arg (ps ++ [0]) 0x3B isdigit).2

/-- A terminal of 3 columns and 2 lines, just allocated, whose current background
colour is 1 (red), used as a concrete example. -/
def red_terminal : terminal_t :=
  { term_alloc 3 2 ascii_glyphs with color_pair := { fg := 7, bg := 1 } }

/-- The state of `reset` when its loops start: the scalar fields are set. -/
def reset_entry (t : terminal_t) : terminal_t :=
  { t with
    mode := MODE_RESET ||| (MODE_CURSOR ||| MODE_AMRIGHT)
    wrap_occured := false
    scroll := { top := 0, bottom := to_u16 ((t.lines : Int) - 1) }
    cursor := { x := 0, y := 0 }
    state := { mode := MODE_RESET ||| (MODE_CURSOR ||| MODE_AMRIGHT), cursor := { x := 0, y := 0 },
               attr := ATTR_RESET }
    color_pair := { fg := DEFAULT_FG, bg := DEFAULT_BG }
    attr := ATTR_RESET }

/-- The tabstop flag `reset` stores for column `x`: set on every eighth column. -/
def tab_flag (x : Nat) : Bool := (x : Int) % (TABSTOP : Int) == 0

/-- The state `s` is `t` with the cells before position `(i, j)` in reading order
blank, the lines before `i` dirty and the tabstops of the columns visited so far
stored; only the grid, the dirty flags and the tabstops may differ from `t`. -/
def Wiped (t : terminal_t) (i j : Int) (s : terminal_t) : Prop :=
  { s with cells := t.cells, line_dirty := t.line_dirty, tabstop := t.tabstop } = t
  ∧ s.cells.length = t.lines
  ∧ (∀ row ∈ s.cells, row.length = t.cols)
  ∧ s.line_dirty.length = t.lines
  ∧ s.tabstop.length = t.cols
  ∧ (∀ y x : Nat, x < t.cols → ((y : Int) < i ∨ ((y : Int) = i ∧ (x : Int) < j)) →
      grid_at s.cells y x = some (blank_cell t))
  ∧ (∀ y : Nat, (y : Int) < i → s.line_dirty[y]? = some true)
  ∧ (∀ x : Nat, x < t.cols → (0 < i ∨ (x : Int) < j) → s.tabstop[x]? = some (tab_flag x))

/-- The state `reset` returns, in closed form: default modes, colours and margins, the
cursor and the saved cursor at home, a blank grid, every line dirty, a tabstop on
every eighth column, and an empty escape buffer and UTF-8 accumulator. -/
def reset_result (t : terminal_t) : terminal_t :=
  { reset_entry t with
    cells := List.replicate t.lines (List.replicate t.cols (blank_cell (reset_entry t)))
    line_dirty := List.replicate t.lines true
    tabstop := (List.range t.cols).map tab_flag
    esc := { t.esc with buf := [], state := esc_state.STATE_RESET }
    charset := { code := 0, following_byte := 0, count := 0, is_valid := true } }

/-- The parameters are two numbers, both written out, with the values `p1` and `p2`. -/
def reads_two (parm : parm_t) (p1 p2 : Nat) : Prop :=
  parm.argc = 2 ∧ parm.arg 0 ≠ none ∧ parm.arg 1 ≠ none
    ∧ dec2num (parm.arg 0) = p1 ∧ dec2num (parm.arg 1) = p2

instance (parm : parm_t) (p1 p2 : Nat) : Decidable (reads_two parm p1 p2) := by
  unfold reads_two; infer_instance

/-- The row the cursor is homed to: the top margin in origin mode, else row 0. -/
def home_row (t : terminal_t) (top : Nat) : Nat := if has_bit t.mode MODE_ORIGIN then top else 0

/-- The terminal of the given size after `term_init`, in closed form. -/
def fresh (cols lines : Nat) : terminal_t := reset_result (term_alloc cols lines ascii_glyphs)

/-- The state after `set_cell` stored the cell of glyph `g` at `(y, x)` with nothing to
repair next to it. -/
def put_cell (s : terminal_t) (y x : Nat) (g : glyph_t) : terminal_t :=
  { s with
    cells := s.cells.set y ((s.cells.getD y []).set x (make_cell s g))
    line_dirty := s.line_dirty.set y true }

/-- The state `s` with the grid, the dirty flags and the cursor of `t0`. -/
def grid_frame (s t0 : terminal_t) : terminal_t :=
  { s with cells := t0.cells, line_dirty := t0.line_dirty, cursor := t0.cursor }

/-- The byte `b` is a printable ASCII character of display width 1 whose glyph is
present in the glyph table with width HALF. -/
def half_byte (wc : Nat → Int) (glyph : Nat → Option glyph_t) (b : Nat) : Prop :=
  0x20 ≤ b ∧ b ≤ 0x7E ∧ wc b = 1 ∧ (glyph b).map (fun g => g.width) = some HALF

instance (wc : Nat → Int) (glyph : Nat → Option glyph_t) (b : Nat) :
    Decidable (half_byte wc glyph b) := by
  unfold half_byte; infer_instance

/-- The cell `set_cell` stores for the byte `b` in a state with the colours and the
attribute of `t0`. -/
def byte_cell (t0 : terminal_t) (b : Nat) : Option cell_t := (t0.glyph b).map (make_cell t0)

/-- A state in which printing can start at the home position: well-formed arrays, the
cursor at home, no wrap pending, no escape or UTF-8 sequence under way, and no cell
that is the second half of a wide character. -/
structure PrintBase (t0 : terminal_t) : Prop where
  rows : t0.cells.length = t0.lines
  row_len : ∀ row ∈ t0.cells, row.length = t0.cols
  dirty_len : t0.line_dirty.length = t0.lines
  home : t0.cursor = { x := 0, y := 0 }
  no_wrap : t0.wrap_occured = false
  ground : t0.esc.state = esc_state.STATE_RESET
  idle : t0.charset.following_byte = 0
  halves : ∀ (y x : Nat) (c : cell_t), grid_at t0.cells y x = some c → c.width ≠ NEXT_TO_WIDE

/-- The state `s` is `t0` after the bytes `done` were printed on row 0 from column 0
on: the cursor is behind them, and only the grid, the dirty flags and the cursor may
differ from `t0`. -/
def Printed (t0 : terminal_t) (done : List Nat) (s : terminal_t) : Prop :=
  grid_frame s t0 = t0
  ∧ s.cells.length = t0.lines
  ∧ (∀ row ∈ s.cells, row.length = t0.cols)
  ∧ s.cursor = { x := done.length, y := 0 }
  ∧ s.line_dirty.length = t0.lines
  ∧ (∀ y : Nat, t0.line_dirty[y]? = some true → s.line_dirty[y]? = some true)
  ∧ (0 < done.length → s.line_dirty[0]? = some true)
  ∧ (∀ y x : Nat, y < t0.lines → x < t0.cols →
      grid_at s.cells y x
        = if y = 0 ∧ x < done.length then byte_cell t0 (done.getD x 0) else grid_at t0.cells y x)

/-- The state after `add_char` stored the glyph `g` at the cursor of `s`, which is in
row 0, and left the cursor in column `x1`. -/
def typed (s : terminal_t) (g : glyph_t) (x1 : Nat) : terminal_t :=
  { put_cell { s with wrap_occured := false } 0 s.cursor.x g with cursor := { x := x1, y := 0 } }

/-- The state of `add_char` after the pending wrap was taken: the cursor is in column 0
of the next row. -/
def wrap_taken (s : terminal_t) : terminal_t :=
  { s with cursor := { x := 0, y := s.cursor.y + 1 }, wrap_occured := false }

/-- The state after `add_char` took the pending wrap and stored the glyph `g` in
column 0 of the next row. -/
def wrapped (s : terminal_t) (g : glyph_t) : terminal_t :=
  { put_cell (wrap_taken s) (s.cursor.y + 1) 0 g with cursor := { x := 1, y := s.cursor.y + 1 } }

/-- The state after `add_char` stored a glyph in the last column: the cursor stays
in column `x` and the wrap is pending. -/
def filled (u : terminal_t) (x : Nat) : terminal_t :=
  { u with wrap_occured := true, cursor := { x := x, y := 0 } }

/-- Successive calls of `parse`, one for each chunk of input bytes. -/
def parse_calls (wc : Nat → Int) : terminal_t → List (List Nat) → Option terminal_t
  | t, [] => some t
  | t, chunk :: rest =>
    match parse wc t chunk with
    | none => none
    | some t1 => parse_calls wc t1 rest

/-- A fresh terminal whose dirty flags were cleared, as after a refresh of the screen. -/
def clean (cols lines : Nat) : terminal_t :=
  { fresh cols lines with line_dirty := List.replicate lines false }

/-! ### UTF-8 -/

/-- The state `t` with the UTF-8 accumulator `cs`. -/
def with_charset (t : terminal_t) (cs : charset_t) : terminal_t := { t with charset := cs }

/-- The code point `utf8_charset` hands to `add_char` for a completed accumulator. -/
def utf8_emit (cs : charset_t) : Nat :=
  if utf8_illegal cs = true then REPLACEMENT_CHAR else cs.code

/-- The accumulator after the continuation bytes `conts`. -/
def utf8_fold (cs : charset_t) (conts : List Nat) : charset_t := conts.foldl utf8_continue cs

/-- A continuation byte. -/
def is_cont (b : Nat) : Prop := 0x80 ≤ b ∧ b ≤ 0xBF

instance (b : Nat) : Decidable (is_cont b) := by
  unfold is_cont; infer_instance

/-- A lead byte of a multi-byte sequence. -/
def is_lead (b : Nat) : Prop := 0xC0 ≤ b ∧ b ≤ 0xFD

instance (b : Nat) : Decidable (is_lead b) := by
  unfold is_lead; infer_instance

/-- The number of continuation bytes the lead byte announces. -/
def utf8_need (lead : Nat) : Nat :=
  if lead ≤ 0xDF then 1 else if lead ≤ 0xEF then 2 else if lead ≤ 0xF7 then 3
  else if lead ≤ 0xFB then 4 else 5

/-- The payload bits of a lead byte. -/
def utf8_lead_bits (lead : Nat) : Nat :=
  if lead ≤ 0xDF then lead % 32 else if lead ≤ 0xEF then lead % 16 else if lead ≤ 0xF7 then lead % 8
  else if lead ≤ 0xFB then lead % 4 else lead % 2

/-- The value a sequence decodes to: six payload bits for each continuation byte. -/
def utf8_value (lead : Nat) (conts : List Nat) : Nat :=
  conts.foldl (fun v c => v * 64 + c % 64) (utf8_lead_bits lead)

/-- The smallest value that needs a sequence with the given number of continuation
bytes. -/
def utf8_min (need : Nat) : Nat :=
  if need = 1 then 0x80 else if need = 2 then 0x800 else if need = 3 then 0x10000
  else if need = 4 then 0x200000 else 0x4000000

/-- The sequence is overlong, or it decodes to a surrogate, to a noncharacter
U+FDD0..U+FDEF, to a code whose low 16 bits are 0xFFFE or 0xFFFF, or to a value above
U+10FFFF. -/
def utf8_rejected (lead : Nat) (conts : List Nat) : Prop :=
  utf8_value lead conts < utf8_min (utf8_need lead)
    ∨ (0xD800 ≤ utf8_value lead conts ∧ utf8_value lead conts ≤ 0xDFFF)
    ∨ (0xFDD0 ≤ utf8_value lead conts ∧ utf8_value lead conts ≤ 0xFDEF)
    ∨ utf8_value lead conts % 0x10000 = 0xFFFE
    ∨ utf8_value lead conts % 0x10000 = 0xFFFF
    ∨ utf8_value lead conts > 0x10FFFF

instance (lead : Nat) (conts : List Nat) : Decidable (utf8_rejected lead conts) := by
  unfold utf8_rejected; infer_instance

/-- The accumulator is the one `reset_charset` leaves, up to the stale code and count:
no sequence is under way and no byte was found invalid. -/
def charset_clean (t : terminal_t) : Prop :=
  t.charset.following_byte = 0 ∧ t.charset.is_valid = true

/-- The dispatch of `parse` on a byte in the ground state: control character,
`add_char`, or the UTF-8 decoder. -/
def classify (wc : Nat → Int) (t : terminal_t) (b : Nat) : Option terminal_t :=
  if b ≤ 0x1F then control_character t b
  else if b ≤ 0x7F then add_char wc t b
  else utf8_charset wc t b

/-- The accumulator `reset_charset` leaves. -/
def charset_zero : charset_t := { code := 0, following_byte := 0, count := 0, is_valid := true }

/-- The UTF-8 encoding of a code point up to U+10FFFF. -/
def utf8_encode (c : Nat) : List Nat :=
  if c < 0x80 then [c]
  else if c < 0x800 then [0xC0 + c / 64, 0x80 + c % 64]
  else if c < 0x10000 then [0xE0 + c / 4096, 0x80 + c / 64 % 64, 0x80 + c % 64]
  else [0xF0 + c / 262144, 0x80 + c / 4096 % 64, 0x80 + c / 64 % 64, 0x80 + c % 64]

/-- The code point is a surrogate or a noncharacter. -/
def noncharacter (c : Nat) : Prop :=
  (0xD800 ≤ c ∧ c ≤ 0xDFFF) ∨ (0xFDD0 ≤ c ∧ c ≤ 0xFDEF) ∨ c % 0x10000 = 0xFFFE
    ∨ c % 0x10000 = 0xFFFF

instance (c : Nat) : Decidable (noncharacter c) := by
  unfold noncharacter; infer_instance

/-- A state in which a character can be stored at the cursor: the arrays have their
sizes, the cursor is inside the grid and its `uint16_t` fields are in the range of
their type, no wrap is pending, and no escape or UTF-8 sequence is under way. -/
structure Ready (t : terminal_t) : Prop where
  rows : t.cells.length = t.lines
  row_len : ∀ row ∈ t.cells, row.length = t.cols
  cur_y : t.cursor.y < t.lines
  cur_x : t.cursor.x < t.cols
  x_u16 : t.cursor.x < 65536
  y_u16 : t.cursor.y < 65536
  no_wrap : t.wrap_occured = false
  ground : t.esc.state = esc_state.STATE_RESET
  clean : charset_clean t

/-- A glyph map with the printable ASCII characters, U+3000 as a wide glyph and the
combining character U+0300 as a half-width glyph. -/
def mark_glyphs : Nat → Option glyph_t := fun c =>
  if c = 0x300 then some { code := 0x300, width := 1 } else ascii_glyphs c

/-- A `wcwidth` that gives U+1F600 the width 2 and every other character beyond the
BMP the width 1. -/
def astral_wcwidth : Nat → Int := fun c =>
  if c = 0x1F600 then 2 else if c ≥ 0x10000 then 1 else ascii_wcwidth c

/-- The input bytes fed to a terminal of the given size, glyph map and `wcwidth`
after `term_init`. -/
def run_with (glyph : Nat → Option glyph_t) (wc : Nat → Int) (cols lines : Nat)
    (bytes : List Nat) : Option terminal_t :=
  match term_init cols lines glyph with
  | none => none
  | some t => parse wc t bytes

end Yaft

/-! ## Definitions used to state the claims on the grid primitives and the CSI handlers -/

namespace Yaft

/-- The colour pair of a stored cell, as the specification words it: 8 is added to
the foreground when the bold bit (0x01) is set and the foreground is at most 7, 8 is
added to the background when the blink bit (0x04) is set and the background is at
most 7, and then the two are swapped when the reverse bit (0x08) is set. -/
def styled_colors (attr : Nat) (cp : color_pair_t) : color_pair_t :=
  let fg := if attr &&& 0x01 ≠ 0 ∧ cp.fg ≤ 7 then cp.fg + 8 else cp.fg
  let bg := if attr &&& 0x04 ≠ 0 ∧ cp.bg ≤ 7 then cp.bg + 8 else cp.bg
  if attr &&& 0x08 ≠ 0 then { fg := bg, bg := fg } else { fg := fg, bg := bg }

/-- The cell the specification describes for `set_cell`: the glyph, the styled
colours, the current attribute and the given width. -/
def styled_cell (t : terminal_t) (g : glyph_t) (width : Nat) : cell_t :=
  { glyphp := some g, color_pair := styled_colors t.attr t.color_pair, attr := t.attr,
    width := width }

end Yaft

namespace Yaft

/-- A terminal of 3 columns and 2 lines, just allocated, with bold, blink and reverse
set and the colour pair fg 1, bg 2, used as a concrete example. -/
def bold_terminal : terminal_t :=
  { term_alloc 3 2 ascii_glyphs with attr := 0x0D, color_pair := { fg := 1, bg := 2 } }

end Yaft
namespace Yaft

/-- The value `v` clamped to the interval `[lo, hi]`. -/
def clamp (v lo hi : Int) : Int := max lo (min v hi)

end Yaft

namespace Yaft

/-- A fresh terminal of 4 columns and 5 lines in origin mode with the scroll region
`[1, 3]`, used as a concrete example. -/
def origin_terminal : terminal_t :=
  { fresh 4 5 with mode := MODE_ORIGIN ||| MODE_AMRIGHT, scroll := { top := 1, bottom := 3 } }

end Yaft
namespace Yaft

/-- The column part of the postcondition of `move_cursor`, as the specification words
it: the new column is `clamp(x + dx, 0, cols - 1)`, and the wrap flag becomes true when
`x + dx ≥ cols` and AUTO_WRAP is on (otherwise it is unchanged). -/
def shifted (t : terminal_t) (dx : Int) : terminal_t :=
  { t with
    cursor := { t.cursor with x := (clamp ((t.cursor.x : Int) + dx) 0 ((t.cols : Int) - 1)).toNat }
    wrap_occured :=
      if (t.cursor.x : Int) + dx ≥ (t.cols : Int) ∧ has_bit t.mode MODE_AMRIGHT = true then true
      else t.wrap_occured }

/-- The state `s` with the cursor in row `y`. -/
def with_row (s : terminal_t) (y : Nat) : terminal_t := { s with cursor := { s.cursor with y := y } }

/-- The rows `top .. bottom` of `s` are those of `t` scrolled by `dy`, as the
specification words `scroll_window`: a row `r` of the region whose source row `r + dy`
lies in the region holds the former content of that row, the other `|dy|` rows of
the region are erased (every cell is the blank cell of `erase_cell`), the rows outside
the region are unchanged, and every row of the region is marked dirty. -/
def region_scrolled (t s : terminal_t) (top bottom : Nat) (dy : Int) : Prop :=
  (∀ r : Nat, top ≤ r → r ≤ bottom → (top : Int) ≤ r + dy → (r : Int) + dy ≤ bottom →
      s.cells[r]? = t.cells[((r : Int) + dy).toNat]?)
  ∧ (∀ r : Nat, top ≤ r → r ≤ bottom → ((r : Int) + dy < top ∨ (bottom : Int) < r + dy) →
      ∀ x : Nat, x < t.cols → grid_at s.cells r x = some (blank_cell t))
  ∧ (∀ r : Nat, (r < top ∨ bottom < r) → s.cells[r]? = t.cells[r]?)
  ∧ (∀ r : Nat, top ≤ r → r ≤ bottom → s.line_dirty[r]? = some true)
  ∧ (∀ r : Nat, (r < top ∨ bottom < r) → s.line_dirty[r]? = t.line_dirty[r]?)

/-- The postcondition of `move_cursor(dy, dx)` from the state `t`, as the specification
words it: the new column is `clamp(x + dx, 0, cols - 1)`; the wrap flag becomes true
when `x + dx ≥ cols` and AUTO_WRAP is on and is unchanged otherwise; at the top margin
with `dy < 0` the row is `scroll.top`, at the bottom margin with `dy > 0` the row is
`scroll.bottom`, and in both cases the region is scrolled by `dy`; in every other case
the row is `clamp(y + dy, 0, lines - 1)` and neither a cell nor a dirty flag changes.
Nothing but the cursor, the wrap flag, the grid and the dirty flags differs from `t`. -/
def move_cursor_post (t : terminal_t) (dy dx : Int) (s : terminal_t) : Prop :=
  s.cursor.x = (clamp ((t.cursor.x : Int) + dx) 0 ((t.cols : Int) - 1)).toNat
  ∧ s.wrap_occured
      = (if (t.cursor.x : Int) + dx ≥ (t.cols : Int) ∧ has_bit t.mode MODE_AMRIGHT = true
          then true else t.wrap_occured)
  ∧ (t.cursor.y = t.scroll.top ∧ dy < 0 →
      s.cursor.y = t.scroll.top ∧ region_scrolled t s t.scroll.top t.scroll.bottom dy)
  ∧ (t.cursor.y = t.scroll.bottom ∧ dy > 0 →
      s.cursor.y = t.scroll.bottom ∧ region_scrolled t s t.scroll.top t.scroll.bottom dy)
  ∧ (¬ (t.cursor.y = t.scroll.top ∧ dy < 0) → ¬ (t.cursor.y = t.scroll.bottom ∧ dy > 0) →
      s.cursor.y = (clamp ((t.cursor.y : Int) + dy) 0 ((t.lines : Int) - 1)).toNat
        ∧ s.cells = t.cells ∧ s.line_dirty = t.line_dirty)
  ∧ ({ s with
        cursor := t.cursor
        wrap_occured := t.wrap_occured
        cells := t.cells
        line_dirty := t.line_dirty } : terminal_t) = t

end Yaft
namespace Yaft

/-- The state `s` differs from `t` at most in the grid and the dirty flags, and these
arrays have the sizes `t` was allocated with. -/
def Grid (t s : terminal_t) : Prop :=
  { s with cells := t.cells, line_dirty := t.line_dirty } = t
  ∧ s.cells.length = t.lines
  ∧ (∀ row ∈ s.cells, row.length = t.cols)
  ∧ s.line_dirty.length = t.lines

end Yaft

namespace Yaft

/-- A half-width cell with the glyph of the character `c` in the default colours. -/
def letter_cell (c : Nat) : cell_t :=
  { glyphp := some { code := c, width := 1 }, color_pair := { fg := 7, bg := 0 }, attr := 0,
    width := 1 }

/-- A fresh terminal of 1 column and 4 lines whose rows hold the letters `a`, `b`, `c`
and `d`, used as a concrete example. -/
def rows_terminal : terminal_t :=
  { fresh 1 4 with
    cells := [[letter_cell 0x61], [letter_cell 0x62], [letter_cell 0x63], [letter_cell 0x64]] }

/-- The code points of the glyphs in a grid, row by row. -/
def codes (cells : List (List cell_t)) : List (List (Option Nat)) :=
  cells.map (fun row => row.map (fun c => c.glyphp.map (fun g => g.code)))

end Yaft
namespace Yaft

/-- The parameters of a CSI sequence, as `parse_arg` and `dec2num` read them, are the
numbers `vals`, in this order. -/
def reads (parm : parm_t) (vals : List Int) : Prop :=
  parm.argc = vals.length ∧ ∀ i : Nat, i < vals.length → dec2num (parm.arg i) = vals.getD i 0

instance (parm : parm_t) (vals : List Int) : Decidable (reads parm vals) := by
  unfold reads; infer_instance

/-- A fresh terminal of 5 columns and 2 lines whose row 0 holds `a b c d e`, with the
cursor in column 1, used as a concrete example. -/
def letters_terminal : terminal_t :=
  { fresh 5 2 with
    cells := [[letter_cell 0x61, letter_cell 0x62, letter_cell 0x63, letter_cell 0x64,
               letter_cell 0x65],
              List.replicate 5 (letter_cell 0x20)]
    cursor := { x := 1, y := 0 } }

end Yaft
namespace Yaft

/-- The mode bit that a parameter of SM / RM names: 6 is ORIGIN, 7 is AUTO_WRAP
(`MODE_AMRIGHT`), 25 is CURSOR_VISIBLE (`MODE_CURSOR`), 8901 is VWBS; any other
parameter names no bit. -/
def mode_bit (p : Int) : Nat :=
  if p = 6 then MODE_ORIGIN else if p = 7 then MODE_AMRIGHT else if p = 25 then MODE_CURSOR
  else if p = 8901 then MODE_VWBS else 0

/-- The mode bits named by a list of parameters. -/
def named_bits : List Int → Nat
  | [] => 0
  | p :: ps => mode_bit p ||| named_bits ps

/-- The values of the parameters of a CSI sequence, as `dec2num` reads them. -/
def parm_values (parm : parm_t) : List Int :=
  (List.range parm.argc).map (fun i => dec2num (parm.arg i))

/-- The effect of `CSI ? Pm h` as the specification words it: the named bits are set,
every other mode bit is unchanged, and a parameter 6 moves the cursor to home (which
is column 0 of the top margin, origin mode being on then) and clears the wrap flag. -/
def mode_set (s : terminal_t) (vals : List Int) : terminal_t :=
  { s with
    mode := s.mode ||| named_bits vals
    cursor := if 6 ∈ vals then { x := 0, y := s.scroll.top } else s.cursor
    wrap_occured := if 6 ∈ vals then false else s.wrap_occured }

/-- The effect of `CSI ? Pm l` as the specification words it: the named bits are
cleared, every other mode bit is unchanged, a parameter 6 moves the cursor to home
(column 0 of row 0, origin mode being off then), and a parameter 6 or 7 clears the
wrap flag. -/
def mode_cleared (s : terminal_t) (vals : List Int) : terminal_t :=
  { s with
    mode := clear_bit s.mode (named_bits vals)
    cursor := if 6 ∈ vals then { x := 0, y := 0 } else s.cursor
    wrap_occured := if 6 ∈ vals ∨ 7 ∈ vals then false else s.wrap_occured }

end Yaft
namespace Yaft

/-- The state `t` with the foreground colour `c`. -/
def with_fg (t : terminal_t) (c : Nat) : terminal_t :=
  { t with color_pair := { t.color_pair with fg := c } }

/-- The state `t` with the background colour `c`. -/
def with_bg (t : terminal_t) (c : Nat) : terminal_t :=
  { t with color_pair := { t.color_pair with bg := c } }

/-- The state `t` with the attribute RESET and the default colours fg 7, bg 0. -/
def sgr_reset (t : terminal_t) : terminal_t :=
  { t with attr := ATTR_RESET, color_pair := { fg := 7, bg := 0 } }

/-- The state `t` after a sequence was completed: the escape buffer is empty, in state
RESET, with the capacity `sz`. -/
def esc_done (t : terminal_t) (sz : Nat) : terminal_t :=
  { t with esc := { buf := [], size := sz, state := esc_state.STATE_RESET } }

end Yaft
namespace Yaft

/-- The saved-state slot and the escape buffer of `t1` are those of `t`. -/
def Kept (t t1 : terminal_t) : Prop := t1.state = t.state ∧ t1.esc = t.esc

end Yaft

namespace Yaft

/-- The byte `ch`, arriving in the state `t`, completes an escape sequence for which
`esc_sequence` calls `save_state` (`ESC 7`) or `reset` (`ESC c`): the state is ESC,
`push_esc` reports a final byte, the buffer holds this byte alone, and the byte is `7`
or `c`. -/
def saves (t : terminal_t) (ch : Nat) : Prop :=
  t.esc.state = esc_state.STATE_ESC ∧ (push_esc t ch).2 = true
    ∧ (c_str (push_esc t ch).1.esc.buf).length = 1 ∧ (ch = 0x37 ∨ ch = 0x63)

instance (t : terminal_t) (ch : Nat) : Decidable (saves t ch) := by
  unfold saves; infer_instance

/-- None of the bytes, processed in turn from the state `t`, triggers `save_state` or
`reset`. -/
def quiet (wc : Nat → Int) : terminal_t → List Nat → Bool
  | _, [] => true
  | t, ch :: rest =>
    !(decide (saves t ch)) &&
      (match parse_byte wc t ch with
       | none => true
       | some t1 => quiet wc t1 rest)

end Yaft

namespace Yaft

/-- A fresh terminal of 4 columns and 3 lines with the cursor at `(y = 1, x = 2)`, used
as a concrete example. -/
def moved_terminal : terminal_t := { fresh 4 3 with cursor := { x := 2, y := 1 } }

end Yaft

namespace Yaft

/-- The state after `ESC 7` on `moved_terminal`. -/
def saved_example : terminal_t :=
  (parse ascii_wcwidth moved_terminal [0x1B, 0x37]).getD moved_terminal

/-- The bytes `a`, `ESC [ 1 m`, `ESC [ ? 6 h`, LF: a character, bold, origin mode (which
homes the cursor) and a line feed. -/
def busy_bytes : List Nat := [0x61, 0x1B, 0x5B, 0x31, 0x6D, 0x1B, 0x5B, 0x3F, 0x36, 0x68, 0x0A]

/-- The state after `busy_bytes` on `saved_example`. -/
def busy_example : terminal_t :=
  (parse ascii_wcwidth saved_example busy_bytes).getD moved_terminal

end Yaft

/-! ## Definitions used to state the claims on printing and on CSI parameters -/

namespace Yaft

/-- The characters `cs` given to `add_char` one after the other. -/
def add_chars (wcwidth : Nat → Int) (t : terminal_t) : List Nat → Option terminal_t
  | [] => some t
  | c :: cs =>
    match add_char wcwidth t c with
    | none => none
    | some t1 => add_chars wcwidth t1 cs

/-- The character `c` is printable, half-width or wide: the glyph `add_char` selects
for it has the width `wcwidth` gives, which is `HALF` (1) or `WIDE` (2). -/
def printable (wcwidth : Nat → Int) (t : terminal_t) (c : Nat) : Prop :=
  match select_glyph t c (wcwidth c) with
  | none => False
  | some g => (g.width = HALF ∨ g.width = WIDE) ∧ (g.width : Int) = wcwidth c

instance (wcwidth : Nat → Int) (t : terminal_t) (c : Nat) : Decidable (printable wcwidth t c) := by
  unfold printable
  split <;> infer_instance

/-- No wide character of `cs` arrives with the cursor in the last column (where
`add_char` takes it to the next line whatever the modes are). -/
def clear_of_edge (wcwidth : Nat → Int) : terminal_t → List Nat → Bool
  | _, [] => true
  | t, c :: cs =>
    !(decide (wcwidth c = 2) && decide (t.cursor.x + 1 = t.cols))
      && (match add_char wcwidth t c with
          | none => true
          | some t1 => clear_of_edge wcwidth t1 cs)

/-- The state `t1` differs from `t` at most in the grid and the dirty flags. -/
def SameButGrid (t t1 : terminal_t) : Prop :=
  { t1 with cells := t.cells, line_dirty := t.line_dirty } = t

end Yaft

namespace Yaft

/-- A fresh terminal of 3 columns and 2 lines with AUTO_WRAP off, used as a concrete
example. -/
def nowrap_terminal : terminal_t := { fresh 3 2 with mode := MODE_CURSOR }

end Yaft

namespace Yaft

/-- The characters `a`, U+3000 (wide), `b`, `c`, used as a concrete example. -/
def sample_chars : List Nat := [0x61, 0x3000, 0x62, 0x63]

end Yaft

namespace Yaft

/-- The value of a string of decimal digits. -/
def decimal_value (f : List Nat) : Nat := f.foldl (fun a c => 10 * a + (c - 0x30)) 0

/-- The parameter a field of the parameter string stands for, as the claim words it:
a NULL parameter for an empty field, else the field as a C string. -/
def field_arg (f : List Nat) : Option (List Nat) := if f = [] then none else some f

/-- The effect of `add_parm` on the argument count and the argument pointers. -/
def add_ptr (a : Nat × List (Option Nat)) (p : Option Nat) : Nat × List (Option Nat) :=
  if a.1 ≥ MAX_ARGS then a else (a.1 + 1, a.2.set a.1 p)

/-- The pointers the loop of `parse_arg` hands to `add_parm`, in order, for the bytes
`rest` (digits and `;`) read from offset `k` on, `vp` being as the earlier bytes left
it: a `;` hands over `vp` and clears it, a digit sets `vp` if it is NULL, and the last
byte hands over `vp` once more. -/
def ptr_run : Nat → Option Nat → List Nat → List (Option Nat)
  | _, vp, [] => [vp]
  | k, vp, c :: cs =>
    if c = 0x3B then vp :: ptr_run (k + 1) none cs
    else ptr_run (k + 1) (if vp = none then some k else vp) cs

/-- The bytes of a parameter string after `parse_arg` rewrote each `;` to NUL. -/
def cut (l : List Nat) : List Nat := l.map (fun c => if c = 0x3B then 0 else c)

end Yaft

namespace Yaft

/-- The parameter string `1;;23`, used as a concrete example. -/
def sample_parameters : List Nat := [0x31, 0x3B, 0x3B, 0x32, 0x33]

/-- The parameter string `2147483648`, used as a concrete example. -/
def wide_parameter : List Nat := [0x32, 0x31, 0x34, 0x37, 0x34, 0x38, 0x33, 0x36, 0x34, 0x38]

end Yaft

/-! # Theorems -/

namespace Yaft

/-! ## Loops -/

theorem for_up_aux_inv {σ : Type} (P : σ → Prop) (body : σ → Int → Option σ) :
    ∀ (n : Nat) (lo : Int) (s s1 : σ),
      (∀ (a : σ) (i : Int) (b : σ), lo ≤ i → i < lo + n → P a → body a i = some b → P b) →
      P s → for_up_aux body n lo s = some s1 → P s1 := by
  intro n
  induction n with
  | zero =>
    intro lo s s1 _ hs h
    simp only [for_up_aux, Option.some.injEq] at h
    exact h ▸ hs
  | succ n ih =>
    intro lo s s1 hb hs h
    simp only [for_up_aux] at h
    split at h
    · exact absurd h (by simp)
    · rename_i s2 h2
      refine ih (lo + 1) s2 s1 ?_ (hb s lo s2 (le_refl _) (by omega) hs h2) h
      intro a i b h1 h3 ha hab
      exact hb a i b (by omega) (by push_cast; omega) ha hab

theorem for_up_inv {σ : Type} (P : σ → Prop) (body : σ → Int → Option σ) (lo hi : Int)
    (s s1 : σ)
    (hb : ∀ (a : σ) (i : Int) (b : σ), lo ≤ i → i < hi → P a → body a i = some b → P b)
    (hs : P s) (h : for_up lo hi body s = some s1) : P s1 := by
  unfold for_up at h
  refine for_up_aux_inv P body _ lo s s1 ?_ hs h
  intro a i b h1 h2 ha hab
  exact hb a i b h1 (by omega) ha hab

theorem for_down_aux_inv {σ : Type} (P : σ → Prop) (body : σ → Int → Option σ) :
    ∀ (n : Nat) (hi : Int) (s s1 : σ),
      (∀ (a : σ) (i : Int) (b : σ), hi - n < i → i ≤ hi → P a → body a i = some b → P b) →
      P s → for_down_aux body n hi s = some s1 → P s1 := by
  intro n
  induction n with
  | zero =>
    intro hi s s1 _ hs h
    simp only [for_down_aux, Option.some.injEq] at h
    exact h ▸ hs
  | succ n ih =>
    intro hi s s1 hb hs h
    simp only [for_down_aux] at h
    split at h
    · exact absurd h (by simp)
    · rename_i s2 h2
      refine ih (hi - 1) s2 s1 ?_ (hb s hi s2 (by push_cast; omega) (le_refl _) hs h2) h
      intro a i b h1 h3 ha hab
      exact hb a i b (by push_cast; omega) (by omega) ha hab

theorem for_down_inv {σ : Type} (P : σ → Prop) (body : σ → Int → Option σ) (hi lo : Int)
    (s s1 : σ)
    (hb : ∀ (a : σ) (i : Int) (b : σ), lo ≤ i → i ≤ hi → P a → body a i = some b → P b)
    (hs : P s) (h : for_down hi lo body s = some s1) : P s1 := by
  unfold for_down at h
  refine for_down_aux_inv P body _ hi s s1 ?_ hs h
  intro a i b h1 h2 ha hab
  exact hb a i b (by omega) h2 ha hab

theorem for_up_aux_ind {σ : Type} (P : Int → σ → Prop) (body : σ → Int → Option σ) :
    ∀ (n : Nat) (lo : Int) (s s1 : σ),
      (∀ (a : σ) (i : Int) (b : σ), lo ≤ i → i < lo + n → P i a → body a i = some b →
        P (i + 1) b) →
      P lo s → for_up_aux body n lo s = some s1 → P (lo + n) s1 := by
  intro n
  induction n with
  | zero =>
    intro lo s s1 _ hs h
    simp only [for_up_aux, Option.some.injEq] at h
    simpa [← h] using hs
  | succ n ih =>
    intro lo s s1 hb hs h
    simp only [for_up_aux] at h
    split at h
    · exact absurd h (by simp)
    · rename_i s2 h2
      have h3 := ih (lo + 1) s2 s1 ?_ (hb s lo s2 (le_refl _) (by omega) hs h2) h
      · have e : lo + ((n + 1 : Nat) : Int) = lo + 1 + (n : Int) := by push_cast; omega
        rw [e]; exact h3
      · intro a i b h1 h3 ha hab
        exact hb a i b (by omega) (by push_cast; omega) ha hab

theorem for_up_ind {σ : Type} (P : Int → σ → Prop) (body : σ → Int → Option σ) (lo hi : Int)
    (s s1 : σ) (hle : lo ≤ hi)
    (hb : ∀ (a : σ) (i : Int) (b : σ), lo ≤ i → i < hi → P i a → body a i = some b →
      P (i + 1) b)
    (hs : P lo s) (h : for_up lo hi body s = some s1) : P hi s1 := by
  unfold for_up at h
  have h3 := for_up_aux_ind P body _ lo s s1 ?_ hs h
  · have e : lo + (((hi - lo).toNat : Nat) : Int) = hi := by omega
    rw [e] at h3; exact h3
  · intro a i b h1 h2 ha hab
    exact hb a i b h1 (by omega) ha hab

/-! ## The relations `Touch` and `Step` -/

theorem Touch.stay (S : Nat → Prop) (t : terminal_t) : Touch S t t :=
  ⟨rfl, rfl, rfl, rfl, rfl, rfl, rfl, fun _ _ h => h, rfl, fun _ h => h, fun _ _ => rfl⟩

theorem Touch.seq {S : Nat → Prop} {a b c : terminal_t} (h1 : Touch S a b)
    (h2 : Touch S b c) : Touch S a c where
  cols := h2.cols.trans h1.cols
  lines := h2.lines.trans h1.lines
  cursor := h2.cursor.trans h1.cursor
  scroll := h2.scroll.trans h1.scroll
  saved := h2.saved.trans h1.saved
  tabs := h2.tabs.trans h1.tabs
  rows := h2.rows.trans h1.rows
  row_len := fun n hr h =>
    h2.row_len n (by rw [h1.rows, h1.lines]; exact hr) (h1.row_len n hr h)
  dirty_len := h2.dirty_len.trans h1.dirty_len
  mono := fun r h => h2.mono r (h1.mono r h)
  same := fun r h => (h2.same r h).trans (h1.same r h)

theorem Touch.weaken {S T : Nat → Prop} {a b : terminal_t} (h : Touch S a b)
    (hst : ∀ r, S r → T r) : Touch T a b :=
  { h with same := fun r hr => h.same r (fun hs => hr (hst r hs)) }

theorem Touch.shape {S : Nat → Prop} {a b : terminal_t} (h : Touch S a b) (hs : Shape a) :
    Shape b where
  rows := by rw [h.rows, h.lines]; exact hs.rows
  row_len := by rw [h.cols]; exact h.row_len _ hs.rows hs.row_len
  dirty_len := by rw [h.dirty_len, h.lines]; exact hs.dirty_len
  tab_len := by rw [h.tabs, h.cols]; exact hs.tab_len
  top_u16 := by rw [h.scroll]; exact hs.top_u16
  bottom_u16 := by rw [h.scroll]; exact hs.bottom_u16
  x_u16 := by rw [h.cursor]; exact hs.x_u16
  y_u16 := by rw [h.cursor]; exact hs.y_u16
  saved_x_u16 := by rw [h.saved]; exact hs.saved_x_u16
  saved_y_u16 := by rw [h.saved]; exact hs.saved_y_u16

theorem Touch.bounds {S : Nat → Prop} {a b : terminal_t} (h : Touch S a b) (hb : Bounds a) :
    Bounds b := by
  obtain ⟨h1, h2, h3, h4, h5, h6, h7, h8, h9⟩ := hb
  refine ⟨?_, ?_, ?_, ?_, ?_, ?_, ?_, ?_, ?_⟩ <;>
    simp only [h.cols, h.lines, h.cursor, h.scroll, h.saved] <;> assumption

/-- A run that touched only rows that end up dirty is a `Step`. -/
theorem Touch.step {S : Nat → Prop} {a b : terminal_t} (h : Touch S a b)
    (hd : Shape a → ∀ r : Nat, S r → r < a.lines → b.line_dirty[r]? = some true) : Step a b where
  cols := h.cols
  lines := h.lines
  shape := h.shape
  bounds := fun _ hb => h.bounds hb
  mono := h.mono
  chg := by
    intro hs r hne
    by_cases hS : S r
    · by_cases hr : r < a.lines
      · exact hd hs r hS hr
      · exfalso
        apply hne
        rw [List.getElem?_eq_none (by rw [h.rows, hs.rows]; omega),
          List.getElem?_eq_none (by rw [hs.rows]; omega)]
    · exact absurd (h.same r hS) hne

theorem Step.refl (t : terminal_t) : Step t t :=
  ⟨rfl, rfl, fun h => h, fun _ h => h, fun _ h => h, fun _ _ h => absurd rfl h⟩

theorem Step.trans {a b c : terminal_t} (h1 : Step a b) (h2 : Step b c) : Step a c where
  cols := h2.cols.trans h1.cols
  lines := h2.lines.trans h1.lines
  shape := fun h => h2.shape (h1.shape h)
  bounds := fun hs hb => h2.bounds (h1.shape hs) (h1.bounds hs hb)
  mono := fun r h => h2.mono r (h1.mono r h)
  chg := by
    intro hs r hne
    by_cases hab : b.cells[r]? = a.cells[r]?
    · exact h2.chg (h1.shape hs) r (by rw [hab]; exact hne)
    · exact h2.mono r (h1.chg hs r hab)

end Yaft

namespace Yaft

/-! ## Array accesses -/

theorem mem_set_row {α : Type} (l : List (List α)) (i : Nat) (r : List α) (n : Nat)
    (hl : ∀ row ∈ l, row.length = n) (hr : i < l.length → r.length = n) :
    ∀ row ∈ l.set i r, row.length = n := by
  intro row hrow
  by_cases hi : i < l.length
  · rcases List.mem_or_eq_of_mem_set hrow with h1 | h1
    · exact hl row h1
    · rw [h1]; exact hr hi
  · rw [List.set_eq_of_length_le (by omega)] at hrow
    exact hl row hrow

theorem getD_row_length {α : Type} (l : List (List α)) (i : Nat) (n : Nat)
    (hl : ∀ row ∈ l, row.length = n) (hi : i < l.length) : (l.getD i []).length = n := by
  rw [List.getD_eq_getElem _ _ hi]
  exact hl _ (List.getElem_mem _)

theorem set_true_mono (l : List Bool) (i r : Nat) (h : l[r]? = some true) :
    (l.set i true)[r]? = some true := by
  rw [List.getElem?_set]
  split
  · rename_i hir
    subst hir
    have : i < l.length := by
      rcases List.getElem?_eq_some.mp h with ⟨h1, _⟩
      exact h1
    simp [this]
  · exact h

theorem cell_store_touch {t t1 : terminal_t} {y x : Int} {c : cell_t}
    (h : cell_store t y x c = some t1) : Touch (fun r => r = y.toNat) t t1 := by
  unfold cell_store at h
  split at h
  · simp only [Option.some.injEq] at h
    subst h
    refine ⟨rfl, rfl, rfl, rfl, rfl, rfl, ?_, ?_, rfl, fun _ h => h, ?_⟩
    · simp
    · intro n _ hn
      refine mem_set_row _ _ _ _ hn ?_
      intro hi
      rw [List.length_set]
      exact getD_row_length _ _ _ hn hi
    · intro r hr
      exact List.getElem?_set_ne (fun h => hr h.symm)
  · exact absurd h (by simp)

theorem cell_store_range {t t1 : terminal_t} {y x : Int} {c : cell_t}
    (h : cell_store t y x c = some t1) : 0 ≤ y ∧ y < t.lines ∧ 0 ≤ x ∧ x < t.cols := by
  unfold cell_store at h
  split at h
  · assumption
  · exact absurd h (by simp)

theorem line_dirty_store_touch {t t1 : terminal_t} {y : Int}
    (h : line_dirty_store t y true = some t1) : Touch (fun _ => False) t t1 := by
  unfold line_dirty_store at h
  split at h
  · simp only [Option.some.injEq] at h
    subst h
    refine ⟨rfl, rfl, rfl, rfl, rfl, rfl, rfl, fun _ _ h => h, ?_, ?_, fun _ _ => rfl⟩
    · simp
    · intro r hr
      exact set_true_mono _ _ _ hr
  · exact absurd h (by simp)

theorem line_dirty_store_flag {t t1 : terminal_t} {y : Int}
    (h : line_dirty_store t y true = some t1) (hs : t.line_dirty.length = t.lines) :
    t1.line_dirty[y.toNat]? = some true := by
  unfold line_dirty_store at h
  split at h
  · rename_i hy
    simp only [Option.some.injEq] at h
    subst h
    simp only
    rw [List.getElem?_set_self (by omega)]
  · exact absurd h (by simp)

theorem tabstop_store_touch {t t1 : terminal_t} {x : Int} {b : Bool}
    (h : tabstop_store t x b = some t1) : Touch (fun _ => False) t t1 := by
  unfold tabstop_store at h
  split at h
  · simp only [Option.some.injEq] at h
    subst h
    refine ⟨rfl, rfl, rfl, rfl, rfl, ?_, rfl, fun _ _ h => h, rfl, fun _ h => h, fun _ _ => rfl⟩
    simp
  · exact absurd h (by simp)

theorem swap_lines_touch {t t1 : terminal_t} {i j : Int} (h : swap_lines t i j = some t1) :
    Touch (fun r => r = i.toNat ∨ r = j.toNat) t t1 ∧ t1.line_dirty = t.line_dirty := by
  unfold swap_lines at h
  split at h
  · rename_i hij
    simp only [Option.some.injEq] at h
    subst h
    refine ⟨⟨rfl, rfl, rfl, rfl, rfl, rfl, ?_, ?_, rfl, fun _ h => h, ?_⟩, rfl⟩
    · simp
    · intro n hlen hn
      refine mem_set_row _ _ _ _ ?_ ?_
      · refine mem_set_row _ _ _ _ hn ?_
        intro _
        exact getD_row_length _ _ _ hn (by omega)
      · intro _
        exact getD_row_length _ _ _ hn (by omega)
    · intro r hr
      simp only [not_or] at hr
      rw [List.getElem?_set_ne (fun h => hr.2 h.symm), List.getElem?_set_ne (fun h => hr.1 h.symm)]
  · exact absurd h (by simp)

end Yaft

namespace Yaft

/-! ## Grid primitives -/

theorem erase_cell_touch {t t1 : terminal_t} {y x : Int} (h : erase_cell t y x = some t1) :
    Touch (fun r => r = y.toNat) t t1
      ∧ (t.line_dirty.length = t.lines → t1.line_dirty[y.toNat]? = some true) := by
  unfold erase_cell at h
  split at h
  · exact absurd h (by simp)
  · rename_i t2 h2
    have a := cell_store_touch h2
    have b := line_dirty_store_touch h
    refine ⟨a.seq (b.weaken (fun _ hf => hf.elim)), fun hl => ?_⟩
    exact line_dirty_store_flag h (by rw [a.dirty_len, a.lines]; exact hl)

theorem erase_cell_range {t t1 : terminal_t} {y x : Int} (h : erase_cell t y x = some t1) :
    0 ≤ y ∧ y < t.lines ∧ 0 ≤ x ∧ x < t.cols := by
  unfold erase_cell at h
  split at h
  · exact absurd h (by simp)
  · rename_i t2 h2
    exact cell_store_range h2

theorem erase_cell_step {t t1 : terminal_t} {y x : Int} (h : erase_cell t y x = some t1) :
    Step t t1 :=
  (erase_cell_touch h).1.step (fun hs r hr _ => by
    subst hr; exact (erase_cell_touch h).2 hs.dirty_len)

theorem copy_cell_touch {t t1 : terminal_t} {dy dx sy sx : Int}
    (h : copy_cell t dy dx sy sx = some t1) :
    Touch (fun r => r = dy.toNat) t t1
      ∧ (t1 = t ∨ (t.line_dirty.length = t.lines → t1.line_dirty[dy.toNat]? = some true)) := by
  unfold copy_cell at h
  split at h
  · exact absurd h (by simp)
  · rename_i src hsrc
    split at h
    · simp only [Option.some.injEq] at h
      subst h
      exact ⟨Touch.stay _ _, Or.inl rfl⟩
    · split at h
      · exact ⟨(erase_cell_touch h).1, Or.inr (erase_cell_touch h).2⟩
      · split at h
        · exact absurd h (by simp)
        · rename_i t2 h2
          have a := cell_store_touch h2
          split at h
          · split at h
            · exact absurd h (by simp)
            · rename_i t3 h3
              have b := cell_store_touch h3
              have c := line_dirty_store_touch h
              refine ⟨a.seq (b.seq (c.weaken (fun _ hf => hf.elim))), Or.inr fun hl => ?_⟩
              exact line_dirty_store_flag h
                (by rw [b.dirty_len, b.lines, a.dirty_len, a.lines]; exact hl)
          · have c := line_dirty_store_touch h
            refine ⟨a.seq (c.weaken (fun _ hf => hf.elim)), Or.inr fun hl => ?_⟩
            exact line_dirty_store_flag h (by rw [a.dirty_len, a.lines]; exact hl)

theorem copy_cell_step {t t1 : terminal_t} {dy dx sy sx : Int}
    (h : copy_cell t dy dx sy sx = some t1) : Step t t1 := by
  rcases (copy_cell_touch h).2 with h1 | h1
  · rw [h1]; exact Step.refl t
  · exact (copy_cell_touch h).1.step (fun hs r hr _ => by subst hr; exact h1 hs.dirty_len)

theorem set_cell_touch {t t1 : terminal_t} {y x w : Int} {g : glyph_t}
    (h : set_cell t y x g = some (t1, w)) :
    Touch (fun r => r = y.toNat) t t1
      ∧ (t.line_dirty.length = t.lines → t1.line_dirty[y.toNat]? = some true)
      ∧ (w = 1 ∨ w = 2) := by
  unfold set_cell at h
  simp only at h
  split at h
  · exact absurd h (by simp)
  · rename_i t2 h2
    have a := cell_store_touch h2
    split at h
    · exact absurd h (by simp)
    · rename_i t3 h3
      have b := line_dirty_store_touch h3
      have ab := a.seq (b.weaken (fun _ hf => hf.elim))
      have fl : t.line_dirty.length = t.lines → t3.line_dirty[y.toNat]? = some true :=
        fun hl => line_dirty_store_flag h3 (by rw [a.dirty_len, a.lines]; exact hl)
      split at h
      · split at h
        · exact absurd h (by simp)
        · rename_i t4 h4
          simp only [Option.some.injEq, Prod.mk.injEq] at h
          obtain ⟨h5, h6⟩ := h
          subst h5
          have c := cell_store_touch h4
          exact ⟨ab.seq c, fun hl => c.mono _ (fl hl), Or.inr (by simp [← h6, WIDE])⟩
      · split at h
        · split at h
          · exact absurd h (by simp)
          · split at h
            · split at h
              · exact absurd h (by simp)
              · rename_i t4 h4
                simp only [Option.some.injEq, Prod.mk.injEq] at h
                obtain ⟨h5, h6⟩ := h
                subst h5
                have c := (erase_cell_touch h4).1
                exact ⟨ab.seq c, fun hl => c.mono _ (fl hl), Or.inl (by simp [← h6, HALF])⟩
            · simp only [Option.some.injEq, Prod.mk.injEq] at h
              obtain ⟨h5, h6⟩ := h
              subst h5
              exact ⟨ab, fl, Or.inl (by simp [← h6, HALF])⟩
        · simp only [Option.some.injEq, Prod.mk.injEq] at h
          obtain ⟨h5, h6⟩ := h
          subst h5
          exact ⟨ab, fl, Or.inl (by simp [← h6, HALF])⟩

theorem set_cell_step {t t1 : terminal_t} {y x w : Int} {g : glyph_t}
    (h : set_cell t y x g = some (t1, w)) : Step t t1 :=
  (set_cell_touch h).1.step (fun hs r hr _ => by
    subst hr; exact (set_cell_touch h).2.1 hs.dirty_len)

theorem erase_row_step {t t1 : terminal_t} {y : Int} (h : erase_row t y = some t1) :
    Step t t1 := by
  unfold erase_row at h
  exact for_up_inv (fun s => Step t s) _ _ _ _ _
    (fun a i b _ _ ha hab => ha.trans (erase_cell_step hab)) (Step.refl t) h

end Yaft

namespace Yaft

theorem line_dirty_store_range {t t1 : terminal_t} {y : Int} {b : Bool}
    (h : line_dirty_store t y b = some t1) : 0 ≤ y ∧ y < t.lines := by
  unfold line_dirty_store at h
  split at h
  · assumption
  · exact absurd h (by simp)

theorem swap_lines_range {t t1 : terminal_t} {i j : Int} (h : swap_lines t i j = some t1) :
    0 ≤ i ∧ i < t.lines ∧ 0 ≤ j ∧ j < t.lines := by
  unfold swap_lines at h
  split at h
  · assumption
  · exact absurd h (by simp)

/-- The first loop of `scroll_window`: every row of the window is flagged dirty. -/
theorem dirty_loop_post {t t1 : terminal_t} {frm til : Int} (hlt : frm < til)
    (h : for_up frm (til + 1) (fun s y => line_dirty_store s y true) t = some t1) :
    Touch (fun _ => False) t t1 ∧ 0 ≤ frm ∧ til < t.lines
      ∧ (t.line_dirty.length = t.lines →
          ∀ r : Nat, frm ≤ (r : Int) → (r : Int) ≤ til → t1.line_dirty[r]? = some true) := by
  have key := for_up_ind
    (fun i s => Touch (fun _ => False) t s
      ∧ (frm < i → 0 ≤ frm ∧ i ≤ t.lines)
      ∧ (t.line_dirty.length = t.lines →
          ∀ r : Nat, frm ≤ (r : Int) → (r : Int) < i → s.line_dirty[r]? = some true))
    _ frm (til + 1) t t1 (by omega) ?_ ?_ h
  · obtain ⟨k1, k2, k3⟩ := key
    have k4 := k2 (by omega)
    exact ⟨k1, k4.1, by omega, fun hl r hr1 hr2 => k3 hl r hr1 (by omega)⟩
  · intro a i b hi1 hi2 ⟨p1, p2, p3⟩ hab
    have q := line_dirty_store_touch hab
    have rg := line_dirty_store_range hab
    rw [p1.lines] at rg
    refine ⟨p1.seq q, fun _ => ⟨by omega, by omega⟩, fun hl r hr1 hr2 => ?_⟩
    by_cases hri : (r : Int) < i
    · exact q.mono r (p3 hl r hr1 hri)
    · have e : r = i.toNat := by omega
      rw [e]
      exact line_dirty_store_flag hab (by rw [p1.dirty_len, p1.lines]; exact hl)
  · exact ⟨Touch.stay _ _, fun hf => absurd hf (by omega), fun _ r h1 h2 => absurd h2 (by omega)⟩

theorem scroll_window_step {t t1 : terminal_t} {frm til offset : Int}
    (h1 : -2147483648 < offset) (h2 : offset < 2147483648) (h3 : til < 65536)
    (h : scroll_window t frm til offset = some t1) : Step t t1 := by
  unfold scroll_window at h
  split at h
  · simp only [Option.some.injEq] at h
    rw [← h]; exact Step.refl t
  · rename_i hc
    simp only [not_or, not_le, ge_iff_le] at hc
    split at h
    · exact absurd h (by simp)
    split at h
    · exact absurd h (by simp)
    · rename_i ta hta
      obtain ⟨d1, d2, d3, d4⟩ := dirty_loop_post hc.2 hta
      simp only at h
      have habs : to_int (Int.natAbs offset) = Int.natAbs offset := by
        unfold to_int; omega
      rw [habs] at h
      split at h
      · rename_i hpos
        split at h
        · exact absurd h (by simp)
        · rename_i tb htb
          have sw := for_up_inv
            (fun s => Touch (fun r : Nat => frm ≤ (r : Int) ∧ (r : Int) ≤ til) ta s
              ∧ s.line_dirty = ta.line_dirty) _ _ _ ta tb ?_ ⟨Touch.stay _ _, rfl⟩ htb
          · have st1 : Step t tb :=
              ((d1.weaken (fun _ hf => hf.elim)).seq sw.1).step (fun hs r hr _ => by
                rw [sw.2]; exact d4 hs.dirty_len r hr.1 hr.2)
            refine st1.trans ?_
            exact for_up_inv (fun s => Step tb s) _ _ _ _ _
              (fun a i b _ _ ha hab => ha.trans (erase_row_step hab)) (Step.refl tb) h
          · intro a i b hi1 hi2 ⟨p1, p2⟩ hab
            obtain ⟨q1, q2⟩ := swap_lines_touch hab
            have rg := swap_lines_range hab
            refine ⟨p1.seq (q1.weaken ?_), q2.trans p2⟩
            intro r hr
            rcases hr with hr | hr <;> omega
      · rename_i hneg
        split at h
        · exact absurd h (by simp)
        · rename_i tb htb
          have sw := for_down_inv
            (fun s => Touch (fun r : Nat => frm ≤ (r : Int) ∧ (r : Int) ≤ til) ta s
              ∧ s.line_dirty = ta.line_dirty) _ _ _ ta tb ?_ ⟨Touch.stay _ _, rfl⟩ htb
          · have st1 : Step t tb :=
              ((d1.weaken (fun _ hf => hf.elim)).seq sw.1).step (fun hs r hr _ => by
                rw [sw.2]; exact d4 hs.dirty_len r hr.1 hr.2)
            refine st1.trans ?_
            exact for_up_inv (fun s => Step tb s) _ _ _ _ _
              (fun a i b _ _ ha hab => ha.trans (erase_row_step hab)) (Step.refl tb) h
          · intro a i b hi1 hi2 ⟨p1, p2⟩ hab
            obtain ⟨q1, q2⟩ := swap_lines_touch hab
            have rg := swap_lines_range hab
            refine ⟨p1.seq (q1.weaken ?_), q2.trans p2⟩
            intro r hr
            unfold to_int at hi1
            rcases hr with hr | hr <;> omega

theorem erase_row_touch {t t1 : terminal_t} {y : Int} (h : erase_row t y = some t1) :
    Touch (fun _ => True) t t1 := by
  unfold erase_row at h
  exact for_up_inv (fun s => Touch (fun _ => True) t s) _ _ _ _ _
    (fun a i b _ _ ha hab => ha.seq ((erase_cell_touch hab).1.weaken (fun _ _ => trivial)))
    (Touch.stay _ t) h

/-- The function `scroll_window` writes nothing but cells and dirty flags. -/
theorem scroll_window_touch {t t1 : terminal_t} {frm til offset : Int}
    (h : scroll_window t frm til offset = some t1) : Touch (fun _ => True) t t1 := by
  unfold scroll_window at h
  split at h
  · simp only [Option.some.injEq] at h
    rw [← h]; exact Touch.stay _ t
  · split at h
    · exact absurd h (by simp)
    split at h
    · exact absurd h (by simp)
    · rename_i ta hta
      have d := for_up_inv (fun s => Touch (fun _ => True) t s) _ _ _ _ _
        (fun a i b _ _ ha hab =>
          ha.seq ((line_dirty_store_touch hab).weaken (fun _ _ => trivial)))
        (Touch.stay _ t) hta
      simp only at h
      split at h
      · split at h
        · exact absurd h (by simp)
        · rename_i tb htb
          have sw := for_up_inv (fun s => Touch (fun _ => True) ta s) _ _ _ _ _
            (fun a i b _ _ ha hab =>
              ha.seq ((swap_lines_touch hab).1.weaken (fun _ _ => trivial)))
            (Touch.stay _ ta) htb
          have er := for_up_inv (fun s => Touch (fun _ => True) tb s) _ _ _ _ _
            (fun a i b _ _ ha hab => ha.seq (erase_row_touch hab)) (Touch.stay _ tb) h
          exact d.seq (sw.seq er)
      · split at h
        · exact absurd h (by simp)
        · rename_i tb htb
          have sw := for_down_inv (fun s => Touch (fun _ => True) ta s) _ _ _ _ _
            (fun a i b _ _ ha hab =>
              ha.seq ((swap_lines_touch hab).1.weaken (fun _ _ => trivial)))
            (Touch.stay _ ta) htb
          have er := for_up_inv (fun s => Touch (fun _ => True) tb s) _ _ _ _ _
            (fun a i b _ _ ha hab => ha.seq (erase_row_touch hab)) (Touch.stay _ tb) h
          exact d.seq (sw.seq er)

end Yaft

namespace Yaft

/-! ## Cursor movement -/

/-- A run that leaves the grid, the dirty flags and the sizes alone is a `Step` as soon
as it keeps the typing of the `uint16_t` fields and the bounds. -/
theorem step_of_grid_eq {t t1 : terminal_t} (h1 : t1.cols = t.cols) (h2 : t1.lines = t.lines)
    (h3 : t1.cells = t.cells) (h4 : t1.line_dirty = t.line_dirty)
    (h5 : t1.tabstop.length = t.tabstop.length)
    (hu : Shape t → t1.scroll.top < 65536 ∧ t1.scroll.bottom < 65536 ∧ t1.cursor.x < 65536
      ∧ t1.cursor.y < 65536 ∧ t1.state.cursor.x < 65536 ∧ t1.state.cursor.y < 65536)
    (hb : Shape t → Bounds t → Bounds t1) : Step t t1 where
  cols := h1
  lines := h2
  shape := fun hs =>
    { rows := by rw [h3, h2]; exact hs.rows
      row_len := by rw [h3, h1]; exact hs.row_len
      dirty_len := by rw [h4, h2]; exact hs.dirty_len
      tab_len := by rw [h5, h1]; exact hs.tab_len
      top_u16 := (hu hs).1
      bottom_u16 := (hu hs).2.1
      x_u16 := (hu hs).2.2.1
      y_u16 := (hu hs).2.2.2.1
      saved_x_u16 := (hu hs).2.2.2.2.1
      saved_y_u16 := (hu hs).2.2.2.2.2 }
  bounds := hb
  mono := fun r h => by rw [h4]; exact h
  chg := fun _ r h => absurd (by rw [h3]) h

theorem to_u16_lt (v : Int) : to_u16 v < 65536 := by
  unfold to_u16; omega

theorem to_u16_le (v : Int) (h : 0 ≤ v) : (to_u16 v : Int) ≤ v := by
  unfold to_u16; omega

theorem to_u16_lt_of (v : Int) (n : Nat) (h0 : 0 ≤ v) (h1 : v < n) : to_u16 v < n := by
  unfold to_u16; omega

/-- Moving the cursor to a position inside the grid. -/
theorem step_cursor (t : terminal_t) (x y : Nat) (w : Bool)
    (hu : x < 65536 ∧ (Shape t → y < 65536))
    (hb : Bounds t → x < t.cols ∧ y < t.lines) :
    Step t { t with cursor := { x := x, y := y }, wrap_occured := w } :=
  step_of_grid_eq rfl rfl rfl rfl rfl
    (fun hs => ⟨hs.top_u16, hs.bottom_u16, hu.1, hu.2 hs, hs.saved_x_u16, hs.saved_y_u16⟩)
    (fun _ b => ⟨b.cols_pos, b.lines_pos, (hb b).1, (hb b).2, b.sav_x, b.sav_y, b.top_lt,
      b.bot_lt, b.margin⟩)

theorem set_cursor_step (t : terminal_t) (y x : Int) : Step t (set_cursor_to t y x) := by
  unfold set_cursor_to
  refine step_cursor t _ _ false ⟨to_u16_lt _, fun _ => to_u16_lt _⟩ (fun b => ?_)
  obtain ⟨b1, b2, b3, b4, b5, b6, b7, b8, b9⟩ := b
  constructor
  · split_ifs <;> unfold to_u16 <;> omega
  · split_ifs <;> unfold to_u16 <;> omega

/-- A call of `set_cursor` that returns has made the stores of `set_cursor_to`. -/
theorem set_cursor_some {t t1 : terminal_t} {y x : Int} (h : set_cursor t y x = some t1) :
    t1 = set_cursor_to t y x := by
  unfold set_cursor at h
  split at h
  · exact absurd h (by simp)
  · exact (Option.some.inj h).symm

/-- The function `set_cursor` returns when `y + scroll.top` is in the range of `int`. -/
theorem set_cursor_total (t : terminal_t) (y x : Int) (h : in_int (y + t.scroll.top)) :
    set_cursor t y x = some (set_cursor_to t y x) := by
  unfold set_cursor
  rw [if_neg (fun c => c.2 h)]

/-- The function `set_cursor` returns outside origin mode. -/
theorem set_cursor_plain (t : terminal_t) (y x : Int) (ho : has_bit t.mode MODE_ORIGIN = false) :
    set_cursor t y x = some (set_cursor_to t y x) := by
  unfold set_cursor
  rw [if_neg (fun c => by rw [ho] at c; exact absurd c.1 (by decide))]

theorem set_cursor_run {t t1 : terminal_t} {y x : Int} (h : set_cursor t y x = some t1) :
    Step t t1 := by
  rw [set_cursor_some h]; exact set_cursor_step t y x

/-- A guarded computation that returns a value has passed its guard. -/
theorem guard_some {α : Type} {c : Prop} [Decidable c] {o : Option α} {a : α}
    (h : (if c then none else o) = some a) : ¬ c ∧ o = some a := by
  split at h
  · exact absurd h (by simp)
  · rename_i hc; exact ⟨hc, h⟩

/-- The sums `cursor.x + x_offset` and `cursor.y + y_offset` of `move_cursor` do not
overflow when the cursor fields are in the range of `uint16_t` and the offsets leave
room for them. -/
theorem move_cursor_defined (t : terminal_t) (dy dx : Int) (hx16 : t.cursor.x < 65536)
    (hy16 : t.cursor.y < 65536) (hx1 : -2147483648 ≤ dx) (hx2 : dx ≤ 2147418112)
    (hy1 : -2147483648 ≤ dy) (hy2 : dy ≤ 2147418112) :
    ¬ ¬ (in_int ((t.cursor.x : Int) + dx) ∧ in_int ((t.cursor.y : Int) + dy)) := by
  unfold in_int
  omega

theorem move_cursor_x_step (t : terminal_t) (dx : Int) : Step t (move_cursor_x t dx) := by
  unfold move_cursor_x
  simp only
  split
  · exact step_cursor t (to_u16 0) t.cursor.y t.wrap_occured
      ⟨to_u16_lt _, fun hs => hs.y_u16⟩
      (fun b => ⟨to_u16_lt_of _ _ (le_refl _) (by have := b.cols_pos; omega), b.cur_y⟩)
  · split
    · exact step_cursor t (to_u16 ((t.cols : Int) - 1)) t.cursor.y _
        ⟨to_u16_lt _, fun hs => hs.y_u16⟩
        (fun b => ⟨to_u16_lt_of _ _ (by have := b.cols_pos; omega) (by omega), b.cur_y⟩)
    · exact step_cursor t (to_u16 (to_int (t.cursor.x + dx))) t.cursor.y t.wrap_occured
        ⟨to_u16_lt _, fun hs => hs.y_u16⟩
        (fun b => ⟨to_u16_lt_of _ _ (by omega) (by omega), b.cur_y⟩)

theorem move_cursor_x_frame (t : terminal_t) (dx : Int) :
    (move_cursor_x t dx).cursor.y = t.cursor.y ∧ (move_cursor_x t dx).scroll = t.scroll
      ∧ (move_cursor_x t dx).lines = t.lines := by
  unfold move_cursor_x
  simp only
  split_ifs <;> exact ⟨rfl, rfl, rfl⟩

theorem store_cursor_y_step (t : terminal_t) (v : Int) (hv : Bounds t → 0 ≤ v ∧ v < t.lines) :
    Step t (store_cursor_y t v) := by
  unfold store_cursor_y
  refine step_of_grid_eq rfl rfl rfl rfl rfl
    (fun hs => ⟨hs.top_u16, hs.bottom_u16, hs.x_u16, to_u16_lt _, hs.saved_x_u16,
      hs.saved_y_u16⟩)
    (fun _ b => ⟨b.cols_pos, b.lines_pos, b.cur_x, to_u16_lt_of _ _ (hv b).1 (hv b).2, b.sav_x,
      b.sav_y, b.top_lt, b.bot_lt, b.margin⟩)

theorem move_cursor_step {t t1 : terminal_t} {dy dx : Int}
    (h1 : -2147483648 < dy) (h2 : dy < 2147483648) (hs : Shape t)
    (h : move_cursor t dy dx = some t1) : Step t t1 := by
  unfold move_cursor at h
  simp only at h
  obtain ⟨f1, f2, f3⟩ := move_cursor_x_frame t dx
  have hx := move_cursor_x_step t dx
  have hbot : (t.scroll.bottom : Int) < 65536 := by have := hs.bottom_u16; omega
  split at h
  · exact absurd h (by simp)
  split at h
  · split at h
    · exact absurd h (by simp)
    · rename_i t2 hsw
      simp only [Option.some.injEq] at h
      subst h
      have hw := scroll_window_step h1 h2 hbot hsw
      have ht := scroll_window_touch hsw
      refine hx.trans (hw.trans (store_cursor_y_step _ _ (fun b => ?_)))
      have := b.top_lt
      rw [ht.scroll, f2] at this
      omega
  · split at h
    · split at h
      · exact absurd h (by simp)
      · rename_i t2 hsw
        simp only [Option.some.injEq] at h
        subst h
        have hw := scroll_window_step h1 h2 hbot hsw
        have ht := scroll_window_touch hsw
        refine hx.trans (hw.trans (store_cursor_y_step _ _ (fun b => ?_)))
        have := b.bot_lt
        rw [ht.scroll, f2] at this
        omega
    · simp only [Option.some.injEq] at h
      subst h
      refine hx.trans (store_cursor_y_step _ _ (fun b => ?_))
      have := b.lines_pos
      rw [hx.lines] at this ⊢
      split_ifs <;> omega

end Yaft

namespace Yaft

/-! ## Character output and control characters -/

/-- A run that writes none of the fields the invariants speak about. -/
theorem step_of_frame {t t1 : terminal_t} (h1 : t1.cols = t.cols) (h2 : t1.lines = t.lines)
    (h3 : t1.cells = t.cells) (h4 : t1.line_dirty = t.line_dirty)
    (h5 : t1.tabstop = t.tabstop) (h6 : t1.scroll = t.scroll) (h7 : t1.cursor = t.cursor)
    (h8 : t1.state.cursor = t.state.cursor) : Step t t1 :=
  step_of_grid_eq h1 h2 h3 h4 (by rw [h5])
    (fun hs => by
      rw [h6, h7, h8]
      exact ⟨hs.top_u16, hs.bottom_u16, hs.x_u16, hs.y_u16, hs.saved_x_u16, hs.saved_y_u16⟩)
    (fun _ b => by
      obtain ⟨b1, b2, b3, b4, b5, b6, b7, b8, b9⟩ := b
      refine ⟨?_, ?_, ?_, ?_, ?_, ?_, ?_, ?_, ?_⟩ <;> simp only [h1, h2, h6, h7, h8] <;>
        assumption)

theorem set_cell_result {t t1 : terminal_t} {y x w : Int} {g : glyph_t}
    (h : set_cell t y x g = some (t1, w)) : -2147483648 < w ∧ w < 2147483648 := by
  rcases (set_cell_touch h).2.2 with h1 | h1 <;> omega

theorem add_char_step {wc : Nat → Int} {t t1 : terminal_t} {code : Nat} (hs : Shape t)
    (h : add_char wc t code = some t1) : Step t t1 := by
  unfold add_char at h
  simp only at h
  split at h
  · simp only [Option.some.injEq] at h
    rw [← h]; exact Step.refl t
  · split at h
    · exact absurd h (by simp)
    · rename_i g hg
      split at h
      · exact absurd h (by simp)
      · rename_i ta hta
        have s1 : Step t ta := by
          split at hta
          · obtain ⟨tc, hc1, hc2⟩ := Option.bind_eq_some.mp hta
            exact (set_cursor_run hc1).trans
              (move_cursor_step (by omega) (by omega) ((set_cursor_run hc1).shape hs) hc2)
          · simp only [Option.some.injEq] at hta
            rw [← hta]; exact Step.refl t
        split at h
        · exact absurd h (by simp)
        · rename_i tb w hsc
          have s2 : Step ta { ta with wrap_occured := false } :=
            step_of_frame rfl rfl rfl rfl rfl rfl rfl rfl
          have s3 := set_cell_step hsc
          have hw := set_cell_result hsc
          have s123 := s1.trans (s2.trans s3)
          exact s123.trans (move_cursor_step (by omega) (by omega) (s123.shape hs) h)

theorem reset_charset_step (t : terminal_t) : Step t (reset_charset t) :=
  step_of_frame rfl rfl rfl rfl rfl rfl rfl rfl

theorem reset_esc_step (t : terminal_t) : Step t (reset_esc t) :=
  step_of_frame rfl rfl rfl rfl rfl rfl rfl rfl

theorem emit_char_step {wc : Nat → Int} {t t1 : terminal_t} {code : Nat} (hs : Shape t)
    (h : emit_char wc t code = some t1) : Step t t1 := by
  unfold emit_char at h
  split at h
  · exact absurd h (by simp)
  · rename_i ta hta
    simp only [Option.some.injEq] at h
    rw [← h]
    exact (add_char_step hs hta).trans (reset_charset_step ta)

theorem utf8_charset_step {wc : Nat → Int} {t t1 : terminal_t} {ch : Nat} (hs : Shape t)
    (h : utf8_charset wc t ch = some t1) : Step t t1 := by
  unfold utf8_charset at h
  have fr : ∀ cs : charset_t, Step t { t with charset := cs } :=
    fun cs => step_of_frame rfl rfl rfl rfl rfl rfl rfl rfl
  split at h
  · simp only at h
    split at h
    · split at h
      · exact (fr _).trans (emit_char_step ((fr _).shape hs) h)
      · exact (fr _).trans (emit_char_step ((fr _).shape hs) h)
    · simp only [Option.some.injEq] at h
      rw [← h]; exact fr _
  · split at h
    · simp only [Option.some.injEq] at h
      rw [← h]; exact fr _
    · exact emit_char_step hs h

theorem bs_step {t t1 : terminal_t} (hs : Shape t) (h : bs t = some t1) : Step t t1 := by
  unfold bs at h
  split at h
  · split at h
    · exact absurd h (by simp)
    · split at h
      · exact move_cursor_step (by omega) (by omega) hs h
      · exact move_cursor_step (by omega) (by omega) hs h
  · exact move_cursor_step (by omega) (by omega) hs h

theorem tab_loop_step (t : terminal_t) : ∀ (n : Nat) (i : Int) (t1 : terminal_t),
    tab_loop t n i = some t1 → Step t t1 := by
  intro n
  induction n with
  | zero =>
    intro i t1 h
    simp only [tab_loop] at h
    exact set_cursor_run h
  | succ n ih =>
    intro i t1 h
    simp only [tab_loop] at h
    split at h
    · exact absurd h (by simp)
    · exact set_cursor_run h
    · exact ih _ _ h

theorem tab_step {t t1 : terminal_t} (h : tab t = some t1) : Step t t1 :=
  tab_loop_step t _ _ _ h

theorem newline_step {t t1 : terminal_t} (hs : Shape t) (h : newline t = some t1) : Step t t1 :=
  move_cursor_step (by omega) (by omega) hs h

theorem carriage_return_step {t t1 : terminal_t} (h : carriage_return t = some t1) :
    Step t t1 := by
  unfold carriage_return at h
  exact set_cursor_run h

theorem enter_esc_step {t t1 : terminal_t} (h : enter_esc t = some t1) : Step t t1 := by
  unfold enter_esc at h
  simp only [Option.some.injEq] at h
  rw [← h]; exact step_of_frame rfl rfl rfl rfl rfl rfl rfl rfl

theorem ctrl_func_step {t t1 : terminal_t} {ch : Nat} (hs : Shape t)
    (h : ctrl_func ch t = some t1) : Step t t1 := by
  unfold ctrl_func at h
  split_ifs at h
  · exact bs_step hs h
  · exact tab_step h
  · exact newline_step hs h
  · exact carriage_return_step h
  · exact enter_esc_step h
  · simp only [Option.some.injEq] at h
    rw [← h]; exact Step.refl t

end Yaft

namespace Yaft

/-! ## Reset and the functions of escape sequences -/

theorem touch_nothing_step {t t1 : terminal_t} (h : Touch (fun _ => False) t t1) : Step t t1 :=
  h.step (fun _ _ hf _ => hf.elim)

theorem reset_col_step {line : Int} {s s1 : terminal_t} {col : Int}
    (h : reset_col line s col = some s1) : Step s s1 := by
  unfold reset_col at h
  split at h
  · exact absurd h (by simp)
  · rename_i s2 h2
    exact (erase_cell_step h2).trans (touch_nothing_step (tabstop_store_touch h))

theorem reset_line_step {s s1 : terminal_t} {line : Int} (h : reset_line s line = some s1) :
    Step s s1 := by
  unfold reset_line at h
  split at h
  · exact absurd h (by simp)
  · rename_i s2 h2
    have a := for_up_inv (fun x => Step s x) _ _ _ _ _
      (fun a i b _ _ ha hab => ha.trans (reset_col_step hab)) (Step.refl s) h2
    exact a.trans (touch_nothing_step (line_dirty_store_touch h))

theorem reset_step {t t1 : terminal_t} (h : reset t = some t1) : Step t t1 := by
  unfold reset at h
  simp only at h
  split at h
  · exact absurd h (by simp)
  · rename_i t2 h2
    simp only [Option.some.injEq] at h
    rw [← h]
    have a := for_up_inv (fun x => Step _ x) _ _ _ _ _
      (fun a i b _ _ ha hab => ha.trans (reset_line_step hab)) (Step.refl _) h2
    refine Step.trans ?_ (a.trans ((reset_esc_step _).trans (reset_charset_step _)))
    refine step_of_grid_eq rfl rfl rfl rfl rfl
      (fun _ => ⟨by simp, to_u16_lt _, by simp, by simp, by simp, by simp⟩) (fun _ b => ?_)
    obtain ⟨b1, b2, b3, b4, b5, b6, b7, b8, b9⟩ := b
    refine ⟨b1, b2, by simp only; omega, by simp only; omega, by simp only; omega,
      by simp only; omega, by simp only; omega, ?_, ?_⟩
    · exact to_u16_lt_of ((t.lines : Int) - 1) t.lines (by omega) (by omega)
    · intro hl
      dsimp only at hl ⊢
      unfold to_u16
      omega

theorem save_state_step {t t1 : terminal_t} (h : save_state t = some t1) : Step t t1 := by
  unfold save_state at h
  simp only [Option.some.injEq] at h
  rw [← h]
  refine step_of_grid_eq rfl rfl rfl rfl rfl
    (fun hs => ⟨hs.top_u16, hs.bottom_u16, hs.x_u16, hs.y_u16, hs.x_u16, hs.y_u16⟩)
    (fun _ b => ?_)
  obtain ⟨b1, b2, b3, b4, b5, b6, b7, b8, b9⟩ := b
  exact ⟨b1, b2, b3, b4, b3, b4, b7, b8, b9⟩

theorem restore_state_step {t t1 : terminal_t} (h : restore_state t = some t1) :
    Step t t1 := by
  unfold restore_state at h
  simp only [Option.some.injEq] at h
  rw [← h]
  refine step_of_grid_eq rfl rfl rfl rfl rfl
    (fun hs => ⟨hs.top_u16, hs.bottom_u16, hs.saved_x_u16, hs.saved_y_u16, hs.saved_x_u16,
      hs.saved_y_u16⟩)
    (fun _ b => ?_)
  obtain ⟨b1, b2, b3, b4, b5, b6, b7, b8, b9⟩ := b
  exact ⟨b1, b2, b5, b6, b5, b6, b7, b8, b9⟩

theorem crnl_step {t t1 : terminal_t} (hs : Shape t) (h : crnl t = some t1) : Step t t1 := by
  unfold crnl at h
  split at h
  · exact absurd h (by simp)
  · rename_i t2 h2
    have a := carriage_return_step h2
    exact a.trans (newline_step (a.shape hs) h)

theorem set_tabstop_step {t t1 : terminal_t} (h : set_tabstop t = some t1) : Step t t1 :=
  touch_nothing_step (tabstop_store_touch h)

theorem reverse_nl_step {t t1 : terminal_t} (hs : Shape t) (h : reverse_nl t = some t1) :
    Step t t1 :=
  move_cursor_step (by omega) (by omega) hs h

theorem ewrite_step (t : terminal_t) (bytes : List Nat) : Step t (ewrite t bytes) :=
  step_of_frame rfl rfl rfl rfl rfl rfl rfl rfl

theorem esc_func_step {t t1 : terminal_t} {ch : Nat} (hs : Shape t)
    (h : esc_func ch t = some t1) : Step t t1 := by
  have fr : ∀ e : esc_t, Step t { t with esc := e } :=
    fun e => step_of_frame rfl rfl rfl rfl rfl rfl rfl rfl
  unfold esc_func at h
  by_cases c1 : ch = 0x37
  · rw [if_pos c1] at h; exact save_state_step h
  rw [if_neg c1] at h
  by_cases c2 : ch = 0x38
  · rw [if_pos c2] at h; exact restore_state_step h
  rw [if_neg c2] at h
  by_cases c3 : ch = 0x44
  · rw [if_pos c3] at h; exact newline_step hs h
  rw [if_neg c3] at h
  by_cases c4 : ch = 0x45
  · rw [if_pos c4] at h; exact crnl_step hs h
  rw [if_neg c4] at h
  by_cases c5 : ch = 0x48
  · rw [if_pos c5] at h; exact set_tabstop_step h
  rw [if_neg c5] at h
  by_cases c6 : ch = 0x4D
  · rw [if_pos c6] at h; exact reverse_nl_step hs h
  rw [if_neg c6] at h
  by_cases c7 : ch = 0x50
  · rw [if_pos c7] at h
    simp only [enter_dcs, Option.some.injEq] at h
    rw [← h]; exact fr _
  rw [if_neg c7] at h
  by_cases c8 : ch = 0x5A
  · rw [if_pos c8] at h
    simp only [identify, Option.some.injEq] at h
    rw [← h]; exact ewrite_step _ _
  rw [if_neg c8] at h
  by_cases c9 : ch = 0x5B
  · rw [if_pos c9] at h
    simp only [enter_csi, Option.some.injEq] at h
    rw [← h]; exact fr _
  rw [if_neg c9] at h
  by_cases c10 : ch = 0x5D
  · rw [if_pos c10] at h
    simp only [enter_osc, Option.some.injEq] at h
    rw [← h]; exact fr _
  rw [if_neg c10] at h
  by_cases c11 : ch = 0x63
  · rw [if_pos c11] at h; exact reset_step h
  rw [if_neg c11, Option.some.injEq] at h
  rw [← h]; exact Step.refl t

theorem esc_sequence_step {t t1 : terminal_t} {ch : Nat} (hs : Shape t)
    (h : esc_sequence t ch = some t1) : Step t t1 := by
  unfold esc_sequence at h
  split at h
  · exact absurd h (by simp)
  split at h
  · exact absurd h (by simp)
  · rename_i t2 h2
    have a : Step t t2 := by
      split at h2
      · exact esc_func_step hs h2
      · simp only [Option.some.injEq] at h2
        rw [← h2]; exact Step.refl t
    split at h
    · simp only [Option.some.injEq] at h
      rw [← h]; exact a
    · simp only [Option.some.injEq] at h
      rw [← h]; exact a.trans (reset_esc_step t2)

theorem push_esc_step (t : terminal_t) (ch : Nat) : Step t (push_esc t ch).1 := by
  unfold push_esc
  simp only
  split <;> split_ifs <;>
    exact step_of_frame rfl rfl rfl rfl rfl rfl rfl rfl

end Yaft

namespace Yaft

/-! ## Handlers of CSI sequences -/

theorem to_int_range (v : Int) : -2147483648 ≤ to_int v ∧ to_int v < 2147483648 := by
  unfold to_int; omega

theorem foldl_inv {α β : Type} (P : β → Prop) (f : β → α → β) :
    ∀ (l : List α) (b : β), P b → (∀ b a, P b → P (f b a)) → P (l.foldl f b) := by
  intro l
  induction l with
  | nil => intro b hb _; exact hb
  | cons a l ih => intro b hb hf; exact ih (f b a) (hf b a hb) hf

/-- A loop whose body may fail keeps an invariant when it returns. -/
theorem foldl_bind_inv {α σ : Type} (P : σ → Prop) (f : σ → α → Option σ) :
    ∀ (l : List α) (o : Option σ) (s1 : σ), (∀ s, o = some s → P s) →
      (∀ s a s2, P s → f s a = some s2 → P s2) →
      l.foldl (fun o a => o.bind (fun s => f s a)) o = some s1 → P s1 := by
  intro l
  induction l with
  | nil => intro o s1 ho _ h; exact ho s1 h
  | cons a l ih =>
    intro o s1 ho hf h
    refine ih _ s1 (fun s hs => ?_) hf h
    obtain ⟨s0, h0, h1⟩ := Option.bind_eq_some.mp hs
    exact hf s0 a s (ho s0 h0) h1

theorem sum_range {parm : parm_t} {v : Int} (h : sum parm = some v) : in_int v := by
  unfold sum at h
  refine foldl_inv (fun o : Option Int => ∀ w, o = some w → in_int w) _ _ _ ?_ ?_ v h
  · intro w hw
    cases hw
    unfold in_int; omega
  · intro o i ho w hw
    unfold sum_step at hw
    split at hw
    · exact absurd hw (by simp)
    · split at hw
      · rename_i hin
        cases hw; exact hin
      · exact absurd hw (by simp)

theorem sum_or_one_range (parm : parm_t) :
    1 ≤ sum_or_one parm ∧ sum_or_one parm < 2147483648 := by
  unfold sum_or_one
  split
  · omega
  · rename_i v hv
    have := sum_range hv
    unfold in_int at this
    split_ifs <;> omega

theorem insert_blank_step {t t1 : terminal_t} {parm : parm_t}
    (h : insert_blank t parm = some t1) : Step t t1 := by
  unfold insert_blank at h
  replace h := (guard_some h).2
  refine for_down_inv (fun s => Step t s) _ _ _ _ _ ?_ (Step.refl t) h
  intro a i b _ _ ha hab
  split at hab
  · exact ha.trans (copy_cell_step hab)
  · exact ha.trans (erase_cell_step hab)

theorem curs_up_step {t t1 : terminal_t} {parm : parm_t} (hs : Shape t)
    (h : curs_up t parm = some t1) : Step t t1 := by
  have := sum_or_one_range parm
  unfold curs_up at h
  exact move_cursor_step (by omega) (by omega) hs (guard_some h).2

theorem curs_down_step {t t1 : terminal_t} {parm : parm_t} (hs : Shape t)
    (h : curs_down t parm = some t1) : Step t t1 := by
  have := sum_or_one_range parm
  unfold curs_down at h
  exact move_cursor_step (by omega) (by omega) hs (guard_some h).2

theorem curs_forward_step {t t1 : terminal_t} {parm : parm_t} (hs : Shape t)
    (h : curs_forward t parm = some t1) : Step t t1 := by
  unfold curs_forward at h
  exact move_cursor_step (by omega) (by omega) hs (guard_some h).2

theorem curs_back_step {t t1 : terminal_t} {parm : parm_t} (hs : Shape t)
    (h : curs_back t parm = some t1) : Step t t1 := by
  unfold curs_back at h
  exact move_cursor_step (by omega) (by omega) hs (guard_some h).2

theorem curs_nl_step {t t1 : terminal_t} {parm : parm_t} (hs : Shape t)
    (h : curs_nl t parm = some t1) : Step t t1 := by
  have hr := sum_or_one_range parm
  unfold curs_nl at h
  obtain ⟨t2, h2, h3⟩ := Option.bind_eq_some.mp (guard_some h).2
  exact (move_cursor_step (by omega) (by omega) hs h2).trans (carriage_return_step h3)

theorem curs_pl_step {t t1 : terminal_t} {parm : parm_t} (hs : Shape t)
    (h : curs_pl t parm = some t1) : Step t t1 := by
  have hr := sum_or_one_range parm
  unfold curs_pl at h
  obtain ⟨t2, h2, h3⟩ := Option.bind_eq_some.mp (guard_some h).2
  exact (move_cursor_step (by omega) (by omega) hs h2).trans (carriage_return_step h3)

theorem curs_col_step {t t1 : terminal_t} {parm : parm_t}
    (h : curs_col t parm = some t1) : Step t t1 := by
  unfold curs_col at h
  exact set_cursor_run (guard_some h).2

theorem curs_pos_step {t t1 : terminal_t} {parm : parm_t}
    (h : curs_pos t parm = some t1) : Step t t1 := by
  unfold curs_pos at h
  split at h
  · exact set_cursor_run h
  · split at h
    · exact set_cursor_run (guard_some h).2
    · simp only [Option.some.injEq] at h
      rw [← h]; exact Step.refl t

theorem curs_line_step {t t1 : terminal_t} {parm : parm_t}
    (h : curs_line t parm = some t1) : Step t t1 := by
  unfold curs_line at h
  exact set_cursor_run (guard_some h).2

/-- A doubly nested loop whose body erases a cell or does nothing. -/
theorem erase_loops_step {t t1 : terminal_t} {lo hi lo2 hi2 : Int} {c : Int → Int → Prop}
    [∀ i j, Decidable (c i j)]
    (h : for_up lo hi (fun s i =>
      for_up lo2 hi2 (fun s1 j => if c i j then erase_cell s1 i j else some s1) s) t = some t1) :
    Step t t1 := by
  refine for_up_inv (fun s => Step t s) _ _ _ _ _ ?_ (Step.refl t) h
  intro a i b _ _ ha hab
  refine ha.trans (for_up_inv (fun s => Step a s) _ _ _ _ _ ?_ (Step.refl a) hab)
  intro a1 j b1 _ _ ha1 hab1
  split at hab1
  · exact ha1.trans (erase_cell_step hab1)
  · simp only [Option.some.injEq] at hab1
    rw [← hab1]; exact ha1

theorem erase_loop_step {t t1 : terminal_t} {lo hi y : Int}
    (h : for_up lo hi (fun s i => erase_cell s y i) t = some t1) : Step t t1 :=
  for_up_inv (fun s => Step t s) _ _ _ _ _
    (fun _ _ _ _ _ ha hab => ha.trans (erase_cell_step hab)) (Step.refl t) h

theorem erase_display_step {t t1 : terminal_t} {parm : parm_t}
    (h : erase_display t parm = some t1) : Step t t1 := by
  unfold erase_display at h
  simp only at h
  split at h
  · simp only [Option.some.injEq] at h
    rw [← h]; exact Step.refl t
  · split at h
    · exact erase_loops_step h
    · split at h
      · exact erase_loops_step h
      · refine for_up_inv (fun s => Step t s) _ _ _ _ _ ?_ (Step.refl t) h
        intro a i b _ _ ha hab
        exact ha.trans (erase_loop_step hab)

theorem erase_line_step {t t1 : terminal_t} {parm : parm_t}
    (h : erase_line t parm = some t1) : Step t t1 := by
  unfold erase_line at h
  simp only at h
  split at h
  · simp only [Option.some.injEq] at h
    rw [← h]; exact Step.refl t
  · split at h
    · exact erase_loop_step h
    · split at h
      · exact erase_loop_step h
      · exact erase_loop_step h

theorem insert_line_step {t t1 : terminal_t} {parm : parm_t} (hs : Shape t)
    (h : insert_line t parm = some t1) : Step t t1 := by
  unfold insert_line at h
  replace h := (guard_some h).2
  have := sum_or_one_range parm
  have := hs.bottom_u16
  split at h
  · simp only [Option.some.injEq] at h
    rw [← h]; exact Step.refl t
  · exact scroll_window_step (by omega) (by omega) (by omega) h

theorem delete_line_step {t t1 : terminal_t} {parm : parm_t} (hs : Shape t)
    (h : delete_line t parm = some t1) : Step t t1 := by
  unfold delete_line at h
  replace h := (guard_some h).2
  have := sum_or_one_range parm
  have := hs.bottom_u16
  split at h
  · simp only [Option.some.injEq] at h
    rw [← h]; exact Step.refl t
  · exact scroll_window_step (by omega) (by omega) (by omega) h

theorem delete_char_step {t t1 : terminal_t} {parm : parm_t}
    (h : delete_char t parm = some t1) : Step t t1 := by
  unfold delete_char at h
  replace h := (guard_some h).2
  refine for_up_inv (fun s => Step t s) _ _ _ _ _ ?_ (Step.refl t) h
  intro a i b _ _ ha hab
  replace hab := (guard_some hab).2
  split at hab
  · exact ha.trans (copy_cell_step hab)
  · exact ha.trans (erase_cell_step hab)

theorem erase_char_step {t t1 : terminal_t} {parm : parm_t}
    (h : erase_char t parm = some t1) : Step t t1 := by
  unfold erase_char at h
  split at h
  · exact absurd h (by simp)
  · exact erase_loop_step (guard_some (guard_some h).2).2


theorem step_ite {t : terminal_t} {c : Prop} [Decidable c] {a b : terminal_t × Nat}
    (ha : Step t a.1) (hb : Step t b.1) : Step t (if c then a else b).1 := by
  split <;> assumption

theorem set_attr_step_step (t : terminal_t) (parm : parm_t) (i : Nat) :
    Step t (set_attr_step t parm i).1 := by
  unfold set_attr_step
  dsimp only
  repeat first
    | exact step_of_frame rfl rfl rfl rfl rfl rfl rfl rfl
    | apply step_ite

theorem set_attr_loop_step (parm : parm_t) : ∀ (fuel i : Nat) (t : terminal_t),
    Step t (set_attr_loop parm fuel i t) := by
  intro fuel
  induction fuel with
  | zero => intro i t; exact Step.refl t
  | succ n ih =>
    intro i t
    simp only [set_attr_loop]
    split
    · exact (set_attr_step_step t parm i).trans (ih _ _)
    · exact Step.refl t

theorem set_attr_run_step {t t1 : terminal_t} {parm : parm_t}
    (h : set_attr t parm = some t1) : Step t t1 := by
  unfold set_attr at h
  split at h
  · simp only [Option.some.injEq] at h
    rw [← h]; exact step_of_frame rfl rfl rfl rfl rfl rfl rfl rfl
  · simp only [Option.some.injEq] at h
    rw [← h]; exact set_attr_loop_step _ _ _ _

theorem status_report_step {t t1 : terminal_t} {parm : parm_t}
    (h : status_report t parm = some t1) : Step t t1 := by
  unfold status_report at h
  simp only [Option.some.injEq] at h
  rw [← h]
  refine foldl_inv (fun s => Step t s) _ _ _ (Step.refl t) ?_
  intro b a hb
  dsimp only
  split_ifs
  · exact hb.trans (ewrite_step _ _)
  · exact hb.trans (ewrite_step _ _)
  · exact hb.trans (ewrite_step _ _)
  · exact hb

theorem device_attribute_step {t t1 : terminal_t} {parm : parm_t}
    (h : device_attribute t parm = some t1) : Step t t1 := by
  unfold device_attribute at h
  simp only [Option.some.injEq] at h
  rw [← h]; exact ewrite_step _ _

theorem set_mode_step {t t1 : terminal_t} {parm : parm_t}
    (h : set_mode t parm = some t1) : Step t t1 := by
  unfold set_mode at h
  refine foldl_bind_inv (fun s => Step t s) _ _ _ t1 ?_ ?_ h
  · intro s hs; cases hs; exact Step.refl t
  intro b a b2 hb hab
  have fr : ∀ m : Nat, Step b { b with mode := m } :=
    fun m => step_of_frame rfl rfl rfl rfl rfl rfl rfl rfl
  unfold set_mode_body at hab
  dsimp only at hab
  split_ifs at hab
  · cases hab; exact hb
  · exact hb.trans ((fr _).trans (set_cursor_run hab))
  · cases hab; exact hb.trans (fr _)
  · cases hab; exact hb.trans (fr _)
  · cases hab; exact hb.trans (fr _)
  · cases hab; exact hb

theorem reset_mode_step {t t1 : terminal_t} {parm : parm_t}
    (h : reset_mode t parm = some t1) : Step t t1 := by
  unfold reset_mode at h
  refine foldl_bind_inv (fun s => Step t s) _ _ _ t1 ?_ ?_ h
  · intro s hs; cases hs; exact Step.refl t
  intro b a b2 hb hab
  have fr : ∀ (m : Nat) (w : Bool), Step b { b with mode := m, wrap_occured := w } :=
    fun m w => step_of_frame rfl rfl rfl rfl rfl rfl rfl rfl
  unfold reset_mode_body at hab
  dsimp only at hab
  split_ifs at hab
  · cases hab; exact hb
  · exact hb.trans ((fr _ b.wrap_occured).trans (set_cursor_run hab))
  · cases hab; exact hb.trans (fr _ false)
  · cases hab; exact hb.trans (fr _ b.wrap_occured)
  · cases hab; exact hb.trans (fr _ b.wrap_occured)
  · cases hab; exact hb

theorem margin_clamp_range (lines : Nat) (v dflt : Int) (h0 : 0 ≤ dflt) (h1 : dflt < lines) :
    0 ≤ margin_clamp lines v dflt ∧ margin_clamp lines v dflt < lines := by
  unfold margin_clamp
  split_ifs <;> omega

theorem set_margin_step {t t1 : terminal_t} {parm : parm_t}
    (h : set_margin t parm = some t1) : Step t t1 := by
  unfold set_margin at h
  replace h := (guard_some h).2
  split at h
  · split at h
    · cases h; exact Step.refl t
    · rename_i hlt
      refine Step.trans ?_ (set_cursor_run h)
      generalize margin_top parm = top0 at hlt ⊢
      generalize margin_bottom t parm = bot0 at hlt ⊢
      refine step_of_grid_eq rfl rfl rfl rfl rfl
        (fun hs => ⟨to_u16_lt _, to_u16_lt _, hs.x_u16, hs.y_u16, hs.saved_x_u16,
          hs.saved_y_u16⟩) (fun _ b => ?_)
      obtain ⟨b1, b2, b3, b4, b5, b6, b7, b8, b9⟩ := b
      have r1 := margin_clamp_range t.lines top0 0 (le_refl _) (by omega)
      have r2 := margin_clamp_range t.lines bot0 ((t.lines : Int) - 1) (by omega) (by omega)
      refine ⟨b1, b2, b3, b4, b5, b6, ?_, ?_, ?_⟩
      · exact to_u16_lt_of _ t.lines r1.1 r1.2
      · exact to_u16_lt_of _ t.lines r2.1 r2.2
      · intro hl
        dsimp only at hl ⊢
        unfold to_u16
        omega
  · cases h; exact Step.refl t

theorem tabstop_loop_step {t t1 : terminal_t} {lo hi : Int}
    (h : for_up lo hi (fun s j => tabstop_store s j false) t = some t1) : Step t t1 :=
  for_up_inv (fun s => Step t s) _ _ _ _ _
    (fun _ _ _ _ _ ha hab => ha.trans (touch_nothing_step (tabstop_store_touch hab)))
    (Step.refl t) h

theorem clear_tabstop_loop_step (parm : parm_t) : ∀ (fuel i : Nat) (t t1 : terminal_t),
    clear_tabstop_loop parm fuel i t = some t1 → Step t t1 := by
  intro fuel
  induction fuel with
  | zero =>
    intro i t t1 h
    simp only [clear_tabstop_loop, Option.some.injEq] at h
    rw [← h]; exact Step.refl t
  | succ n ih =>
    intro i t t1 h
    simp only [clear_tabstop_loop] at h
    split at h
    · split at h
      · exact absurd h (by simp)
      · rename_i t2 h2
        exact (touch_nothing_step (tabstop_store_touch h2)).trans (ih _ _ _ h)
    · split at h
      · exact tabstop_loop_step h
      · exact ih _ _ _ h

theorem clear_tabstop_step {t t1 : terminal_t} {parm : parm_t}
    (h : clear_tabstop t parm = some t1) : Step t t1 := by
  unfold clear_tabstop at h
  split at h
  · exact touch_nothing_step (tabstop_store_touch h)
  · exact clear_tabstop_loop_step _ _ _ _ _ h

end Yaft

/-! # The claims -/

namespace Yaft

/-! ## C16, C17: colour quantisation -/

set_option maxRecDepth 20000 in
theorem closest_index_nearest : ∀ v, v < 256 → nearest_level v (closest_index v) := by
  decide

/-- C16: for channel values `r g b` in 0..255 that are not all equal, `rgb2index`
returns `16 + 36*ri + 6*gi + bi` where each of `ri gi bi` is the index of the cube level
nearest to that channel, an exact tie going to the upper level; so the result lies in
16..231. -/
theorem C16_rgb2index_cube (r g b : Nat) (hr : r < 256) (hg : g < 256) (hb : b < 256)
    (hne : ¬ (r = g ∧ g = b)) :
    ∃ ri gi bi, rgb2index r g b = 16 + 36 * ri + 6 * gi + bi
      ∧ nearest_level r ri ∧ nearest_level g gi ∧ nearest_level b bi
      ∧ 16 ≤ rgb2index r g b ∧ rgb2index r g b ≤ 231 := by
  have h1 := closest_index_nearest r hr
  have h2 := closest_index_nearest g hg
  have h3 := closest_index_nearest b hb
  have e : rgb2index r g b = 16 + 36 * closest_index r + 6 * closest_index g + closest_index b := by
    have a1 := h1.1
    have a2 := h2.1
    have a3 := h3.1
    unfold rgb2index
    rw [if_neg hne]
    unfold to_u8
    omega
  refine ⟨closest_index r, closest_index g, closest_index b, e, h1, h2, h3, ?_, ?_⟩
  · omega
  · have a1 := h1.1
    have a2 := h2.1
    have a3 := h3.1
    omega

set_option maxRecDepth 20000 in
/-- C16, witness: pure red maps to the cube entry 196, and `CSI 38;2;255;0;0 m`
followed by `Z` stores a cell with foreground 196. -/
theorem C16_rgb2index_cube_witness :
    (∃ ri gi bi, rgb2index 255 0 0 = 16 + 36 * ri + 6 * gi + bi
      ∧ nearest_level 255 ri ∧ nearest_level 0 gi ∧ nearest_level 0 bi
      ∧ 16 ≤ rgb2index 255 0 0 ∧ rgb2index 255 0 0 ≤ 231)
    ∧ rgb2index 255 0 0 = 196
    ∧ (cell_of (run 8 4 [0x1B, 0x5B, 0x33, 0x38, 0x3B, 0x32, 0x3B, 0x32, 0x35, 0x35, 0x3B,
        0x30, 0x3B, 0x30, 0x6D, 0x5A]) 0 0).map (fun c => c.color_pair.fg) = some 196 :=
  ⟨C16_rgb2index_cube 255 0 0 (by decide) (by decide) (by decide) (by decide), by decide,
    by decide⟩

/-- C17, counterexample: for `v = 17` the entry returned by `rgb2index` is 232 (gray
level 8, nine away), while the candidate entry 233 (gray level 18) is one away. -/
theorem C17_counterexample :
    rgb2index 17 17 17 = 232 ∧ gray_dist 17 233 < gray_dist 17 (rgb2index 17 17 17) := by
  decide

set_option maxRecDepth 20000 in
/-- C17, amended: for `v` in 0..255, `rgb2index v v v` is white (231) from 248 on, and
below that it is the ramp entry `232 + k` with the largest gray level `8 + 10*k` that is
not above `v` (the first ramp entry when `v < 8`); the gray level of the entry returned
is never more than 9 away from `v`. -/
theorem C17_gray_floor : ∀ v, v < 256 →
    (248 ≤ v → rgb2index v v v = 231)
    ∧ (v < 248 → 232 ≤ rgb2index v v v ∧ rgb2index v v v ≤ 255
        ∧ (8 ≤ v → gray_value (rgb2index v v v) ≤ v ∧ v < gray_value (rgb2index v v v) + 10)
        ∧ (v < 8 → rgb2index v v v = 232))
    ∧ gray_dist v (rgb2index v v v) ≤ 9 := by
  decide

/-- C17, witness of the amended claim at `v = 17`. -/
theorem C17_gray_floor_witness :
    (248 ≤ 17 → rgb2index 17 17 17 = 231)
    ∧ (17 < 248 → 232 ≤ rgb2index 17 17 17 ∧ rgb2index 17 17 17 ≤ 255
        ∧ (8 ≤ 17 → gray_value (rgb2index 17 17 17) ≤ 17
          ∧ 17 < gray_value (rgb2index 17 17 17) + 10)
        ∧ (17 < 8 → rgb2index 17 17 17 = 232))
    ∧ gray_dist 17 (rgb2index 17 17 17) ≤ 9 :=
  C17_gray_floor 17 (by decide)

end Yaft

namespace Yaft
open esc_state

/-! ## C19: malformed escape sequences -/

/-- The escape buffer after `push_esc` dropped the sequence. -/
theorem push_esc_invalid (t : terminal_t) (ch : Nat)
    (hst : t.esc.state = STATE_ESC ∨ t.esc.state = STATE_CSI) (hch : ch < 0x20 ∨ 0x7E < ch) :
    push_esc t ch = (esc_dropped t, false) := by
  unfold push_esc reset_esc esc_dropped
  by_cases hsz : t.esc.buf.length ≥ t.esc.size
  · rcases hst with h | h
    · simp only [if_pos hsz, h]
      rw [if_neg (by omega), if_neg (by unfold SPACE; omega)]
    · simp only [if_pos hsz, h]
      rw [if_neg (by omega), if_neg (by unfold SPACE; omega)]
  · rcases hst with h | h
    · simp only [if_neg hsz, h]
      rw [if_neg (by omega), if_neg (by unfold SPACE; omega)]
    · simp only [if_neg hsz, h]
      rw [if_neg (by omega), if_neg (by unfold SPACE; omega)]

/-- C19: in escape state ESC or CSI, a byte outside `0x20..0x7E` drops the pending
sequence: the escape state becomes RESET and the escape buffer empty, and every other
field of the terminal (grid, cursor, modes, colours, attribute, scroll region,
tabstops, dirty flags) is unchanged. -/
theorem C19_malformed_escape_dropped (wc : Nat → Int) (t : terminal_t) (ch : Nat)
    (hst : t.esc.state = STATE_ESC ∨ t.esc.state = STATE_CSI) (hch : ch < 0x20 ∨ 0x7E < ch) :
    parse_byte wc t ch = some (esc_dropped t)
      ∧ (esc_dropped t).esc.state = STATE_RESET ∧ (esc_dropped t).esc.buf = []
      ∧ (esc_dropped t).cells = t.cells ∧ (esc_dropped t).line_dirty = t.line_dirty
      ∧ (esc_dropped t).cursor = t.cursor ∧ (esc_dropped t).wrap_occured = t.wrap_occured
      ∧ (esc_dropped t).mode = t.mode ∧ (esc_dropped t).color_pair = t.color_pair
      ∧ (esc_dropped t).attr = t.attr ∧ (esc_dropped t).scroll = t.scroll
      ∧ (esc_dropped t).tabstop = t.tabstop ∧ (esc_dropped t).state = t.state
      ∧ (esc_dropped t).charset = t.charset := by
  refine ⟨?_, rfl, rfl, rfl, rfl, rfl, rfl, rfl, rfl, rfl, rfl, rfl, rfl, rfl⟩
  have key := push_esc_invalid t ch hst hch
  unfold parse_byte
  rcases hst with h | h
  · simp only [h, key]
    rfl
  · simp only [h, key]
    rfl

/-- C19, witness: a BEL in the middle of `CSI 1` drops the sequence. -/
theorem C19_malformed_escape_dropped_witness :
    (csi_pending.esc.state = STATE_ESC ∨ csi_pending.esc.state = STATE_CSI)
    ∧ ((0x07 : Nat) < 0x20 ∨ 0x7E < (0x07 : Nat))
    ∧ parse_byte ascii_wcwidth csi_pending 0x07 = some (esc_dropped csi_pending) :=
  ⟨Or.inr rfl, Or.inl (by decide),
    (C19_malformed_escape_dropped ascii_wcwidth csi_pending 0x07 (Or.inr rfl)
      (Or.inl (by decide))).1⟩

/-! ## C15: scrolling and the scroll region -/

set_option maxRecDepth 20000 in
/-- C15, evaluation at the failing input: on a terminal of 2 columns and 5 lines, `X` is
printed in row 1, the scroll region is set to rows 2..3 and the cursor is put on row 3;
`CSI 3 B` then calls `scroll_window(2, 3, 3)`, which erases rows 1..3, so the `X` in
row 1, outside the region, is lost. -/
theorem C15_scroll_leaves_region :
    (run 2 5 [0x0A, 0x58, 0x1B, 0x5B, 0x33, 0x3B, 0x34, 0x72, 0x1B, 0x5B, 0x34, 0x3B, 0x31, 0x48]).map
        (fun t => (t.scroll, t.cursor.y)) = some ({ top := 2, bottom := 3 }, 3)
    ∧ code_of (run 2 5 [0x0A, 0x58, 0x1B, 0x5B, 0x33, 0x3B, 0x34, 0x72, 0x1B, 0x5B, 0x34, 0x3B,
        0x31, 0x48]) 1 0 = some 0x58
    ∧ code_of (run 2 5 [0x0A, 0x58, 0x1B, 0x5B, 0x33, 0x3B, 0x34, 0x72, 0x1B, 0x5B, 0x34, 0x3B,
        0x31, 0x48, 0x1B, 0x5B, 0x33, 0x42]) 1 0 = some 0x20
    ∧ code_of ((run 2 5 [0x0A, 0x58, 0x1B, 0x5B, 0x33, 0x3B, 0x34, 0x72, 0x1B, 0x5B, 0x34, 0x3B,
        0x31, 0x48]).bind (fun t => scroll_window t 2 3 3)) 1 0 = some 0x20 := by
  decide

end Yaft

namespace Yaft
open esc_state

/-! ## C20: final bytes without an entry in the tables -/

theorem push_esc_csi_param (t : terminal_t) (ch : Nat) (hst : t.esc.state = STATE_CSI)
    (h1 : 0x20 ≤ ch) (h2 : ch ≤ 0x3F) : push_esc t ch = (esc_pushed t ch, false) := by
  unfold push_esc esc_pushed esc_grow
  by_cases hsz : t.esc.buf.length ≥ t.esc.size
  · simp only [if_pos hsz, hst]
    rw [if_neg (by omega), if_pos (by unfold SPACE; omega)]
  · simp only [if_neg hsz, hst]
    rw [if_neg (by omega), if_pos (by unfold SPACE; omega)]

theorem push_esc_csi_final (t : terminal_t) (ch : Nat) (hst : t.esc.state = STATE_CSI)
    (h1 : 0x40 ≤ ch) (h2 : ch ≤ 0x7E) : push_esc t ch = (esc_pushed t ch, true) := by
  unfold push_esc esc_pushed esc_grow
  by_cases hsz : t.esc.buf.length ≥ t.esc.size
  · simp only [if_pos hsz, hst]
    rw [if_pos (by omega)]
  · simp only [if_neg hsz, hst]
    rw [if_pos (by omega)]

theorem push_esc_esc_final (t : terminal_t) (ch : Nat) (hst : t.esc.state = STATE_ESC)
    (h1 : 0x30 ≤ ch) (h2 : ch ≤ 0x7E) : push_esc t ch = (esc_pushed t ch, true) := by
  unfold push_esc esc_pushed esc_grow
  by_cases hsz : t.esc.buf.length ≥ t.esc.size
  · simp only [if_pos hsz, hst]
    rw [if_pos (by omega)]
  · simp only [if_neg hsz, hst]
    rw [if_pos (by omega)]

theorem csi_func_unmapped (f : Nat) (t : terminal_t) (parm : parm_t) (h : f ∉ csi_mapped) :
    csi_func f t parm = some t := by
  unfold csi_mapped at h
  simp only [List.mem_cons, List.mem_singleton, not_or, List.not_mem_nil, not_false_eq_true,
    and_true] at h
  unfold csi_func
  simp only [h, if_false]

theorem esc_func_unmapped (f : Nat) (t : terminal_t) (h : f ∉ esc_mapped) :
    esc_func f t = some t := by
  unfold esc_mapped at h
  simp only [List.mem_cons, List.mem_singleton, not_or, List.not_mem_nil, not_false_eq_true,
    and_true] at h
  unfold esc_func
  simp only [h, if_false]

/-- After the first byte of a sequence is stored in a buffer of at least `ESCSEQ_SIZE`
bytes there is room for the terminating NUL. -/
theorem esc_pushed_room (t : terminal_t) (ch : Nat) (hb : t.esc.buf = [])
    (hs : ESCSEQ_SIZE ≤ t.esc.size) :
    ¬ (esc_pushed t ch).esc.buf.length ≥ (esc_pushed t ch).esc.size := by
  unfold esc_pushed esc_grow
  unfold ESCSEQ_SIZE at hs
  simp only [hb, List.nil_append, List.length_singleton, List.length_nil]
  split_ifs <;> omega

/-- An empty buffer of at least `ESCSEQ_SIZE` bytes has room for a NUL. -/
theorem esc_empty_room (t : terminal_t) (hb : t.esc.buf = []) (hs : ESCSEQ_SIZE ≤ t.esc.size) :
    ¬ t.esc.buf.length ≥ t.esc.size := by
  unfold ESCSEQ_SIZE at hs
  rw [hb, List.length_nil]
  omega

theorem EscOnly.same (t : terminal_t) : EscOnly t t := rfl

theorem EscOnly.chain {a b c : terminal_t} (h1 : EscOnly a b) (h2 : EscOnly b c) :
    EscOnly a c := by
  unfold EscOnly at *
  rw [h2, h1]

theorem esc_pushed_only (t : terminal_t) (ch : Nat) : EscOnly t (esc_pushed t ch) := rfl

theorem esc_pushed_all_only (ps : List Nat) : ∀ t : terminal_t,
    EscOnly t (esc_pushed_all t ps) ∧ (esc_pushed_all t ps).esc.state = t.esc.state := by
  induction ps with
  | nil => intro t; exact ⟨rfl, rfl⟩
  | cons p ps ih =>
    intro t
    have h := ih (esc_pushed t p)
    exact ⟨(esc_pushed_only t p).chain h.1, h.2⟩

theorem reset_esc_only {t t1 : terminal_t} (h : EscOnly t t1) :
    reset_esc t1 = { t with esc := { buf := [], size := t1.esc.size, state := STATE_RESET } } := by
  unfold EscOnly at h
  unfold reset_esc
  rw [h]

/-- The byte ESC in the ground state enters escape state ESC. -/
theorem parse_byte_esc (wc : Nat → Int) (t : terminal_t) (h : Ground t) :
    parse_byte wc t 0x1B = some { t with esc := { t.esc with state := STATE_ESC } } := by
  obtain ⟨h1, h2, h3, h4⟩ := h
  unfold charset_idle at h3
  unfold parse_byte
  simp only [h1]
  rw [if_neg (by omega)]
  simp only
  rw [if_pos (by omega)]
  unfold control_character
  rw [if_neg (esc_empty_room t h2 h4)]
  rfl

/-- The bytes `ESC [` in the ground state enter escape state CSI. -/
theorem parse_csi_intro (wc : Nat → Int) (t : terminal_t) (h : Ground t) (rest : List Nat) :
    parse wc t (0x1B :: 0x5B :: rest)
      = parse wc { t with esc := { buf := [0x5B], size := esc_grow t.esc, state := STATE_CSI } }
          rest := by
  have h0 := parse_byte_esc wc t h
  obtain ⟨h1, h2, h3⟩ := h
  have e : parse_byte wc { t with esc := { t.esc with state := STATE_ESC } } 0x5B
      = some { t with esc := { buf := [0x5B], size := esc_grow t.esc, state := STATE_CSI } } := by
    unfold parse_byte
    simp only
    rw [push_esc_esc_final _ _ rfl (by omega) (by omega)]
    simp only [if_true]
    unfold esc_sequence
    rw [if_neg (esc_pushed_room { t with esc := { t.esc with state := STATE_ESC } } _ h2 h3.2)]
    unfold esc_pushed esc_grow
    simp only [h2]
    rfl
  simp only [parse, h0, e]

theorem parse_csi_params (wc : Nat → Int) (ps : List Nat) (hps : ∀ p ∈ ps, 0x20 ≤ p ∧ p ≤ 0x3F) :
    ∀ (t : terminal_t) (rest : List Nat), t.esc.state = STATE_CSI →
      parse wc t (ps ++ rest) = parse wc (esc_pushed_all t ps) rest := by
  induction ps with
  | nil => intro t rest _; rfl
  | cons p ps ih =>
    intro t rest hst
    have hp := hps p (List.mem_cons_self _ _)
    have e : parse_byte wc t p = some (esc_pushed t p) := by
      unfold parse_byte
      simp only [hst]
      rw [push_esc_csi_param t p hst hp.1 hp.2]
      simp
    simp only [List.cons_append, parse, e]
    exact ih (fun q hq => hps q (List.mem_cons_of_mem _ hq)) _ _ hst

/-- C20: in the ground state (escape state RESET, empty escape buffer of at least the
`ESCSEQ_SIZE` bytes it is allocated with, no UTF-8 sequence under way),
`ESC [ params f` with parameter and intermediate bytes in
`0x20..0x3F` and a final byte `f` in `0x40..0x7E` that has no entry in `csi_func[]`, and
`ESC f` with a final byte `f` in `0x30..0x7E` that has no entry in `esc_func[]`, change
nothing but the capacity of the escape buffer: grid, cursor, wrap flag, modes, colours,
attribute, scroll region, tabstops and dirty flags are unchanged and the escape state
is RESET again. -/
theorem C20_unmapped_final_noop (wc : Nat → Int) (t : terminal_t) (h : Ground t) :
    (∀ (ps : List Nat) (f : Nat), (∀ p ∈ ps, 0x20 ≤ p ∧ p ≤ 0x3F) → 0x40 ≤ f → f ≤ 0x7E →
      f ∉ csi_mapped →
      ∃ sz, parse wc t ([0x1B, 0x5B] ++ ps ++ [f])
        = some { t with esc := { buf := [], size := sz, state := STATE_RESET } })
    ∧ (∀ f : Nat, 0x30 ≤ f → f ≤ 0x7E → f ∉ esc_mapped →
      ∃ sz, parse wc t [0x1B, f]
        = some { t with esc := { buf := [], size := sz, state := STATE_RESET } }) := by
  constructor
  · intro ps f hps hf1 hf2 hf
    have e1 : [0x1B, 0x5B] ++ ps ++ [f] = 0x1B :: 0x5B :: (ps ++ [f]) := rfl
    rw [e1, parse_csi_intro wc t h, parse_csi_params wc ps hps _ _ rfl]
    obtain ⟨o1, o2⟩ := esc_pushed_all_only ps
      { t with esc := { buf := [0x5B], size := esc_grow t.esc, state := STATE_CSI } }
    have o3 : EscOnly t
        { t with esc := { buf := [0x5B], size := esc_grow t.esc, state := STATE_CSI } } := rfl
    generalize esc_pushed_all
      { t with esc := { buf := [0x5B], size := esc_grow t.esc, state := STATE_CSI } } ps = s at o1 o2
    have hs : s.esc.state = STATE_CSI := o2
    have e : parse_byte wc s f = some (reset_esc
        { esc_pushed s f with esc := { (esc_pushed s f).esc with
            buf := ((esc_pushed s f).esc.buf.set ((esc_pushed s f).esc.buf.length - 1) 0).take 1
              ++ (parse_arg
                  (((esc_pushed s f).esc.buf.set ((esc_pushed s f).esc.buf.length - 1) 0).drop 1)
                  0x3B isdigit).1 } }) := by
      unfold parse_byte
      simp only [hs]
      rw [push_esc_csi_final s f hs hf1 hf2]
      simp only [if_true]
      unfold csi_sequence
      simp only
      rw [csi_func_unmapped f _ _ hf]
    simp only [parse, e]
    refine ⟨_, congrArg some (reset_esc_only ((o3.chain o1).chain ((esc_pushed_only s f).chain rfl)))⟩
  · intro f hf1 hf2 hf
    have h0 := parse_byte_esc wc t h
    obtain ⟨h1, h2, h3⟩ := h
    have hne : ¬ (f = 0x5B ∨ f = 0x5D ∨ f = 0x50) := by
      unfold esc_mapped at hf
      simp only [List.mem_cons, List.mem_singleton, not_or, List.not_mem_nil,
        not_false_eq_true, and_true] at hf
      omega
    have e : parse_byte wc { t with esc := { t.esc with state := STATE_ESC } } f
        = some (reset_esc (esc_pushed { t with esc := { t.esc with state := STATE_ESC } } f)) := by
      unfold parse_byte
      simp only
      rw [push_esc_esc_final _ _ rfl hf1 hf2]
      simp only [if_true]
      unfold esc_sequence
      rw [if_neg (esc_pushed_room { t with esc := { t.esc with state := STATE_ESC } } _ h2 h3.2), esc_func_unmapped f _ hf]
      simp only [ite_self, if_neg hne]
    simp only [parse, h0, e]
    exact ⟨_, congrArg some (reset_esc_only (t := t) rfl)⟩

/-- C20, witness: `ESC [ 1 ; 2 z` and `ESC 9` on a terminal of 2 columns and 2 lines
that was just allocated. -/
theorem C20_unmapped_final_noop_witness :
    Ground (term_alloc 2 2 ascii_glyphs)
    ∧ (∃ sz, parse ascii_wcwidth (term_alloc 2 2 ascii_glyphs)
        ([0x1B, 0x5B] ++ [0x31, 0x3B, 0x32] ++ [0x7A])
        = some { term_alloc 2 2 ascii_glyphs with
            esc := { buf := [], size := sz, state := STATE_RESET } })
    ∧ (∃ sz, parse ascii_wcwidth (term_alloc 2 2 ascii_glyphs) [0x1B, 0x39]
        = some { term_alloc 2 2 ascii_glyphs with
            esc := { buf := [], size := sz, state := STATE_RESET } }) :=
  have g : Ground (term_alloc 2 2 ascii_glyphs) :=
    ⟨rfl, rfl, by unfold charset_idle; decide, by decide⟩
  ⟨g,
    (C20_unmapped_final_noop ascii_wcwidth (term_alloc 2 2 ascii_glyphs) g).1
      [0x31, 0x3B, 0x32] 0x7A (by decide) (by decide) (by decide) (by decide),
    (C20_unmapped_final_noop ascii_wcwidth (term_alloc 2 2 ascii_glyphs) g).2
      0x39 (by decide) (by decide) (by decide)⟩

end Yaft

namespace Yaft
open esc_state

/-! ## C18: OSC and DCS strings -/

theorem getD_ne_esc (l : List Nat) (i : Nat) (h : ∀ x ∈ l, x ≠ 0x1B) : l.getD i 0 ≠ 0x1B := by
  rw [List.getD_eq_getElem?_getD]
  cases hi : l[i]? with
  | none => simp
  | some x =>
    simp only [Option.getD_some]
    exact h x (List.mem_iff_getElem?.mpr ⟨i, hi⟩)

/-- In an OSC or DCS string a byte of the permitted class is stored. -/
theorem push_esc_string_byte (t : terminal_t) (b : Nat)
    (hst : t.esc.state = STATE_OSC ∨ t.esc.state = STATE_DCS)
    (hbuf : ∀ x ∈ t.esc.buf, x ≠ 0x1B) (hb : string_byte b) :
    push_esc t b = (esc_pushed t b, false) := by
  unfold string_byte BS HT LF CR at hb
  have hne : (t.esc.buf ++ [b]).getD ((t.esc.buf ++ [b]).length - 2) 0 ≠ 0x1B :=
    getD_ne_esc _ _ (by
      intro x hx
      rcases List.mem_append.mp hx with h | h
      · exact hbuf x h
      · simp only [List.mem_singleton] at h
        omega)
  unfold push_esc esc_pushed esc_grow
  by_cases hsz : t.esc.buf.length ≥ t.esc.size
  · rcases hst with h | h
    · simp only [if_pos hsz, h]
      rw [if_neg (by unfold BEL BACKSLASH ESC; omega),
        if_pos (by unfold ESC CR LF BS HT SPACE; omega)]
    · simp only [if_pos hsz, h]
      rw [if_neg (by unfold BEL BACKSLASH ESC; omega),
        if_pos (by unfold ESC CR LF BS HT SPACE; omega)]
  · rcases hst with h | h
    · simp only [if_neg hsz, h]
      rw [if_neg (by unfold BEL BACKSLASH ESC; omega),
        if_pos (by unfold ESC CR LF BS HT SPACE; omega)]
    · simp only [if_neg hsz, h]
      rw [if_neg (by unfold BEL BACKSLASH ESC; omega),
        if_pos (by unfold ESC CR LF BS HT SPACE; omega)]

theorem esc_pushed_all_buf (ps : List Nat) : ∀ t : terminal_t,
    (esc_pushed_all t ps).esc.buf = t.esc.buf ++ ps := by
  induction ps with
  | nil => intro t; simp [esc_pushed_all]
  | cons p ps ih =>
    intro t
    have h := ih (esc_pushed t p)
    unfold esc_pushed_all at h ⊢
    rw [List.foldl_cons, h]
    simp [esc_pushed]

theorem parse_string_payload (wc : Nat → Int) (ps : List Nat) (hps : ∀ p ∈ ps, string_byte p) :
    ∀ (t : terminal_t) (rest : List Nat),
      (t.esc.state = STATE_OSC ∨ t.esc.state = STATE_DCS) → (∀ x ∈ t.esc.buf, x ≠ 0x1B) →
      parse wc t (ps ++ rest) = parse wc (esc_pushed_all t ps) rest := by
  induction ps with
  | nil => intro t rest _ _; rfl
  | cons p ps ih =>
    intro t rest hst hbuf
    have hp := hps p (List.mem_cons_self _ _)
    have e : parse_byte wc t p = some (esc_pushed t p) := by
      unfold parse_byte
      rcases hst with h | h
      · simp only [h]
        rw [push_esc_string_byte t p (Or.inl h) hbuf hp]
        simp
      · simp only [h]
        rw [push_esc_string_byte t p (Or.inr h) hbuf hp]
        simp
    simp only [List.cons_append, parse, e]
    refine ih (fun q hq => hps q (List.mem_cons_of_mem _ hq)) _ _ hst ?_
    intro x hx
    simp only [esc_pushed, List.mem_append, List.mem_singleton] at hx
    rcases hx with h | h
    · exact hbuf x h
    · unfold string_byte BS HT LF CR at hp
      omega

/-- The bytes `ESC ]` and `ESC P` in the ground state enter escape state OSC and DCS. -/
theorem parse_string_intro (wc : Nat → Int) (t : terminal_t) (h : Ground t) (intro : Nat)
    (st : esc_state) (hi : (intro = 0x5D ∧ st = STATE_OSC) ∨ (intro = 0x50 ∧ st = STATE_DCS))
    (rest : List Nat) :
    parse wc t (0x1B :: intro :: rest) = parse wc (esc_entered t intro st) rest := by
  unfold esc_entered
  have h0 := parse_byte_esc wc t h
  obtain ⟨h1, h2, h3⟩ := h
  have e : parse_byte wc { t with esc := { t.esc with state := STATE_ESC } } intro
      = some { t with esc := { buf := [intro], size := esc_grow t.esc, state := st } } := by
    unfold parse_byte
    simp only
    rw [push_esc_esc_final _ _ rfl (by omega) (by omega)]
    simp only [if_true]
    unfold esc_sequence
    rw [if_neg (esc_pushed_room { t with esc := { t.esc with state := STATE_ESC } } _ h2 h3.2)]
    unfold esc_pushed esc_grow
    simp only [h2]
    rcases hi with ⟨a, b⟩ | ⟨a, b⟩
    · subst a b; rfl
    · subst a b; rfl
  simp only [parse, h0, e]

/-- The terminator BEL ends an OSC or DCS string. -/
theorem parse_string_bel (wc : Nat → Int) (t : terminal_t)
    (hst : t.esc.state = STATE_OSC ∨ t.esc.state = STATE_DCS) :
    parse wc t [0x07] = some (reset_esc (esc_pushed t 0x07)) := by
  have e : push_esc t 0x07 = (esc_pushed t 0x07, true) := by
    unfold push_esc esc_pushed esc_grow
    by_cases hsz : t.esc.buf.length ≥ t.esc.size
    · rcases hst with h | h
      · simp only [if_pos hsz, h]
        rw [if_pos (by left; rfl)]
      · simp only [if_pos hsz, h]
        rw [if_pos (by left; rfl)]
    · rcases hst with h | h
      · simp only [if_neg hsz, h]
        rw [if_pos (by left; rfl)]
      · simp only [if_neg hsz, h]
        rw [if_pos (by left; rfl)]
  unfold parse parse_byte
  rcases hst with h | h
  · simp only [h, e, if_true]
    rfl
  · simp only [h, e, if_true]
    rfl

/-- The terminator `ESC \` ends an OSC or DCS string. -/
theorem parse_string_st (wc : Nat → Int) (t : terminal_t)
    (hst : t.esc.state = STATE_OSC ∨ t.esc.state = STATE_DCS) :
    parse wc t [0x1B, 0x5C] = some (reset_esc (esc_pushed (esc_pushed t 0x1B) 0x5C)) := by
  have e1 : push_esc t 0x1B = (esc_pushed t 0x1B, false) := by
    unfold push_esc esc_pushed esc_grow
    by_cases hsz : t.esc.buf.length ≥ t.esc.size
    · rcases hst with h | h
      · simp only [if_pos hsz, h]
        rw [if_neg (by unfold BEL BACKSLASH; omega), if_pos (by left; left; rfl)]
      · simp only [if_pos hsz, h]
        rw [if_neg (by unfold BEL BACKSLASH; omega), if_pos (by left; left; rfl)]
    · rcases hst with h | h
      · simp only [if_neg hsz, h]
        rw [if_neg (by unfold BEL BACKSLASH; omega), if_pos (by left; left; rfl)]
      · simp only [if_neg hsz, h]
        rw [if_neg (by unfold BEL BACKSLASH; omega), if_pos (by left; left; rfl)]
  have hst2 : (esc_pushed t 0x1B).esc.state = STATE_OSC ∨ (esc_pushed t 0x1B).esc.state = STATE_DCS :=
    hst
  have hlast : ((esc_pushed t 0x1B).esc.buf ++ [0x5C]).getD
      (((esc_pushed t 0x1B).esc.buf ++ [0x5C]).length - 2) 0 = ESC := by
    simp only [esc_pushed, List.append_assoc, List.length_append, List.length_cons,
      List.length_nil, List.singleton_append]
    rw [List.getD_eq_getElem?_getD, List.getElem?_append_right (by omega)]
    have : t.esc.buf.length + (0 + 1 + 1) - 2 - t.esc.buf.length = 0 := by omega
    rw [this]
    rfl
  have e2 : push_esc (esc_pushed t 0x1B) 0x5C = (esc_pushed (esc_pushed t 0x1B) 0x5C, true) := by
    generalize esc_pushed t 0x1B = s at hst2 hlast
    have hlen : (s.esc.buf ++ [0x5C]).length ≥ 2 := by
      by_contra hc
      have h0 : s.esc.buf = [] := by
        cases hb : s.esc.buf with
        | nil => rfl
        | cons a l => rw [hb] at hc; simp at hc
      rw [h0] at hlast
      simp [ESC] at hlast
    unfold push_esc esc_pushed esc_grow
    by_cases hsz : s.esc.buf.length ≥ s.esc.size
    · rcases hst2 with h | h
      · simp only [if_pos hsz, h]
        rw [if_pos (by right; exact ⟨rfl, hlen, hlast⟩)]
      · simp only [if_pos hsz, h]
        rw [if_pos (by right; exact ⟨rfl, hlen, hlast⟩)]
    · rcases hst2 with h | h
      · simp only [if_neg hsz, h]
        rw [if_pos (by right; exact ⟨rfl, hlen, hlast⟩)]
      · simp only [if_neg hsz, h]
        rw [if_pos (by right; exact ⟨rfl, hlen, hlast⟩)]
  have p1 : parse_byte wc t 0x1B = some (esc_pushed t 0x1B) := by
    unfold parse_byte
    rcases hst with h | h
    · simp only [h, e1]; simp
    · simp only [h, e1]; simp
  have p2 : parse_byte wc (esc_pushed t 0x1B) 0x5C
      = some (reset_esc (esc_pushed (esc_pushed t 0x1B) 0x5C)) := by
    unfold parse_byte
    rcases hst2 with h | h
    · simp only [h, e2, if_true]; rfl
    · simp only [h, e2, if_true]; rfl
  simp only [parse, p1, p2]

set_option maxRecDepth 20000 in
/-- C18, counterexample: the payload `0;é` (bytes `30 3B C3 A9`) holds neither BEL nor
ESC, yet `ESC ] 0 ; é BEL` on a fresh terminal changes the grid: the byte `C3` is
outside the class `push_esc` keeps, the sequence is dropped there, and the byte `A9`
is then decoded as malformed UTF-8 and printed as `?`, moving the cursor. -/
theorem C18_counterexample :
    (0x07 ∉ [0x30, 0x3B, 0xC3, 0xA9] ∧ 0x1B ∉ [0x30, 0x3B, 0xC3, 0xA9])
    ∧ code_of (run 4 2 []) 0 0 = some 0x20
    ∧ (run 4 2 []).map (fun t => t.cursor) = some { x := 0, y := 0 }
    ∧ code_of (run 4 2 ([0x1B, 0x5D] ++ [0x30, 0x3B, 0xC3, 0xA9] ++ [0x07])) 0 0 = some 0x3F
    ∧ (run 4 2 ([0x1B, 0x5D] ++ [0x30, 0x3B, 0xC3, 0xA9] ++ [0x07])).map (fun t => t.cursor)
        = some { x := 1, y := 0 } := by
  decide

/-- C18, amended: in the ground state (escape state RESET, empty escape buffer of at
least the `ESCSEQ_SIZE` bytes it is allocated with, no UTF-8 sequence under way), for
every payload whose bytes are all in the class
`push_esc` keeps inside a string (BS, HT, LF, CR, `0x20..0x7E`), the sequences
`ESC ] payload BEL`, `ESC P payload BEL`, `ESC ] payload ESC \` and
`ESC P payload ESC \` change nothing but the capacity of the escape buffer: every
cell, the cursor, the modes, the colours and the scroll region are unchanged, and the
escape state is RESET again with an empty buffer. -/
theorem C18_string_consumed (wc : Nat → Int) (t : terminal_t) (h : Ground t)
    (payload : List Nat) (hp : ∀ b ∈ payload, string_byte b)
    (intro : Nat) (hi : intro = 0x5D ∨ intro = 0x50) :
    (∃ sz, parse wc t ([0x1B, intro] ++ payload ++ [0x07])
      = some { t with esc := { buf := [], size := sz, state := STATE_RESET } })
    ∧ (∃ sz, parse wc t ([0x1B, intro] ++ payload ++ [0x1B, 0x5C])
      = some { t with esc := { buf := [], size := sz, state := STATE_RESET } }) := by
  obtain ⟨st, hst, hpair⟩ : ∃ st, (st = STATE_OSC ∨ st = STATE_DCS)
      ∧ ((intro = 0x5D ∧ st = STATE_OSC) ∨ (intro = 0x50 ∧ st = STATE_DCS)) := by
    rcases hi with h1 | h1
    · exact ⟨STATE_OSC, Or.inl rfl, Or.inl ⟨h1, rfl⟩⟩
    · exact ⟨STATE_DCS, Or.inr rfl, Or.inr ⟨h1, rfl⟩⟩
  have hint : intro ≠ 0x1B := by rcases hi with h1 | h1 <;> omega
  have o3 : EscOnly t (esc_entered t intro st) := rfl
  obtain ⟨o1, o2⟩ := esc_pushed_all_only payload (esc_entered t intro st)
  have hbuf : ∀ x ∈ (esc_entered t intro st).esc.buf, x ≠ 0x1B := by
    intro x hx
    simp only [esc_entered, List.mem_singleton] at hx
    omega
  have hs0 : (esc_entered t intro st).esc.state = STATE_OSC
      ∨ (esc_entered t intro st).esc.state = STATE_DCS := hst
  have e1 : ∀ term : List Nat, [0x1B, intro] ++ payload ++ term
      = 0x1B :: intro :: (payload ++ term) := by
    intro term; simp
  constructor
  · rw [e1, parse_string_intro wc t h intro st hpair,
      parse_string_payload wc payload hp _ _ hs0 hbuf]
    generalize esc_pushed_all (esc_entered t intro st) payload = s at o1 o2
    have hs : s.esc.state = STATE_OSC ∨ s.esc.state = STATE_DCS := by
      rw [o2]; exact hst
    rw [parse_string_bel wc s hs]
    exact ⟨_, congrArg some (reset_esc_only ((o3.chain o1).chain (esc_pushed_only s 0x07)))⟩
  · rw [e1, parse_string_intro wc t h intro st hpair,
      parse_string_payload wc payload hp _ _ hs0 hbuf]
    generalize esc_pushed_all (esc_entered t intro st) payload = s at o1 o2
    have hs : s.esc.state = STATE_OSC ∨ s.esc.state = STATE_DCS := by
      rw [o2]; exact hst
    rw [parse_string_st wc s hs]
    exact ⟨_, congrArg some (reset_esc_only ((o3.chain o1).chain
      ((esc_pushed_only s 0x1B).chain (esc_pushed_only _ 0x5C))))⟩

/-- C18, witness: the window-title string `ESC ] 0 ; h i` ended by BEL and by `ESC \`. -/
theorem C18_string_consumed_witness :
    Ground (term_alloc 2 2 ascii_glyphs)
    ∧ (∀ b ∈ [0x30, 0x3B, 0x68, 0x69], string_byte b)
    ∧ ((0x5D : Nat) = 0x5D ∨ (0x5D : Nat) = 0x50)
    ∧ (∃ sz, parse ascii_wcwidth (term_alloc 2 2 ascii_glyphs)
        ([0x1B, 0x5D] ++ [0x30, 0x3B, 0x68, 0x69] ++ [0x07])
        = some { term_alloc 2 2 ascii_glyphs with
            esc := { buf := [], size := sz, state := STATE_RESET } })
    ∧ (∃ sz, parse ascii_wcwidth (term_alloc 2 2 ascii_glyphs)
        ([0x1B, 0x5D] ++ [0x30, 0x3B, 0x68, 0x69] ++ [0x1B, 0x5C])
        = some { term_alloc 2 2 ascii_glyphs with
            esc := { buf := [], size := sz, state := STATE_RESET } }) :=
  have g : Ground (term_alloc 2 2 ascii_glyphs) :=
    ⟨rfl, rfl, by unfold charset_idle; decide, by decide⟩
  ⟨g, by decide, Or.inl rfl,
    C18_string_consumed ascii_wcwidth (term_alloc 2 2 ascii_glyphs) g [0x30, 0x3B, 0x68, 0x69]
      (by decide) 0x5D (Or.inl rfl)⟩

end Yaft

namespace Yaft

open esc_state

/-! ## The dispatch tables and the byte loop keep the invariants -/

theorem csi_func_step {t t1 : terminal_t} {parm : parm_t} {ch : Nat} (hs : Shape t)
    (h : csi_func ch t parm = some t1) : Step t t1 := by
  unfold csi_func at h
  by_cases c0 : ch = 0x40
  · rw [if_pos c0] at h; exact insert_blank_step h
  rw [if_neg c0] at h
  by_cases c1 : ch = 0x41
  · rw [if_pos c1] at h; exact curs_up_step hs h
  rw [if_neg c1] at h
  by_cases c2 : ch = 0x42
  · rw [if_pos c2] at h; exact curs_down_step hs h
  rw [if_neg c2] at h
  by_cases c3 : ch = 0x43
  · rw [if_pos c3] at h; exact curs_forward_step hs h
  rw [if_neg c3] at h
  by_cases c4 : ch = 0x44
  · rw [if_pos c4] at h; exact curs_back_step hs h
  rw [if_neg c4] at h
  by_cases c5 : ch = 0x45
  · rw [if_pos c5] at h; exact curs_nl_step hs h
  rw [if_neg c5] at h
  by_cases c6 : ch = 0x46
  · rw [if_pos c6] at h; exact curs_pl_step hs h
  rw [if_neg c6] at h
  by_cases c7 : ch = 0x47
  · rw [if_pos c7] at h; exact curs_col_step h
  rw [if_neg c7] at h
  by_cases c8 : ch = 0x48
  · rw [if_pos c8] at h; exact curs_pos_step h
  rw [if_neg c8] at h
  by_cases c9 : ch = 0x4A
  · rw [if_pos c9] at h; exact erase_display_step h
  rw [if_neg c9] at h
  by_cases c10 : ch = 0x4B
  · rw [if_pos c10] at h; exact erase_line_step h
  rw [if_neg c10] at h
  by_cases c11 : ch = 0x4C
  · rw [if_pos c11] at h; exact insert_line_step hs h
  rw [if_neg c11] at h
  by_cases c12 : ch = 0x4D
  · rw [if_pos c12] at h; exact delete_line_step hs h
  rw [if_neg c12] at h
  by_cases c13 : ch = 0x50
  · rw [if_pos c13] at h; exact delete_char_step h
  rw [if_neg c13] at h
  by_cases c14 : ch = 0x58
  · rw [if_pos c14] at h; exact erase_char_step h
  rw [if_neg c14] at h
  by_cases c15 : ch = 0x61
  · rw [if_pos c15] at h; exact curs_forward_step hs h
  rw [if_neg c15] at h
  by_cases c16 : ch = 0x63
  · rw [if_pos c16] at h; exact device_attribute_step h
  rw [if_neg c16] at h
  by_cases c17 : ch = 0x64
  · rw [if_pos c17] at h; exact curs_line_step h
  rw [if_neg c17] at h
  by_cases c18 : ch = 0x65
  · rw [if_pos c18] at h; exact curs_down_step hs h
  rw [if_neg c18] at h
  by_cases c19 : ch = 0x66
  · rw [if_pos c19] at h; exact curs_pos_step h
  rw [if_neg c19] at h
  by_cases c20 : ch = 0x67
  · rw [if_pos c20] at h; exact clear_tabstop_step h
  rw [if_neg c20] at h
  by_cases c21 : ch = 0x68
  · rw [if_pos c21] at h; exact set_mode_step h
  rw [if_neg c21] at h
  by_cases c22 : ch = 0x6C
  · rw [if_pos c22] at h; exact reset_mode_step h
  rw [if_neg c22] at h
  by_cases c23 : ch = 0x6D
  · rw [if_pos c23] at h; exact set_attr_run_step h
  rw [if_neg c23] at h
  by_cases c24 : ch = 0x6E
  · rw [if_pos c24] at h; exact status_report_step h
  rw [if_neg c24] at h
  by_cases c25 : ch = 0x72
  · rw [if_pos c25] at h; exact set_margin_step h
  rw [if_neg c25] at h
  by_cases c26 : ch = 0x60
  · rw [if_pos c26] at h; exact curs_col_step h
  rw [if_neg c26] at h
  cases h; exact Step.refl t

theorem csi_sequence_step {t t1 : terminal_t} {ch : Nat} (hs : Shape t)
    (h : csi_sequence t ch = some t1) : Step t t1 := by
  unfold csi_sequence at h
  dsimp only at h
  split at h
  · exact absurd h (by simp)
  · rename_i t2 h2
    cases h
    have fr : ∀ e : esc_t, Step t { t with esc := e } :=
      fun e => step_of_frame rfl rfl rfl rfl rfl rfl rfl rfl
    exact ((fr _).trans (csi_func_step ((fr _).shape hs) h2)).trans (reset_esc_step t2)

theorem parse_byte_step {wc : Nat → Int} {t t1 : terminal_t} {ch : Nat} (hs : Shape t)
    (h : parse_byte wc t ch = some t1) : Step t t1 := by
  have hp := push_esc_step t ch
  unfold parse_byte at h
  split at h
  · split at h
    · exact absurd h (by simp)
    · rename_i t2 h2
      have a : Step t t2 := by
        split at h2
        · exact emit_char_step hs h2
        · cases h2; exact Step.refl t
      have hs2 := a.shape hs
      split at h
      · unfold control_character at h
        exact a.trans (ctrl_func_step hs2 (guard_some h).2)
      · split at h
        · exact a.trans (add_char_step hs2 h)
        · exact a.trans (utf8_charset_step hs2 h)
  · split at h
    · exact hp.trans (esc_sequence_step (hp.shape hs) h)
    · cases h; exact hp
  · split at h
    · exact hp.trans (csi_sequence_step (hp.shape hs) h)
    · cases h; exact hp
  · split at h
    · cases h; exact hp.trans (reset_esc_step _)
    · cases h; exact hp
  · split at h
    · cases h; exact hp.trans (reset_esc_step _)
    · cases h; exact hp

theorem parse_step {wc : Nat → Int} : ∀ (bytes : List Nat) {t t1 : terminal_t}, Shape t →
    parse wc t bytes = some t1 → Step t t1 := by
  intro bytes
  induction bytes with
  | nil => intro t t1 _ h; cases h; exact Step.refl t
  | cons ch rest ih =>
    intro t t1 hs h
    rw [parse] at h
    split at h
    · exact absurd h (by simp)
    · rename_i t2 h2
      have a := parse_byte_step hs h2
      exact a.trans (ih (a.shape hs) h)

end Yaft

namespace Yaft

open esc_state

/-! ## Loops that cannot fail, and erasing the whole display -/

theorem for_up_aux_total {σ : Type} (P : Int → σ → Prop) (body : σ → Int → Option σ) :
    ∀ (n : Nat) (lo : Int) (s : σ),
      (∀ (a : σ) (i : Int), lo ≤ i → i < lo + n → P i a →
        ∃ b, body a i = some b ∧ P (i + 1) b) →
      P lo s → ∃ s1, for_up_aux body n lo s = some s1 ∧ P (lo + n) s1 := by
  intro n
  induction n with
  | zero =>
    intro lo s _ hs
    refine ⟨s, rfl, ?_⟩
    have e : lo + ((0 : Nat) : Int) = lo := by omega
    rw [e]; exact hs
  | succ n ih =>
    intro lo s hb hs
    obtain ⟨b, e, hP⟩ := hb s lo (le_refl _) (by omega) hs
    obtain ⟨s1, e1, h1⟩ := ih (lo + 1) b
      (fun a i h1 h2 => hb a i (by omega) (by omega)) hP
    refine ⟨s1, ?_, ?_⟩
    · simp only [for_up_aux, e]; exact e1
    · have e2 : lo + 1 + (n : Int) = lo + ((n + 1 : Nat) : Int) := by omega
      rw [← e2]; exact h1

theorem for_up_total {σ : Type} (P : Int → σ → Prop) (body : σ → Int → Option σ) (lo hi : Int)
    (s : σ) (hle : lo ≤ hi)
    (hb : ∀ (a : σ) (i : Int), lo ≤ i → i < hi → P i a → ∃ b, body a i = some b ∧ P (i + 1) b)
    (hs : P lo s) : ∃ s1, for_up lo hi body s = some s1 ∧ P hi s1 := by
  unfold for_up
  have e : lo + (((hi - lo).toNat : Nat) : Int) = hi := by omega
  have h := for_up_aux_total P body (hi - lo).toNat lo s
    (fun a i h1 h2 => hb a i h1 (by omega)) hs
  rw [e] at h
  exact h

theorem erase_cell_eq (s : terminal_t) (y x : Nat) (hy : y < s.lines) (hx : x < s.cols) :
    erase_cell s y x = some { s with
      cells := s.cells.set y ((s.cells.getD y []).set x (blank_cell s)),
      line_dirty := s.line_dirty.set y true } := by
  have c : (0 : Int) ≤ y ∧ (y : Int) < s.lines ∧ (0 : Int) ≤ x ∧ (x : Int) < s.cols := by omega
  have d : (0 : Int) ≤ y ∧ (y : Int) < s.lines := by omega
  unfold erase_cell cell_store line_dirty_store blank_cell
  rw [if_pos c]
  dsimp only
  rw [if_pos d]
  simp only [Int.toNat_ofNat]

theorem grid_at_set (cells : List (List cell_t)) (y x : Nat) (c : cell_t) (y1 x1 : Nat)
    (hy : y < cells.length) (hx : x < (cells.getD y []).length) :
    grid_at (cells.set y ((cells.getD y []).set x c)) y1 x1
      = if y1 = y ∧ x1 = x then some c else grid_at cells y1 x1 := by
  unfold grid_at
  by_cases h1 : y1 = y
  · subst h1
    rw [List.getElem?_set_self hy]
    dsimp only
    rw [List.getElem?_eq_getElem hy, ← List.getD_eq_getElem _ [] hy]
    dsimp only
    by_cases h2 : x1 = x
    · subst h2
      rw [List.getElem?_set_self hx, if_pos ⟨rfl, rfl⟩]
    · rw [List.getElem?_set_ne (Ne.symm h2), if_neg (fun h => h2 h.2)]
  · rw [List.getElem?_set_ne (Ne.symm h1), if_neg (fun h => h1 h.1)]

theorem erased_step {t s : terminal_t} {i j : Nat} (h : Erased t i j s) (hi : i < t.lines)
    (hj : j < t.cols) : ∃ b, erase_cell s i j = some b ∧ Erased t i ((j : Int) + 1) b := by
  obtain ⟨hf, hr, hl, hd, hc, hq⟩ := h
  have e1 : s.cols = t.cols := by
    have c := congrArg terminal_t.cols hf; exact c
  have e2 : s.lines = t.lines := by
    have c := congrArg terminal_t.lines hf; exact c
  have e3 : blank_cell s = blank_cell t := by
    have g1 : s.glyph = t.glyph := by
      have c := congrArg terminal_t.glyph hf; exact c
    have g2 : s.color_pair = t.color_pair := by
      have c := congrArg terminal_t.color_pair hf; exact c
    unfold blank_cell; rw [g1, g2]
  have hy : i < s.cells.length := by omega
  have hx : j < (s.cells.getD i []).length := by
    rw [getD_row_length _ _ _ hl hy]; exact hj
  refine ⟨_, erase_cell_eq s i j (by omega) (by omega), hf, ?_, ?_, ?_, ?_, ?_⟩
  · simp only [List.length_set]; exact hr
  · refine mem_set_row _ _ _ _ hl (fun _ => ?_)
    rw [List.length_set]; exact getD_row_length _ _ _ hl hy
  · simp only [List.length_set]; exact hd
  · intro y x hxc hcov
    dsimp only
    rw [grid_at_set _ _ _ _ _ _ hy hx, e3]
    by_cases c : y = i ∧ x = j
    · rw [if_pos c]
    · rw [if_neg c]
      exact hc y x hxc (by omega)
  · intro y hcov
    dsimp only
    by_cases c : y = i
    · subst c
      rw [List.getElem?_set_self (by omega)]
    · exact set_true_mono _ _ _ (hq y (by omega))

theorem erased_row {t s : terminal_t} {i : Nat} (h : Erased t i 0 s) (hi : i < t.lines)
    (hc : 1 ≤ t.cols) :
    ∃ b, for_up 0 t.cols (fun s1 j => erase_cell s1 i j) s = some b
      ∧ Erased t ((i : Int) + 1) 0 b := by
  obtain ⟨b, e, hb⟩ := for_up_total (fun j a => Erased t i j a)
    (fun s1 j => erase_cell s1 i j) 0 t.cols s (by omega)
    (fun a j h1 h2 ha => by
      obtain ⟨n, rfl⟩ := Int.eq_ofNat_of_zero_le h1
      exact erased_step ha hi (by omega)) h
  refine ⟨b, e, ?_⟩
  obtain ⟨hf, hr, hl, hd, hcell, hq⟩ := hb
  refine ⟨hf, hr, hl, hd, ?_, ?_⟩
  · intro y x hx hcov
    exact hcell y x hx (by omega)
  · intro y hcov
    exact hq y (by omega)

theorem erased_start (t : terminal_t) (hs : Shape t) : Erased t 0 0 t :=
  ⟨rfl, hs.rows, hs.row_len, hs.dirty_len, fun _ _ _ h => by omega, fun _ h => by omega⟩

theorem erased_all {t : terminal_t} (hs : Shape t) (hc : 1 ≤ t.cols) :
    ∃ b, for_up 0 t.lines (fun s i => for_up 0 t.cols (fun s1 j => erase_cell s1 i j) s) t
        = some b
      ∧ Erased t t.lines 0 b :=
  for_up_total (fun i a => Erased t i 0 a) _ 0 t.lines t (by omega)
    (fun a i h1 h2 ha => by
      obtain ⟨n, rfl⟩ := Int.eq_ofNat_of_zero_le h1
      exact erased_row ha (by omega) hc) (erased_start t hs)

theorem grid_eq_replicate {cells : List (List cell_t)} {n m : Nat} {c : cell_t}
    (hr : cells.length = n) (hl : ∀ row ∈ cells, row.length = m)
    (hc : ∀ y x : Nat, x < m → y < n → grid_at cells y x = some c) :
    cells = List.replicate n (List.replicate m c) := by
  rw [List.eq_replicate_iff]
  refine ⟨hr, fun row hrow => ?_⟩
  rw [List.eq_replicate_iff]
  refine ⟨hl row hrow, fun b hb => ?_⟩
  obtain ⟨y, hy, rfl⟩ := List.getElem_of_mem hrow
  obtain ⟨x, hx, rfl⟩ := List.getElem_of_mem hb
  have h := hc y x (by rw [← hl _ hrow]; exact hx) (by omega)
  unfold grid_at at h
  rw [List.getElem?_eq_getElem hy] at h
  dsimp only at h
  rw [List.getElem?_eq_getElem hx, Option.some.injEq] at h
  exact h

theorem flags_eq_replicate {l : List Bool} {n : Nat} (hr : l.length = n)
    (hc : ∀ y : Nat, y < n → l[y]? = some true) : l = List.replicate n true := by
  rw [List.eq_replicate_iff]
  refine ⟨hr, fun b hb => ?_⟩
  obtain ⟨y, hy, rfl⟩ := List.getElem_of_mem hb
  have h := hc y (by omega)
  rw [List.getElem?_eq_getElem hy, Option.some.injEq] at h
  exact h

/-- Erasing the whole display from a well-formed state: every cell is blank and every
line is dirty, nothing else changes. -/
theorem erase_display_all {t : terminal_t} {parm : parm_t} (hs : Shape t) (hc : 1 ≤ t.cols)
    (hm : last_arg parm = 2) :
    erase_display t parm = some { t with
      cells := List.replicate t.lines (List.replicate t.cols (blank_cell t)),
      line_dirty := List.replicate t.lines true } := by
  obtain ⟨b, e, hf, hr, hl, hd, hcell, hq⟩ := erased_all hs hc
  unfold erase_display
  dsimp only
  rw [hm, if_neg (by omega), if_neg (by omega), if_neg (by omega), e]
  have e1 : b = { ({ b with cells := t.cells, line_dirty := t.line_dirty } : terminal_t) with
      cells := b.cells, line_dirty := b.line_dirty } := rfl
  rw [hf] at e1
  rw [e1, grid_eq_replicate hr hl (fun y x hx hy => hcell y x hx (by omega)),
    flags_eq_replicate hd (fun y hy => hq y (by omega))]

end Yaft

namespace Yaft

open esc_state

/-! ## Running a CSI sequence from the ground state -/

theorem csi_buffer_cut (ps : List Nat) (f : Nat) :
    (0x5B :: (ps ++ [f])).set ((0x5B :: (ps ++ [f])).length - 1) 0 = 0x5B :: (ps ++ [0]) := by
  have e : (0x5B :: (ps ++ [f])).length - 1 = ps.length + 1 := by simp
  rw [e, List.set_cons_succ, List.set_append_right _ _ (le_refl _)]
  simp

theorem parse_csi_run (wc : Nat → Int) (t : terminal_t) (hg : Ground t) (ps : List Nat)
    (f : Nat) (hps : ∀ p ∈ ps, 0x20 ≤ p ∧ p ≤ 0x3F) (hf1 : 0x40 ≤ f) (hf2 : f ≤ 0x7E) :
    ∃ sz, parse wc t ([0x1B, 0x5B] ++ ps ++ [f])
      = (csi_func f (csi_ready t ps sz) (csi_parm ps)).map reset_esc := by
  have e1 : [0x1B, 0x5B] ++ ps ++ [f] = 0x1B :: 0x5B :: (ps ++ [f]) := rfl
  rw [e1, parse_csi_intro wc t hg, parse_csi_params wc ps hps _ _ rfl]
  obtain ⟨o1, o2⟩ := esc_pushed_all_only ps
    { t with esc := { buf := [0x5B], size := esc_grow t.esc, state := STATE_CSI } }
  have ob := esc_pushed_all_buf ps
    { t with esc := { buf := [0x5B], size := esc_grow t.esc, state := STATE_CSI } }
  have o3 : EscOnly t
      { t with esc := { buf := [0x5B], size := esc_grow t.esc, state := STATE_CSI } } := rfl
  generalize esc_pushed_all
    { t with esc := { buf := [0x5B], size := esc_grow t.esc, state := STATE_CSI } } ps
      = s at o1 o2 ob
  obtain ⟨e, rfl⟩ : ∃ e, s = { t with esc := e } := ⟨s.esc, o3.chain o1⟩
  obtain ⟨buf, size, state⟩ := e
  dsimp only at o2 ob
  subst o2 ob
  refine ⟨esc_grow { buf := [0x5B] ++ ps, size := size, state := STATE_CSI }, ?_⟩
  simp only [parse]
  unfold parse_byte
  dsimp only
  rw [push_esc_csi_final _ f rfl hf1 hf2]
  simp only [if_true]
  unfold csi_sequence esc_pushed
  dsimp only
  rw [List.singleton_append, List.cons_append, csi_buffer_cut]
  unfold csi_ready csi_parm
  simp only [List.take_succ_cons, List.take_zero, List.drop_succ_cons, List.drop_zero,
    List.singleton_append]
  cases csi_func f _ _ <;> rfl

end Yaft

namespace Yaft

open esc_state

/-! ## C13: `CSI 2 J` erases the whole display -/

theorem shape_of_esc {t : terminal_t} (hs : Shape t) (e : esc_t) : Shape { t with esc := e } :=
  ⟨hs.rows, hs.row_len, hs.dirty_len, hs.tab_len, hs.top_u16, hs.bottom_u16, hs.x_u16,
    hs.y_u16, hs.saved_x_u16, hs.saved_y_u16⟩

/-- C13: in every well-formed state between two sequences, with at least one column,
the bytes `ESC [ 2 J` are processed without error and leave the state unchanged (the
cursor included) except that every cell of the grid is the blank cell (glyph of
space, width HALF, attribute RESET, the current colour pair), every line is dirty
and the escape buffer is empty again. -/
theorem C13_erase_display_all (wc : Nat → Int) (t : terminal_t) (hs : Shape t) (hg : Ground t)
    (hc : 1 ≤ t.cols) :
    ∃ sz, parse wc t [0x1B, 0x5B, 0x32, 0x4A] = some { t with
      cells := List.replicate t.lines (List.replicate t.cols (blank_cell t)),
      line_dirty := List.replicate t.lines true,
      esc := { buf := [], size := sz, state := STATE_RESET } } := by
  obtain ⟨sz, e⟩ := parse_csi_run wc t hg [0x32] 0x4A (by decide) (by decide) (by decide)
  refine ⟨sz, ?_⟩
  have e1 : [0x1B, 0x5B, 0x32, 0x4A] = [0x1B, 0x5B] ++ [0x32] ++ [0x4A] := rfl
  have e2 : ∀ (s : terminal_t) (parm : parm_t), csi_func 0x4A s parm = erase_display s parm :=
    fun _ _ => rfl
  have e3 : last_arg (csi_parm [0x32]) = 2 := by decide
  have hs2 : Shape (csi_ready t [0x32] sz) := shape_of_esc hs _
  have hc2 : 1 ≤ (csi_ready t [0x32] sz).cols := hc
  rw [e1, e, e2, erase_display_all hs2 hc2 e3]
  rfl

/-- C13, witness: a terminal of 3 columns and 2 lines whose background colour is 1;
and the run `ESC [ 4 1 m ESC [ 2 J` on a fresh terminal leaves every cell blank with
background 1. -/
theorem C13_erase_display_all_witness :
    (∃ sz, parse ascii_wcwidth red_terminal [0x1B, 0x5B, 0x32, 0x4A] = some { red_terminal with
      cells := List.replicate 2 (List.replicate 3
        { glyphp := some { code := 0x20, width := 1 }, color_pair := { fg := 7, bg := 1 },
          attr := ATTR_RESET, width := HALF }),
      line_dirty := [true, true],
      esc := { buf := [], size := sz, state := STATE_RESET } })
    ∧ (run 3 2 [0x1B, 0x5B, 0x34, 0x31, 0x6D, 0x1B, 0x5B, 0x32, 0x4A]).map (fun t => t.cells)
        = some (List.replicate 2 (List.replicate 3
            { glyphp := some { code := 0x20, width := 1 }, color_pair := { fg := 7, bg := 1 },
              attr := ATTR_RESET, width := HALF })) :=
  ⟨C13_erase_display_all ascii_wcwidth red_terminal
      ⟨rfl, by decide, rfl, rfl, by decide, by decide, by decide, by decide, by decide,
        by decide⟩
      ⟨rfl, rfl, by unfold charset_idle; decide⟩ (by decide),
    by decide⟩

end Yaft

namespace Yaft

open esc_state

/-! ## The state after `reset`, in closed form -/

theorem reset_col_eq (s : terminal_t) (y x : Nat) (hy : y < s.lines) (hx : x < s.cols) :
    reset_col y s x = some { s with
      cells := s.cells.set y ((s.cells.getD y []).set x (blank_cell s)),
      line_dirty := s.line_dirty.set y true,
      tabstop := s.tabstop.set x (tab_flag x) } := by
  have c : (0 : Int) ≤ x ∧ (x : Int) < s.cols := by omega
  unfold reset_col
  rw [erase_cell_eq s y x hy hx]
  dsimp only
  unfold tabstop_store tab_flag
  dsimp only
  rw [if_pos c]
  simp only [Int.toNat_ofNat]

theorem wiped_step {t s : terminal_t} {i j : Nat} (h : Wiped t i j s) (hi : i < t.lines)
    (hj : j < t.cols) : ∃ b, reset_col i s j = some b ∧ Wiped t i ((j : Int) + 1) b := by
  obtain ⟨hf, hr, hl, hd, ht, hc, hq, hb⟩ := h
  have e1 : s.cols = t.cols := by
    have c := congrArg terminal_t.cols hf; exact c
  have e2 : s.lines = t.lines := by
    have c := congrArg terminal_t.lines hf; exact c
  have e3 : blank_cell s = blank_cell t := by
    have g1 : s.glyph = t.glyph := by
      have c := congrArg terminal_t.glyph hf; exact c
    have g2 : s.color_pair = t.color_pair := by
      have c := congrArg terminal_t.color_pair hf; exact c
    unfold blank_cell; rw [g1, g2]
  have hy : i < s.cells.length := by omega
  have hx : j < (s.cells.getD i []).length := by
    rw [getD_row_length _ _ _ hl hy]; exact hj
  refine ⟨_, reset_col_eq s i j (by omega) (by omega), hf, ?_, ?_, ?_, ?_, ?_, ?_, ?_⟩
  · simp only [List.length_set]; exact hr
  · refine mem_set_row _ _ _ _ hl (fun _ => ?_)
    rw [List.length_set]; exact getD_row_length _ _ _ hl hy
  · simp only [List.length_set]; exact hd
  · simp only [List.length_set]; exact ht
  · intro y x hxc hcov
    dsimp only
    rw [grid_at_set _ _ _ _ _ _ hy hx, e3]
    by_cases c : y = i ∧ x = j
    · rw [if_pos c]
    · rw [if_neg c]
      exact hc y x hxc (by omega)
  · intro y hcov
    exact set_true_mono _ _ _ (hq y hcov)
  · intro x hxc hcov
    dsimp only
    by_cases c : x = j
    · subst c
      rw [List.getElem?_set_self (by omega)]
    · rw [List.getElem?_set_ne (Ne.symm c)]
      exact hb x hxc (by omega)

theorem wiped_row {t s : terminal_t} {i : Nat} (h : Wiped t i 0 s) (hi : i < t.lines) :
    ∃ b, reset_line s i = some b ∧ Wiped t ((i : Int) + 1) 0 b := by
  have e1 : s.cols = t.cols := by
    have c := congrArg terminal_t.cols h.1; exact c
  obtain ⟨b, e, hb⟩ := for_up_total (fun j a => Wiped t i j a) (reset_col i) 0 t.cols s
    (by omega)
    (fun a j h1 h2 ha => by
      obtain ⟨n, rfl⟩ := Int.eq_ofNat_of_zero_le h1
      exact wiped_step ha hi (by omega)) h
  obtain ⟨hf, hr, hl, hd, ht, hcell, hq, htab⟩ := hb
  have e2 : b.lines = t.lines := by
    have c := congrArg terminal_t.lines hf; exact c
  have d : (0 : Int) ≤ i ∧ (i : Int) < b.lines := by omega
  unfold reset_line
  rw [e1, e]
  dsimp only
  unfold line_dirty_store
  rw [if_pos d]
  refine ⟨_, rfl, hf, hr, hl, ?_, ht, ?_, ?_, ?_⟩
  · simp only [List.length_set]; exact hd
  · intro y x hx hcov
    exact hcell y x hx (by omega)
  · intro y hcov
    dsimp only
    by_cases c : y = i
    · subst c
      rw [Int.toNat_ofNat, List.getElem?_set_self (by omega)]
    · exact set_true_mono _ _ _ (hq y (by omega))
  · intro x hx hcov
    exact htab x hx (by omega)

theorem wiped_all {t : terminal_t} (hs : Shape t) :
    ∃ b, for_up 0 t.lines reset_line t = some b ∧ Wiped t t.lines 0 b :=
  for_up_total (fun i a => Wiped t i 0 a) _ 0 t.lines t (by omega)
    (fun a i h1 h2 ha => by
      obtain ⟨n, rfl⟩ := Int.eq_ofNat_of_zero_le h1
      exact wiped_row ha (by omega))
    ⟨rfl, hs.rows, hs.row_len, hs.dirty_len, hs.tab_len, fun _ _ _ h => by omega,
      fun _ h => by omega, fun _ _ h => by omega⟩

theorem tabs_eq_map {l : List Bool} {n : Nat} (hr : l.length = n)
    (hc : ∀ x : Nat, x < n → l[x]? = some (tab_flag x)) : l = (List.range n).map tab_flag := by
  apply List.ext_getElem?
  intro x
  by_cases c : x < n
  · rw [hc x c, List.getElem?_map, List.getElem?_range c]
    rfl
  · rw [List.getElem?_eq_none (by omega), List.getElem?_eq_none (by simp; omega)]

theorem wiped_frame {b u : terminal_t}
    (hf : { b with cells := u.cells, line_dirty := u.line_dirty, tabstop := u.tabstop } = u) :
    b = { u with cells := b.cells, line_dirty := b.line_dirty, tabstop := b.tabstop } := by
  rw [← hf]

/-- The function `reset` on a well-formed state with at least one line returns the
state `reset_result`. -/
theorem reset_eq {t : terminal_t} (hs : Shape t) (hl : 1 ≤ t.lines) :
    reset t = some (reset_result t) := by
  have hs1 : Shape (reset_entry t) :=
    have z : (0 : Nat) < 65536 := by decide
    ⟨hs.rows, hs.row_len, hs.dirty_len, hs.tab_len, z, to_u16_lt _, z, z, z, z⟩
  obtain ⟨b, e, hf, hr, hl1, hd, ht, hcell, hq, htab⟩ := wiped_all hs1
  have e0 : reset t = match for_up 0 (reset_entry t).lines reset_line (reset_entry t) with
      | none => none
      | some t2 => some (reset_charset (reset_esc t2)) := rfl
  rw [e0, e]
  have e1 := wiped_frame hf
  have l1 : (reset_entry t).lines = t.lines := rfl
  have l2 : (reset_entry t).cols = t.cols := rfl
  rw [l1] at hr hd hq
  rw [l2] at hl1 ht hcell htab
  rw [e1, grid_eq_replicate hr hl1 (fun y x hx hy => hcell y x hx (by left; omega)),
    flags_eq_replicate hd (fun y hy => hq y (by omega)),
    tabs_eq_map ht (fun x hx => htab x hx (by left; omega))]
  rfl

end Yaft

namespace Yaft

open esc_state

/-! ## C14: DECSTBM -/

theorem dec2num_range (str : Option (List Nat)) :
    -2147483648 ≤ dec2num str ∧ dec2num str < 2147483648 := by
  unfold dec2num
  split
  · omega
  · exact to_int_range _

theorem set_margin_accept {t : terminal_t} {parm : parm_t} {p1 p2 : Nat}
    (h : reads_two parm p1 p2) (h1 : 1 ≤ p1) (h2 : p1 < p2) (h3 : p2 ≤ t.lines) :
    set_margin t parm = some (set_cursor_to { t with scroll :=
      { top := to_u16 ((p1 : Int) - 1), bottom := to_u16 ((p2 : Int) - 1) } } 0 0) := by
  obtain ⟨a1, a2, a3, a4, a5⟩ := h
  have r2 := dec2num_range (parm.arg 1)
  have et : margin_top parm = (p1 : Int) - 1 := by
    unfold margin_top
    rw [if_neg (by omega), if_neg a2, a4]
    unfold to_int; omega
  have eb : margin_bottom t parm = (p2 : Int) - 1 := by
    unfold margin_bottom
    rw [if_neg (by omega), if_neg a3, a5]
    unfold to_int; omega
  have ct : margin_clamp t.lines ((p1 : Int) - 1) 0 = (p1 : Int) - 1 := by
    unfold margin_clamp
    rw [if_neg (by omega)]
  have cb : margin_clamp t.lines ((p2 : Int) - 1) ((t.lines : Int) - 1) = (p2 : Int) - 1 := by
    unfold margin_clamp
    rw [if_neg (by omega)]
  have hin : margin_in_int parm := by
    unfold margin_in_int in_int
    rw [a4, a5]
    constructor <;> intro _ <;> omega
  unfold set_margin
  rw [if_neg (fun c => c.2 hin), if_pos (Or.inr a1), et, eb, ct, cb, if_neg (by omega)]
  refine set_cursor_total _ _ _ ?_
  dsimp only
  have := to_u16_lt ((p1 : Int) - 1)
  unfold in_int
  omega

theorem set_margin_reject {t : terminal_t} {parm : parm_t} {p1 p2 : Nat}
    (h : reads_two parm p1 p2) (h1 : 1 ≤ p2) (h2 : p2 ≤ p1) (h3 : p1 ≤ t.lines) :
    set_margin t parm = some t := by
  obtain ⟨a1, a2, a3, a4, a5⟩ := h
  have r1 := dec2num_range (parm.arg 0)
  have et : margin_top parm = (p1 : Int) - 1 := by
    unfold margin_top
    rw [if_neg (by omega), if_neg a2, a4]
    unfold to_int; omega
  have eb : margin_bottom t parm = (p2 : Int) - 1 := by
    unfold margin_bottom
    rw [if_neg (by omega), if_neg a3, a5]
    unfold to_int; omega
  have ct : margin_clamp t.lines ((p1 : Int) - 1) 0 = (p1 : Int) - 1 := by
    unfold margin_clamp
    rw [if_neg (by omega)]
  have cb : margin_clamp t.lines ((p2 : Int) - 1) ((t.lines : Int) - 1) = (p2 : Int) - 1 := by
    unfold margin_clamp
    rw [if_neg (by omega)]
  have hin : margin_in_int parm := by
    unfold margin_in_int in_int
    rw [a4, a5]
    constructor <;> intro _ <;> omega
  unfold set_margin
  rw [if_neg (fun c => c.2 hin), if_pos (Or.inr a1), et, eb, ct, cb, if_pos (by omega)]

theorem set_cursor_home {t : terminal_t} {top bottom : Nat} (hc : 1 ≤ t.cols)
    (h1 : top < bottom) (h2 : bottom < t.lines) (h3 : bottom < 65536) :
    set_cursor_to { t with scroll := { top := top, bottom := bottom } } 0 0
      = { t with scroll := { top := top, bottom := bottom },
                 cursor := { x := 0, y := home_row t top }, wrap_occured := false } := by
  unfold set_cursor_to home_row
  dsimp only
  by_cases c : has_bit t.mode MODE_ORIGIN = true
  · simp only [c, if_true]
    have e : to_int (0 + (top : Int)) = top := by unfold to_int; omega
    have e2 : to_u16 (top : Int) = top := by unfold to_u16; omega
    have e3 : to_u16 0 = 0 := by decide
    rw [e, if_neg (by omega), if_neg (by omega), if_neg (by omega), if_neg (by omega), e2, e3]
  · simp only [c]
    simp only [Bool.false_eq_true, if_false]
    rw [if_neg (by omega), if_neg (by omega), if_neg (by omega), if_neg (by omega)]
    simp [to_u16]

end Yaft

namespace Yaft

open esc_state

theorem term_alloc_shape (cols lines : Nat) (glyph : Nat → Option glyph_t) :
    Shape (term_alloc cols lines glyph) := by
  have z : (0 : Nat) < 65536 := by decide
  refine ⟨?_, ?_, ?_, ?_, z, z, z, z, z, z⟩
  · exact List.length_replicate _ _
  · intro row h
    rw [List.eq_of_mem_replicate h]
    exact List.length_replicate _ _
  · exact List.length_replicate _ _
  · exact List.length_replicate _ _

/-- A run on a terminal with at least one line starts from the state `fresh`. -/
theorem run_fresh (cols lines : Nat) (bytes : List Nat) (hl : 1 ≤ lines) :
    run cols lines bytes = parse ascii_wcwidth (fresh cols lines) bytes := by
  have e : term_init cols lines ascii_glyphs = some (fresh cols lines) := by
    unfold term_init
    rw [if_neg (by decide)]
    exact reset_eq (term_alloc_shape cols lines ascii_glyphs) hl
  unfold run
  rw [e]

theorem fresh_ground (cols lines : Nat) : Ground (fresh cols lines) :=
  ⟨rfl, rfl, by unfold charset_idle; exact le_refl _, Nat.le_refl ESCSEQ_SIZE⟩

theorem csi_func_r (s : terminal_t) (parm : parm_t) : csi_func 0x72 s parm = set_margin s parm :=
  rfl

/-- C14 (amended): in a state between two sequences of a terminal with at least one
column, let the parameter bytes `ps` be read as the two numbers `p1` and `p2`. If
`1 ≤ p1 < p2 ≤ lines` and `p2 ≤ 65536`, the bytes `ESC [ ps r` set `scroll.top = p1 - 1`
and `scroll.bottom = p2 - 1` and put the cursor in column 0 of row 0, or of row
`scroll.top` in origin mode. If `1 ≤ p2 ≤ p1 ≤ lines`, they change nothing but the
escape buffer, which is empty again. -/
theorem C14_set_margin (wc : Nat → Int) (t : terminal_t) (hg : Ground t) (hc : 1 ≤ t.cols) :
    (∀ (ps : List Nat) (p1 p2 : Nat), (∀ p ∈ ps, 0x20 ≤ p ∧ p ≤ 0x3F) →
      reads_two (csi_parm ps) p1 p2 → 1 ≤ p1 → p1 < p2 → p2 ≤ t.lines → p2 ≤ 65536 →
      ∃ sz, parse wc t ([0x1B, 0x5B] ++ ps ++ [0x72]) = some { t with
        scroll := { top := p1 - 1, bottom := p2 - 1 },
        cursor := { x := 0, y := home_row t (p1 - 1) },
        wrap_occured := false,
        esc := { buf := [], size := sz, state := STATE_RESET } })
    ∧ (∀ (ps : List Nat) (p1 p2 : Nat), (∀ p ∈ ps, 0x20 ≤ p ∧ p ≤ 0x3F) →
      reads_two (csi_parm ps) p1 p2 → 1 ≤ p2 → p2 ≤ p1 → p1 ≤ t.lines →
      ∃ sz, parse wc t ([0x1B, 0x5B] ++ ps ++ [0x72]) = some { t with
        esc := { buf := [], size := sz, state := STATE_RESET } }) := by
  constructor
  · intro ps p1 p2 hps hr h1 h2 h3 h4
    obtain ⟨sz, e⟩ := parse_csi_run wc t hg ps 0x72 hps (by decide) (by decide)
    refine ⟨sz, ?_⟩
    have h3a : p2 ≤ (csi_ready t ps sz).lines := h3
    have hca : 1 ≤ (csi_ready t ps sz).cols := hc
    have e1 : to_u16 ((p1 : Int) - 1) = p1 - 1 := by unfold to_u16; omega
    have e2 : to_u16 ((p2 : Int) - 1) = p2 - 1 := by unfold to_u16; omega
    rw [e, csi_func_r, set_margin_accept hr h1 h2 h3a, e1, e2,
      set_cursor_home hca (by omega) (by omega) (by omega)]
    rfl
  · intro ps p1 p2 hps hr h1 h2 h3
    obtain ⟨sz, e⟩ := parse_csi_run wc t hg ps 0x72 hps (by decide) (by decide)
    refine ⟨sz, ?_⟩
    have h3a : p1 ≤ (csi_ready t ps sz).lines := h3
    rw [e, csi_func_r, set_margin_reject hr h1 h2 h3a]
    rfl

/-- C14, witness: on a fresh terminal of 2 columns and 10 lines `ESC [ 5 ; 1 0 r` gives
the region `[4, 9]` and `ESC [ 7 ; 3 r` is rejected. -/
theorem C14_set_margin_witness :
    (∃ sz, parse ascii_wcwidth (fresh 2 10) ([0x1B, 0x5B] ++ [0x35, 0x3B, 0x31, 0x30] ++ [0x72])
      = some { fresh 2 10 with
        scroll := { top := 4, bottom := 9 },
        cursor := { x := 0, y := home_row (fresh 2 10) 4 },
        wrap_occured := false,
        esc := { buf := [], size := sz, state := STATE_RESET } })
    ∧ (∃ sz, parse ascii_wcwidth (fresh 2 10) ([0x1B, 0x5B] ++ [0x37, 0x3B, 0x33] ++ [0x72])
      = some { fresh 2 10 with esc := { buf := [], size := sz, state := STATE_RESET } }) :=
  ⟨(C14_set_margin ascii_wcwidth (fresh 2 10) (fresh_ground 2 10) (by decide)).1
      [0x35, 0x3B, 0x31, 0x30] 5 10 (by decide) (by decide) (by decide) (by decide)
      (by decide) (by decide),
    (C14_set_margin ascii_wcwidth (fresh 2 10) (fresh_ground 2 10) (by decide)).2
      [0x37, 0x3B, 0x33] 7 3 (by decide) (by decide) (by decide) (by decide) (by decide)⟩

/-- C14, counterexample: on a terminal of 65537 lines the sequence
`ESC [ 1 ; 6 5 5 3 7 r` has `1 ≤ p1 < p2 ≤ lines`, and `scroll.bottom` is 0 afterwards,
not `p2 - 1 = 65536`. -/
theorem C14_counterexample :
    (run 1 65537 [0x1B, 0x5B, 0x31, 0x3B, 0x36, 0x35, 0x35, 0x33, 0x37, 0x72]).map
      (fun t => (t.lines, t.scroll.top, t.scroll.bottom)) = some (65537, 0, 0) := by
  obtain ⟨sz, e⟩ := parse_csi_run ascii_wcwidth (fresh 1 65537) (fresh_ground 1 65537)
    [0x31, 0x3B, 0x36, 0x35, 0x35, 0x33, 0x37] 0x72 (by decide) (by decide) (by decide)
  have e1 : [0x1B, 0x5B, 0x31, 0x3B, 0x36, 0x35, 0x35, 0x33, 0x37, 0x72]
      = [0x1B, 0x5B] ++ [0x31, 0x3B, 0x36, 0x35, 0x35, 0x33, 0x37] ++ [0x72] := rfl
  have hr : reads_two (csi_parm [0x31, 0x3B, 0x36, 0x35, 0x35, 0x33, 0x37]) 1 65537 := by decide
  have h3 : 65537 ≤ (csi_ready (fresh 1 65537) [0x31, 0x3B, 0x36, 0x35, 0x35, 0x33, 0x37] sz).lines :=
    le_refl _
  rw [run_fresh 1 65537 _ (by decide), e1, e, csi_func_r,
    set_margin_accept hr (le_refl _) (by decide) h3]
  rfl

end Yaft

namespace Yaft

open esc_state

/-! ## Printing a half-width character -/

theorem select_glyph_present {s : terminal_t} {code : Nat} {g : glyph_t} {w : Int}
    (hu : code < UCS2_CHARS) (hg : s.glyph code = some g) (hw : (g.width : Int) = w) :
    select_glyph s code w = some g := by
  unfold select_glyph
  rw [if_neg (by omega), hg]
  dsimp only
  rw [if_neg (by simp [hw])]

theorem grid_at_row {cells : List (List cell_t)} {y x : Nat} {n : Nat}
    (hy : y < cells.length) (hl : ∀ row ∈ cells, row.length = n) (hx : x < n) :
    ∃ c, grid_at cells y x = some c := by
  unfold grid_at
  rw [List.getElem?_eq_getElem hy]
  dsimp only
  have h : x < (cells[y]).length := by rw [hl _ (List.getElem_mem _)]; exact hx
  exact ⟨_, List.getElem?_eq_getElem h⟩

theorem cell_ref_eq (s : terminal_t) (y x : Nat) (hy : y < s.lines) (hx : x < s.cols) :
    cell_ref s y x = grid_at s.cells y x := by
  have c : (0 : Int) ≤ y ∧ (y : Int) < s.lines ∧ (0 : Int) ≤ x ∧ (x : Int) < s.cols := by omega
  unfold cell_ref grid_at
  rw [if_pos c]
  simp only [Int.toNat_ofNat]

/-- The function `set_cell` with a half-width glyph whose right neighbour is not the
second half of a wide character. -/
theorem set_cell_half {s : terminal_t} {y x : Nat} {g : glyph_t} (hgw : g.width = HALF)
    (hy : y < s.lines) (hx : x < s.cols) (hr : s.cells.length = s.lines)
    (hl : ∀ row ∈ s.cells, row.length = s.cols)
    (hn : x + 1 < s.cols → ∀ c, grid_at s.cells y (x + 1) = some c → c.width ≠ NEXT_TO_WIDE) :
    set_cell s y x g = some (put_cell s y x g, 1) := by
  have c : (0 : Int) ≤ y ∧ (y : Int) < s.lines ∧ (0 : Int) ≤ x ∧ (x : Int) < s.cols := by omega
  have d : (0 : Int) ≤ y ∧ (y : Int) < s.lines := by omega
  have hw : (make_cell s g).width = HALF := hgw
  unfold set_cell
  dsimp only
  unfold cell_store
  rw [if_pos c]
  dsimp only
  unfold line_dirty_store
  rw [if_pos d]
  dsimp only
  rw [hw, if_neg (by unfold HALF WIDE; omega)]
  simp only [Int.toNat_ofNat]
  by_cases e : x + 1 < s.cols
  · have e1 : True ∧ (x : Int) + 1 < (s.cols : Int) := ⟨trivial, by omega⟩
    rw [if_pos e1]
    have e2 : ((x : Int) + 1) = ((x + 1 : Nat) : Int) := by omega
    have hc := cell_ref_eq (put_cell s y x g) y (x + 1) hy e
    unfold put_cell at hc
    rw [e2, hc]
    dsimp only
    have hy1 : y < s.cells.length := by omega
    have hx1 : x < (s.cells.getD y []).length := by
      rw [getD_row_length _ _ _ hl hy1]; exact hx
    rw [grid_at_set _ _ _ _ _ _ hy1 hx1, if_neg (by omega)]
    obtain ⟨nxt, hnxt⟩ := grid_at_row hy1 hl e
    rw [hnxt]
    dsimp only
    rw [if_neg (hn e nxt hnxt)]
    rfl
  · have e1 : ¬ (True ∧ (x : Int) + 1 < (s.cols : Int)) := by omega
    rw [if_neg e1]
    rfl

end Yaft

namespace Yaft

open esc_state

/-! ## Moving the cursor one column to the right -/

theorem move_cursor_x_right {s : terminal_t} (hx : s.cursor.x + 1 < s.cols)
    (hx16 : s.cursor.x < 65536) :
    move_cursor_x s 1
      = { s with cursor := { s.cursor with x := to_u16 ((s.cursor.x : Int) + 1) } } := by
  have e2 : to_int ((s.cursor.x : Int) + 1) = (s.cursor.x : Int) + 1 := by unfold to_int; omega
  have h1 : ¬ ((s.cursor.x : Int) + 1 < 0) := by omega
  have h2 : ¬ ((s.cursor.x : Int) + 1 ≥ (s.cols : Int)) := by omega
  unfold move_cursor_x
  dsimp only
  rw [e2, if_neg h1, if_neg h2]

theorem move_cursor_right {s : terminal_t} (hx : s.cursor.x + 1 < s.cols)
    (hx16 : s.cursor.x < 65536) (hy : s.cursor.y < s.lines) (hy16 : s.cursor.y < 65536) :
    move_cursor s 0 1
      = some { s with cursor := { x := to_u16 ((s.cursor.x : Int) + 1), y := s.cursor.y } } := by
  have e1 : to_int ((s.cursor.y : Int) + 0) = s.cursor.y := by unfold to_int; omega
  have e3 : to_u16 (s.cursor.y : Int) = s.cursor.y := by unfold to_u16; omega
  have h1 : ¬ ((s.cursor.y : Int) < 0) := by omega
  have h2 : ¬ ((s.cursor.y : Int) ≥ (s.lines : Int)) := by omega
  unfold move_cursor
  rw [if_neg (move_cursor_defined s 0 1 hx16 hy16 (by omega) (by omega) (by omega) (by omega))]
  dsimp only
  rw [move_cursor_x_right hx hx16, e1]
  dsimp only
  simp only [lt_self_iff_false, gt_iff_lt, and_false, if_false]
  rw [if_neg h1, if_neg h2]
  unfold store_cursor_y
  dsimp only
  rw [e3]

theorem move_cursor_x_edge {s : terminal_t} (hx : s.cursor.x + 1 = s.cols)
    (hx16 : s.cursor.x < 65536) :
    move_cursor_x s 1
      = { s with
          wrap_occured := if has_bit s.mode MODE_AMRIGHT then true else s.wrap_occured,
          cursor := { s.cursor with x := s.cursor.x } } := by
  have e2 : to_int ((s.cursor.x : Int) + 1) = (s.cursor.x : Int) + 1 := by unfold to_int; omega
  have e4 : to_u16 ((s.cols : Int) - 1) = s.cursor.x := by
    have e5 : (s.cols : Int) - 1 = (s.cursor.x : Int) := by omega
    rw [e5]; unfold to_u16; omega
  have h1 : ¬ ((s.cursor.x : Int) + 1 < 0) := by omega
  have h2 : (s.cursor.x : Int) + 1 ≥ (s.cols : Int) := by omega
  unfold move_cursor_x
  dsimp only
  rw [e2, if_neg h1, if_pos h2, e4]

theorem move_cursor_edge {s : terminal_t} (hx : s.cursor.x + 1 = s.cols)
    (hx16 : s.cursor.x < 65536) (hy : s.cursor.y < s.lines) (hy16 : s.cursor.y < 65536) :
    move_cursor s 0 1
      = some { s with
          wrap_occured := if has_bit s.mode MODE_AMRIGHT then true else s.wrap_occured,
          cursor := { x := s.cursor.x, y := s.cursor.y } } := by
  have e1 : to_int ((s.cursor.y : Int) + 0) = s.cursor.y := by unfold to_int; omega
  have e3 : to_u16 (s.cursor.y : Int) = s.cursor.y := by unfold to_u16; omega
  have h1 : ¬ ((s.cursor.y : Int) < 0) := by omega
  have h2 : ¬ ((s.cursor.y : Int) ≥ (s.lines : Int)) := by omega
  unfold move_cursor
  rw [if_neg (move_cursor_defined s 0 1 hx16 hy16 (by omega) (by omega) (by omega) (by omega))]
  dsimp only
  rw [move_cursor_x_edge hx hx16, e1]
  dsimp only
  simp only [lt_self_iff_false, gt_iff_lt, and_false, if_false]
  rw [if_neg h1, if_neg h2]
  unfold store_cursor_y
  dsimp only
  rw [e3]

/-- The function `add_char` for a half-width character with no wrap pending: the cell
is stored at the cursor and the cursor moves one column to the right. -/
theorem add_char_nowrap {wc : Nat → Int} {s : terminal_t} {code : Nat} {g : glyph_t}
    (hw : wc code = 1) (hu : code < UCS2_CHARS) (hg : s.glyph code = some g)
    (hgw : g.width = HALF) (hy : s.cursor.y < s.lines) (hx : s.cursor.x < s.cols)
    (hr : s.cells.length = s.lines) (hl : ∀ row ∈ s.cells, row.length = s.cols)
    (hn : s.cursor.x + 1 < s.cols →
      ∀ c, grid_at s.cells s.cursor.y (s.cursor.x + 1) = some c → c.width ≠ NEXT_TO_WIDE)
    (hnw : ¬ (s.wrap_occured = true ∧ s.cursor.x + 1 = s.cols)) :
    add_char wc s code
      = move_cursor (put_cell { s with wrap_occured := false } s.cursor.y s.cursor.x g) 0 1 := by
  have hsel : select_glyph s code 1 = some g :=
    select_glyph_present hu hg (by rw [hgw]; rfl)
  have hc : ¬ ((s.wrap_occured = true ∧ (s.cursor.x : Int) = (s.cols : Int) - 1)
      ∨ (g.width = WIDE ∧ (s.cursor.x : Int) = (s.cols : Int) - 1)) := by
    rw [hgw]
    intro h
    rcases h with ⟨h1, h2⟩ | ⟨h1, _⟩
    · exact hnw ⟨h1, by omega⟩
    · exact absurd h1 (by decide)
  have hset : set_cell { s with wrap_occured := false } s.cursor.y s.cursor.x g
      = some (put_cell { s with wrap_occured := false } s.cursor.y s.cursor.x g, 1) :=
    set_cell_half hgw hy hx hr hl hn
  unfold add_char
  dsimp only
  rw [hw, if_neg (by omega), hsel]
  dsimp only
  rw [if_neg hc]
  dsimp only
  rw [hset]

end Yaft

namespace Yaft

open esc_state

/-! ## Printing a run of half-width characters from the home position -/

theorem printed_frame {t0 s : terminal_t} (hf : grid_frame s t0 = t0) :
    s.cols = t0.cols ∧ s.lines = t0.lines ∧ s.esc = t0.esc ∧ s.charset = t0.charset
      ∧ s.glyph = t0.glyph ∧ s.wrap_occured = t0.wrap_occured ∧ s.attr = t0.attr
      ∧ s.color_pair = t0.color_pair ∧ s.mode = t0.mode ∧ s.scroll = t0.scroll := by
  refine ⟨?_, ?_, ?_, ?_, ?_, ?_, ?_, ?_, ?_, ?_⟩
  · have c := congrArg terminal_t.cols hf; exact c
  · have c := congrArg terminal_t.lines hf; exact c
  · have c := congrArg terminal_t.esc hf; exact c
  · have c := congrArg terminal_t.charset hf; exact c
  · have c := congrArg terminal_t.glyph hf; exact c
  · have c := congrArg terminal_t.wrap_occured hf; exact c
  · have c := congrArg terminal_t.attr hf; exact c
  · have c := congrArg terminal_t.color_pair hf; exact c
  · have c := congrArg terminal_t.mode hf; exact c
  · have c := congrArg terminal_t.scroll hf; exact c

/-- A printable byte in the ground state goes to `add_char`. -/
theorem parse_byte_print (wc : Nat → Int) (s : terminal_t) (b : Nat)
    (hst : s.esc.state = STATE_RESET) (hi : s.charset.following_byte = 0)
    (h1 : 0x20 ≤ b) (h2 : b ≤ 0x7E) : parse_byte wc s b = add_char wc s b := by
  unfold parse_byte
  simp only [hst]
  rw [if_neg (by omega)]
  simp only
  rw [if_neg (by omega), if_pos (by omega)]

theorem print_byte {wc : Nat → Int} {t0 s : terminal_t} {done : List Nat} {b : Nat}
    {g : glyph_t} (hb0 : PrintBase t0) (hp : Printed t0 done s) (h1 : 0x20 ≤ b) (h2 : b ≤ 0x7E)
    (hw : wc b = 1) (hg : t0.glyph b = some g) (hgw : g.width = HALF)
    (hk : done.length + 1 < t0.cols) (hu : done.length < 65536) (hl : 1 ≤ t0.lines) :
    parse_byte wc s b = some (typed s g (to_u16 ((done.length : Int) + 1))) := by
  obtain ⟨hf, hr, hrl, hcur, hdl, hmono, hd0, hcell⟩ := hp
  obtain ⟨f1, f2, f3, f4, f5, f6, f7, f8, f9, f10⟩ := printed_frame hf
  have hx : s.cursor.x = done.length := by rw [hcur]
  have hy : s.cursor.y = 0 := by rw [hcur]
  have hst : s.esc.state = STATE_RESET := by rw [f3]; exact hb0.ground
  have hi : s.charset.following_byte = 0 := by rw [f4]; exact hb0.idle
  have hnw : ¬ (s.wrap_occured = true ∧ s.cursor.x + 1 = s.cols) := by
    rw [f6, hb0.no_wrap]; simp
  have hn : s.cursor.x + 1 < s.cols →
      ∀ c, grid_at s.cells s.cursor.y (s.cursor.x + 1) = some c → c.width ≠ NEXT_TO_WIDE := by
    intro _ c hc
    rw [hy, hx, hcell 0 (done.length + 1) (by omega) hk, if_neg (by omega)] at hc
    exact hb0.halves _ _ c hc
  rw [parse_byte_print wc s b hst hi h1 h2,
    add_char_nowrap hw (by unfold UCS2_CHARS; omega) (by rw [f5]; exact hg) hgw
      (by rw [hy, f2]; omega) (by rw [hx, f1]; omega) (by rw [hr, f2])
      (by rw [f1]; exact hrl) hn hnw]
  have hm := move_cursor_right
    (s := put_cell { s with wrap_occured := false } s.cursor.y s.cursor.x g)
    (by show s.cursor.x + 1 < s.cols; rw [hx, f1]; exact hk)
    (by show s.cursor.x < 65536; rw [hx]; exact hu)
    (by show s.cursor.y < s.lines; rw [hy, f2]; omega)
    (by show s.cursor.y < 65536; rw [hy]; decide)
  rw [hm]
  unfold typed put_cell
  simp only [hy, hx]

end Yaft

namespace Yaft

open esc_state

theorem unwrap_eq (t : terminal_t) (h : t.wrap_occured = false) :
    { t with wrap_occured := false } = t := by
  cases t
  simp only at h
  subst h
  rfl

theorem make_cell_congr {s t0 : terminal_t} (g : glyph_t) (ha : s.attr = t0.attr)
    (hc : s.color_pair = t0.color_pair) : make_cell s g = make_cell t0 g := by
  unfold make_cell
  rw [ha, hc]

theorem printed_next {t0 s : terminal_t} {done : List Nat} {b : Nat} {g : glyph_t}
    (hb0 : PrintBase t0) (hp : Printed t0 done s) (hg : t0.glyph b = some g)
    (hk : done.length < t0.cols) (hl : 1 ≤ t0.lines) :
    Printed t0 (done ++ [b]) (typed s g (done.length + 1)) := by
  obtain ⟨hf, hr, hrl, hcur, hdl, hmono, hd0, hcell⟩ := hp
  obtain ⟨f1, f2, f3, f4, f5, f6, f7, f8, f9, f10⟩ := printed_frame hf
  have hx : s.cursor.x = done.length := by rw [hcur]
  have hy1 : 0 < s.cells.length := by omega
  have hx1 : done.length < (s.cells.getD 0 []).length := by
    rw [getD_row_length _ _ _ hrl hy1]; exact hk
  refine ⟨?_, ?_, ?_, ?_, ?_, ?_, ?_, ?_⟩
  · have e : grid_frame (typed s g (done.length + 1)) t0
        = { grid_frame s t0 with wrap_occured := false } := rfl
    rw [e, hf, unwrap_eq t0 hb0.no_wrap]
  · show (s.cells.set 0 _).length = t0.lines
    rw [List.length_set]; exact hr
  · show ∀ row ∈ s.cells.set 0 _, row.length = t0.cols
    refine mem_set_row _ _ _ _ hrl (fun _ => ?_)
    rw [List.length_set]; exact getD_row_length _ _ _ hrl hy1
  · show ({ x := done.length + 1, y := 0 } : point_t) = { x := (done ++ [b]).length, y := 0 }
    rw [List.length_append, List.length_singleton]
  · show (s.line_dirty.set 0 true).length = t0.lines
    rw [List.length_set]; exact hdl
  · intro y hy
    exact set_true_mono _ _ _ (hmono y hy)
  · intro _
    show (s.line_dirty.set 0 true)[0]? = some true
    rw [List.getElem?_set_self (by omega)]
  · intro y x hy hxc
    show grid_at (s.cells.set 0 ((s.cells.getD 0 []).set s.cursor.x
      (make_cell { s with wrap_occured := false } g))) y x = _
    rw [hx, grid_at_set _ _ _ _ _ _ hy1 hx1, List.length_append, List.length_singleton]
    by_cases c : y = 0 ∧ x = done.length
    · obtain ⟨c1, c2⟩ := c
      subst c1 c2
      rw [if_pos ⟨rfl, rfl⟩, if_pos ⟨rfl, by omega⟩, List.getD_append_right _ _ _ _ (le_refl _)]
      simp only [Nat.sub_self, List.getD_cons_zero]
      unfold byte_cell
      rw [hg]
      exact congrArg some (make_cell_congr g f7 f8)
    · rw [if_neg c, hcell y x hy hxc]
      by_cases d : y = 0 ∧ x < done.length
      · rw [if_pos d, if_pos ⟨d.1, by omega⟩, List.getD_append _ _ _ _ d.2]
      · rw [if_neg d, if_neg (by omega)]

end Yaft

namespace Yaft

open esc_state

theorem printed_start {t0 : terminal_t} (hb0 : PrintBase t0) : Printed t0 [] t0 :=
  ⟨rfl, hb0.rows, hb0.row_len, hb0.home, hb0.dirty_len, fun _ h => h,
    fun h => absurd h (by decide), fun y x _ _ => by
      rw [if_neg (by simp)]⟩

theorem half_byte_glyph {wc : Nat → Int} {glyph : Nat → Option glyph_t} {b : Nat}
    (h : half_byte wc glyph b) :
    0x20 ≤ b ∧ b ≤ 0x7E ∧ wc b = 1 ∧ ∃ g, glyph b = some g ∧ g.width = HALF := by
  obtain ⟨h1, h2, h3, h4⟩ := h
  refine ⟨h1, h2, h3, ?_⟩
  cases hg : glyph b with
  | none => rw [hg] at h4; exact absurd h4 (by simp)
  | some g =>
    rw [hg] at h4
    simp only [Option.map_some', Option.some.injEq] at h4
    exact ⟨g, rfl, h4⟩

theorem print_run {wc : Nat → Int} {t0 : terminal_t} (hb0 : PrintBase t0) (hl : 1 ≤ t0.lines) :
    ∀ (bs done : List Nat) (s : terminal_t), Printed t0 done s →
      (∀ b ∈ bs, half_byte wc t0.glyph b) → done.length + bs.length < t0.cols →
      done.length + bs.length < 65536 →
      ∃ s1, parse wc s bs = some s1 ∧ Printed t0 (done ++ bs) s1 := by
  intro bs
  induction bs with
  | nil =>
    intro done s hp _ _ _
    refine ⟨s, rfl, ?_⟩
    rw [List.append_nil]; exact hp
  | cons b bs ih =>
    intro done s hp hb hk hu
    obtain ⟨h1, h2, hw, g, hg, hgw⟩ := half_byte_glyph (hb b (List.mem_cons_self _ _))
    rw [List.length_cons] at hk hu
    have e := print_byte hb0 hp h1 h2 hw hg hgw (by omega) (by omega) hl
    have e1 : to_u16 ((done.length : Int) + 1) = done.length + 1 := by unfold to_u16; omega
    rw [e1] at e
    have hn := printed_next (b := b) hb0 hp hg (by omega) hl
    obtain ⟨s1, e2, hp1⟩ := ih (done ++ [b]) _ hn
      (fun c hc => hb c (List.mem_cons_of_mem _ hc))
      (by rw [List.length_append, List.length_singleton]; omega)
      (by rw [List.length_append, List.length_singleton]; omega)
    refine ⟨s1, ?_, ?_⟩
    · rw [parse, e]; exact e2
    · rw [List.append_assoc] at hp1; exact hp1

theorem grid_at_replicate (n m : Nat) (c : cell_t) (y x : Nat) :
    grid_at (List.replicate n (List.replicate m c)) y x
      = if y < n ∧ x < m then some c else none := by
  unfold grid_at
  by_cases hy : y < n
  · rw [List.getElem?_replicate, if_pos hy]
    dsimp only
    rw [List.getElem?_replicate]
    by_cases hx : x < m
    · rw [if_pos hx, if_pos ⟨hy, hx⟩]
    · rw [if_neg hx, if_neg (fun h => hx h.2)]
  · rw [List.getElem?_replicate, if_neg hy, if_neg (fun h => hy h.1)]

/-- The state after `reset` is one in which printing can start. -/
theorem reset_result_base (t : terminal_t) : PrintBase (reset_result t) where
  rows := List.length_replicate _ _
  row_len := fun row h => by
    have e : row = List.replicate t.cols (blank_cell (reset_entry t)) :=
      List.eq_of_mem_replicate h
    rw [e]; exact List.length_replicate _ _
  dirty_len := List.length_replicate _ _
  home := rfl
  no_wrap := rfl
  ground := rfl
  idle := rfl
  halves := fun y x c h => by
    have e : grid_at (List.replicate t.lines (List.replicate t.cols (blank_cell (reset_entry t))))
        y x = some c := h
    rw [grid_at_replicate] at e
    split at e
    · cases e
      show HALF ≠ NEXT_TO_WIDE
      decide
    · exact absurd e (by simp)

end Yaft

namespace Yaft

open esc_state

/-! ## C11: basic print -/

theorem term_init_some {cols lines : Nat} {glyph : Nat → Option glyph_t} {t0 : terminal_t}
    (h : term_init cols lines glyph = some t0) (hl : 1 ≤ lines) :
    t0 = reset_result (term_alloc cols lines glyph) := by
  unfold term_init at h
  split at h
  · exact absurd h (by simp)
  · rw [reset_eq (term_alloc_shape cols lines glyph) hl, Option.some.injEq] at h
    exact h.symm

theorem term_init_fresh (cols lines : Nat) (hl : 1 ≤ lines) :
    term_init cols lines ascii_glyphs = some (fresh cols lines) := by
  unfold term_init
  rw [if_neg (by decide)]
  exact reset_eq (term_alloc_shape cols lines ascii_glyphs) hl

theorem parse_append (wc : Nat → Int) (a b : List Nat) : ∀ t : terminal_t,
    parse wc t (a ++ b) = (parse wc t a).bind (fun s => parse wc s b) := by
  induction a with
  | nil => intro t; rfl
  | cons c a ih =>
    intro t
    rw [List.cons_append, parse, parse]
    cases parse_byte wc t c with
    | none => rfl
    | some t1 => exact ih t1

/-- C11 (amended): on a terminal of at least one line that `term_init` has just reset,
let `bs` be `k` printable ASCII bytes of display width 1 whose half-width glyphs are
present, with `k < cols` and `k < 65536`. Then `parse` succeeds, the cursor is at
`(y = 0, x = k)`, the cell `cells[0][i]` holds the glyph of the `i`-th byte for every
`i < k`, every other cell is blank, and `line_dirty[0]` is set. -/
theorem C11_basic_print (wc : Nat → Int) (glyph : Nat → Option glyph_t) (cols lines : Nat)
    (t0 : terminal_t) (bs : List Nat) (h0 : term_init cols lines glyph = some t0)
    (hl : 1 ≤ lines) (hb : ∀ b ∈ bs, half_byte wc glyph b) (hk : bs.length < cols)
    (hu : bs.length < 65536) :
    ∃ t1, parse wc t0 bs = some t1
      ∧ t1.cursor = { x := bs.length, y := 0 }
      ∧ (∀ i, i < bs.length →
          (grid_at t1.cells 0 i).map (fun c => c.glyphp) = some (glyph (bs.getD i 0)))
      ∧ (∀ y x, y < lines → x < cols → ¬ (y = 0 ∧ x < bs.length) →
          grid_at t1.cells y x = some (blank_cell t0))
      ∧ t1.line_dirty[0]? = some true := by
  have e0 := term_init_some h0 hl
  subst e0
  have hb0 := reset_result_base (term_alloc cols lines glyph)
  obtain ⟨t1, e, hp⟩ := @print_run wc _ hb0 hl bs [] _ (printed_start hb0) hb
    (by rw [List.length_nil, Nat.zero_add]; exact hk)
    (by rw [List.length_nil, Nat.zero_add]; exact hu)
  rw [List.nil_append] at hp
  obtain ⟨hf, hr, hrl, hcur, hdl, hmono, hd0, hcell⟩ := hp
  refine ⟨t1, e, hcur, ?_, ?_, ?_⟩
  · intro i hi
    have hm : bs.getD i 0 ∈ bs := by
      rw [List.getD_eq_getElem _ _ hi]; exact List.getElem_mem _
    obtain ⟨_, _, _, g, hg, _⟩ := half_byte_glyph (hb _ hm)
    have hc := hcell 0 i hl (by show i < cols; omega)
    rw [if_pos ⟨rfl, hi⟩] at hc
    have hg1 : (reset_result (term_alloc cols lines glyph)).glyph (bs.getD i 0) = some g := hg
    rw [hc, hg]
    unfold byte_cell
    rw [hg1]
    rfl
  · intro y x hy hx hn
    have hc := hcell y x hy hx
    rw [if_neg hn] at hc
    have hg : grid_at (reset_result (term_alloc cols lines glyph)).cells y x
        = grid_at (List.replicate lines (List.replicate cols
            (blank_cell (reset_result (term_alloc cols lines glyph))))) y x := rfl
    rw [hc, hg, grid_at_replicate, if_pos ⟨hy, hx⟩]
  · apply hmono 0
    have hd : (reset_result (term_alloc cols lines glyph)).line_dirty
        = List.replicate lines true := rfl
    rw [hd, List.getElem?_replicate, if_pos (by omega)]

end Yaft

namespace Yaft

open esc_state

/-- C11, witness: the bytes of "Hello" on a fresh terminal of 8 columns and 2 lines
leave the cursor at `(0, 5)`; evaluating the run gives the same cursor and `H` in
`cells[0][0]`. -/
theorem C11_basic_print_witness :
    (∃ t1, parse ascii_wcwidth (fresh 8 2) [0x48, 0x65, 0x6C, 0x6C, 0x6F] = some t1
      ∧ t1.cursor = { x := 5, y := 0 }
      ∧ (∀ i, i < 5 → (grid_at t1.cells 0 i).map (fun c => c.glyphp)
          = some (ascii_glyphs ([0x48, 0x65, 0x6C, 0x6C, 0x6F].getD i 0)))
      ∧ (∀ y x, y < 2 → x < 8 → ¬ (y = 0 ∧ x < 5) →
          grid_at t1.cells y x = some (blank_cell (fresh 8 2)))
      ∧ t1.line_dirty[0]? = some true)
    ∧ (run 8 2 [0x48, 0x65, 0x6C, 0x6C, 0x6F]).map (fun t => (t.cursor.y, t.cursor.x))
        = some (0, 5)
    ∧ code_of (run 8 2 [0x48, 0x65, 0x6C, 0x6C, 0x6F]) 0 0 = some 0x48 :=
  ⟨C11_basic_print ascii_wcwidth ascii_glyphs 8 2 (fresh 8 2) [0x48, 0x65, 0x6C, 0x6C, 0x6F]
      (term_init_fresh 8 2 (by decide)) (by decide) (by decide) (by decide) (by decide),
    by decide, by decide⟩

/-- C11, counterexample: on a terminal of 65537 columns, 65536 bytes `a` satisfy
`k < cols`, and the cursor column is 0 afterwards, not `k = 65536`. -/
theorem C11_counterexample :
    (run 65537 1 (List.replicate 65536 0x61)).map (fun t => (t.cols, t.cursor.y, t.cursor.x))
      = some (65537, 0, 0) := by
  have hb0 := reset_result_base (term_alloc 65537 1 ascii_glyphs)
  have hl : 1 ≤ (reset_result (term_alloc 65537 1 ascii_glyphs)).lines := le_refl _
  have hb : ∀ b ∈ List.replicate 65535 0x61,
      half_byte ascii_wcwidth (reset_result (term_alloc 65537 1 ascii_glyphs)).glyph b := by
    intro b h
    rw [List.eq_of_mem_replicate h]
    show half_byte ascii_wcwidth ascii_glyphs 0x61
    decide
  have hc : (reset_result (term_alloc 65537 1 ascii_glyphs)).cols = 65537 := rfl
  obtain ⟨s1, e, hp⟩ := @print_run ascii_wcwidth _ hb0 hl (List.replicate 65535 0x61) [] _ (printed_start hb0) hb
    (by rw [List.length_nil, List.length_replicate, hc]; decide)
    (by rw [List.length_nil, List.length_replicate]; decide)
  have hlen : ([] ++ List.replicate 65535 0x61 : List Nat).length = 65535 := by
    rw [List.nil_append, List.length_replicate]
  have e2 := @print_byte ascii_wcwidth _ _ _ 0x61 { code := 0x61, width := 1 } hb0 hp (by decide)
    (by decide) rfl rfl rfl (by rw [hlen, hc]; decide) (by rw [hlen]; decide) hl
  rw [hlen] at e2
  have e3 : to_u16 (((65535 : Nat) : Int) + 1) = 0 := by decide
  rw [e3] at e2
  have hrep : List.replicate 65536 0x61 = List.replicate 65535 0x61 ++ [0x61] :=
    List.replicate_succ' 65535 0x61
  have hcols : s1.cols = 65537 := (printed_frame hp.1).1
  rw [run_fresh 65537 1 _ (by decide), hrep, parse_append]
  have e4 : parse ascii_wcwidth (fresh 65537 1) (List.replicate 65535 0x61) = some s1 := e
  rw [e4]
  show Option.map _ (parse ascii_wcwidth s1 [0x61]) = _
  rw [parse, e2]
  show some (s1.cols, 0, 0) = some (65537, 0, 0)
  rw [hcols]

end Yaft

namespace Yaft

open esc_state

/-! ## The pending wrap -/

theorem set_cursor_col0 {s : terminal_t} (ho : has_bit s.mode MODE_ORIGIN = false)
    (hc : 1 ≤ s.cols) (hy : s.cursor.y < s.lines) (hy16 : s.cursor.y < 65536) :
    set_cursor_to s s.cursor.y 0
      = { s with cursor := { x := 0, y := s.cursor.y }, wrap_occured := false } := by
  have e1 : to_u16 (s.cursor.y : Int) = s.cursor.y := by unfold to_u16; omega
  have e2 : to_u16 0 = 0 := by decide
  have h1 : ¬ ((0 : Int) < 0) := by omega
  have h2 : ¬ ((0 : Int) ≥ (s.cols : Int)) := by omega
  have h3 : ¬ ((s.cursor.y : Int) < 0) := by omega
  have h4 : ¬ ((s.cursor.y : Int) > (s.lines : Int) - 1) := by omega
  unfold set_cursor_to
  dsimp only
  simp only [ho, Bool.false_eq_true, if_false]
  rw [if_neg h1, if_neg h2, if_neg h3, if_neg h4, e1, e2]

theorem move_cursor_x_stay {s : terminal_t} (hx : s.cursor.x < s.cols)
    (hx16 : s.cursor.x < 65536) : move_cursor_x s 0 = s := by
  have e2 : to_int ((s.cursor.x : Int) + 0) = (s.cursor.x : Int) := by unfold to_int; omega
  have e3 : to_u16 (s.cursor.x : Int) = s.cursor.x := by unfold to_u16; omega
  have h1 : ¬ ((s.cursor.x : Int) < 0) := by omega
  have h2 : ¬ ((s.cursor.x : Int) ≥ (s.cols : Int)) := by omega
  unfold move_cursor_x
  dsimp only
  rw [e2, if_neg h1, if_neg h2, e3]

/-- The call `move_cursor(term, 1, 0)` above the bottom margin: one row down. -/
theorem move_cursor_down {s : terminal_t} (hx : s.cursor.x < s.cols)
    (hx16 : s.cursor.x < 65536) (hy : s.cursor.y + 1 < s.lines) (hy16 : s.cursor.y + 1 < 65536)
    (hb : s.cursor.y ≠ s.scroll.bottom) :
    move_cursor s 1 0
      = some { s with cursor := { x := s.cursor.x, y := s.cursor.y + 1 } } := by
  have e1 : to_int ((s.cursor.y : Int) + 1) = (s.cursor.y : Int) + 1 := by unfold to_int; omega
  have e3 : to_u16 ((s.cursor.y : Int) + 1) = s.cursor.y + 1 := by unfold to_u16; omega
  have h1 : ¬ ((s.cursor.y : Int) + 1 < 0) := by omega
  have h2 : ¬ ((s.cursor.y : Int) + 1 ≥ (s.lines : Int)) := by omega
  have h3 : ¬ ((s.cursor.y : Int) = (s.scroll.bottom : Int) ∧ (1 : Int) > 0) := by omega
  have h4 : ¬ ((s.cursor.y : Int) = (s.scroll.top : Int) ∧ (1 : Int) < 0) := by omega
  unfold move_cursor
  rw [if_neg (move_cursor_defined s 1 0 hx16 (by omega) (by omega) (by omega) (by omega)
    (by omega))]
  dsimp only
  rw [move_cursor_x_stay hx hx16, e1, if_neg h4, if_neg h3, if_neg h1, if_neg h2]
  unfold store_cursor_y
  rw [e3]

end Yaft

namespace Yaft

open esc_state

/-- The function `add_char` for a half-width character with the wrap pending, above
the bottom margin: the character goes to column 0 of the next row. -/
theorem add_char_wrap {wc : Nat → Int} {s : terminal_t} {code : Nat} {g : glyph_t}
    (hw : wc code = 1) (hu : code < UCS2_CHARS) (hg : s.glyph code = some g)
    (hgw : g.width = HALF) (hwr : s.wrap_occured = true) (hx : s.cursor.x + 1 = s.cols)
    (hc : 2 ≤ s.cols) (hy : s.cursor.y + 1 < s.lines) (hy16 : s.cursor.y + 1 < 65536)
    (hb : s.cursor.y ≠ s.scroll.bottom) (ho : has_bit s.mode MODE_ORIGIN = false)
    (hr : s.cells.length = s.lines) (hl : ∀ row ∈ s.cells, row.length = s.cols)
    (hn : ∀ c, grid_at s.cells (s.cursor.y + 1) 1 = some c → c.width ≠ NEXT_TO_WIDE) :
    add_char wc s code = some (wrapped s g) := by
  have hsel : select_glyph s code 1 = some g :=
    select_glyph_present hu hg (by rw [hgw]; rfl)
  have hcnd : (s.wrap_occured = true ∧ (s.cursor.x : Int) = (s.cols : Int) - 1)
      ∨ (g.width = WIDE ∧ (s.cursor.x : Int) = (s.cols : Int) - 1) :=
    Or.inl ⟨hwr, by omega⟩
  have h1 : set_cursor_to s s.cursor.y 0
      = { s with cursor := { x := 0, y := s.cursor.y }, wrap_occured := false } :=
    set_cursor_col0 ho (by omega) (by omega) (by omega)
  have h2 : move_cursor { s with cursor := { x := 0, y := s.cursor.y }, wrap_occured := false }
      1 0 = some (wrap_taken s) :=
    move_cursor_down (s := { s with cursor := { x := 0, y := s.cursor.y }, wrap_occured := false })
      (by show 0 < s.cols; omega) (by show (0 : Nat) < 65536; decide) hy hy16 hb
  have h3 : set_cell (wrap_taken s) (s.cursor.y + 1 : Nat) (0 : Nat) g
      = some (put_cell (wrap_taken s) (s.cursor.y + 1) 0 g, 1) :=
    set_cell_half (s := wrap_taken s) hgw hy (by show 0 < s.cols; omega) hr hl (fun _ => hn)
  have h4 : move_cursor (put_cell (wrap_taken s) (s.cursor.y + 1) 0 g) 0 1
      = some { put_cell (wrap_taken s) (s.cursor.y + 1) 0 g with
          cursor := { x := to_u16 (((0 : Nat) : Int) + 1), y := s.cursor.y + 1 } } :=
    move_cursor_right (s := put_cell (wrap_taken s) (s.cursor.y + 1) 0 g)
      (by show 0 + 1 < s.cols; omega) (by show (0 : Nat) < 65536; decide) hy hy16
  have h5 : to_u16 (((0 : Nat) : Int) + 1) = 1 := by decide
  rw [h5] at h4
  unfold add_char
  dsimp only
  rw [hw, if_neg (by omega), hsel]
  dsimp only
  rw [if_pos hcnd, set_cursor_plain _ _ _ ho, Option.some_bind, h1, h2]
  dsimp only
  have h6 : set_cell { wrap_taken s with wrap_occured := false } (wrap_taken s).cursor.y
      (wrap_taken s).cursor.x g = some (put_cell (wrap_taken s) (s.cursor.y + 1) 0 g, 1) := h3
  rw [h6]
  exact h4

end Yaft

namespace Yaft

open esc_state

/-! ## C12: auto-wrap -/

/-- A printable byte printed in the last column: the cursor stays and the wrap is
pending. -/
theorem print_edge {wc : Nat → Int} {t0 s : terminal_t} {done : List Nat} {b : Nat}
    {g : glyph_t} (hb0 : PrintBase t0) (hp : Printed t0 done s) (h1 : 0x20 ≤ b) (h2 : b ≤ 0x7E)
    (hw : wc b = 1) (hg : t0.glyph b = some g) (hgw : g.width = HALF)
    (hk : done.length + 1 = t0.cols) (hu : done.length < 65536) (hl : 1 ≤ t0.lines)
    (hm : has_bit t0.mode MODE_AMRIGHT = true) :
    parse_byte wc s b = some (filled (typed s g (done.length + 1)) done.length) := by
  obtain ⟨hf, hr, hrl, hcur, hdl, hmono, hd0, hcell⟩ := hp
  obtain ⟨f1, f2, f3, f4, f5, f6, f7, f8, f9, f10⟩ := printed_frame hf
  have hx : s.cursor.x = done.length := by rw [hcur]
  have hy : s.cursor.y = 0 := by rw [hcur]
  have hst : s.esc.state = STATE_RESET := by rw [f3]; exact hb0.ground
  have hi : s.charset.following_byte = 0 := by rw [f4]; exact hb0.idle
  have hnw : ¬ (s.wrap_occured = true ∧ s.cursor.x + 1 = s.cols) := by
    rw [f6, hb0.no_wrap]; simp
  have hn : s.cursor.x + 1 < s.cols →
      ∀ c, grid_at s.cells s.cursor.y (s.cursor.x + 1) = some c → c.width ≠ NEXT_TO_WIDE := by
    intro h
    rw [hx, f1] at h
    omega
  rw [parse_byte_print wc s b hst hi h1 h2,
    add_char_nowrap hw (by unfold UCS2_CHARS; omega) (by rw [f5]; exact hg) hgw
      (by rw [hy, f2]; omega) (by rw [hx, f1]; omega) (by rw [hr, f2])
      (by rw [f1]; exact hrl) hn hnw]
  have hme := move_cursor_edge
    (s := put_cell { s with wrap_occured := false } s.cursor.y s.cursor.x g)
    (by show s.cursor.x + 1 = s.cols; rw [hx, f1]; exact hk)
    (by show s.cursor.x < 65536; rw [hx]; exact hu)
    (by show s.cursor.y < s.lines; rw [hy, f2]; omega)
    (by show s.cursor.y < 65536; rw [hy]; decide)
  have hm2 : has_bit (put_cell { s with wrap_occured := false } s.cursor.y s.cursor.x g).mode
      MODE_AMRIGHT = true := by
    show has_bit s.mode MODE_AMRIGHT = true
    rw [f9]; exact hm
  rw [hme, hm2]
  unfold filled typed put_cell
  simp only [hy, hx, if_true]

end Yaft

namespace Yaft

open esc_state

theorem getD_replicate_self (n : Nat) (a : Nat) (x : Nat) (h : x < n) :
    (List.replicate n a).getD x 0 = a := by
  rw [List.getD_eq_getElem _ _ (by rw [List.length_replicate]; exact h)]
  simp

/-- C12 (amended): on a terminal of 2 to 65536 columns and 2 to 65536 lines that
`term_init` has just reset (auto-wrap is on), let `a` and `b` be printable ASCII bytes
of display width 1 whose half-width glyphs are present. After `cols` copies of `a` the
cursor is at `(0, cols - 1)` with the wrap pending and row 0 holds `a` in every column;
after one more byte `b`, row 0 still holds `a` in every column, `cells[1][0]` holds `b`
and the cursor is at `(y = 1, x = 1)`. -/
theorem C12_auto_wrap (wc : Nat → Int) (glyph : Nat → Option glyph_t) (cols lines : Nat)
    (t0 : terminal_t) (a b : Nat) (h0 : term_init cols lines glyph = some t0)
    (hc : 2 ≤ cols) (hc16 : cols ≤ 65536) (hl : 2 ≤ lines) (hl16 : lines ≤ 65536)
    (ha : half_byte wc glyph a) (hb : half_byte wc glyph b) :
    (∃ t1, parse wc t0 (List.replicate cols a) = some t1
      ∧ t1.cursor = { x := cols - 1, y := 0 }
      ∧ t1.wrap_occured = true
      ∧ (∀ x, x < cols → (grid_at t1.cells 0 x).map (fun c => c.glyphp) = some (glyph a)))
    ∧ (∃ t2, parse wc t0 (List.replicate cols a ++ [b]) = some t2
      ∧ t2.cursor = { x := 1, y := 1 }
      ∧ (∀ x, x < cols → (grid_at t2.cells 0 x).map (fun c => c.glyphp) = some (glyph a))
      ∧ (grid_at t2.cells 1 0).map (fun c => c.glyphp) = some (glyph b)) := by
  have e0 := term_init_some h0 (by omega)
  subst e0
  have hb0 := reset_result_base (term_alloc cols lines glyph)
  obtain ⟨a1, a2, aw, ga, hga, hgaw⟩ := half_byte_glyph ha
  obtain ⟨b1, b2, bw, gb, hgb, hgbw⟩ := half_byte_glyph hb
  have hcols : (reset_result (term_alloc cols lines glyph)).cols = cols := rfl
  have hlines : (reset_result (term_alloc cols lines glyph)).lines = lines := rfl
  have hl1 : 1 ≤ (reset_result (term_alloc cols lines glyph)).lines := by rw [hlines]; omega
  have hlen : ([] ++ List.replicate (cols - 1) a : List Nat).length = cols - 1 := by
    rw [List.nil_append, List.length_replicate]
  -- the first `cols - 1` bytes
  obtain ⟨s1, e1, hp1⟩ := @print_run wc _ hb0 hl1 (List.replicate (cols - 1) a) [] _
    (printed_start hb0) (fun c hc => by rw [List.eq_of_mem_replicate hc]; exact ha)
    (by rw [List.length_nil, List.length_replicate, hcols]; omega)
    (by rw [List.length_nil, List.length_replicate]; omega)
  -- the byte in the last column
  have e2 := @print_edge wc _ _ _ a ga hb0 hp1 a1 a2 aw hga hgaw
    (by rw [hlen, hcols]; omega) (by rw [hlen]; omega) hl1
    (by show has_bit (MODE_RESET ||| (MODE_CURSOR ||| MODE_AMRIGHT)) MODE_AMRIGHT = true; decide)
  have hp2 := @printed_next _ _ _ a ga hb0 hp1 hga (by rw [hlen, hcols]; omega) hl1
  rw [hlen] at e2 hp2
  have hc1 : cols - 1 + 1 = cols := by omega
  rw [hc1] at e2 hp2
  have hrep : List.replicate cols a = List.replicate (cols - 1) a ++ [a] := by
    have h := List.replicate_succ' (cols - 1) a
    rw [hc1] at h
    exact h
  have hdone : [] ++ List.replicate (cols - 1) a ++ [a] = List.replicate cols a := by
    rw [List.nil_append]; exact hrep.symm
  rw [hdone] at hp2
  have e3 : parse wc (reset_result (term_alloc cols lines glyph)) (List.replicate cols a)
      = some (filled (typed s1 ga cols) (cols - 1)) := by
    rw [hrep, parse_append, e1]
    show parse wc s1 [a] = _
    rw [parse, e2]
    rfl
  obtain ⟨hf, hr, hrl, hcur, hdl, hmono, hd0, hcell⟩ := hp2
  obtain ⟨f1, f2, f3, f4, f5, f6, f7, f8, f9, f10⟩ := printed_frame hf
  have hrow0 : ∀ x, x < cols →
      (grid_at (typed s1 ga cols).cells 0 x).map (fun c => c.glyphp) = some (glyph a) := by
    intro x hx
    rw [hcell 0 x (by omega) hx, if_pos ⟨rfl, by rw [List.length_replicate]; exact hx⟩,
      getD_replicate_self _ _ _ hx]
    have hga1 : (reset_result (term_alloc cols lines glyph)).glyph a = some ga := hga
    unfold byte_cell
    rw [hga1, hga]
    rfl
  constructor
  · exact ⟨_, e3, rfl, rfl, hrow0⟩
  · -- the byte that takes the wrap
    have hbot : (reset_result (term_alloc cols lines glyph)).scroll.bottom = lines - 1 := by
      show to_u16 ((lines : Int) - 1) = lines - 1
      unfold to_u16; omega
    have e4 : parse_byte wc (filled (typed s1 ga cols) (cols - 1)) b
        = some (wrapped (filled (typed s1 ga cols) (cols - 1)) gb) := by
      rw [parse_byte_print wc _ b (by show (typed s1 ga cols).esc.state = _; rw [f3]; rfl)
        (by show (typed s1 ga cols).charset.following_byte = _; rw [f4]; rfl) b1 b2]
      refine add_char_wrap bw (by unfold UCS2_CHARS; omega) ?_ hgbw rfl ?_ ?_ ?_ ?_ ?_ ?_ ?_ ?_ ?_
      · show (typed s1 ga cols).glyph b = some gb
        rw [f5]; exact hgb
      · show cols - 1 + 1 = (typed s1 ga cols).cols
        rw [f1, hcols]; omega
      · show 2 ≤ (typed s1 ga cols).cols
        rw [f1, hcols]; exact hc
      · show 0 + 1 < (typed s1 ga cols).lines
        rw [f2, hlines]; omega
      · show 0 + 1 < 65536
        decide
      · show 0 ≠ (typed s1 ga cols).scroll.bottom
        rw [f10, hbot]; omega
      · show has_bit (typed s1 ga cols).mode MODE_ORIGIN = false
        rw [f9]
        show has_bit (MODE_RESET ||| (MODE_CURSOR ||| MODE_AMRIGHT)) MODE_ORIGIN = false
        decide
      · show (typed s1 ga cols).cells.length = (typed s1 ga cols).lines
        rw [hr, f2]
      · show ∀ row ∈ (typed s1 ga cols).cells, row.length = (typed s1 ga cols).cols
        rw [f1]; exact hrl
      · intro c hc2
        have hc3 : grid_at (typed s1 ga cols).cells 1 1 = some c := hc2
        rw [hcell 1 1 (by omega) (by omega), if_neg (by omega)] at hc3
        exact hb0.halves _ _ c hc3
    have e5 : parse wc (reset_result (term_alloc cols lines glyph)) (List.replicate cols a ++ [b])
        = some (wrapped (filled (typed s1 ga cols) (cols - 1)) gb) := by
      rw [parse_append, e3]
      show parse wc (filled (typed s1 ga cols) (cols - 1)) [b] = _
      rw [parse, e4]
      rfl
    have hy1 : 1 < (typed s1 ga cols).cells.length := by rw [hr, hlines]; omega
    have hx1 : 0 < ((typed s1 ga cols).cells.getD 1 []).length := by
      rw [getD_row_length _ _ _ hrl hy1, hcols]; omega
    refine ⟨_, e5, rfl, ?_, ?_⟩
    · intro x hx
      have e6 : grid_at (wrapped (filled (typed s1 ga cols) (cols - 1)) gb).cells 0 x
          = grid_at (typed s1 ga cols).cells 0 x := by
        show grid_at ((typed s1 ga cols).cells.set 1 (((typed s1 ga cols).cells.getD 1 []).set 0 _))
          0 x = _
        rw [grid_at_set _ _ _ _ _ _ hy1 hx1, if_neg (by omega)]
      rw [e6]; exact hrow0 x hx
    · have e7 : grid_at (wrapped (filled (typed s1 ga cols) (cols - 1)) gb).cells 1 0
          = some (make_cell (wrap_taken (filled (typed s1 ga cols) (cols - 1))) gb) := by
        show grid_at ((typed s1 ga cols).cells.set 1 (((typed s1 ga cols).cells.getD 1 []).set 0 _))
          1 0 = _
        rw [grid_at_set _ _ _ _ _ _ hy1 hx1, if_pos ⟨rfl, rfl⟩]
      rw [e7, hgb]
      rfl

end Yaft

namespace Yaft

open esc_state

/-- C12, witness: 80 bytes `A` and one `B` on a fresh terminal of 80 columns and 24
lines; evaluating the run of 4 bytes `A` and one `B` on 4 columns and 2 lines gives
the cursor `(1, 1)`, `B` in `cells[1][0]` and `A` in `cells[0][3]`. -/
theorem C12_auto_wrap_witness :
    ((∃ t1, parse ascii_wcwidth (fresh 80 24) (List.replicate 80 0x41) = some t1
        ∧ t1.cursor = { x := 80 - 1, y := 0 }
        ∧ t1.wrap_occured = true
        ∧ (∀ x, x < 80 →
            (grid_at t1.cells 0 x).map (fun c => c.glyphp) = some (ascii_glyphs 0x41)))
      ∧ (∃ t2, parse ascii_wcwidth (fresh 80 24) (List.replicate 80 0x41 ++ [0x42]) = some t2
        ∧ t2.cursor = { x := 1, y := 1 }
        ∧ (∀ x, x < 80 →
            (grid_at t2.cells 0 x).map (fun c => c.glyphp) = some (ascii_glyphs 0x41))
        ∧ (grid_at t2.cells 1 0).map (fun c => c.glyphp) = some (ascii_glyphs 0x42)))
    ∧ (run 4 2 [0x41, 0x41, 0x41, 0x41, 0x42]).map (fun t => (t.cursor.y, t.cursor.x))
        = some (1, 1)
    ∧ code_of (run 4 2 [0x41, 0x41, 0x41, 0x41, 0x42]) 1 0 = some 0x42
    ∧ code_of (run 4 2 [0x41, 0x41, 0x41, 0x41, 0x42]) 0 3 = some 0x41 :=
  ⟨C12_auto_wrap ascii_wcwidth ascii_glyphs 80 24 (fresh 80 24) 0x41 0x42
      (term_init_fresh 80 24 (by decide)) (by decide) (by decide) (by decide) (by decide)
      (by decide) (by decide),
    by decide, by decide, by decide⟩

/-- C12, counterexample: on a terminal of 1 column and 2 lines, `cols` copies of `A`
and one `B` leave the cursor at `(y = 1, x = 0)`, not at `(1, 1)`. -/
theorem C12_counterexample :
    (run 1 2 (List.replicate 1 0x41 ++ [0x42])).map (fun t => (t.cols, t.cursor.y, t.cursor.x))
      = some (1, 1, 0) := by
  decide

end Yaft

namespace Yaft

open esc_state

/-! ## C1, C2, C4: the invariants of `parse` -/

theorem reset_result_shape (t : terminal_t) : Shape (reset_result t) := by
  have z : (0 : Nat) < 65536 := by decide
  refine ⟨List.length_replicate _ _, ?_, List.length_replicate _ _, ?_, z, to_u16_lt _, z, z,
    z, z⟩
  · intro row h
    have e : row = List.replicate t.cols (blank_cell (reset_entry t)) :=
      List.eq_of_mem_replicate h
    rw [e]; exact List.length_replicate _ _
  · show ((List.range t.cols).map tab_flag).length = t.cols
    rw [List.length_map, List.length_range]

theorem reset_result_bounds (t : terminal_t) (hc : 1 ≤ t.cols) (hl : 2 ≤ t.lines) :
    Bounds (reset_result t) := by
  have hb : to_u16 ((t.lines : Int) - 1) < t.lines :=
    to_u16_lt_of _ t.lines (by omega) (by omega)
  refine ⟨hc, hl, ?_, ?_, ?_, ?_, ?_, hb, ?_⟩
  · show 0 < t.cols
    omega
  · show 0 < t.lines
    omega
  · show 0 < t.cols
    omega
  · show 0 < t.lines
    omega
  · show 0 < t.lines
    omega
  · intro h
    show 0 < to_u16 ((t.lines : Int) - 1)
    have h1 : (reset_result t).lines = t.lines := rfl
    rw [h1] at h
    unfold to_u16
    omega

theorem parse_calls_step {wc : Nat → Int} : ∀ (chunks : List (List Nat)) {t t1 : terminal_t},
    Shape t → parse_calls wc t chunks = some t1 → Step t t1 := by
  intro chunks
  induction chunks with
  | nil => intro t t1 _ h; cases h; exact Step.refl t
  | cons c rest ih =>
    intro t t1 hs h
    rw [parse_calls] at h
    split at h
    · exact absurd h (by simp)
    · rename_i t2 h2
      have a := parse_step c hs h2
      exact a.trans (ih (a.shape hs) h)

/-- Cursor and grid invariant on the runs that are processed: on a terminal of at least 1
column and 2 lines that `term_init` has just reset, after any number of calls of
`parse` on bytes that are processed without an out-of-range access, a signed overflow
or a write past the escape buffer, the cursor is inside the grid and the grid has
exactly `lines` rows of `cols` cells. -/
theorem parse_calls_in_bounds (wc : Nat → Int) (glyph : Nat → Option glyph_t) (cols lines : Nat)
    (t0 t1 : terminal_t) (chunks : List (List Nat))
    (h0 : term_init cols lines glyph = some t0) (hc : 1 ≤ cols) (hl : 2 ≤ lines)
    (h : parse_calls wc t0 chunks = some t1) :
    t1.cols = cols ∧ t1.lines = lines ∧ t1.cursor.y ≤ lines - 1 ∧ t1.cursor.x ≤ cols - 1
      ∧ t1.cells.length = lines ∧ ∀ row ∈ t1.cells, row.length = cols := by
  have e0 := term_init_some h0 (by omega)
  subst e0
  have hs := reset_result_shape (term_alloc cols lines glyph)
  have hb := reset_result_bounds (term_alloc cols lines glyph) hc hl
  have st := parse_calls_step chunks hs h
  have hs1 := st.shape hs
  have hb1 := st.bounds hs hb
  have e1 : t1.cols = cols := st.cols
  have e2 : t1.lines = lines := st.lines
  have b1 := hb1.cur_x
  have b2 := hb1.cur_y
  have r1 := hs1.rows
  have r2 := hs1.row_len
  rw [e1] at b1 r2
  rw [e2] at b2 r1
  exact ⟨e1, e2, by omega, by omega, r1, r2⟩

/-- An instance of `parse_calls_in_bounds`: two calls of `parse` on a fresh terminal
of 4 columns and 2 lines. -/
theorem parse_calls_in_bounds_example :
    ∃ t1, parse_calls ascii_wcwidth (fresh 4 2) [[0x41, 0x0A], [0x1B, 0x5B, 0x39, 0x43]] = some t1
      ∧ t1.cols = 4 ∧ t1.lines = 2 ∧ t1.cursor.y ≤ 2 - 1 ∧ t1.cursor.x ≤ 4 - 1
      ∧ t1.cells.length = 2 ∧ ∀ row ∈ t1.cells, row.length = 4 :=
  have hsome : (parse_calls ascii_wcwidth (fresh 4 2)
      [[0x41, 0x0A], [0x1B, 0x5B, 0x39, 0x43]]).isSome = true := by decide
  ⟨_, (Option.some_get hsome).symm,
    parse_calls_in_bounds ascii_wcwidth ascii_glyphs 4 2 (fresh 4 2) _
      [[0x41, 0x0A], [0x1B, 0x5B, 0x39, 0x43]] (term_init_fresh 4 2 (by decide)) (by decide)
      (by decide) (Option.some_get hsome).symm⟩

/-- C1, failing input: on a terminal of 4 columns and 2 lines that `term_init` has
just reset, the bytes `ESC [ 9 A`, fed in two calls of `parse`, make `move_cursor` call
`scroll_window(0, 1, -9)`, whose last loop erases the rows 0..8 of a grid of 2 rows:
row 2 is the first access out of range, and the run has no final state (the error
branch of the model) in which the grid would have 2 rows of 4 cells. With the count
1 in place of 9 the run ends with the cursor at home in a grid of 2 rows of 4 cells. -/
theorem C1_cursor_up_leaves_grid :
    (term_init 4 2 ascii_glyphs).isSome = true
    ∧ ((term_init 4 2 ascii_glyphs).bind
        (fun t0 => parse_calls ascii_wcwidth t0 [[0x1B, 0x5B], [0x39, 0x41]])).isSome = false
    ∧ ((term_init 4 2 ascii_glyphs).bind (fun t0 => scroll_window t0 0 1 (-9))).isSome = false
    ∧ ((term_init 4 2 ascii_glyphs).bind (fun t0 => for_up 0 2 erase_row t0)).isSome = true
    ∧ ((term_init 4 2 ascii_glyphs).bind (fun t0 => erase_row t0 2)).isSome = false
    ∧ ((term_init 4 2 ascii_glyphs).bind
        (fun t0 => parse_calls ascii_wcwidth t0 [[0x1B, 0x5B], [0x31, 0x41]])).map
          (fun t => (t.cursor, t.cells.map List.length))
        = some ({ x := 0, y := 0 }, [4, 4]) := by
  decide

end Yaft

namespace Yaft

open esc_state

/-- C2 (amended): on a terminal of at least 1 column and of 2 to 65536 lines that
`term_init` has just reset, after any number of calls of `parse` on bytes that are
processed without an out-of-range access, a signed overflow or a write past the
escape buffer, `scroll.top < scroll.bottom ≤ lines - 1`. -/
theorem C2_scroll_region (wc : Nat → Int) (glyph : Nat → Option glyph_t) (cols lines : Nat)
    (t0 t1 : terminal_t) (chunks : List (List Nat))
    (h0 : term_init cols lines glyph = some t0) (hc : 1 ≤ cols) (hl : 2 ≤ lines)
    (hl16 : lines ≤ 65536) (h : parse_calls wc t0 chunks = some t1) :
    t1.scroll.top < t1.scroll.bottom ∧ t1.scroll.bottom ≤ lines - 1 := by
  have e0 := term_init_some h0 (by omega)
  subst e0
  have hs := reset_result_shape (term_alloc cols lines glyph)
  have hb := reset_result_bounds (term_alloc cols lines glyph) hc hl
  have st := parse_calls_step chunks hs h
  have hb1 := st.bounds hs hb
  have e2 : t1.lines = lines := st.lines
  have b1 := hb1.bot_lt
  have b2 := hb1.margin
  rw [e2] at b1 b2
  exact ⟨b2 hl16, by omega⟩

/-- C2, witness: a margin setting and a cursor movement on a fresh terminal of 4
columns and 5 lines. -/
theorem C2_scroll_region_witness :
    ∃ t1, parse_calls ascii_wcwidth (fresh 4 5)
        [[0x1B, 0x5B, 0x32, 0x3B, 0x34, 0x72], [0x0A, 0x0A, 0x0A, 0x0A]] = some t1
      ∧ t1.scroll.top < t1.scroll.bottom ∧ t1.scroll.bottom ≤ 5 - 1 :=
  have hsome : (parse_calls ascii_wcwidth (fresh 4 5)
      [[0x1B, 0x5B, 0x32, 0x3B, 0x34, 0x72], [0x0A, 0x0A, 0x0A, 0x0A]]).isSome = true := by
    decide
  ⟨_, (Option.some_get hsome).symm,
    C2_scroll_region ascii_wcwidth ascii_glyphs 4 5 (fresh 4 5) _
      [[0x1B, 0x5B, 0x32, 0x3B, 0x34, 0x72], [0x0A, 0x0A, 0x0A, 0x0A]]
      (term_init_fresh 4 5 (by decide)) (by decide) (by decide) (by decide)
      (Option.some_get hsome).symm⟩

/-- C2, counterexample: a terminal of 65537 lines has `scroll.top = scroll.bottom = 0`
right after `term_init`, with no input at all. -/
theorem C2_counterexample :
    (run 1 65537 []).map (fun t => (t.lines, t.scroll.top, t.scroll.bottom))
      = some (65537, 0, 0) := by
  rw [run_fresh 1 65537 _ (by decide)]
  rfl

/-- Dirty tracking on the runs that are processed: in every well-formed state,
after `parse` on bytes that are processed without an out-of-range access, a signed
overflow or a write past the escape buffer, every row whose cells differ from the
cells before the call has its `line_dirty` flag set; this holds whatever the flags
were before the call. -/
theorem parse_flags_changed_rows (wc : Nat → Int) (t t1 : terminal_t) (bytes : List Nat)
    (hs : Shape t) (h : parse wc t bytes = some t1) :
    ∀ r : Nat, t1.cells[r]? ≠ t.cells[r]? → t1.line_dirty[r]? = some true :=
  (parse_step bytes hs h).chg hs

/-- An instance of `parse_flags_changed_rows`: the byte `A` on a terminal of 4 columns
and 2 lines whose dirty flags are all clear changes row 0 (its cells differ from
those before the call), which is flagged afterwards, and leaves row 1 and its flag
alone. -/
theorem parse_flags_changed_rows_example :
    (clean 4 2).line_dirty = [false, false]
    ∧ (parse ascii_wcwidth (clean 4 2) [0x41]).map (fun t => t.line_dirty)
        = some [true, false]
    ∧ (parse ascii_wcwidth (clean 4 2) [0x41]).map
        (fun t => (decide (t.cells[0]? = (clean 4 2).cells[0]?),
          decide (t.cells[1]? = (clean 4 2).cells[1]?))) = some (false, true)
    ∧ ∃ t1, parse ascii_wcwidth (clean 4 2) [0x41] = some t1
      ∧ ∀ r : Nat, t1.cells[r]? ≠ (clean 4 2).cells[r]? → t1.line_dirty[r]? = some true :=
  have hsome : (parse ascii_wcwidth (clean 4 2) [0x41]).isSome = true := by decide
  ⟨by decide, by decide, by decide, _, (Option.some_get hsome).symm,
    parse_flags_changed_rows ascii_wcwidth (clean 4 2) _ [0x41]
      ⟨by decide, by decide, by decide, by decide, by decide, by decide, by decide, by decide,
        by decide, by decide⟩ (Option.some_get hsome).symm⟩

/-- C4, failing input: on a terminal of 4 columns and 2 lines whose dirty flags are all
clear, with the cursor at home, the bytes `ESC [ 9 A` make `scroll_window(0, 1, -9)`
flag the rows 0..1 and then erase the rows 0..8: from row 2 on, `erase_cell` writes
`cells[y][x]` and `line_dirty[y]` outside the arrays of 2 rows, so that the call has no
final state (the error branch of the model) whose flags could account for what was
written. With the count 1 in place of 9 both rows are rewritten and both are flagged. -/
theorem C4_scroll_writes_past_flags :
    (clean 4 2).line_dirty = [false, false]
    ∧ (clean 4 2).line_dirty.length = 2
    ∧ (parse ascii_wcwidth (clean 4 2) [0x1B, 0x5B, 0x39, 0x41]).isSome = false
    ∧ (for_up 0 2 (fun s y => line_dirty_store s y true) (clean 4 2)).map
        (fun t => t.line_dirty) = some [true, true]
    ∧ (erase_cell (clean 4 2) 2 0).isSome = false
    ∧ (line_dirty_store (clean 4 2) 2 true).isSome = false
    ∧ (parse ascii_wcwidth (clean 4 2) [0x1B, 0x5B, 0x31, 0x41]).map
        (fun t => t.line_dirty) = some [true, true] := by
  decide

end Yaft

namespace Yaft

open esc_state

/-- C6: on every well-formed state `reset` succeeds, and a second `reset` returns the
state the first one returned, equal in every field. -/
theorem C6_reset_idempotent (t : terminal_t) (hs : Shape t) :
    ∃ t1, reset t = some t1 ∧ reset t1 = some t1 := by
  by_cases hl : 1 ≤ t.lines
  · refine ⟨reset_result t, reset_eq hs hl, ?_⟩
    have h2 : reset (reset_result t) = some (reset_result (reset_result t)) :=
      reset_eq (reset_result_shape t) hl
    rw [h2]
    rfl
  · have h0 : t.lines = 0 := by omega
    have e : ∀ s : terminal_t, s.lines = 0 →
        reset s = some (reset_charset (reset_esc (reset_entry s))) := by
      intro s hs0
      have e0 : reset s = match for_up 0 (reset_entry s).lines reset_line (reset_entry s) with
          | none => none
          | some t2 => some (reset_charset (reset_esc t2)) := rfl
      have e1 : (reset_entry s).lines = 0 := hs0
      rw [e0, e1]
      rfl
    refine ⟨_, e t h0, ?_⟩
    rw [e (reset_charset (reset_esc (reset_entry t))) h0]
    rfl

/-- C6, witness: a terminal of 3 columns and 2 lines that was just allocated. -/
theorem C6_reset_idempotent_witness :
    ∃ t1, reset (term_alloc 3 2 ascii_glyphs) = some t1 ∧ reset t1 = some t1 :=
  C6_reset_idempotent (term_alloc 3 2 ascii_glyphs) (term_alloc_shape 3 2 ascii_glyphs)

/-- C3, failing input: the wide character U+3000 in column 0, CR, then `ESC [ X` erases
`cells[0][0]` only: `cells[0][1]` keeps the width NEXT_TO_WIDE next to a HALF cell. -/
theorem C3_orphan_after_erase :
    (cell_of (run 4 2 [0xE3, 0x80, 0x80, 0x0D, 0x1B, 0x5B, 0x58]) 0 0).map (fun c => c.width)
      = some HALF
    ∧ (cell_of (run 4 2 [0xE3, 0x80, 0x80, 0x0D, 0x1B, 0x5B, 0x58]) 0 1).map (fun c => c.width)
      = some NEXT_TO_WIDE := by
  decide

/-- C5, failing input: on a fresh terminal of 4 columns and 2 lines `ESC [ 9 A` makes
an out-of-range access. -/
theorem C5_cursor_up_out_of_range :
    (run 4 2 [0x1B, 0x5B, 0x39, 0x41]).isSome = false := by
  decide

end Yaft

namespace Yaft

open esc_state

/-! ## The UTF-8 decoder -/

/-- A lead byte in the ground state starts a sequence. -/
theorem parse_byte_lead (wc : Nat → Int) (t : terminal_t) (lead : Nat)
    (hst : t.esc.state = STATE_RESET) (hi : t.charset.following_byte = 0)
    (hl : is_lead lead) :
    parse_byte wc t lead = some (with_charset t (utf8_lead t.charset lead)) := by
  unfold is_lead at hl
  unfold parse_byte
  simp only [hst]
  rw [if_neg (by omega)]
  simp only
  rw [if_neg (by omega), if_neg (by omega)]
  unfold utf8_charset
  rw [if_neg (by omega), if_pos (by omega)]
  rfl

/-- A continuation byte in the ground state goes to `utf8_charset`. -/
theorem parse_byte_cont (wc : Nat → Int) (t : terminal_t) (c : Nat)
    (hst : t.esc.state = STATE_RESET) (hc : is_cont c) :
    parse_byte wc t c
      = if (utf8_continue t.charset c).count ≥ (utf8_continue t.charset c).following_byte then
          emit_char wc (with_charset t (utf8_continue t.charset c))
            (utf8_emit (utf8_continue t.charset c))
        else some (with_charset t (utf8_continue t.charset c)) := by
  unfold is_cont at hc
  unfold parse_byte
  simp only [hst]
  rw [if_neg (by omega)]
  simp only
  rw [if_neg (by omega), if_neg (by omega)]
  unfold utf8_charset
  rw [if_pos (by omega)]
  dsimp only
  unfold utf8_emit with_charset
  by_cases h1 : (utf8_continue t.charset c).count ≥ (utf8_continue t.charset c).following_byte
  · rw [if_pos h1, if_pos h1]
    by_cases h2 : utf8_illegal (utf8_continue t.charset c) = true
    · rw [if_pos h2, if_pos h2]
    · rw [if_neg h2, if_neg h2]
  · rw [if_neg h1, if_neg h1]

theorem utf8_continue_frame (cs : charset_t) (c : Nat) :
    (utf8_continue cs c).following_byte = cs.following_byte
      ∧ (utf8_continue cs c).count = cs.count + 1 := ⟨rfl, rfl⟩

/-- The continuation bytes of a sequence under way: the last one completes it and the
decoder hands one code point to `add_char`. -/
theorem parse_conts (wc : Nat → Int) : ∀ (conts : List Nat) (s : terminal_t),
    s.esc.state = STATE_RESET → conts ≠ [] → (∀ c ∈ conts, is_cont c) →
    s.charset.count + conts.length = s.charset.following_byte →
    parse wc s conts
      = emit_char wc (with_charset s (utf8_fold s.charset conts))
          (utf8_emit (utf8_fold s.charset conts)) := by
  intro conts
  induction conts with
  | nil => intro s _ h; exact absurd rfl h
  | cons c rest ih =>
    intro s hst _ hc hn
    have f := utf8_continue_frame s.charset c
    rw [List.length_cons] at hn
    rw [parse, parse_byte_cont wc s c hst (hc c (List.mem_cons_self _ _))]
    cases rest with
    | nil =>
      rw [if_pos (by rw [f.1, f.2]; simp at hn; omega)]
      have e : utf8_fold s.charset [c] = utf8_continue s.charset c := rfl
      rw [e]
      cases emit_char wc (with_charset s (utf8_continue s.charset c))
        (utf8_emit (utf8_continue s.charset c)) <;> rfl
    | cons c2 rest2 =>
      rw [if_neg (by rw [f.1, f.2]; simp at hn; omega)]
      dsimp only
      have h := ih (with_charset s (utf8_continue s.charset c)) hst (by simp)
        (fun x hx => hc x (List.mem_cons_of_mem _ hx))
        (by
          show (utf8_continue s.charset c).count + _ = (utf8_continue s.charset c).following_byte
          rw [f.1, f.2]; omega)
      rw [h]
      rfl

end Yaft

namespace Yaft

open esc_state

/-! ## The value the decoder accumulates -/

theorem and_01 (x : Nat) : x &&& 0x01 = x % 2 := Nat.and_pow_two_sub_one_eq_mod x 1
theorem and_03 (x : Nat) : x &&& 0x03 = x % 4 := Nat.and_pow_two_sub_one_eq_mod x 2
theorem and_07 (x : Nat) : x &&& 0x07 = x % 8 := Nat.and_pow_two_sub_one_eq_mod x 3
theorem and_0F (x : Nat) : x &&& 0x0F = x % 16 := Nat.and_pow_two_sub_one_eq_mod x 4
theorem and_1F (x : Nat) : x &&& 0x1F = x % 32 := Nat.and_pow_two_sub_one_eq_mod x 5
theorem and_3F (x : Nat) : x &&& 0x3F = x % 64 := Nat.and_pow_two_sub_one_eq_mod x 6
theorem and_FFFF (x : Nat) : x &&& 0xFFFF = x % 65536 := Nat.and_pow_two_sub_one_eq_mod x 16

theorem shl_6 (x : Nat) : x <<< 6 = x * 64 := by rw [Nat.shiftLeft_eq]

/-- One continuation byte: the new code, while the value stays below `2 ^ 26`. -/
theorem utf8_continue_code (cs : charset_t) (c : Nat) (h : cs.code < 67108864) :
    (utf8_continue cs c).code = cs.code * 64 + c % 64 := by
  show to_u32 (to_u32 (cs.code <<< 6 : Nat) + (c &&& 0x3F : Nat)) = _
  rw [shl_6, and_3F]
  unfold to_u32
  omega

theorem utf8_continue_valid (cs : charset_t) (c : Nat) :
    (utf8_continue cs c).is_valid
      = if cs.following_byte = 0
          ∨ (cs.following_byte = 1 ∧ cs.count = 0 ∧ cs.code ≤ 1)
          ∨ (cs.following_byte = 2 ∧ cs.count = 0 ∧ cs.code = 0 ∧ c < 0xA0)
          ∨ (cs.following_byte = 3 ∧ cs.count = 0 ∧ cs.code = 0 ∧ c < 0x90)
          ∨ (cs.following_byte = 4 ∧ cs.count = 0 ∧ cs.code = 0 ∧ c < 0x88)
          ∨ (cs.following_byte = 5 ∧ cs.count = 0 ∧ cs.code = 0 ∧ c < 0x84) then false
        else cs.is_valid := rfl

/-- A continuation byte after the first one leaves the validity flag alone. -/
theorem utf8_continue_later (cs : charset_t) (c : Nat) (h0 : cs.following_byte ≠ 0)
    (h : cs.count ≠ 0) : (utf8_continue cs c).is_valid = cs.is_valid := by
  rw [utf8_continue_valid, if_neg (by omega)]

theorem utf8_lead_fields (cs : charset_t) (lead : Nat) (hl : is_lead lead) :
    (utf8_lead cs lead).code = utf8_lead_bits lead
      ∧ (utf8_lead cs lead).following_byte = utf8_need lead
      ∧ (utf8_lead cs lead).count = 0
      ∧ (utf8_lead cs lead).is_valid = cs.is_valid := by
  unfold is_lead at hl
  unfold utf8_lead utf8_lead_bits utf8_need
  by_cases h1 : lead ≤ 0xDF
  · rw [if_pos ⟨hl.1, h1⟩, if_pos h1, if_pos h1]
    exact ⟨and_1F lead, rfl, rfl, rfl⟩
  rw [if_neg (fun h => h1 h.2), if_neg h1, if_neg h1]
  by_cases h2 : lead ≤ 0xEF
  · rw [if_pos ⟨by omega, h2⟩, if_pos h2, if_pos h2]
    exact ⟨and_0F lead, rfl, rfl, rfl⟩
  rw [if_neg (fun h => h2 h.2), if_neg h2, if_neg h2]
  by_cases h3 : lead ≤ 0xF7
  · rw [if_pos ⟨by omega, h3⟩, if_pos h3, if_pos h3]
    exact ⟨and_07 lead, rfl, rfl, rfl⟩
  rw [if_neg (fun h => h3 h.2), if_neg h3, if_neg h3]
  by_cases h4 : lead ≤ 0xFB
  · rw [if_pos ⟨by omega, h4⟩, if_pos h4, if_pos h4]
    exact ⟨and_03 lead, rfl, rfl, rfl⟩
  rw [if_neg (fun h => h4 h.2), if_neg h4, if_neg h4]
  exact ⟨and_01 lead, rfl, rfl, rfl⟩

end Yaft

namespace Yaft

open esc_state

theorem utf8_continue_next (cs : charset_t) (c : Nat) (hf : cs.following_byte ≠ 0)
    (hc : cs.count ≠ 0) (hb : cs.code < 67108864) :
    (utf8_continue cs c).code = cs.code * 64 + c % 64
      ∧ (utf8_continue cs c).is_valid = cs.is_valid
      ∧ (utf8_continue cs c).count = cs.count + 1
      ∧ (utf8_continue cs c).following_byte = cs.following_byte :=
  ⟨utf8_continue_code cs c hb, utf8_continue_later cs c hf hc, rfl, rfl⟩

theorem utf8_lead_bits_lt (lead : Nat) :
    (utf8_need lead = 1 → utf8_lead_bits lead < 32)
      ∧ (utf8_need lead = 2 → utf8_lead_bits lead < 16)
      ∧ (utf8_need lead = 3 → utf8_lead_bits lead < 8)
      ∧ (utf8_need lead = 4 → utf8_lead_bits lead < 4)
      ∧ (utf8_need lead = 5 → utf8_lead_bits lead < 2) := by
  unfold utf8_need utf8_lead_bits
  split_ifs <;> omega

theorem utf8_decode1 (cs0 : charset_t) (lead c1 : Nat) (hv : cs0.is_valid = true)
    (hl : is_lead lead) (hn : utf8_need lead = 1) :
    (utf8_fold (utf8_lead cs0 lead) [c1]).code = utf8_value lead [c1]
      ∧ ((utf8_fold (utf8_lead cs0 lead) [c1]).is_valid = false
          ↔ utf8_value lead [c1] < utf8_min (utf8_need lead)) := by
  obtain ⟨f1, f2, f3, f4⟩ := utf8_lead_fields cs0 lead hl
  have hb := (utf8_lead_bits_lt lead).1 hn
  rw [hn] at f2 ⊢
  have e1 : utf8_fold (utf8_lead cs0 lead) [c1] = utf8_continue (utf8_lead cs0 lead) c1 := rfl
  have ev : utf8_value lead [c1] = utf8_lead_bits lead * 64 + c1 % 64 := rfl
  have em : utf8_min 1 = 0x80 := rfl
  rw [e1, ev, em, utf8_continue_code _ _ (by rw [f1]; omega), utf8_continue_valid, f1, f2, f3,
    f4, hv]
  refine ⟨rfl, ?_⟩
  by_cases c : utf8_lead_bits lead ≤ 1
  · rw [if_pos (by right; left; exact ⟨rfl, rfl, c⟩)]
    constructor
    · intro _; omega
    · intro _; rfl
  · rw [if_neg (by omega)]
    constructor
    · intro h; exact absurd h (by decide)
    · intro h; omega

theorem utf8_decode2 (cs0 : charset_t) (lead c1 c2 : Nat) (hv : cs0.is_valid = true)
    (hl : is_lead lead) (hn : utf8_need lead = 2) (h1 : is_cont c1) :
    (utf8_fold (utf8_lead cs0 lead) [c1, c2]).code = utf8_value lead [c1, c2]
      ∧ ((utf8_fold (utf8_lead cs0 lead) [c1, c2]).is_valid = false
          ↔ utf8_value lead [c1, c2] < utf8_min (utf8_need lead)) := by
  obtain ⟨f1, f2, f3, f4⟩ := utf8_lead_fields cs0 lead hl
  have hb := (utf8_lead_bits_lt lead).2.1 hn
  unfold is_cont at h1
  rw [hn] at f2 ⊢
  have ev : utf8_value lead [c1, c2] = ((utf8_lead_bits lead) * 64 + c1 % 64) * 64 + c2 % 64 := rfl
  have em : utf8_min 2 = 0x800 := rfl
  have a1 : (utf8_continue (utf8_lead cs0 lead) c1).code = utf8_lead_bits lead * 64 + c1 % 64 := by
    rw [utf8_continue_code _ _ (by rw [f1]; omega), f1]
  have v1 : (utf8_continue (utf8_lead cs0 lead) c1).is_valid
      = if utf8_lead_bits lead = 0 ∧ c1 < 0xA0 then false else true := by
    rw [utf8_continue_valid, f1, f2, f3, f4, hv]
    by_cases c : utf8_lead_bits lead = 0 ∧ c1 < 0xA0
    · rw [if_pos c, if_pos (by omega)]
    · rw [if_neg c, if_neg (by omega)]
  have n1 : (utf8_continue (utf8_lead cs0 lead) c1).count = 1 := by
    show (utf8_lead cs0 lead).count + 1 = 1
    rw [f3]; rfl
  have g1 : (utf8_continue (utf8_lead cs0 lead) c1).following_byte = 2 := f2
  obtain ⟨a2, w2, n2, g2⟩ := utf8_continue_next (utf8_continue (utf8_lead cs0 lead) c1) c2
    (by rw [g1]; decide) (by rw [n1]; decide) (by rw [a1]; omega)
  rw [a1] at a2
  rw [n1] at n2
  rw [g1] at g2
  have e1 : utf8_fold (utf8_lead cs0 lead) [c1, c2] = utf8_continue (utf8_continue (utf8_lead cs0 lead) c1) c2 := rfl
  rw [e1, ev, em, a2, w2, v1]
  refine ⟨rfl, ?_⟩
  by_cases c : utf8_lead_bits lead = 0 ∧ c1 < 0xA0
  · rw [if_pos c]
    constructor
    · intro _; omega
    · intro _; rfl
  · rw [if_neg c]
    constructor
    · intro h; exact absurd h (by decide)
    · intro h; omega

theorem utf8_decode3 (cs0 : charset_t) (lead c1 c2 c3 : Nat) (hv : cs0.is_valid = true)
    (hl : is_lead lead) (hn : utf8_need lead = 3) (h1 : is_cont c1) :
    (utf8_fold (utf8_lead cs0 lead) [c1, c2, c3]).code = utf8_value lead [c1, c2, c3]
      ∧ ((utf8_fold (utf8_lead cs0 lead) [c1, c2, c3]).is_valid = false
          ↔ utf8_value lead [c1, c2, c3] < utf8_min (utf8_need lead)) := by
  obtain ⟨f1, f2, f3, f4⟩ := utf8_lead_fields cs0 lead hl
  have hb := (utf8_lead_bits_lt lead).2.2.1 hn
  unfold is_cont at h1
  rw [hn] at f2 ⊢
  have ev : utf8_value lead [c1, c2, c3] = (((utf8_lead_bits lead) * 64 + c1 % 64) * 64 + c2 % 64) * 64 + c3 % 64 := rfl
  have em : utf8_min 3 = 0x10000 := rfl
  have a1 : (utf8_continue (utf8_lead cs0 lead) c1).code = utf8_lead_bits lead * 64 + c1 % 64 := by
    rw [utf8_continue_code _ _ (by rw [f1]; omega), f1]
  have v1 : (utf8_continue (utf8_lead cs0 lead) c1).is_valid
      = if utf8_lead_bits lead = 0 ∧ c1 < 0x90 then false else true := by
    rw [utf8_continue_valid, f1, f2, f3, f4, hv]
    by_cases c : utf8_lead_bits lead = 0 ∧ c1 < 0x90
    · rw [if_pos c, if_pos (by omega)]
    · rw [if_neg c, if_neg (by omega)]
  have n1 : (utf8_continue (utf8_lead cs0 lead) c1).count = 1 := by
    show (utf8_lead cs0 lead).count + 1 = 1
    rw [f3]; rfl
  have g1 : (utf8_continue (utf8_lead cs0 lead) c1).following_byte = 3 := f2
  obtain ⟨a2, w2, n2, g2⟩ := utf8_continue_next (utf8_continue (utf8_lead cs0 lead) c1) c2
    (by rw [g1]; decide) (by rw [n1]; decide) (by rw [a1]; omega)
  rw [a1] at a2
  rw [n1] at n2
  rw [g1] at g2
  obtain ⟨a3, w3, n3, g3⟩ := utf8_continue_next (utf8_continue (utf8_continue (utf8_lead cs0 lead) c1) c2) c3
    (by rw [g2]; decide) (by rw [n2]; decide) (by rw [a2]; omega)
  rw [a2] at a3
  rw [n2] at n3
  rw [g2] at g3
  have e1 : utf8_fold (utf8_lead cs0 lead) [c1, c2, c3] = utf8_continue (utf8_continue (utf8_continue (utf8_lead cs0 lead) c1) c2) c3 := rfl
  rw [e1, ev, em, a3, w3, w2, v1]
  refine ⟨rfl, ?_⟩
  by_cases c : utf8_lead_bits lead = 0 ∧ c1 < 0x90
  · rw [if_pos c]
    constructor
    · intro _; omega
    · intro _; rfl
  · rw [if_neg c]
    constructor
    · intro h; exact absurd h (by decide)
    · intro h; omega

theorem utf8_decode4 (cs0 : charset_t) (lead c1 c2 c3 c4 : Nat) (hv : cs0.is_valid = true)
    (hl : is_lead lead) (hn : utf8_need lead = 4) (h1 : is_cont c1) :
    (utf8_fold (utf8_lead cs0 lead) [c1, c2, c3, c4]).code = utf8_value lead [c1, c2, c3, c4]
      ∧ ((utf8_fold (utf8_lead cs0 lead) [c1, c2, c3, c4]).is_valid = false
          ↔ utf8_value lead [c1, c2, c3, c4] < utf8_min (utf8_need lead)) := by
  obtain ⟨f1, f2, f3, f4⟩ := utf8_lead_fields cs0 lead hl
  have hb := (utf8_lead_bits_lt lead).2.2.2.1 hn
  unfold is_cont at h1
  rw [hn] at f2 ⊢
  have ev : utf8_value lead [c1, c2, c3, c4] = ((((utf8_lead_bits lead) * 64 + c1 % 64) * 64 + c2 % 64) * 64 + c3 % 64) * 64 + c4 % 64 := rfl
  have em : utf8_min 4 = 0x200000 := rfl
  have a1 : (utf8_continue (utf8_lead cs0 lead) c1).code = utf8_lead_bits lead * 64 + c1 % 64 := by
    rw [utf8_continue_code _ _ (by rw [f1]; omega), f1]
  have v1 : (utf8_continue (utf8_lead cs0 lead) c1).is_valid
      = if utf8_lead_bits lead = 0 ∧ c1 < 0x88 then false else true := by
    rw [utf8_continue_valid, f1, f2, f3, f4, hv]
    by_cases c : utf8_lead_bits lead = 0 ∧ c1 < 0x88
    · rw [if_pos c, if_pos (by omega)]
    · rw [if_neg c, if_neg (by omega)]
  have n1 : (utf8_continue (utf8_lead cs0 lead) c1).count = 1 := by
    show (utf8_lead cs0 lead).count + 1 = 1
    rw [f3]; rfl
  have g1 : (utf8_continue (utf8_lead cs0 lead) c1).following_byte = 4 := f2
  obtain ⟨a2, w2, n2, g2⟩ := utf8_continue_next (utf8_continue (utf8_lead cs0 lead) c1) c2
    (by rw [g1]; decide) (by rw [n1]; decide) (by rw [a1]; omega)
  rw [a1] at a2
  rw [n1] at n2
  rw [g1] at g2
  obtain ⟨a3, w3, n3, g3⟩ := utf8_continue_next (utf8_continue (utf8_continue (utf8_lead cs0 lead) c1) c2) c3
    (by rw [g2]; decide) (by rw [n2]; decide) (by rw [a2]; omega)
  rw [a2] at a3
  rw [n2] at n3
  rw [g2] at g3
  obtain ⟨a4, w4, n4, g4⟩ := utf8_continue_next (utf8_continue (utf8_continue (utf8_continue (utf8_lead cs0 lead) c1) c2) c3) c4
    (by rw [g3]; decide) (by rw [n3]; decide) (by rw [a3]; omega)
  rw [a3] at a4
  rw [n3] at n4
  rw [g3] at g4
  have e1 : utf8_fold (utf8_lead cs0 lead) [c1, c2, c3, c4] = utf8_continue (utf8_continue (utf8_continue (utf8_continue (utf8_lead cs0 lead) c1) c2) c3) c4 := rfl
  rw [e1, ev, em, a4, w4, w3, w2, v1]
  refine ⟨rfl, ?_⟩
  by_cases c : utf8_lead_bits lead = 0 ∧ c1 < 0x88
  · rw [if_pos c]
    constructor
    · intro _; omega
    · intro _; rfl
  · rw [if_neg c]
    constructor
    · intro h; exact absurd h (by decide)
    · intro h; omega

theorem utf8_decode5 (cs0 : charset_t) (lead c1 c2 c3 c4 c5 : Nat) (hv : cs0.is_valid = true)
    (hl : is_lead lead) (hn : utf8_need lead = 5) (h1 : is_cont c1) :
    (utf8_fold (utf8_lead cs0 lead) [c1, c2, c3, c4, c5]).code = utf8_value lead [c1, c2, c3, c4, c5]
      ∧ ((utf8_fold (utf8_lead cs0 lead) [c1, c2, c3, c4, c5]).is_valid = false
          ↔ utf8_value lead [c1, c2, c3, c4, c5] < utf8_min (utf8_need lead)) := by
  obtain ⟨f1, f2, f3, f4⟩ := utf8_lead_fields cs0 lead hl
  have hb := (utf8_lead_bits_lt lead).2.2.2.2 hn
  unfold is_cont at h1
  rw [hn] at f2 ⊢
  have ev : utf8_value lead [c1, c2, c3, c4, c5] = (((((utf8_lead_bits lead) * 64 + c1 % 64) * 64 + c2 % 64) * 64 + c3 % 64) * 64 + c4 % 64) * 64 + c5 % 64 := rfl
  have em : utf8_min 5 = 0x4000000 := rfl
  have a1 : (utf8_continue (utf8_lead cs0 lead) c1).code = utf8_lead_bits lead * 64 + c1 % 64 := by
    rw [utf8_continue_code _ _ (by rw [f1]; omega), f1]
  have v1 : (utf8_continue (utf8_lead cs0 lead) c1).is_valid
      = if utf8_lead_bits lead = 0 ∧ c1 < 0x84 then false else true := by
    rw [utf8_continue_valid, f1, f2, f3, f4, hv]
    by_cases c : utf8_lead_bits lead = 0 ∧ c1 < 0x84
    · rw [if_pos c, if_pos (by omega)]
    · rw [if_neg c, if_neg (by omega)]
  have n1 : (utf8_continue (utf8_lead cs0 lead) c1).count = 1 := by
    show (utf8_lead cs0 lead).count + 1 = 1
    rw [f3]; rfl
  have g1 : (utf8_continue (utf8_lead cs0 lead) c1).following_byte = 5 := f2
  obtain ⟨a2, w2, n2, g2⟩ := utf8_continue_next (utf8_continue (utf8_lead cs0 lead) c1) c2
    (by rw [g1]; decide) (by rw [n1]; decide) (by rw [a1]; omega)
  rw [a1] at a2
  rw [n1] at n2
  rw [g1] at g2
  obtain ⟨a3, w3, n3, g3⟩ := utf8_continue_next (utf8_continue (utf8_continue (utf8_lead cs0 lead) c1) c2) c3
    (by rw [g2]; decide) (by rw [n2]; decide) (by rw [a2]; omega)
  rw [a2] at a3
  rw [n2] at n3
  rw [g2] at g3
  obtain ⟨a4, w4, n4, g4⟩ := utf8_continue_next (utf8_continue (utf8_continue (utf8_continue (utf8_lead cs0 lead) c1) c2) c3) c4
    (by rw [g3]; decide) (by rw [n3]; decide) (by rw [a3]; omega)
  rw [a3] at a4
  rw [n3] at n4
  rw [g3] at g4
  obtain ⟨a5, w5, n5, g5⟩ := utf8_continue_next (utf8_continue (utf8_continue (utf8_continue (utf8_continue (utf8_lead cs0 lead) c1) c2) c3) c4) c5
    (by rw [g4]; decide) (by rw [n4]; decide) (by rw [a4]; omega)
  rw [a4] at a5
  rw [n4] at n5
  rw [g4] at g5
  have e1 : utf8_fold (utf8_lead cs0 lead) [c1, c2, c3, c4, c5] = utf8_continue (utf8_continue (utf8_continue (utf8_continue (utf8_continue (utf8_lead cs0 lead) c1) c2) c3) c4) c5 := rfl
  rw [e1, ev, em, a5, w5, w4, w3, w2, v1]
  refine ⟨rfl, ?_⟩
  by_cases c : utf8_lead_bits lead = 0 ∧ c1 < 0x84
  · rw [if_pos c]
    constructor
    · intro _; omega
    · intro _; rfl
  · rw [if_neg c]
    constructor
    · intro h; exact absurd h (by decide)
    · intro h; omega

end Yaft

namespace Yaft

open esc_state

theorem utf8_need_range (lead : Nat) : 1 ≤ utf8_need lead ∧ utf8_need lead ≤ 5 := by
  unfold utf8_need
  split_ifs <;> omega

/-- The accumulator after a whole sequence holds the value of the sequence, and its
validity flag is clear exactly when the sequence is overlong. -/
theorem utf8_decode (cs0 : charset_t) (lead : Nat) (conts : List Nat)
    (hv : cs0.is_valid = true) (hl : is_lead lead) (hn : conts.length = utf8_need lead)
    (hc : ∀ c ∈ conts, is_cont c) :
    (utf8_fold (utf8_lead cs0 lead) conts).code = utf8_value lead conts
      ∧ ((utf8_fold (utf8_lead cs0 lead) conts).is_valid = false
          ↔ utf8_value lead conts < utf8_min (utf8_need lead)) := by
  have hr := utf8_need_range lead
  rcases conts with _ | ⟨c1, _ | ⟨c2, _ | ⟨c3, _ | ⟨c4, _ | ⟨c5, _ | ⟨c6, r⟩⟩⟩⟩⟩⟩
  · simp only [List.length_nil] at hn; omega
  · exact utf8_decode1 cs0 lead c1 hv hl hn.symm
  · exact utf8_decode2 cs0 lead c1 c2 hv hl hn.symm (hc c1 (List.mem_cons_self _ _))
  · exact utf8_decode3 cs0 lead c1 c2 c3 hv hl hn.symm (hc c1 (List.mem_cons_self _ _))
  · exact utf8_decode4 cs0 lead c1 c2 c3 c4 hv hl hn.symm (hc c1 (List.mem_cons_self _ _))
  · exact utf8_decode5 cs0 lead c1 c2 c3 c4 c5 hv hl hn.symm (hc c1 (List.mem_cons_self _ _))
  · simp only [List.length_cons] at hn; omega

/-- The code point handed to `add_char` at the end of a sequence: U+003F if the
sequence is rejected, else its value. -/
theorem utf8_emit_eq (cs0 : charset_t) (lead : Nat) (conts : List Nat)
    (hv : cs0.is_valid = true) (hl : is_lead lead) (hn : conts.length = utf8_need lead)
    (hc : ∀ c ∈ conts, is_cont c) :
    utf8_emit (utf8_fold (utf8_lead cs0 lead) conts)
      = if utf8_rejected lead conts then REPLACEMENT_CHAR else utf8_value lead conts := by
  obtain ⟨h1, h2⟩ := utf8_decode cs0 lead conts hv hl hn hc
  have e : utf8_illegal (utf8_fold (utf8_lead cs0 lead) conts) = true
      ↔ utf8_rejected lead conts := by
    unfold utf8_illegal utf8_rejected
    rw [decide_eq_true_iff, h1, and_FFFF, h2]
    tauto
  unfold utf8_emit
  by_cases c : utf8_rejected lead conts
  · rw [if_pos (e.mpr c), if_pos c]
  · rw [if_neg (fun h => c (e.mp h)), if_neg c, h1]

/-- The decoder on a whole multi-byte sequence in the ground state: one call of
`add_char`, with U+003F if the sequence is rejected and with its value otherwise,
then `reset_charset`. -/
theorem parse_utf8 (wc : Nat → Int) (t : terminal_t) (lead : Nat) (conts : List Nat)
    (hst : t.esc.state = STATE_RESET) (hcl : charset_clean t) (hl : is_lead lead)
    (hn : conts.length = utf8_need lead) (hc : ∀ c ∈ conts, is_cont c) :
    parse wc t (lead :: conts)
      = emit_char wc (with_charset t (utf8_fold (utf8_lead t.charset lead) conts))
          (if utf8_rejected lead conts then REPLACEMENT_CHAR else utf8_value lead conts) := by
  obtain ⟨h1, h2⟩ := hcl
  obtain ⟨f1, f2, f3, f4⟩ := utf8_lead_fields t.charset lead hl
  have hr := utf8_need_range lead
  rw [parse, parse_byte_lead wc t lead hst h1 hl]
  dsimp only
  have hp := parse_conts wc conts (with_charset t (utf8_lead t.charset lead)) hst
    (by intro h; rw [h] at hn; simp only [List.length_nil] at hn; omega) hc
    (by
      show (utf8_lead t.charset lead).count + _ = (utf8_lead t.charset lead).following_byte
      rw [f2, f3, hn]; omega)
  rw [hp]
  have e : (with_charset t (utf8_lead t.charset lead)).charset = utf8_lead t.charset lead := rfl
  rw [e, utf8_emit_eq t.charset lead conts h2 hl hn hc]
  rfl

end Yaft

namespace Yaft

open esc_state

/-! ## C8, C9: rejected and interrupted sequences -/

theorem emit_char_eq (wc : Nat → Int) (s : terminal_t) (code : Nat) :
    emit_char wc s code = (add_char wc s code).map reset_charset := by
  unfold emit_char
  cases add_char wc s code <;> rfl

theorem emit_char_charset {wc : Nat → Int} {s t1 : terminal_t} {code : Nat}
    (h : emit_char wc s code = some t1) : t1.charset = charset_zero := by
  rw [emit_char_eq] at h
  cases ha : add_char wc s code with
  | none => rw [ha] at h; exact absurd h (by simp)
  | some t2 =>
    rw [ha, Option.map_some', Option.some.injEq] at h
    rw [← h]
    rfl

/-- The bytes 0xFE and 0xFF in the ground state. -/
theorem parse_byte_unused (wc : Nat → Int) (t : terminal_t) (b : Nat)
    (hst : t.esc.state = STATE_RESET) (hi : t.charset.following_byte = 0)
    (hb : 0xFE ≤ b) : parse_byte wc t b = emit_char wc t REPLACEMENT_CHAR := by
  unfold parse_byte
  simp only [hst]
  rw [if_neg (by omega)]
  simp only
  rw [if_neg (by omega), if_neg (by omega)]
  unfold utf8_charset
  rw [if_neg (by omega), if_neg (by omega)]

/-- C8: in the ground state with a clean accumulator, every complete multi-byte
sequence that is overlong or decodes to a surrogate, to a noncharacter
U+FDD0..U+FDEF, to a code whose low 16 bits are 0xFFFE or 0xFFFF, or to a value above
U+10FFFF, and each of the bytes 0xFE and 0xFF, is handled by one call of `add_char`
with U+003F followed by `reset_charset`; the accumulator is clean afterwards. -/
theorem C8_utf8_rejection (wc : Nat → Int) (t : terminal_t) (hst : t.esc.state = STATE_RESET)
    (hcl : charset_clean t) :
    (∀ (lead : Nat) (conts : List Nat), is_lead lead → conts.length = utf8_need lead →
      (∀ c ∈ conts, is_cont c) → utf8_rejected lead conts →
      ∃ cs, parse wc t (lead :: conts)
          = (add_char wc (with_charset t cs) REPLACEMENT_CHAR).map reset_charset
        ∧ ∀ t1, parse wc t (lead :: conts) = some t1 → t1.charset = charset_zero)
    ∧ (∀ b : Nat, b = 0xFE ∨ b = 0xFF →
      parse wc t [b] = (add_char wc t REPLACEMENT_CHAR).map reset_charset
        ∧ ∀ t1, parse wc t [b] = some t1 → t1.charset = charset_zero) := by
  constructor
  · intro lead conts hl hn hc hr
    have e := parse_utf8 wc t lead conts hst hcl hl hn hc
    rw [if_pos hr] at e
    refine ⟨_, by rw [e, emit_char_eq], ?_⟩
    intro t1 h1
    rw [e] at h1
    exact emit_char_charset h1
  · intro b hb
    have e : parse wc t [b] = emit_char wc t REPLACEMENT_CHAR := by
      rw [parse, parse_byte_unused wc t b hst hcl.1 (by omega)]
      cases emit_char wc t REPLACEMENT_CHAR <;> rfl
    refine ⟨by rw [e, emit_char_eq], ?_⟩
    intro t1 h1
    rw [e] at h1
    exact emit_char_charset h1

/-- C8, witness: the overlong `C0 80`, the surrogate `ED A0 80` and the byte 0xFF on a
fresh terminal of 4 columns and 2 lines; evaluating the run of `ED A0 80` gives `?` in
`cells[0][0]` and the cursor in column 1. -/
theorem C8_utf8_rejection_witness :
    (∃ cs, parse ascii_wcwidth (fresh 4 2) (0xC0 :: [0x80])
          = (add_char ascii_wcwidth (with_charset (fresh 4 2) cs) REPLACEMENT_CHAR).map
              reset_charset
        ∧ ∀ t1, parse ascii_wcwidth (fresh 4 2) (0xC0 :: [0x80]) = some t1 →
            t1.charset = charset_zero)
    ∧ (∃ cs, parse ascii_wcwidth (fresh 4 2) (0xED :: [0xA0, 0x80])
          = (add_char ascii_wcwidth (with_charset (fresh 4 2) cs) REPLACEMENT_CHAR).map
              reset_charset
        ∧ ∀ t1, parse ascii_wcwidth (fresh 4 2) (0xED :: [0xA0, 0x80]) = some t1 →
            t1.charset = charset_zero)
    ∧ (parse ascii_wcwidth (fresh 4 2) [0xFF]
          = (add_char ascii_wcwidth (fresh 4 2) REPLACEMENT_CHAR).map reset_charset
        ∧ ∀ t1, parse ascii_wcwidth (fresh 4 2) [0xFF] = some t1 → t1.charset = charset_zero)
    ∧ code_of (run 4 2 [0xED, 0xA0, 0x80]) 0 0 = some 0x3F
    ∧ (run 4 2 [0xED, 0xA0, 0x80]).map (fun t => (t.cursor.x, t.charset)) = some (1, charset_zero) :=
  have h := C8_utf8_rejection ascii_wcwidth (fresh 4 2) rfl ⟨rfl, rfl⟩
  ⟨h.1 0xC0 [0x80] (by decide) (by decide) (by decide) (by decide),
    h.1 0xED [0xA0, 0x80] (by decide) (by decide) (by decide) (by decide),
    h.2 0xFF (Or.inr rfl), by decide, by decide⟩

end Yaft

namespace Yaft

open esc_state

/-- Continuation bytes that do not complete the sequence are accumulated. -/
theorem parse_conts_pending (wc : Nat → Int) (rest : List Nat) :
    ∀ (conts : List Nat) (s : terminal_t),
      s.esc.state = STATE_RESET → (∀ c ∈ conts, is_cont c) →
      s.charset.count + conts.length < s.charset.following_byte →
      parse wc s (conts ++ rest) = parse wc (with_charset s (utf8_fold s.charset conts)) rest := by
  intro conts
  induction conts with
  | nil => intro s _ _ _; rfl
  | cons c cs ih =>
    intro s hst hc hn
    have f := utf8_continue_frame s.charset c
    rw [List.length_cons] at hn
    rw [List.cons_append, parse, parse_byte_cont wc s c hst (hc c (List.mem_cons_self _ _)),
      if_neg (by rw [f.1, f.2]; push_cast at hn; omega)]
    dsimp only
    have h := ih (with_charset s (utf8_continue s.charset c)) hst
      (fun x hx => hc x (List.mem_cons_of_mem _ hx))
      (by
        show (utf8_continue s.charset c).count + _ < (utf8_continue s.charset c).following_byte
        rw [f.1, f.2]; push_cast at hn; omega)
    rw [h]
    rfl

/-- A byte that is not a continuation byte, in the middle of a sequence. -/
theorem parse_byte_interrupt (wc : Nat → Int) (s : terminal_t) (b : Nat)
    (hst : s.esc.state = STATE_RESET) (hf : s.charset.following_byte > 0) (hb : ¬ is_cont b) :
    parse_byte wc s b
      = (add_char wc s REPLACEMENT_CHAR).bind (fun t2 => classify wc (reset_charset t2) b) := by
  unfold is_cont at hb
  unfold parse_byte
  simp only [hst]
  rw [if_pos ⟨hf, by omega⟩, emit_char_eq]
  cases add_char wc s REPLACEMENT_CHAR <;> rfl

/-- A byte in the ground state with no sequence under way. -/
theorem parse_byte_classify (wc : Nat → Int) (u : terminal_t) (b : Nat)
    (hst : u.esc.state = STATE_RESET) (hi : u.charset.following_byte = 0) :
    parse_byte wc u b = classify wc u b := by
  unfold parse_byte
  simp only [hst]
  rw [if_neg (by omega)]
  rfl

theorem utf8_fold_following (conts : List Nat) : ∀ cs : charset_t,
    (utf8_fold cs conts).following_byte = cs.following_byte := by
  induction conts with
  | nil => intro cs; rfl
  | cons c r ih => intro cs; exact ih (utf8_continue cs c)

/-- C9: in the ground state with a clean accumulator, a lead byte followed by fewer
continuation bytes than it announces and then by a byte `b` that is not a
continuation byte: `add_char` is called once with U+003F for the abandoned sequence,
the accumulator is reset, and `b` is then dispatched (control character, `add_char`,
or decoder) on the state with the clean accumulator, by the same dispatch that
handles a byte when no sequence is under way. -/
theorem C9_interrupted_sequence (wc : Nat → Int) (t : terminal_t)
    (hst : t.esc.state = STATE_RESET) (hcl : charset_clean t) :
    (∀ (lead : Nat) (conts : List Nat) (b : Nat), is_lead lead →
      conts.length < utf8_need lead → (∀ c ∈ conts, is_cont c) → ¬ is_cont b →
      ∃ cs, parse wc t (lead :: conts ++ [b])
        = (add_char wc (with_charset t cs) REPLACEMENT_CHAR).bind
            (fun t2 => classify wc (reset_charset t2) b))
    ∧ (∀ (u : terminal_t) (b : Nat), u.esc.state = STATE_RESET →
        u.charset.following_byte = 0 → parse wc u [b] = classify wc u b) := by
  constructor
  · intro lead conts b hl hn hc hb
    obtain ⟨f1, f2, f3, f4⟩ := utf8_lead_fields t.charset lead hl
    have hr := utf8_need_range lead
    refine ⟨utf8_fold (utf8_lead t.charset lead) conts, ?_⟩
    rw [List.cons_append, parse, parse_byte_lead wc t lead hst hcl.1 hl]
    dsimp only
    rw [parse_conts_pending wc [b] conts (with_charset t (utf8_lead t.charset lead)) hst hc
      (by
        show (utf8_lead t.charset lead).count + _ < (utf8_lead t.charset lead).following_byte
        rw [f2, f3]; omega)]
    have e : (with_charset t (utf8_lead t.charset lead)).charset = utf8_lead t.charset lead := rfl
    have e2 : with_charset (with_charset t (utf8_lead t.charset lead))
        (utf8_fold (utf8_lead t.charset lead) conts)
        = with_charset t (utf8_fold (utf8_lead t.charset lead) conts) := rfl
    have hf : (with_charset t (utf8_fold (utf8_lead t.charset lead) conts)).charset.following_byte
        > 0 := by
      show (utf8_fold (utf8_lead t.charset lead) conts).following_byte > 0
      rw [utf8_fold_following, f2]; omega
    have hS := parse_byte_interrupt wc (with_charset t (utf8_fold (utf8_lead t.charset lead) conts))
      b hst hf hb
    rw [e, e2, parse, hS]
    cases (add_char wc (with_charset t (utf8_fold (utf8_lead t.charset lead) conts))
      REPLACEMENT_CHAR).bind (fun t2 => classify wc (reset_charset t2) b) <;> rfl
  · intro u b h1 h2
    rw [parse, parse_byte_classify wc u b h1 h2]
    cases classify wc u b <;> rfl

/-- C9, witness: `E3 81` (two of three bytes) followed by `A` on a fresh terminal of 4
columns and 2 lines; evaluating the run gives `?` in `cells[0][0]`, `A` in
`cells[0][1]` and the cursor in column 2. -/
theorem C9_interrupted_sequence_witness :
    (∃ cs, parse ascii_wcwidth (fresh 4 2) (0xE3 :: [0x81] ++ [0x41])
        = (add_char ascii_wcwidth (with_charset (fresh 4 2) cs) REPLACEMENT_CHAR).bind
            (fun t2 => classify ascii_wcwidth (reset_charset t2) 0x41))
    ∧ parse ascii_wcwidth (fresh 4 2) [0x41] = classify ascii_wcwidth (fresh 4 2) 0x41
    ∧ code_of (run 4 2 [0xE3, 0x81, 0x41]) 0 0 = some 0x3F
    ∧ code_of (run 4 2 [0xE3, 0x81, 0x41]) 0 1 = some 0x41
    ∧ (run 4 2 [0xE3, 0x81, 0x41]).map (fun t => (t.cursor.x, t.charset)) = some (2, charset_zero) :=
  ⟨(C9_interrupted_sequence ascii_wcwidth (fresh 4 2) rfl ⟨rfl, rfl⟩).1 0xE3 [0x81] 0x41
      (by decide) (by decide) (by decide) (by decide),
    (C9_interrupted_sequence ascii_wcwidth (fresh 4 2) rfl ⟨rfl, rfl⟩).2 (fresh 4 2) 0x41 rfl rfl,
    by decide, by decide, by decide⟩

end Yaft

namespace Yaft

open esc_state

/-! ## Storing a character at the cursor -/

theorem move_cursor_x_cells (s : terminal_t) (dx : Int) : (move_cursor_x s dx).cells = s.cells := by
  unfold move_cursor_x
  dsimp only
  split_ifs <;> rfl

/-- The call `move_cursor(term, 0, dx)` never scrolls: it succeeds and leaves the
cells alone. -/
theorem move_cursor_level (s : terminal_t) (dx : Int) (hx16 : s.cursor.x < 65536)
    (hy16 : s.cursor.y < 65536) (h1 : -2147483648 ≤ dx) (h2 : dx ≤ 2147418112) :
    ∃ s1, move_cursor s 0 dx = some s1 ∧ s1.cells = s.cells := by
  unfold move_cursor
  rw [if_neg (move_cursor_defined s 0 dx hx16 hy16 h1 h2 (by omega) (by omega))]
  dsimp only
  simp only [lt_self_iff_false, gt_iff_lt, and_false, if_false]
  refine ⟨_, rfl, ?_⟩
  unfold store_cursor_y
  dsimp only
  exact move_cursor_x_cells s dx

theorem cell_store_eq (s : terminal_t) (y x : Nat) (c : cell_t) (hy : y < s.lines)
    (hx : x < s.cols) :
    cell_store s y x c
      = some { s with cells := s.cells.set y ((s.cells.getD y []).set x c) } := by
  have h : (0 : Int) ≤ y ∧ (y : Int) < s.lines ∧ (0 : Int) ≤ x ∧ (x : Int) < s.cols := by omega
  unfold cell_store
  rw [if_pos h]
  simp only [Int.toNat_ofNat]

/-- The function `set_cell` inside the grid succeeds and leaves the cell of the glyph
at `(y, x)`. -/
theorem set_cell_store {s : terminal_t} {y x : Nat} (g : glyph_t) (hy : y < s.lines)
    (hx : x < s.cols) (hr : s.cells.length = s.lines)
    (hl : ∀ row ∈ s.cells, row.length = s.cols) :
    ∃ t3 w, set_cell s y x g = some (t3, w)
      ∧ grid_at t3.cells y x = some (make_cell s g) := by
  have d : (0 : Int) ≤ y ∧ (y : Int) < s.lines := by omega
  have hy1 : y < s.cells.length := by omega
  have hx1 : x < (s.cells.getD y []).length := by
    rw [getD_row_length _ _ _ hl hy1]; exact hx
  have hrl : ∀ row ∈ s.cells.set y ((s.cells.getD y []).set x (make_cell s g)),
      row.length = s.cols := by
    refine mem_set_row _ _ _ _ hl (fun _ => ?_)
    rw [List.length_set]; exact getD_row_length _ _ _ hl hy1
  have hstored : grid_at (s.cells.set y ((s.cells.getD y []).set x (make_cell s g))) y x
      = some (make_cell s g) := by
    rw [grid_at_set _ _ _ _ _ _ hy1 hx1, if_pos ⟨rfl, rfl⟩]
  have e2 : ((x : Int) + 1) = ((x + 1 : Nat) : Int) := by omega
  unfold set_cell
  dsimp only
  rw [cell_store_eq s y x _ hy hx]
  dsimp only
  unfold line_dirty_store
  rw [if_pos d]
  dsimp only
  simp only [Int.toNat_ofNat]
  by_cases hw : (make_cell s g).width = WIDE ∧ (x : Int) + 1 < (s.cols : Int)
  · rw [if_pos hw, e2]
    have hcs := cell_store_eq
      { s with cells := s.cells.set y ((s.cells.getD y []).set x (make_cell s g)),
               line_dirty := s.line_dirty.set y true }
      y (x + 1) { make_cell s g with width := NEXT_TO_WIDE } hy (by show x + 1 < s.cols; omega)
    rw [hcs]
    refine ⟨_, _, rfl, ?_⟩
    dsimp only
    have hy2 : y < (s.cells.set y ((s.cells.getD y []).set x (make_cell s g))).length := by
      rw [List.length_set]; exact hy1
    have hx2 : x + 1 < ((s.cells.set y ((s.cells.getD y []).set x (make_cell s g))).getD y
        []).length := by
      rw [getD_row_length _ _ _ hrl hy2]; omega
    rw [grid_at_set _ _ _ _ _ _ hy2 hx2, if_neg (by omega)]
    exact hstored
  · rw [if_neg hw]
    by_cases hh : (make_cell s g).width = HALF ∧ (x : Int) + 1 < (s.cols : Int)
    · rw [if_pos hh, e2]
      have hcr := cell_ref_eq
        { s with cells := s.cells.set y ((s.cells.getD y []).set x (make_cell s g)),
                 line_dirty := s.line_dirty.set y true }
        y (x + 1) hy (by show x + 1 < s.cols; omega)
      rw [hcr]
      dsimp only
      have hy2 : y < (s.cells.set y ((s.cells.getD y []).set x (make_cell s g))).length := by
        rw [List.length_set]; exact hy1
      obtain ⟨nxt, hnxt⟩ := grid_at_row (x := x + 1) hy2 hrl (by omega)
      rw [hnxt]
      dsimp only
      by_cases hn : nxt.width = NEXT_TO_WIDE
      · rw [if_pos hn]
        have hec := erase_cell_eq
          { s with cells := s.cells.set y ((s.cells.getD y []).set x (make_cell s g)),
                   line_dirty := s.line_dirty.set y true }
          y (x + 1) hy (by show x + 1 < s.cols; omega)
        rw [hec]
        refine ⟨_, _, rfl, ?_⟩
        dsimp only
        have hx2 : x + 1 < ((s.cells.set y ((s.cells.getD y []).set x (make_cell s g))).getD y
            []).length := by
          rw [getD_row_length _ _ _ hrl hy2]; omega
        rw [grid_at_set _ _ _ _ _ _ hy2 hx2, if_neg (by omega)]
        exact hstored
      · rw [if_neg hn]
        exact ⟨_, _, rfl, hstored⟩
    · rw [if_neg hh]
      exact ⟨_, _, rfl, hstored⟩

end Yaft

namespace Yaft

open esc_state

/-- The function `add_char` for a character of positive width whose glyph was
selected, with no wrap to take: it succeeds and the cell at the cursor holds the
glyph. -/
theorem add_char_store {wc : Nat → Int} {s : terminal_t} {code : Nat} {g : glyph_t} (w : Int)
    (hw : wc code = w) (hpos : 0 < w) (hsel : select_glyph s code w = some g)
    (hy : s.cursor.y < s.lines) (hx : s.cursor.x < s.cols) (hx16 : s.cursor.x < 65536)
    (hy16 : s.cursor.y < 65536) (hr : s.cells.length = s.lines)
    (hl : ∀ row ∈ s.cells, row.length = s.cols)
    (hnw : ¬ ((s.wrap_occured = true ∧ (s.cursor.x : Int) = (s.cols : Int) - 1)
      ∨ (g.width = WIDE ∧ (s.cursor.x : Int) = (s.cols : Int) - 1))) :
    ∃ t1, add_char wc s code = some t1
      ∧ grid_at t1.cells s.cursor.y s.cursor.x = some (make_cell s g) := by
  obtain ⟨t3, w1, e, hc⟩ := set_cell_store (s := { s with wrap_occured := false }) g hy hx hr hl
  have hcur : t3.cursor = s.cursor := (set_cell_touch e).1.cursor
  have hw1 : w1 = 1 ∨ w1 = 2 := (set_cell_touch e).2.2
  obtain ⟨s1, e1, hcells⟩ := move_cursor_level t3 w1 (by rw [hcur]; exact hx16)
    (by rw [hcur]; exact hy16) (by omega) (by omega)
  have hm : make_cell { s with wrap_occured := false } g = make_cell s g :=
    make_cell_congr g rfl rfl
  rw [hm] at hc
  have e2 : set_cell { s with wrap_occured := false } (s.cursor.y : Int) (s.cursor.x : Int) g
      = some (t3, w1) := e
  unfold add_char
  dsimp only
  rw [hw, if_neg (by omega), hsel]
  dsimp only
  rw [if_neg hnw]
  dsimp only
  rw [e2]
  dsimp only
  exact ⟨s1, e1, by rw [hcells]; exact hc⟩

theorem utf8_encode2 (c : Nat) (h1 : 0x80 ≤ c) (h2 : c < 0x800) :
    utf8_encode c = (0xC0 + c / 64) :: [0x80 + c % 64]
      ∧ is_lead (0xC0 + c / 64) ∧ utf8_need (0xC0 + c / 64) = 1
      ∧ utf8_value (0xC0 + c / 64) [0x80 + c % 64] = c := by
  refine ⟨?_, ?_, ?_, ?_⟩
  · unfold utf8_encode
    rw [if_neg (by omega), if_pos h2]
  · unfold is_lead; omega
  · unfold utf8_need
    rw [if_pos (by omega)]
  · show utf8_lead_bits (0xC0 + c / 64) * 64 + (0x80 + c % 64) % 64 = c
    unfold utf8_lead_bits
    rw [if_pos (by omega)]
    omega

theorem utf8_encode3 (c : Nat) (h1 : 0x800 ≤ c) (h2 : c < 0x10000) :
    utf8_encode c = (0xE0 + c / 4096) :: [0x80 + c / 64 % 64, 0x80 + c % 64]
      ∧ is_lead (0xE0 + c / 4096) ∧ utf8_need (0xE0 + c / 4096) = 2
      ∧ utf8_value (0xE0 + c / 4096) [0x80 + c / 64 % 64, 0x80 + c % 64] = c := by
  refine ⟨?_, ?_, ?_, ?_⟩
  · unfold utf8_encode
    rw [if_neg (by omega), if_neg (by omega), if_pos h2]
  · unfold is_lead; omega
  · unfold utf8_need
    rw [if_neg (by omega), if_pos (by omega)]
  · show (utf8_lead_bits (0xE0 + c / 4096) * 64 + (0x80 + c / 64 % 64) % 64) * 64
      + (0x80 + c % 64) % 64 = c
    unfold utf8_lead_bits
    rw [if_neg (by omega), if_pos (by omega)]
    omega

theorem utf8_encode4 (c : Nat) (h1 : 0x10000 ≤ c) (h2 : c ≤ 0x10FFFF) :
    utf8_encode c
        = (0xF0 + c / 262144) :: [0x80 + c / 4096 % 64, 0x80 + c / 64 % 64, 0x80 + c % 64]
      ∧ is_lead (0xF0 + c / 262144) ∧ utf8_need (0xF0 + c / 262144) = 3
      ∧ utf8_value (0xF0 + c / 262144)
          [0x80 + c / 4096 % 64, 0x80 + c / 64 % 64, 0x80 + c % 64] = c := by
  refine ⟨?_, ?_, ?_, ?_⟩
  · unfold utf8_encode
    rw [if_neg (by omega), if_neg (by omega), if_neg (by omega)]
  · unfold is_lead; omega
  · unfold utf8_need
    rw [if_neg (by omega), if_neg (by omega), if_pos (by omega)]
  · show ((utf8_lead_bits (0xF0 + c / 262144) * 64 + (0x80 + c / 4096 % 64) % 64) * 64
      + (0x80 + c / 64 % 64) % 64) * 64 + (0x80 + c % 64) % 64 = c
    unfold utf8_lead_bits
    rw [if_neg (by omega), if_neg (by omega), if_pos (by omega)]
    omega

/-- The encoding of a code point from U+0080 to U+10FFFF is a complete sequence that
decodes to the code point, and it is rejected exactly for surrogates and
noncharacters. -/
theorem utf8_encode_spec (c : Nat) (h1 : 0x80 ≤ c) (h2 : c ≤ 0x10FFFF) :
    ∃ lead conts, utf8_encode c = lead :: conts ∧ is_lead lead
      ∧ conts.length = utf8_need lead ∧ (∀ x ∈ conts, is_cont x)
      ∧ utf8_value lead conts = c ∧ (utf8_rejected lead conts ↔ noncharacter c) := by
  have key : ∀ lead conts, utf8_value lead conts = c → c ≥ utf8_min (utf8_need lead) →
      (utf8_rejected lead conts ↔ noncharacter c) := by
    intro lead conts hv hm
    unfold utf8_rejected noncharacter
    rw [hv]
    have h6 : ¬ (c < utf8_min (utf8_need lead)) := by omega
    have h7 : ¬ (c > 0x10FFFF) := by omega
    tauto
  by_cases c2 : c < 0x800
  · obtain ⟨e, l, n, v⟩ := utf8_encode2 c h1 c2
    refine ⟨_, _, e, l, by rw [n]; rfl, ?_, v, key _ _ v (by rw [n]; exact h1)⟩
    intro x hx
    rw [List.mem_singleton] at hx
    unfold is_cont; omega
  by_cases c3 : c < 0x10000
  · obtain ⟨e, l, n, v⟩ := utf8_encode3 c (by omega) c3
    refine ⟨_, _, e, l, by rw [n]; rfl, ?_, v, key _ _ v (by rw [n]; show 0x800 ≤ c; omega)⟩
    intro x hx
    simp only [List.mem_cons, List.mem_singleton, List.not_mem_nil, or_false] at hx
    unfold is_cont; omega
  · obtain ⟨e, l, n, v⟩ := utf8_encode4 c (by omega) h2
    refine ⟨_, _, e, l, by rw [n]; rfl, ?_, v, key _ _ v (by rw [n]; show 0x10000 ≤ c; omega)⟩
    intro x hx
    simp only [List.mem_cons, List.mem_singleton, List.not_mem_nil, or_false] at hx
    unfold is_cont; omega

/-- The encoding of a character from U+0020 to U+10FFFF that is not a surrogate or a
noncharacter, in the ground state: `add_char` is called with the code point. -/
theorem parse_encoded (wc : Nat → Int) (t : terminal_t) (c : Nat)
    (hst : t.esc.state = STATE_RESET) (hcl : charset_clean t) (h1 : 0x20 ≤ c)
    (h2 : c ≤ 0x10FFFF) (hn : ¬ noncharacter c) :
    ∃ cs, parse wc t (utf8_encode c)
      = (add_char wc (with_charset t cs) c).bind (fun t2 => some (with_charset t2
          (if c < 0x80 then t2.charset else charset_zero))) := by
  by_cases c1 : c < 0x80
  · refine ⟨t.charset, ?_⟩
    have e : utf8_encode c = [c] := by unfold utf8_encode; rw [if_pos c1]
    have hp : parse_byte wc t c = add_char wc t c := by
      by_cases c7 : c ≤ 0x7E
      · exact parse_byte_print wc t c hst hcl.1 h1 c7
      · rw [parse_byte_classify wc t c hst hcl.1]
        unfold classify
        rw [if_neg (by omega), if_pos (by omega)]
    rw [e, parse, hp]
    have e2 : with_charset t t.charset = t := rfl
    rw [e2]
    cases add_char wc t c with
    | none => rfl
    | some t2 =>
      simp only [Option.bind, if_pos c1]
      rfl
  · obtain ⟨lead, conts, e, hl, hlen, hc, hv, hr⟩ := utf8_encode_spec c (by omega) h2
    refine ⟨utf8_fold (utf8_lead t.charset lead) conts, ?_⟩
    rw [e, parse_utf8 wc t lead conts hst hcl hl hlen hc, if_neg (fun h => hn (hr.mp h)), hv,
      emit_char_eq]
    cases add_char wc (with_charset t (utf8_fold (utf8_lead t.charset lead) conts)) c with
    | none => rfl
    | some t2 =>
      simp only [Option.map_some', Option.bind, if_neg c1]
      rfl

end Yaft

namespace Yaft

open esc_state

/-! ## C7, C10: what a decoded character stores -/

/-- A character whose glyph is selected, fed as UTF-8 to a state that is ready to store
it: the cell at the cursor holds the glyph afterwards. -/
theorem store_encoded (wc : Nat → Int) (t : terminal_t) (c : Nat) (g : glyph_t) (w : Int)
    (hr : Ready t) (h1 : 0x20 ≤ c) (h2 : c ≤ 0x10FFFF) (hn : ¬ noncharacter c)
    (hw : wc c = w) (hpos : 0 < w) (hsel : select_glyph t c w = some g)
    (hgw : g.width = WIDE → t.cursor.x + 1 < t.cols) :
    ∃ t1, parse wc t (utf8_encode c) = some t1
      ∧ grid_at t1.cells t.cursor.y t.cursor.x = some (make_cell t g) := by
  obtain ⟨cs, e⟩ := parse_encoded wc t c hr.ground hr.clean h1 h2 hn
  have hnw : ¬ (((with_charset t cs).wrap_occured = true
        ∧ ((with_charset t cs).cursor.x : Int) = ((with_charset t cs).cols : Int) - 1)
      ∨ (g.width = WIDE
        ∧ ((with_charset t cs).cursor.x : Int) = ((with_charset t cs).cols : Int) - 1)) := by
    show ¬ ((t.wrap_occured = true ∧ (t.cursor.x : Int) = (t.cols : Int) - 1)
      ∨ (g.width = WIDE ∧ (t.cursor.x : Int) = (t.cols : Int) - 1))
    rw [hr.no_wrap]
    intro h
    rcases h with ⟨h, _⟩ | ⟨h, h3⟩
    · exact absurd h (by decide)
    · have := hgw h
      omega
  obtain ⟨t2, e2, hc⟩ := add_char_store (s := with_charset t cs) w hw hpos hsel hr.cur_y hr.cur_x
    hr.x_u16 hr.y_u16 hr.rows hr.row_len hnw
  rw [e, e2]
  exact ⟨_, rfl, hc⟩

/-- C7 (amended): let `C` be a code point from U+0020 to U+FFFF that is not a surrogate
or a noncharacter, whose glyph is present in the glyph table with the width that
`wcwidth` gives for `C`, this width being 1, or 2 with a free column right of the
cursor. In every state that is ready to store a character (a freshly reset terminal
is one), `parse` of the UTF-8 encoding of `C` succeeds and leaves the glyph of `C` in
the cell at the cursor. -/
theorem C7_utf8_round_trip (wc : Nat → Int) (t : terminal_t) (c : Nat) (g : glyph_t)
    (hr : Ready t) (h1 : 0x20 ≤ c) (h2 : c ≤ 0xFFFF) (hn : ¬ noncharacter c)
    (hg : t.glyph c = some g) (hw : wc c = (g.width : Int))
    (hgw : g.width = HALF ∨ (g.width = WIDE ∧ t.cursor.x + 1 < t.cols)) :
    ∃ t1, parse wc t (utf8_encode c) = some t1
      ∧ (grid_at t1.cells t.cursor.y t.cursor.x).map (fun x => x.glyphp) = some (t.glyph c) := by
  have hpos : (0 : Int) < (g.width : Int) := by
    rcases hgw with h | ⟨h, _⟩ <;> rw [h] <;> decide
  have hsel : select_glyph t c (g.width : Int) = some g :=
    select_glyph_present (by unfold UCS2_CHARS; omega) hg rfl
  obtain ⟨t1, e, hc⟩ := store_encoded wc t c g (g.width : Int) hr h1 (by omega) hn hw hpos hsel
    (by
      intro h
      rcases hgw with h3 | ⟨_, h3⟩
      · rw [h3] at h; exact absurd h (by decide)
      · exact h3)
  refine ⟨t1, e, ?_⟩
  rw [hc, hg]
  rfl

theorem fresh_ready (cols lines : Nat) (hc : 1 ≤ cols) (hl : 1 ≤ lines) :
    Ready (fresh cols lines) where
  rows := (reset_result_shape (term_alloc cols lines ascii_glyphs)).rows
  row_len := (reset_result_shape (term_alloc cols lines ascii_glyphs)).row_len
  cur_y := hl
  cur_x := hc
  x_u16 := show (0 : Nat) < 65536 by decide
  y_u16 := show (0 : Nat) < 65536 by decide
  no_wrap := rfl
  ground := rfl
  clean := ⟨rfl, rfl⟩

/-- C7, witness: `é` (U+00E9, bytes `C3 A9`) and the wide U+3000 (bytes `E3 80 80`) on
terminals with a glyph for each; evaluating the run of `E3 80 80` on a fresh terminal
gives U+3000 in `cells[0][0]`. -/
theorem C7_utf8_round_trip_witness :
    (∃ t1, parse (fun _ => 1) { fresh 4 2 with glyph := fun c => some { code := c, width := 1 } }
        (utf8_encode 0xE9) = some t1
      ∧ (grid_at t1.cells 0 0).map (fun x => x.glyphp) = some (some { code := 0xE9, width := 1 }))
    ∧ (∃ t1, parse ascii_wcwidth (fresh 4 2) (utf8_encode 0x3000) = some t1
      ∧ (grid_at t1.cells 0 0).map (fun x => x.glyphp) = some (ascii_glyphs 0x3000))
    ∧ utf8_encode 0x3000 = [0xE3, 0x80, 0x80]
    ∧ code_of (run 4 2 [0xE3, 0x80, 0x80]) 0 0 = some 0x3000 :=
  ⟨C7_utf8_round_trip (fun _ => 1)
      { fresh 4 2 with glyph := fun c => some { code := c, width := 1 } } 0xE9
      { code := 0xE9, width := 1 }
      ⟨(fresh_ready 4 2 (by decide) (by decide)).rows,
        (fresh_ready 4 2 (by decide) (by decide)).row_len, by decide, by decide, by decide,
        by decide, rfl, rfl, ⟨rfl, rfl⟩⟩
      (by decide) (by decide) (by decide) rfl rfl (Or.inl rfl),
    C7_utf8_round_trip ascii_wcwidth (fresh 4 2) 0x3000 { code := 0x3000, width := 2 }
      (fresh_ready 4 2 (by decide) (by decide)) (by decide) (by decide) (by decide) rfl rfl
      (Or.inr ⟨rfl, by decide⟩),
    by decide, by decide⟩

/-- C7, counterexample: the combining character U+0300 has a glyph in the table and
display width 0; after its encoding `CC 80` on a fresh terminal, `cells[0][0]` still
holds the glyph of the space. -/
theorem C7_counterexample :
    (mark_glyphs 0x300).isSome = true
    ∧ utf8_encode 0x300 = [0xCC, 0x80]
    ∧ ascii_wcwidth 0x300 = 0
    ∧ code_of (run_with mark_glyphs ascii_wcwidth 4 2 [0xCC, 0x80]) 0 0 = some 0x20 := by
  decide

end Yaft

namespace Yaft

open esc_state

theorem select_glyph_astral (t : terminal_t) (c : Nat) (w : Int) (h : 0x10000 ≤ c) :
    select_glyph t c w = substitute_glyph t w := by
  unfold select_glyph
  rw [if_pos (by unfold UCS2_CHARS; omega)]

/-- C10 (amended): let `C` be a code point from U+10000 to U+10FFFF whose low 16 bits
are not 0xFFFE or 0xFFFF. In every state that is ready to store a character, `parse`
of the 4-byte encoding of `C` succeeds and leaves in the cell at the cursor the
substitute glyph for the display width of `C`: the glyph of U+0020 (SUBSTITUTE_HALF)
for width 1, and the glyph of U+3000 (SUBSTITUTE_WIDE) for width 2 with a free column
right of the cursor. -/
theorem C10_non_bmp_substitute (wc : Nat → Int) (t : terminal_t) (c : Nat) (g : glyph_t)
    (hr : Ready t) (h1 : 0x10000 ≤ c) (h2 : c ≤ 0x10FFFF) (h3 : c % 0x10000 ≠ 0xFFFE)
    (h4 : c % 0x10000 ≠ 0xFFFF)
    (hs : (wc c = 1 ∧ t.glyph SUBSTITUTE_HALF = some g ∧ g.width = HALF)
      ∨ (wc c = 2 ∧ t.glyph SUBSTITUTE_WIDE = some g ∧ g.width = WIDE
          ∧ t.cursor.x + 1 < t.cols)) :
    ∃ t1, parse wc t (utf8_encode c) = some t1
      ∧ (grid_at t1.cells t.cursor.y t.cursor.x).map (fun x => x.glyphp) = some (some g) := by
  have hn : ¬ noncharacter c := by
    unfold noncharacter; omega
  rcases hs with ⟨hw, hg, hgw⟩ | ⟨hw, hg, hgw, hx⟩
  · have hsel : select_glyph t c 1 = some g := by
      rw [select_glyph_astral t c 1 h1]
      unfold substitute_glyph
      rw [if_pos rfl]; exact hg
    obtain ⟨t1, e, hc⟩ := store_encoded wc t c g 1 hr (by omega) h2 hn hw (by decide) hsel
      (by intro h; rw [hgw] at h; exact absurd h (by decide))
    refine ⟨t1, e, ?_⟩
    rw [hc]; rfl
  · have hsel : select_glyph t c 2 = some g := by
      rw [select_glyph_astral t c 2 h1]
      unfold substitute_glyph
      rw [if_neg (by decide)]; exact hg
    obtain ⟨t1, e, hc⟩ := store_encoded wc t c g 2 hr (by omega) h2 hn hw (by decide) hsel
      (fun _ => hx)
    refine ⟨t1, e, ?_⟩
    rw [hc]; rfl

/-- C10, witness: U+10000 (width 1) and U+1F600 (width 2) on a fresh terminal of 4
columns and 2 lines store the glyphs of U+0020 and U+3000. -/
theorem C10_non_bmp_substitute_witness :
    (∃ t1, parse astral_wcwidth (fresh 4 2) (utf8_encode 0x10000) = some t1
      ∧ (grid_at t1.cells 0 0).map (fun x => x.glyphp) = some (some { code := 0x20, width := 1 }))
    ∧ (∃ t1, parse astral_wcwidth (fresh 4 2) (utf8_encode 0x1F600) = some t1
      ∧ (grid_at t1.cells 0 0).map (fun x => x.glyphp)
          = some (some { code := 0x3000, width := 2 })) :=
  ⟨C10_non_bmp_substitute astral_wcwidth (fresh 4 2) 0x10000 { code := 0x20, width := 1 }
      (fresh_ready 4 2 (by decide) (by decide)) (by decide) (by decide) (by decide) (by decide)
      (Or.inl ⟨by decide, rfl, rfl⟩),
    C10_non_bmp_substitute astral_wcwidth (fresh 4 2) 0x1F600 { code := 0x3000, width := 2 }
      (fresh_ready 4 2 (by decide) (by decide)) (by decide) (by decide) (by decide) (by decide)
      (Or.inr ⟨by decide, rfl, rfl, by decide⟩)⟩

/-- C10, counterexample: U+1F600 (bytes `F0 9F 98 80`, display width 2) on a fresh
terminal whose glyph table has `?`: `cells[0][0]` holds the glyph of U+3000, not the
glyph of U+003F. -/
theorem C10_counterexample :
    utf8_encode 0x1F600 = [0xF0, 0x9F, 0x98, 0x80]
    ∧ astral_wcwidth 0x1F600 = 2
    ∧ (ascii_glyphs 0x3F).isSome = true
    ∧ code_of (run_with ascii_glyphs astral_wcwidth 4 2 [0xF0, 0x9F, 0x98, 0x80]) 0 0
        = some 0x3000 := by
  decide

end Yaft
namespace Yaft

open esc_state

/-! ## C30: the cell written by `set_cell` -/

theorem bright_eq (b : Prop) [Decidable b] (n : Nat) :
    (if b ∧ n ≤ 7 then to_u8 ((n : Int) + ((8 : Nat) : Int)) else n)
      = if b ∧ n ≤ 7 then n + 8 else n := by
  by_cases c : b ∧ n ≤ 7
  · rw [if_pos c, if_pos c]; unfold to_u8; omega
  · rw [if_neg c, if_neg c]

theorem make_cell_styled (s : terminal_t) (g : glyph_t) :
    make_cell s g = styled_cell s g g.width := by
  unfold make_cell styled_cell styled_colors has_bit attr_mask ATTR_BOLD ATTR_BLINK ATTR_REVERSE
    BRIGHT_INC
  simp only [List.getD_cons_succ, List.getD_cons_zero, bne_iff_ne, ne_eq, bright_eq]

end Yaft
namespace Yaft

open esc_state

/-- C30: for every position `(y, x)` inside the grid of a state whose arrays have their
allocated sizes, and every glyph, `set_cell` succeeds and stores at `(y, x)` the cell
made of the glyph, the styled colours (bold adds 8 to a foreground of at most 7, blink
adds 8 to a background of at most 7, reverse then swaps the two), the current
attribute and the width of the glyph; when the glyph is WIDE and `x + 1 < cols` the
cell at `x + 1` holds the same data with width NEXT_TO_WIDE and the call returns 2,
otherwise it returns 1; `line_dirty[y]` is set. -/
theorem C30_set_cell_rules (s : terminal_t) (y x : Nat) (g : glyph_t) (hy : y < s.lines)
    (hx : x < s.cols) (hr : s.cells.length = s.lines)
    (hl : ∀ row ∈ s.cells, row.length = s.cols) (hd : s.line_dirty.length = s.lines) :
    ∃ t3 w, set_cell s y x g = some (t3, w)
      ∧ grid_at t3.cells y x = some (styled_cell s g g.width)
      ∧ (g.width = WIDE ∧ x + 1 < s.cols →
          grid_at t3.cells y (x + 1) = some (styled_cell s g NEXT_TO_WIDE) ∧ w = 2)
      ∧ (¬ (g.width = WIDE ∧ x + 1 < s.cols) → w = 1)
      ∧ t3.line_dirty[y]? = some true := by
  have d : (0 : Int) ≤ y ∧ (y : Int) < s.lines := by omega
  have hy1 : y < s.cells.length := by omega
  have hx1 : x < (s.cells.getD y []).length := by
    rw [getD_row_length _ _ _ hl hy1]; exact hx
  have hrl : ∀ row ∈ s.cells.set y ((s.cells.getD y []).set x (make_cell s g)),
      row.length = s.cols := by
    refine mem_set_row _ _ _ _ hl (fun _ => ?_)
    rw [List.length_set]; exact getD_row_length _ _ _ hl hy1
  have hstored : grid_at (s.cells.set y ((s.cells.getD y []).set x (make_cell s g))) y x
      = some (styled_cell s g g.width) := by
    rw [grid_at_set _ _ _ _ _ _ hy1 hx1, if_pos ⟨rfl, rfl⟩, make_cell_styled]
  have hdirty : (s.line_dirty.set y true)[y]? = some true :=
    List.getElem?_set_self (by omega)
  have hmw : (make_cell s g).width = g.width := rfl
  have e2 : ((x : Int) + 1) = ((x + 1 : Nat) : Int) := by omega
  have hy2 : y < (s.cells.set y ((s.cells.getD y []).set x (make_cell s g))).length := by
    rw [List.length_set]; exact hy1
  have hx2 : x + 1 < s.cols →
      x + 1 < ((s.cells.set y ((s.cells.getD y []).set x (make_cell s g))).getD y []).length := by
    intro h
    rw [getD_row_length _ _ _ hrl hy2]; exact h
  unfold set_cell
  dsimp only
  rw [cell_store_eq s y x _ hy hx]
  dsimp only
  unfold line_dirty_store
  rw [if_pos d]
  dsimp only
  simp only [Int.toNat_ofNat]
  by_cases hw : (make_cell s g).width = WIDE ∧ (x : Int) + 1 < (s.cols : Int)
  · rw [if_pos hw, e2]
    have hcs := cell_store_eq
      { s with cells := s.cells.set y ((s.cells.getD y []).set x (make_cell s g)),
               line_dirty := s.line_dirty.set y true }
      y (x + 1) { make_cell s g with width := NEXT_TO_WIDE } hy (by show x + 1 < s.cols; omega)
    rw [hcs]
    refine ⟨_, _, rfl, ?_, ?_, ?_, hdirty⟩
    · dsimp only
      rw [grid_at_set _ _ _ _ _ _ hy2 (hx2 (by omega)), if_neg (by omega)]
      exact hstored
    · intro _
      refine ⟨?_, rfl⟩
      dsimp only
      rw [grid_at_set _ _ _ _ _ _ hy2 (hx2 (by omega)), if_pos ⟨rfl, rfl⟩, make_cell_styled]
      rfl
    · intro h
      exact absurd ⟨hmw ▸ hw.1, by omega⟩ h
  · rw [if_neg hw]
    have hnw : ¬ (g.width = WIDE ∧ x + 1 < s.cols) := by
      intro h
      exact hw ⟨h.1, by omega⟩
    by_cases hh : (make_cell s g).width = HALF ∧ (x : Int) + 1 < (s.cols : Int)
    · rw [if_pos hh, e2]
      have hcr := cell_ref_eq
        { s with cells := s.cells.set y ((s.cells.getD y []).set x (make_cell s g)),
                 line_dirty := s.line_dirty.set y true }
        y (x + 1) hy (by show x + 1 < s.cols; omega)
      rw [hcr]
      dsimp only
      obtain ⟨nxt, hnxt⟩ := grid_at_row (x := x + 1) hy2 hrl (by omega)
      rw [hnxt]
      dsimp only
      by_cases hn : nxt.width = NEXT_TO_WIDE
      · rw [if_pos hn]
        have hec := erase_cell_eq
          { s with cells := s.cells.set y ((s.cells.getD y []).set x (make_cell s g)),
                   line_dirty := s.line_dirty.set y true }
          y (x + 1) hy (by show x + 1 < s.cols; omega)
        rw [hec]
        refine ⟨_, _, rfl, ?_, fun h => absurd h hnw, fun _ => rfl, ?_⟩
        · dsimp only
          rw [grid_at_set _ _ _ _ _ _ hy2 (hx2 (by omega)), if_neg (by omega)]
          exact hstored
        · dsimp only
          exact List.getElem?_set_self (by rw [List.length_set]; omega)
      · rw [if_neg hn]
        exact ⟨_, _, rfl, hstored, fun h => absurd h hnw, fun _ => rfl, hdirty⟩
    · rw [if_neg hh]
      exact ⟨_, _, rfl, hstored, fun h => absurd h hnw, fun _ => rfl, hdirty⟩

end Yaft
namespace Yaft

open esc_state

/-- C30, witness: with bold, blink and reverse set and the colours fg 1, bg 2, a wide
glyph stored at column 1 of a 3-column terminal gives the colours fg 10, bg 9 in
columns 1 and 2 and the return value 2. -/
theorem C30_set_cell_rules_witness :
    (∃ t3 w, set_cell bold_terminal (0 : Nat) (1 : Nat) { code := 0x3000, width := 2 } = some (t3, w)
      ∧ grid_at t3.cells 0 1 = some (styled_cell bold_terminal { code := 0x3000, width := 2 } 2)
      ∧ ((2 : Nat) = WIDE ∧ 1 + 1 < bold_terminal.cols →
          grid_at t3.cells 0 (1 + 1)
            = some (styled_cell bold_terminal { code := 0x3000, width := 2 } NEXT_TO_WIDE) ∧ w = 2)
      ∧ (¬ ((2 : Nat) = WIDE ∧ 1 + 1 < bold_terminal.cols) → w = 1)
      ∧ t3.line_dirty[0]? = some true)
    ∧ (styled_cell bold_terminal { code := 0x3000, width := 2 } 2).color_pair
        = { fg := 10, bg := 9 }
    ∧ (set_cell bold_terminal 0 1 { code := 0x3000, width := 2 }).map (fun p => p.2) = some 2
    ∧ (set_cell bold_terminal 0 2 { code := 0x3000, width := 2 }).map (fun p => p.2) = some 1 :=
  ⟨C30_set_cell_rules bold_terminal 0 1 { code := 0x3000, width := 2 } (by decide) (by decide)
      (by decide) (by decide) (by decide),
    by decide, by decide, by decide⟩

end Yaft

namespace Yaft

open esc_state

/-! ## C29: `set_cursor` -/

/-- The nested conditional that the code uses to clamp is `clamp` when the interval
is not empty. -/
theorem clamp_code (v lo hi : Int) (h : lo ≤ hi) :
    (if v < lo then lo else if v > hi then hi else v) = clamp v lo hi := by
  unfold clamp
  by_cases c1 : v < lo
  · rw [if_pos c1]; omega
  · rw [if_neg c1]
    by_cases c2 : v > hi
    · rw [if_pos c2]; omega
    · rw [if_neg c2]; omega

theorem clamp_range (v lo hi : Int) (h : lo ≤ hi) : lo ≤ clamp v lo hi ∧ clamp v lo hi ≤ hi := by
  unfold clamp; omega

theorem to_u16_clamp (v lo hi : Int) (h : lo ≤ hi) (h0 : 0 ≤ lo) (h1 : hi < 65536) :
    to_u16 (clamp v lo hi) = (clamp v lo hi).toNat := by
  have r := clamp_range v lo hi h
  unfold to_u16; omega

/-- The stores of `set_cursor` in closed form, when the clamped coordinates fit the
`uint16_t` cursor and `y + scroll.top` does not overflow. -/
theorem set_cursor_eq (t : terminal_t) (y x : Int) (hc1 : 1 ≤ t.cols) (hc2 : t.cols ≤ 65536)
    (hl1 : 1 ≤ t.lines) (hl2 : t.lines ≤ 65536) (hm : t.scroll.top ≤ t.scroll.bottom)
    (hb : t.scroll.bottom < 65536)
    (hy : -2147483648 ≤ y + t.scroll.top ∧ y + t.scroll.top < 2147483648) :
    set_cursor_to t y x = { t with
      cursor :=
        { x := (clamp x 0 ((t.cols : Int) - 1)).toNat
          y := if has_bit t.mode MODE_ORIGIN = true
            then (clamp (y + t.scroll.top) t.scroll.top t.scroll.bottom).toNat
            else (clamp y 0 ((t.lines : Int) - 1)).toNat }
      wrap_occured := false } := by
  have ex : (if x < 0 then 0 else if x ≥ (t.cols : Int) then (t.cols : Int) - 1 else x)
      = clamp x 0 ((t.cols : Int) - 1) := by
    rw [← clamp_code x 0 ((t.cols : Int) - 1) (by omega)]
    by_cases c1 : x < 0
    · rw [if_pos c1, if_pos c1]
    · rw [if_neg c1, if_neg c1]
      by_cases c2 : x ≥ (t.cols : Int)
      · rw [if_pos c2, if_pos (by omega)]
      · rw [if_neg c2, if_neg (by omega)]
  have ei : to_int (y + (t.scroll.top : Int)) = y + t.scroll.top := by
    unfold to_int; omega
  unfold set_cursor_to
  dsimp only
  rw [ex, to_u16_clamp x 0 _ (by omega) (le_refl _) (by omega)]
  by_cases c : has_bit t.mode MODE_ORIGIN = true
  · simp only [c, if_true]
    rw [ei, clamp_code _ _ _ (by omega), to_u16_clamp _ _ _ (by omega) (by omega) (by omega)]
  · simp only [c]
    simp only [Bool.false_eq_true, if_false]
    rw [clamp_code _ _ _ (by omega), to_u16_clamp _ _ _ (by omega) (le_refl _) (by omega)]

/-- C29 (amended): on a terminal with `1 ≤ cols ≤ 65536`, `1 ≤ lines ≤ 65536` and
`scroll.top ≤ scroll.bottom < 65536`, for every pair `(y, x)` such that `y + scroll.top`
is in the range of a C `int`, `set_cursor(y, x)` returns the state unchanged (no cell
changes, nothing scrolls) except that `cursor.x` is `clamp(x, 0, cols-1)`, `cursor.y`
is `clamp(y + scroll.top, scroll.top, scroll.bottom)` in origin mode and
`clamp(y, 0, lines-1)` otherwise, and the wrap flag is cleared. -/
theorem C29_set_cursor (t : terminal_t) (y x : Int) (hc1 : 1 ≤ t.cols) (hc2 : t.cols ≤ 65536)
    (hl1 : 1 ≤ t.lines) (hl2 : t.lines ≤ 65536) (hm : t.scroll.top ≤ t.scroll.bottom)
    (hb : t.scroll.bottom < 65536)
    (hy : -2147483648 ≤ y + t.scroll.top ∧ y + t.scroll.top < 2147483648) :
    set_cursor t y x = some { t with
      cursor :=
        { x := (clamp x 0 ((t.cols : Int) - 1)).toNat
          y := if has_bit t.mode MODE_ORIGIN = true
            then (clamp (y + t.scroll.top) t.scroll.top t.scroll.bottom).toNat
            else (clamp y 0 ((t.lines : Int) - 1)).toNat }
      wrap_occured := false } := by
  rw [set_cursor_total t y x (by unfold in_int; omega),
    set_cursor_eq t y x hc1 hc2 hl1 hl2 hm hb hy]

end Yaft
namespace Yaft

open esc_state

/-- C29, witness: in origin mode with the region `[1, 3]` on a terminal of 4 columns,
`set_cursor(7, 9)` puts the cursor at `(y = 3, x = 3)` and `set_cursor(-2, -1)` at
`(y = 1, x = 0)`. -/
theorem C29_set_cursor_witness :
    set_cursor origin_terminal 7 9 = some { origin_terminal with
      cursor :=
        { x := (clamp 9 0 ((origin_terminal.cols : Int) - 1)).toNat
          y := if has_bit origin_terminal.mode MODE_ORIGIN = true
            then (clamp (7 + origin_terminal.scroll.top) origin_terminal.scroll.top
              origin_terminal.scroll.bottom).toNat
            else (clamp 7 0 ((origin_terminal.lines : Int) - 1)).toNat }
      wrap_occured := false }
    ∧ (set_cursor origin_terminal 7 9).map (fun s => s.cursor) = some { x := 3, y := 3 }
    ∧ (set_cursor origin_terminal (-2) (-1)).map (fun s => s.cursor)
        = some { x := 0, y := 1 } :=
  ⟨C29_set_cursor origin_terminal 7 9 (by decide) (by decide) (by decide) (by decide)
      (by decide) (by decide) (by decide),
    by decide, by decide⟩

/-- C29, counterexample: on a terminal of 65537 columns `set_cursor(0, 65536)` leaves
`cursor.x = 0`, while `clamp(65536, 0, cols-1)` is 65536: `cursor.x` is a `uint16_t`. -/
theorem C29_counterexample :
    (term_init 65537 2 ascii_glyphs).bind
      (fun t => (set_cursor t 0 65536).map
        (fun s => (s.cursor.x, clamp 65536 0 ((t.cols : Int) - 1))))
      = some (0, 65536) := by
  rw [term_init_fresh 65537 2 (by decide)]
  decide

end Yaft

namespace Yaft

open esc_state

/-! ## C28: `move_cursor` -/

theorem move_cursor_x_eq (t : terminal_t) (dx : Int) (hc1 : 1 ≤ t.cols) (hc2 : t.cols ≤ 65536)
    (hx : -2147483648 ≤ t.cursor.x + dx ∧ t.cursor.x + dx < 2147483648) :
    move_cursor_x t dx = shifted t dx := by
  have ei : to_int ((t.cursor.x : Int) + dx) = t.cursor.x + dx := by unfold to_int; omega
  have e0 : to_u16 0 = 0 := by decide
  unfold move_cursor_x shifted
  dsimp only
  rw [ei]
  by_cases c1 : (t.cursor.x : Int) + dx < 0
  · have c2 : ¬ ((t.cursor.x : Int) + dx ≥ (t.cols : Int)
        ∧ has_bit t.mode MODE_AMRIGHT = true) := by omega
    have e1 : (clamp ((t.cursor.x : Int) + dx) 0 ((t.cols : Int) - 1)).toNat = 0 := by
      unfold clamp; omega
    rw [if_pos c1, if_neg c2, e1, e0]
  · rw [if_neg c1]
    by_cases c3 : (t.cursor.x : Int) + dx ≥ (t.cols : Int)
    · have e1 : (clamp ((t.cursor.x : Int) + dx) 0 ((t.cols : Int) - 1)).toNat
          = to_u16 ((t.cols : Int) - 1) := by
        unfold clamp to_u16; omega
      rw [if_pos c3, e1]
      by_cases c4 : has_bit t.mode MODE_AMRIGHT = true
      · rw [if_pos c4, if_pos ⟨c3, c4⟩]
      · rw [if_neg c4, if_neg (fun h => c4 h.2)]
    · have c2 : ¬ ((t.cursor.x : Int) + dx ≥ (t.cols : Int)
          ∧ has_bit t.mode MODE_AMRIGHT = true) := fun h => c3 h.1
      have e1 : (clamp ((t.cursor.x : Int) + dx) 0 ((t.cols : Int) - 1)).toNat
          = to_u16 ((t.cursor.x : Int) + dx) := by
        unfold clamp to_u16; omega
      rw [if_neg c3, if_neg c2, e1]

theorem shifted_row (t : terminal_t) (dx : Int) : (shifted t dx).cursor.y = t.cursor.y := rfl

theorem store_cursor_y_eq (s : terminal_t) (y : Nat) (h : y < 65536) :
    store_cursor_y s (y : Int) = with_row s y := by
  have e : to_u16 (y : Int) = y := by unfold to_u16; omega
  unfold store_cursor_y with_row
  rw [e]

end Yaft
namespace Yaft

open esc_state

/-! ## Closed forms of the loops of `scroll_window` -/

theorem Grid.start {t : terminal_t} (hr : t.cells.length = t.lines)
    (hl : ∀ row ∈ t.cells, row.length = t.cols) (hd : t.line_dirty.length = t.lines) :
    Grid t t := ⟨rfl, hr, hl, hd⟩

theorem Grid.cols_eq {t s : terminal_t} (h : Grid t s) : s.cols = t.cols := by
  have c := congrArg terminal_t.cols h.1; exact c

theorem Grid.lines_eq {t s : terminal_t} (h : Grid t s) : s.lines = t.lines := by
  have c := congrArg terminal_t.lines h.1; exact c

theorem Grid.blank_eq {t s : terminal_t} (h : Grid t s) : blank_cell s = blank_cell t := by
  have g1 : s.glyph = t.glyph := by
    have c := congrArg terminal_t.glyph h.1; exact c
  have g2 : s.color_pair = t.color_pair := by
    have c := congrArg terminal_t.color_pair h.1; exact c
  unfold blank_cell; rw [g1, g2]

theorem Grid.link {t s b : terminal_t} (h1 : Grid t s) (h2 : Grid s b) : Grid t b := by
  obtain ⟨f1, r1, l1, d1⟩ := h1
  obtain ⟨f2, r2, l2, d2⟩ := h2
  have el : s.lines = t.lines := by
    have c := congrArg terminal_t.lines f1; exact c
  have ec : s.cols = t.cols := by
    have c := congrArg terminal_t.cols f1; exact c
  refine ⟨?_, by rw [r2, el], fun row h => by rw [l2 row h, ec], by rw [d2, el]⟩
  have e : ({ b with cells := t.cells, line_dirty := t.line_dirty } : terminal_t)
      = { ({ b with cells := s.cells, line_dirty := s.line_dirty } : terminal_t) with
          cells := t.cells, line_dirty := t.line_dirty } := rfl
  rw [e, f2]
  exact f1

theorem line_dirty_store_eq (s : terminal_t) (y : Nat) (hy : y < s.lines) :
    line_dirty_store s y true = some { s with line_dirty := s.line_dirty.set y true } := by
  have d : (0 : Int) ≤ y ∧ (y : Int) < s.lines := by omega
  unfold line_dirty_store
  rw [if_pos d]
  simp only [Int.toNat_ofNat]

/-- The first loop of `scroll_window` succeeds inside the grid: the rows of the window
are flagged dirty and nothing else changes. -/
theorem dirty_loop_total {t : terminal_t} (hd : t.line_dirty.length = t.lines) (frm til : Nat)
    (hle : frm ≤ til + 1) (h : til < t.lines) :
    ∃ b, for_up frm ((til : Int) + 1) (fun s y => line_dirty_store s y true) t = some b
      ∧ { b with line_dirty := t.line_dirty } = t
      ∧ b.line_dirty.length = t.lines
      ∧ (∀ r : Nat, frm ≤ r → r ≤ til → b.line_dirty[r]? = some true)
      ∧ (∀ r : Nat, t.line_dirty[r]? = some true → b.line_dirty[r]? = some true)
      ∧ (∀ r : Nat, (r < frm ∨ til < r) → b.line_dirty[r]? = t.line_dirty[r]?) := by
  obtain ⟨b, e, hf, hl, h1, h2, h3⟩ := for_up_total
    (fun i a => { a with line_dirty := t.line_dirty } = t
      ∧ a.line_dirty.length = t.lines
      ∧ (∀ r : Nat, frm ≤ r → (r : Int) < i → a.line_dirty[r]? = some true)
      ∧ (∀ r : Nat, t.line_dirty[r]? = some true → a.line_dirty[r]? = some true)
      ∧ (∀ r : Nat, (r < frm ∨ i ≤ (r : Int)) → a.line_dirty[r]? = t.line_dirty[r]?))
    (fun s y => line_dirty_store s y true) frm ((til : Int) + 1) t (by omega)
    (fun a i hi1 hi2 ⟨hf, hl, h1, h2, h3⟩ => by
      obtain ⟨n, rfl⟩ := Int.eq_ofNat_of_zero_le (by omega : (0 : Int) ≤ i)
      have el : a.lines = t.lines := by
        have c := congrArg terminal_t.lines hf; exact c
      refine ⟨_, line_dirty_store_eq a n (by omega), hf, ?_, ?_, ?_, ?_⟩
      · simp only [List.length_set]; exact hl
      · intro r hr1 hr2
        dsimp only
        by_cases c : r = n
        · subst c
          exact List.getElem?_set_self (by omega)
        · exact set_true_mono _ _ _ (h1 r hr1 (by omega))
      · intro r hr
        exact set_true_mono _ _ _ (h2 r hr)
      · intro r hr
        dsimp only
        rw [List.getElem?_set_ne (by omega)]
        exact h3 r (by omega))
    ⟨rfl, hd, fun r h1 h2 => by omega, fun r h => h, fun r _ => rfl⟩
  exact ⟨b, e, hf, hl, fun r hr1 hr2 => h1 r hr1 (by omega), h2, fun r hr => h3 r (by omega)⟩

/-- The loop over the columns of one row in `scroll_window` succeeds inside the grid:
the row is blank afterwards, the other rows are as before, and dirty flags are only
raised, and only the flag of this row. -/
theorem erase_row_total {t s : terminal_t} (hg : Grid t s) (y : Nat) (hy : y < t.lines) :
    ∃ b, erase_row s y = some b ∧ Grid t b
      ∧ (∀ x : Nat, x < t.cols → grid_at b.cells y x = some (blank_cell t))
      ∧ (∀ r : Nat, r ≠ y → b.cells[r]? = s.cells[r]?)
      ∧ (∀ r : Nat, s.line_dirty[r]? = some true → b.line_dirty[r]? = some true)
      ∧ (∀ r : Nat, r ≠ y → b.line_dirty[r]? = s.line_dirty[r]?) := by
  have ec := hg.cols_eq
  obtain ⟨b, e, hb, h1, h2, h3, h4⟩ := for_up_total
    (fun j a => Grid t a
      ∧ (∀ x : Nat, (x : Int) < j → grid_at a.cells y x = some (blank_cell t))
      ∧ (∀ r : Nat, r ≠ y → a.cells[r]? = s.cells[r]?)
      ∧ (∀ r : Nat, s.line_dirty[r]? = some true → a.line_dirty[r]? = some true)
      ∧ (∀ r : Nat, r ≠ y → a.line_dirty[r]? = s.line_dirty[r]?))
    (fun a x => erase_cell a y x) 0 s.cols s (by omega)
    (fun a j hj1 hj2 ⟨ha, h1, h2, h3, h4⟩ => by
      obtain ⟨n, rfl⟩ := Int.eq_ofNat_of_zero_le hj1
      have hy1 : y < a.cells.length := by rw [ha.2.1]; exact hy
      have hx1 : n < (a.cells.getD y []).length := by
        rw [getD_row_length _ _ _ ha.2.2.1 hy1]; omega
      refine ⟨_, erase_cell_eq a y n (by rw [ha.lines_eq]; exact hy) (by rw [ha.cols_eq]; omega),
        ⟨ha.1, ?_, ?_, ?_⟩, ?_, ?_, ?_, ?_⟩
      · simp only [List.length_set]; exact ha.2.1
      · refine mem_set_row _ _ _ _ ha.2.2.1 (fun _ => ?_)
        rw [List.length_set]; exact getD_row_length _ _ _ ha.2.2.1 hy1
      · simp only [List.length_set]; exact ha.2.2.2
      · intro x hx
        dsimp only
        rw [grid_at_set _ _ _ _ _ _ hy1 hx1, ha.blank_eq]
        by_cases c : y = y ∧ x = n
        · rw [if_pos c]
        · rw [if_neg c]
          exact h1 x (by omega)
      · intro r hr
        dsimp only
        rw [List.getElem?_set_ne (fun h => hr h.symm)]
        exact h2 r hr
      · intro r hr
        exact set_true_mono _ _ _ (h3 r hr)
      · intro r hr
        dsimp only
        rw [List.getElem?_set_ne (fun h => hr h.symm)]
        exact h4 r hr)
    ⟨hg, fun x hx => by omega, fun r _ => rfl, fun r h => h, fun r _ => rfl⟩
  refine ⟨b, e, hb, fun x hx => h1 x (by omega), h2, h3, h4⟩

/-- The loop over the rows to erase in `scroll_window` succeeds inside the grid: the
rows `lo .. hi-1` are blank afterwards, the other rows are as before, and dirty flags
are only raised, and only those of these rows. -/
theorem erase_rows_total {t s : terminal_t} (hg : Grid t s) (lo hi : Nat) (hle : lo ≤ hi)
    (hhi : hi ≤ t.lines) :
    ∃ b, for_up lo hi erase_row s = some b ∧ Grid t b
      ∧ (∀ y : Nat, lo ≤ y → y < hi → ∀ x : Nat, x < t.cols →
          grid_at b.cells y x = some (blank_cell t))
      ∧ (∀ r : Nat, (r < lo ∨ hi ≤ r) → b.cells[r]? = s.cells[r]?)
      ∧ (∀ r : Nat, s.line_dirty[r]? = some true → b.line_dirty[r]? = some true)
      ∧ (∀ r : Nat, (r < lo ∨ hi ≤ r) → b.line_dirty[r]? = s.line_dirty[r]?) := by
  obtain ⟨b, e, hb, h1, h2, h3, h4⟩ := for_up_total
    (fun i a => Grid t a
      ∧ (∀ y : Nat, lo ≤ y → (y : Int) < i → ∀ x : Nat, x < t.cols →
          grid_at a.cells y x = some (blank_cell t))
      ∧ (∀ r : Nat, (r < lo ∨ i ≤ (r : Int)) → a.cells[r]? = s.cells[r]?)
      ∧ (∀ r : Nat, s.line_dirty[r]? = some true → a.line_dirty[r]? = some true)
      ∧ (∀ r : Nat, (r < lo ∨ i ≤ (r : Int)) → a.line_dirty[r]? = s.line_dirty[r]?))
    erase_row lo hi s (by omega)
    (fun a i hi1 hi2 ⟨ha, h1, h2, h3, h4⟩ => by
      obtain ⟨n, rfl⟩ := Int.eq_ofNat_of_zero_le (by omega : (0 : Int) ≤ i)
      obtain ⟨b, e, hb, g1, g2, g3, g4⟩ := erase_row_total ha n (by omega)
      refine ⟨b, e, hb, ?_, ?_, ?_, ?_⟩
      · intro y hy1 hy2 x hx
        by_cases c : y = n
        · subst c; exact g1 x hx
        · unfold grid_at
          rw [g2 y c]
          exact h1 y hy1 (by omega) x hx
      · intro r hr
        rw [g2 r (by omega)]
        exact h2 r (by omega)
      · intro r hr
        exact g3 r (h3 r hr)
      · intro r hr
        rw [g4 r (by omega)]
        exact h4 r (by omega))
    ⟨hg, fun y h1 h2 => by omega, fun r _ => rfl, fun r h => h, fun r _ => rfl⟩
  exact ⟨b, e, hb, fun y hy1 hy2 => h1 y hy1 (by omega), fun r hr => h2 r (by omega), h3,
    fun r hr => h4 r (by omega)⟩

end Yaft
namespace Yaft

open esc_state

theorem for_down_aux_total {σ : Type} (P : Int → σ → Prop) (body : σ → Int → Option σ) :
    ∀ (n : Nat) (hi : Int) (s : σ),
      (∀ (a : σ) (i : Int), hi - n < i → i ≤ hi → P i a →
        ∃ b, body a i = some b ∧ P (i - 1) b) →
      P hi s → ∃ s1, for_down_aux body n hi s = some s1 ∧ P (hi - n) s1 := by
  intro n
  induction n with
  | zero =>
    intro hi s _ hs
    refine ⟨s, rfl, ?_⟩
    have e : hi - ((0 : Nat) : Int) = hi := by omega
    rw [e]; exact hs
  | succ n ih =>
    intro hi s hb hs
    obtain ⟨b, e, hP⟩ := hb s hi (by omega) (le_refl _) hs
    obtain ⟨s1, e1, h1⟩ := ih (hi - 1) b
      (fun a i h1 h2 => hb a i (by omega) (by omega)) hP
    refine ⟨s1, ?_, ?_⟩
    · simp only [for_down_aux, e]; exact e1
    · have e2 : hi - 1 - (n : Int) = hi - ((n + 1 : Nat) : Int) := by omega
      rw [← e2]; exact h1

theorem for_down_total {σ : Type} (P : Int → σ → Prop) (body : σ → Int → Option σ)
    (hi lo : Int) (s : σ) (hle : lo ≤ hi + 1)
    (hb : ∀ (a : σ) (i : Int), lo ≤ i → i ≤ hi → P i a → ∃ b, body a i = some b ∧ P (i - 1) b)
    (hs : P hi s) : ∃ s1, for_down hi lo body s = some s1 ∧ P (lo - 1) s1 := by
  unfold for_down
  have e : hi - (((hi - lo + 1).toNat : Nat) : Int) = lo - 1 := by omega
  have h := for_down_aux_total P body (hi - lo + 1).toNat hi s
    (fun a i h1 h2 => hb a i (by omega) h2) hs
  rw [e] at h
  exact h

theorem swap_lines_eq (s : terminal_t) (i j : Nat) (hi : i < s.lines) (hj : j < s.lines) :
    swap_lines s (i : Int) (j : Int) = some
      { s with cells := (s.cells.set i (s.cells.getD j [])).set j (s.cells.getD i []) } := by
  have c : (0 : Int) ≤ i ∧ (i : Int) < s.lines ∧ (0 : Int) ≤ j ∧ (j : Int) < s.lines := by omega
  unfold swap_lines
  rw [if_pos c]
  simp only [Int.toNat_ofNat]

theorem getElem?_swap {α : Type} (l : List (List α)) (i j y : Nat) (hi : i < l.length)
    (hj : j < l.length) (hne : i ≠ j) :
    ((l.set i (l.getD j [])).set j (l.getD i []))[y]?
      = if y = j then l[i]? else if y = i then l[j]? else l[y]? := by
  by_cases c1 : y = j
  · subst c1
    rw [if_pos rfl, List.getElem?_set_self (by rw [List.length_set]; exact hj),
      List.getD_eq_getElem _ _ hi, List.getElem?_eq_getElem hi]
  · rw [if_neg c1, List.getElem?_set_ne (fun h => c1 h.symm)]
    by_cases c2 : y = i
    · subst c2
      rw [if_pos rfl, List.getElem?_set_self hi, List.getD_eq_getElem _ _ hj,
        List.getElem?_eq_getElem hj]
    · rw [if_neg c2, List.getElem?_set_ne (fun h => c2 h.symm)]

theorem Grid.swap {t a : terminal_t} (ha : Grid t a) (i j : Nat) (hi : i < t.lines)
    (hj : j < t.lines) :
    Grid t { a with cells := (a.cells.set i (a.cells.getD j [])).set j (a.cells.getD i []) } := by
  refine ⟨ha.1, ?_, ?_, ha.2.2.2⟩
  · simp only [List.length_set]; exact ha.2.1
  · refine mem_set_row _ _ _ _ ?_ ?_
    · refine mem_set_row _ _ _ _ ha.2.2.1 ?_
      intro _
      exact getD_row_length _ _ _ ha.2.2.1 (by rw [ha.2.1]; exact hj)
    · intro _
      exact getD_row_length _ _ _ ha.2.2.1 (by rw [ha.2.1]; exact hi)

/-- The swap loop of `scroll_window` for a positive offset `k` succeeds inside the
grid: each of the `n` rows from `frm` on holds the former row `k` below it, and the
rows outside `frm .. frm+n+k-1` are as before. -/
theorem swap_up_total {t s : terminal_t} (hg : Grid t s) (frm n k : Nat) (hk : 1 ≤ k)
    (h : frm + n + k ≤ t.lines) :
    ∃ b, for_up frm ((frm : Int) + n) (fun a y => swap_lines a y (y + (k : Int))) s = some b
      ∧ Grid t b ∧ b.line_dirty = s.line_dirty
      ∧ (∀ y : Nat, frm ≤ y → y < frm + n → b.cells[y]? = s.cells[y + k]?)
      ∧ (∀ y : Nat, (y < frm ∨ frm + n + k ≤ y) → b.cells[y]? = s.cells[y]?) := by
  obtain ⟨b, e, hb, hd, h1, h2⟩ := for_up_total
    (fun i a => Grid t a ∧ a.line_dirty = s.line_dirty
      ∧ (∀ y : Nat, frm ≤ y → (y : Int) < i → a.cells[y]? = s.cells[y + k]?)
      ∧ (∀ y : Nat, (y < frm ∨ i + k ≤ (y : Int)) → a.cells[y]? = s.cells[y]?))
    (fun a y => swap_lines a y (y + (k : Int))) frm ((frm : Int) + n) s (by omega)
    (fun a i hi1 hi2 ⟨ha, hd, h1, h2⟩ => by
      obtain ⟨m, rfl⟩ := Int.eq_ofNat_of_zero_le (by omega : (0 : Int) ≤ i)
      have e : (m : Int) + (k : Int) = ((m + k : Nat) : Int) := by push_cast; rfl
      have hm : m < t.lines := by omega
      have hmk : m + k < t.lines := by omega
      have es : swap_lines a (m : Int) ((m : Int) + (k : Int)) = some
          { a with cells :=
              (a.cells.set m (a.cells.getD (m + k) [])).set (m + k) (a.cells.getD m []) } := by
        rw [e]
        exact swap_lines_eq a m (m + k) (by rw [ha.lines_eq]; exact hm)
          (by rw [ha.lines_eq]; exact hmk)
      have hl1 : m < a.cells.length := by rw [ha.2.1]; exact hm
      have hl2 : m + k < a.cells.length := by rw [ha.2.1]; exact hmk
      refine ⟨_, es, ha.swap m (m + k) hm hmk, hd, ?_, ?_⟩
      · intro y hy1 hy2
        dsimp only
        rw [getElem?_swap _ _ _ _ hl1 hl2 (by omega), if_neg (by omega)]
        by_cases c : y = m
        · subst c
          rw [if_pos rfl]
          exact h2 (y + k) (Or.inr (by push_cast; omega))
        · rw [if_neg c]
          exact h1 y hy1 (by omega)
      · intro y hy
        dsimp only
        rw [getElem?_swap _ _ _ _ hl1 hl2 (by omega), if_neg (by omega), if_neg (by omega)]
        exact h2 y (by omega))
    ⟨hg, rfl, fun y h1 h2 => by omega, fun y _ => rfl⟩
  exact ⟨b, e, hb, hd, fun y hy1 hy2 => h1 y hy1 (by omega), fun y hy => h2 y (by omega)⟩

/-- The swap loop of `scroll_window` for a negative offset `-k` succeeds inside the
grid: each row from `frm+k` to `til` holds the former row `k` above it, and the rows
outside `frm .. til` are as before. -/
theorem swap_down_total {t s : terminal_t} (hg : Grid t s) (frm til k : Nat) (hk : 1 ≤ k)
    (hlt : til < t.lines) (hle : frm + k ≤ til + 1) :
    ∃ b, for_down til ((frm : Int) + k) (fun a y => swap_lines a y (y - (k : Int))) s = some b
      ∧ Grid t b ∧ b.line_dirty = s.line_dirty
      ∧ (∀ y : Nat, frm + k ≤ y → y ≤ til → b.cells[y]? = s.cells[y - k]?)
      ∧ (∀ y : Nat, (y < frm ∨ til < y) → b.cells[y]? = s.cells[y]?) := by
  obtain ⟨b, e, hb, hd, h1, h2⟩ := for_down_total
    (fun i a => Grid t a ∧ a.line_dirty = s.line_dirty
      ∧ (∀ y : Nat, i < (y : Int) → y ≤ til → a.cells[y]? = s.cells[y - k]?)
      ∧ (∀ y : Nat, ((y : Int) ≤ i - k ∨ til < y) → a.cells[y]? = s.cells[y]?))
    (fun a y => swap_lines a y (y - (k : Int))) til ((frm : Int) + k) s (by omega)
    (fun a i hi1 hi2 ⟨ha, hd, h1, h2⟩ => by
      obtain ⟨m, rfl⟩ := Int.eq_ofNat_of_zero_le (by omega : (0 : Int) ≤ i)
      have e : (m : Int) - (k : Int) = ((m - k : Nat) : Int) := by omega
      have hm : m < t.lines := by omega
      have hmk : m - k < t.lines := by omega
      have es : swap_lines a (m : Int) ((m : Int) - (k : Int)) = some
          { a with cells :=
              (a.cells.set m (a.cells.getD (m - k) [])).set (m - k) (a.cells.getD m []) } := by
        rw [e]
        exact swap_lines_eq a m (m - k) (by rw [ha.lines_eq]; exact hm)
          (by rw [ha.lines_eq]; exact hmk)
      have hl1 : m < a.cells.length := by rw [ha.2.1]; exact hm
      have hl2 : m - k < a.cells.length := by rw [ha.2.1]; exact hmk
      refine ⟨_, es, ha.swap m (m - k) hm hmk, hd, ?_, ?_⟩
      · intro y hy1 hy2
        dsimp only
        rw [getElem?_swap _ _ _ _ hl1 hl2 (by omega), if_neg (by omega)]
        by_cases c : y = m
        · subst c
          rw [if_pos rfl]
          exact h2 (y - k) (Or.inl (by omega))
        · rw [if_neg c]
          exact h1 y (by omega) hy2
      · intro y hy
        dsimp only
        rw [getElem?_swap _ _ _ _ hl1 hl2 (by omega), if_neg (by omega), if_neg (by omega)]
        exact h2 y (by omega))
    ⟨hg, rfl, fun y h1 h2 => by omega, fun y _ => rfl⟩
  exact ⟨b, e, hb, hd, fun y hy1 hy2 => h1 y (by omega) hy2, fun y hy => h2 y (by omega)⟩

end Yaft
namespace Yaft

open esc_state

theorem dirty_loop_grid {t : terminal_t} (hg : Grid t t) (frm til : Nat)
    (hle : frm ≤ til + 1) (h : til < t.lines) :
    ∃ b, for_up frm ((til : Int) + 1) (fun s y => line_dirty_store s y true) t = some b
      ∧ Grid t b ∧ b.cells = t.cells
      ∧ (∀ r : Nat, frm ≤ r → r ≤ til → b.line_dirty[r]? = some true)
      ∧ (∀ r : Nat, (r < frm ∨ til < r) → b.line_dirty[r]? = t.line_dirty[r]?) := by
  obtain ⟨b, e, hf, hl, h1, _, h3⟩ := dirty_loop_total hg.2.2.2 frm til hle h
  have ec : b.cells = t.cells := by
    have c := congrArg terminal_t.cells hf; exact c
  refine ⟨b, e, ⟨?_, by rw [ec]; exact hg.2.1, by rw [ec]; exact hg.2.2.1, hl⟩, ec, h1, h3⟩
  have e1 : ({ b with cells := t.cells, line_dirty := t.line_dirty } : terminal_t)
      = { b with cells := b.cells, line_dirty := t.line_dirty } := by rw [ec]
  rw [e1]
  exact hf

/-- The function `scroll_window` with a positive offset `k` of at most the height of the
window, inside the grid: it succeeds, the rows `frm .. til-k` hold the former rows
`frm+k .. til`, the last `k` rows of the window are blank, the rows outside the window
are as before, the rows of the window are dirty, and nothing but the grid and the
dirty flags changes. -/
theorem scroll_window_up {t : terminal_t} (hg : Grid t t) (frm til k : Nat) (hft : frm < til)
    (htl : til < t.lines) (hk1 : 1 ≤ k) (hk2 : k ≤ til - frm + 1) (hint : t.lines < 2147483648) :
    ∃ b, scroll_window t frm til k = some b ∧ Grid t b
      ∧ (∀ y : Nat, frm ≤ y → y + k ≤ til → b.cells[y]? = t.cells[y + k]?)
      ∧ (∀ y : Nat, til < y + k → y ≤ til → ∀ x : Nat, x < t.cols →
          grid_at b.cells y x = some (blank_cell t))
      ∧ (∀ y : Nat, (y < frm ∨ til < y) → b.cells[y]? = t.cells[y]?)
      ∧ (∀ y : Nat, frm ≤ y → y ≤ til → b.line_dirty[y]? = some true)
      ∧ (∀ y : Nat, (y < frm ∨ til < y) → b.line_dirty[y]? = t.line_dirty[y]?) := by
  obtain ⟨b1, e1, g1, c1, d1, d2⟩ := dirty_loop_grid hg frm til (by omega) htl
  obtain ⟨b2, e2, g2, ld2, s1, s2⟩ := swap_up_total g1 frm (til + 1 - k - frm) k hk1 (by omega)
  obtain ⟨b3, e3, g3, r1, r2, r3, r4⟩ := erase_rows_total g2 (til + 1 - k) (til + 1) (by omega)
    (by omega)
  have ea : to_int ((Int.natAbs (k : Int) : Nat) : Int) = (k : Int) := by
    rw [Int.natAbs_ofNat]
    unfold to_int; omega
  have h0 : ¬ ((k : Int) = 0 ∨ (frm : Int) ≥ (til : Int)) := by omega
  have h1 : (k : Int) > 0 := by omega
  have ex : (frm : Int) + ((til : Int) - (frm : Int) + 1 - (k : Int))
      = (frm : Int) + ((til + 1 - k - frm : Nat) : Int) := by omega
  have ey : (til : Int) - (k : Int) + 1 = ((til + 1 - k : Nat) : Int) := by omega
  have ez : (til : Int) + 1 = ((til + 1 : Nat) : Int) := by omega
  have hin : scroll_in_int (frm : Int) (til : Int) (k : Int) := by
    unfold scroll_in_int in_int
    rw [Int.natAbs_ofNat]
    omega
  refine ⟨b3, ?_, g3, ?_, ?_, ?_, ?_, ?_⟩
  · unfold scroll_window
    rw [if_neg h0, if_neg (not_not.mpr hin), e1]
    dsimp only
    rw [ea, if_pos h1, ex, e2]
    dsimp only
    rw [ey, ez, e3]
  · intro y hy1 hy2
    rw [r2 y (by omega), s1 y hy1 (by omega), c1]
  · intro y hy1 hy2 x hx
    exact r1 y (by omega) (by omega) x hx
  · intro y hy
    rw [r2 y (by omega), s2 y (by omega), c1]
  · intro y hy1 hy2
    exact r3 y (by rw [ld2]; exact d1 y hy1 hy2)
  · intro y hy
    rw [r4 y (by omega), ld2, d2 y hy]

/-- The function `scroll_window` with a negative offset `-k`, `k` at most the height of
the window, inside the grid: it succeeds, the rows `frm+k .. til` hold the former rows
`frm .. til-k`, the first `k` rows of the window are blank, the rows outside the
window are as before, the rows of the window are dirty, and nothing but the grid and
the dirty flags changes. -/
theorem scroll_window_down {t : terminal_t} (hg : Grid t t) (frm til k : Nat) (hft : frm < til)
    (htl : til < t.lines) (hk1 : 1 ≤ k) (hk2 : k ≤ til - frm + 1) (hint : t.lines < 2147483648) :
    ∃ b, scroll_window t frm til (-(k : Int)) = some b ∧ Grid t b
      ∧ (∀ y : Nat, frm + k ≤ y → y ≤ til → b.cells[y]? = t.cells[y - k]?)
      ∧ (∀ y : Nat, frm ≤ y → y < frm + k → ∀ x : Nat, x < t.cols →
          grid_at b.cells y x = some (blank_cell t))
      ∧ (∀ y : Nat, (y < frm ∨ til < y) → b.cells[y]? = t.cells[y]?)
      ∧ (∀ y : Nat, frm ≤ y → y ≤ til → b.line_dirty[y]? = some true)
      ∧ (∀ y : Nat, (y < frm ∨ til < y) → b.line_dirty[y]? = t.line_dirty[y]?) := by
  obtain ⟨b1, e1, g1, c1, d1, d2⟩ := dirty_loop_grid hg frm til (by omega) htl
  obtain ⟨b2, e2, g2, ld2, s1, s2⟩ := swap_down_total g1 frm til k hk1 htl (by omega)
  obtain ⟨b3, e3, g3, r1, r2, r3, r4⟩ := erase_rows_total g2 frm (frm + k) (by omega)
    (by omega)
  have ea : to_int ((Int.natAbs (-(k : Int)) : Nat) : Int) = (k : Int) := by
    rw [Int.natAbs_neg, Int.natAbs_ofNat]
    unfold to_int; omega
  have eb : to_int ((frm : Int) + (k : Int)) = (frm : Int) + (k : Int) := by
    unfold to_int; omega
  have h0 : ¬ (-(k : Int) = 0 ∨ (frm : Int) ≥ (til : Int)) := by omega
  have h1 : ¬ (-(k : Int) > 0) := by omega
  have ez : (frm : Int) + (k : Int) = ((frm + k : Nat) : Int) := by omega
  have hin : scroll_in_int (frm : Int) (til : Int) (-(k : Int)) := by
    unfold scroll_in_int in_int
    rw [Int.natAbs_neg, Int.natAbs_ofNat]
    omega
  refine ⟨b3, ?_, g3, ?_, ?_, ?_, ?_, ?_⟩
  · unfold scroll_window
    rw [if_neg h0, if_neg (not_not.mpr hin), e1]
    dsimp only
    rw [ea, if_neg h1, eb, e2]
    dsimp only
    rw [ez, e3]
  · intro y hy1 hy2
    rw [r2 y (by omega), s1 y hy1 hy2, c1]
  · intro y hy1 hy2 x hx
    exact r1 y hy1 hy2 x hx
  · intro y hy
    rw [r2 y (by omega), s2 y hy, c1]
  · intro y hy1 hy2
    exact r3 y (by rw [ld2]; exact d1 y hy1 hy2)
  · intro y hy
    rw [r4 y (by omega), ld2, d2 y hy]

end Yaft

namespace Yaft

open esc_state

/-- C27: in a state whose arrays have their allocated sizes (and whose `lines` is in
the range of a C `int`), for every window `frm < til` inside the grid and every `k`
with `1 ≤ k ≤ til-frm+1`: `scroll_window(frm, til, k)` succeeds, each row `y` in
`[frm, til-k]` holds the former row `y+k` and the rows `til-k+1 .. til` consist of
blank cells; `scroll_window(frm, til, -k)` succeeds, each row `y` in `[frm+k, til]`
holds the former row `y-k` and the rows `frm .. frm+k-1` consist of blank cells; in
both cases `line_dirty` is set for every row in `[frm, til]`. -/
theorem C27_scroll_window_rows (t : terminal_t) (hr : t.cells.length = t.lines)
    (hl : ∀ row ∈ t.cells, row.length = t.cols) (hd : t.line_dirty.length = t.lines)
    (hint : t.lines < 2147483648) (frm til k : Nat) (hft : frm < til) (htl : til < t.lines)
    (hk1 : 1 ≤ k) (hk2 : k ≤ til - frm + 1) :
    (∃ b, scroll_window t frm til k = some b
      ∧ (∀ y : Nat, frm ≤ y → y + k ≤ til → b.cells[y]? = t.cells[y + k]?)
      ∧ (∀ y : Nat, til + 1 ≤ y + k → y ≤ til → ∀ x : Nat, x < t.cols →
          grid_at b.cells y x = some (blank_cell t))
      ∧ (∀ y : Nat, frm ≤ y → y ≤ til → b.line_dirty[y]? = some true))
    ∧ (∃ b, scroll_window t frm til (-(k : Int)) = some b
      ∧ (∀ y : Nat, frm + k ≤ y → y ≤ til → b.cells[y]? = t.cells[y - k]?)
      ∧ (∀ y : Nat, frm ≤ y → y < frm + k → ∀ x : Nat, x < t.cols →
          grid_at b.cells y x = some (blank_cell t))
      ∧ (∀ y : Nat, frm ≤ y → y ≤ til → b.line_dirty[y]? = some true)) := by
  obtain ⟨b, e, _, h1, h2, _, h4, _⟩ :=
    scroll_window_up (Grid.start hr hl hd) frm til k hft htl hk1 hk2 hint
  obtain ⟨c, e', _, g1, g2, _, g4, _⟩ :=
    scroll_window_down (Grid.start hr hl hd) frm til k hft htl hk1 hk2 hint
  exact ⟨⟨b, e, h1, fun y hy => h2 y (by omega), h4⟩, ⟨c, e', g1, g2, g4⟩⟩

/-- C27, witness: on a terminal of 4 one-column rows holding `a b c d`, scrolling the
window `[1, 3]` by 2 gives `a d _ _`, and by -2 gives `a _ _ b`. -/
theorem C27_scroll_window_rows_witness :
    ((∃ b, scroll_window rows_terminal (1 : Nat) (3 : Nat) (2 : Nat) = some b
      ∧ (∀ y : Nat, 1 ≤ y → y + 2 ≤ 3 → b.cells[y]? = rows_terminal.cells[y + 2]?)
      ∧ (∀ y : Nat, 3 + 1 ≤ y + 2 → y ≤ 3 → ∀ x : Nat, x < rows_terminal.cols →
          grid_at b.cells y x = some (blank_cell rows_terminal))
      ∧ (∀ y : Nat, 1 ≤ y → y ≤ 3 → b.line_dirty[y]? = some true))
    ∧ (∃ b, scroll_window rows_terminal (1 : Nat) (3 : Nat) (-((2 : Nat) : Int)) = some b
      ∧ (∀ y : Nat, 1 + 2 ≤ y → y ≤ 3 → b.cells[y]? = rows_terminal.cells[y - 2]?)
      ∧ (∀ y : Nat, 1 ≤ y → y < 1 + 2 → ∀ x : Nat, x < rows_terminal.cols →
          grid_at b.cells y x = some (blank_cell rows_terminal))
      ∧ (∀ y : Nat, 1 ≤ y → y ≤ 3 → b.line_dirty[y]? = some true)))
    ∧ (scroll_window rows_terminal 1 3 2).map (fun s => codes s.cells)
        = some [[some 0x61], [some 0x64], [some 0x20], [some 0x20]]
    ∧ (scroll_window rows_terminal 1 3 (-2)).map (fun s => codes s.cells)
        = some [[some 0x61], [some 0x20], [some 0x20], [some 0x62]] :=
  ⟨C27_scroll_window_rows rows_terminal (by decide) (by decide) (by decide) (by decide) 1 3 2
      (by decide) (by decide) (by decide) (by decide),
    by decide, by decide⟩

end Yaft

namespace Yaft

open esc_state

/-! ## C26: ICH -/

theorem copy_cell_half (a : terminal_t) (y dx sx : Nat) (c : cell_t) (hy : y < a.lines)
    (hdx : dx < a.cols) (hsx : sx < a.cols) (hc : grid_at a.cells y sx = some c)
    (hw : c.width = HALF) :
    copy_cell a y dx y sx = some { a with
      cells := a.cells.set y ((a.cells.getD y []).set dx c),
      line_dirty := a.line_dirty.set y true } := by
  have h1 : ¬ (HALF = NEXT_TO_WIDE) := by decide
  have h2 : ¬ (HALF = WIDE ∧ (dx : Int) = (a.cols : Int) - 1) := fun h => absurd h.1 (by decide)
  have h3 : ¬ (HALF = WIDE) := by decide
  unfold copy_cell
  rw [cell_ref_eq a y sx hy hsx, hc]
  dsimp only
  rw [hw, if_neg h1, if_neg h2, cell_store_eq a y dx c hy hdx]
  dsimp only
  rw [if_neg h3]
  exact line_dirty_store_eq _ y hy

/-- The function `insert_blank` on a row of half-width cells, for a count `n ≥ 1`: it
succeeds, the cells from the cursor up to `n` columns further are blank, every cell
from column `x + n` on holds the former cell `n` columns to its left, and the cells
left of the cursor and the other rows are as before. -/
theorem insert_blank_shift {t : terminal_t} (hg : Grid t t) (parm : parm_t) (n : Nat)
    (hn : 1 ≤ n) (hsum : sum parm ≠ none) (hs : sum_or_one parm = n) (hy : t.cursor.y < t.lines)
    (hx : t.cursor.x < t.cols)
    (hh : ∀ (j : Nat) (c : cell_t), grid_at t.cells t.cursor.y j = some c → c.width = HALF) :
    ∃ b, insert_blank t parm = some b ∧ Grid t b
      ∧ (∀ j : Nat, t.cursor.x ≤ j → j < t.cursor.x + n → j < t.cols →
          grid_at b.cells t.cursor.y j = some (blank_cell t))
      ∧ (∀ j : Nat, t.cursor.x + n ≤ j → j < t.cols →
          grid_at b.cells t.cursor.y j = grid_at t.cells t.cursor.y (j - n))
      ∧ (∀ j : Nat, j < t.cursor.x → grid_at b.cells t.cursor.y j = grid_at t.cells t.cursor.y j)
      ∧ (∀ r : Nat, r ≠ t.cursor.y → b.cells[r]? = t.cells[r]?) := by
  obtain ⟨b, e, hb, h1, h2, h3⟩ := for_down_total
    (fun i a => Grid t a
      ∧ (∀ j : Nat, i < (j : Int) → j < t.cols → grid_at a.cells t.cursor.y j
          = if t.cursor.x + n ≤ j then grid_at t.cells t.cursor.y (j - n)
            else some (blank_cell t))
      ∧ (∀ j : Nat, (j : Int) ≤ i → grid_at a.cells t.cursor.y j = grid_at t.cells t.cursor.y j)
      ∧ (∀ r : Nat, r ≠ t.cursor.y → a.cells[r]? = t.cells[r]?))
    (fun s i =>
      if (t.cursor.x : Int) ≤ i - (n : Int) then
        copy_cell s t.cursor.y i t.cursor.y (i - (n : Int))
      else erase_cell s t.cursor.y i)
    ((t.cols : Int) - 1) t.cursor.x t (by omega)
    (fun a i hi1 hi2 ⟨ha, h1, h2, h3⟩ => by
      obtain ⟨m, rfl⟩ := Int.eq_ofNat_of_zero_le (by omega : (0 : Int) ≤ i)
      have hy1 : t.cursor.y < a.cells.length := by rw [ha.2.1]; exact hy
      have hx1 : m < (a.cells.getD t.cursor.y []).length := by
        rw [getD_row_length _ _ _ ha.2.2.1 hy1]; omega
      have hya : t.cursor.y < a.lines := by rw [ha.lines_eq]; exact hy
      have hma : m < a.cols := by rw [ha.cols_eq]; omega
      have hgrid : ∀ c : cell_t, Grid t { a with
          cells := a.cells.set t.cursor.y ((a.cells.getD t.cursor.y []).set m c),
          line_dirty := a.line_dirty.set t.cursor.y true } := by
        intro c
        refine ⟨ha.1, ?_, ?_, ?_⟩
        · simp only [List.length_set]; exact ha.2.1
        · refine mem_set_row _ _ _ _ ha.2.2.1 (fun _ => ?_)
          rw [List.length_set]; exact getD_row_length _ _ _ ha.2.2.1 hy1
        · simp only [List.length_set]; exact ha.2.2.2
      by_cases c : (t.cursor.x : Int) ≤ (m : Int) - (n : Int)
      · have e : (m : Int) - (n : Int) = ((m - n : Nat) : Int) := by omega
        obtain ⟨src, hsrc⟩ := grid_at_row (x := m - n) (by rw [hg.2.1]; exact hy) hg.2.2.1
          (by omega)
        have hsa : grid_at a.cells t.cursor.y (m - n) = some src := by
          rw [h2 (m - n) (by omega)]; exact hsrc
        have es : (if (t.cursor.x : Int) ≤ (m : Int) - (n : Int) then
              copy_cell a t.cursor.y (m : Int) t.cursor.y ((m : Int) - (n : Int))
            else erase_cell a t.cursor.y (m : Int)) = some { a with
              cells := a.cells.set t.cursor.y ((a.cells.getD t.cursor.y []).set m src),
              line_dirty := a.line_dirty.set t.cursor.y true } := by
          rw [if_pos c, e]
          exact copy_cell_half a t.cursor.y m (m - n) src hya hma
            (by rw [ha.cols_eq]; omega) hsa (hh _ _ hsrc)
        refine ⟨_, es, hgrid src, ?_, ?_, ?_⟩
        · intro j hj1 hj2
          dsimp only
          rw [grid_at_set _ _ _ _ _ _ hy1 hx1]
          by_cases cj : j = m
          · subst cj
            rw [if_pos ⟨rfl, rfl⟩, if_pos (by omega), hsrc]
          · rw [if_neg (fun h => cj h.2)]
            exact h1 j (by omega) hj2
        · intro j hj
          dsimp only
          rw [grid_at_set _ _ _ _ _ _ hy1 hx1, if_neg (by omega)]
          exact h2 j (by omega)
        · intro r hr
          dsimp only
          rw [List.getElem?_set_ne (fun h => hr h.symm)]
          exact h3 r hr
      · have es : (if (t.cursor.x : Int) ≤ (m : Int) - (n : Int) then
              copy_cell a t.cursor.y (m : Int) t.cursor.y ((m : Int) - (n : Int))
            else erase_cell a t.cursor.y (m : Int)) = some { a with
              cells := a.cells.set t.cursor.y ((a.cells.getD t.cursor.y []).set m (blank_cell a)),
              line_dirty := a.line_dirty.set t.cursor.y true } := by
          rw [if_neg c]
          exact erase_cell_eq a t.cursor.y m hya hma
        refine ⟨_, es, hgrid _, ?_, ?_, ?_⟩
        · intro j hj1 hj2
          dsimp only
          rw [grid_at_set _ _ _ _ _ _ hy1 hx1, ha.blank_eq]
          by_cases cj : j = m
          · subst cj
            rw [if_pos ⟨rfl, rfl⟩, if_neg (by omega)]
          · rw [if_neg (fun h => cj h.2)]
            exact h1 j (by omega) hj2
        · intro j hj
          dsimp only
          rw [grid_at_set _ _ _ _ _ _ hy1 hx1, if_neg (by omega)]
          exact h2 j (by omega)
        · intro r hr
          dsimp only
          rw [List.getElem?_set_ne (fun h => hr h.symm)]
          exact h3 r hr)
    ⟨hg, fun j h1 h2 => by omega, fun j _ => rfl, fun r _ => rfl⟩
  refine ⟨b, ?_, hb, ?_, ?_, ?_, h3⟩
  · unfold insert_blank
    rw [if_neg hsum]
    dsimp only
    rw [hs]
    exact e
  · intro j hj1 hj2 hj3
    rw [h1 j (by omega) hj3, if_neg (by omega)]
  · intro j hj1 hj2
    rw [h1 j (by omega) hj2, if_pos hj1]
  · intro j hj
    exact h2 j (by omega)

end Yaft
namespace Yaft

open esc_state

/-- The function `sum` on a single parameter: its value. -/
theorem sum_single {parm : parm_t} {n : Nat} (h : reads parm [(n : Int)]) :
    sum parm = some (n : Int) := by
  obtain ⟨h1, h2⟩ := h
  have h3 : dec2num (parm.arg 0) = (n : Int) := h2 0 (Nat.zero_lt_succ 0)
  have r := dec2num_range (parm.arg 0)
  have e1 : parm.argc = 1 := h1
  have hin : in_int (0 + (n : Int)) := by unfold in_int; omega
  unfold sum
  rw [e1]
  show sum_step parm (some 0) 0 = some (n : Int)
  unfold sum_step
  dsimp only
  rw [h3, if_pos hin, Int.zero_add]

theorem sum_or_one_single {parm : parm_t} {n : Nat} (h : reads parm [(n : Int)]) (hn : 1 ≤ n) :
    sum_or_one parm = n := by
  unfold sum_or_one
  rw [sum_single h]
  dsimp only
  rw [if_neg (by omega)]

theorem grid_at_mem {cells : List (List cell_t)} {y j : Nat} {c : cell_t}
    (h : grid_at cells y j = some c) : c ∈ cells.getD y [] := by
  unfold grid_at at h
  split at h
  · exact absurd h (by simp)
  · rename_i row hrow
    have e : cells.getD y [] = row := by
      rw [List.getD_eq_getElem?_getD, hrow]
      rfl
    rw [e]
    exact List.getElem?_mem h

theorem csi_func_at (s : terminal_t) (parm : parm_t) : csi_func 0x40 s parm = insert_blank s parm :=
  rfl

/-- C26: in a state between two sequences whose arrays have their allocated sizes,
with the cursor at `(y, x)` inside the grid and a cursor row of half-width cells only,
let the parameter bytes `ps` be read as the single number `n ≥ 1`. Then the bytes
`ESC [ ps @` are processed without error, the cells in the columns
`x .. min(x+n, cols)-1` of the cursor row are blank, every column `j` with
`x+n ≤ j ≤ cols-1` holds the former cell of column `j-n`, the columns left of `x` and
all other rows are unchanged, and the cursor is unchanged. -/
theorem C26_insert_blank (wc : Nat → Int) (t : terminal_t) (hg : Ground t)
    (hr : t.cells.length = t.lines) (hl : ∀ row ∈ t.cells, row.length = t.cols)
    (hd : t.line_dirty.length = t.lines) (hy : t.cursor.y < t.lines) (hx : t.cursor.x < t.cols)
    (hh : ∀ c ∈ t.cells.getD t.cursor.y [], c.width = HALF)
    (ps : List Nat) (hps : ∀ p ∈ ps, 0x20 ≤ p ∧ p ≤ 0x3F) (n : Nat) (hn : 1 ≤ n)
    (hread : reads (csi_parm ps) [(n : Int)]) :
    ∃ t1, parse wc t ([0x1B, 0x5B] ++ ps ++ [0x40]) = some t1
      ∧ (∀ j : Nat, t.cursor.x ≤ j → j < min (t.cursor.x + n) t.cols →
          grid_at t1.cells t.cursor.y j = some (blank_cell t))
      ∧ (∀ j : Nat, t.cursor.x + n ≤ j → j < t.cols →
          grid_at t1.cells t.cursor.y j = grid_at t.cells t.cursor.y (j - n))
      ∧ (∀ j : Nat, j < t.cursor.x →
          grid_at t1.cells t.cursor.y j = grid_at t.cells t.cursor.y j)
      ∧ (∀ r : Nat, r ≠ t.cursor.y → t1.cells[r]? = t.cells[r]?)
      ∧ t1.cursor = t.cursor := by
  obtain ⟨sz, e⟩ := parse_csi_run wc t hg ps 0x40 hps (by decide) (by decide)
  have hg1 : Grid (csi_ready t ps sz) (csi_ready t ps sz) := Grid.start hr hl hd
  have hy1 : (csi_ready t ps sz).cursor.y < (csi_ready t ps sz).lines := hy
  have hx1 : (csi_ready t ps sz).cursor.x < (csi_ready t ps sz).cols := hx
  obtain ⟨b, eb, hb, h1, h2, h3, h4⟩ := insert_blank_shift hg1 (csi_parm ps) n hn
    (by rw [sum_single hread]; exact Option.some_ne_none _)
    (sum_or_one_single hread hn) hy1 hx1 (fun j c h => hh c (grid_at_mem h))
  have ec : b.cursor = t.cursor := by
    have c := congrArg terminal_t.cursor hb.1; exact c
  have k1 : ∀ j : Nat, t.cursor.x ≤ j → j < t.cursor.x + n → j < t.cols →
      grid_at b.cells t.cursor.y j = some (blank_cell t) := h1
  have k2 : ∀ j : Nat, t.cursor.x + n ≤ j → j < t.cols →
      grid_at b.cells t.cursor.y j = grid_at t.cells t.cursor.y (j - n) := h2
  have k3 : ∀ j : Nat, j < t.cursor.x →
      grid_at b.cells t.cursor.y j = grid_at t.cells t.cursor.y j := h3
  have k4 : ∀ r : Nat, r ≠ t.cursor.y → b.cells[r]? = t.cells[r]? := h4
  refine ⟨reset_esc b, ?_, ?_, k2, k3, k4, ec⟩
  · rw [e, csi_func_at, eb]
    rfl
  · intro j hj1 hj2
    exact k1 j hj1 (by omega) (by omega)

/-- C26, witness: on a row `a b c d e` with the cursor in column 1, `ESC [ 2 @` gives
`a _ _ b c`. -/
theorem C26_insert_blank_witness :
    (∃ t1, parse ascii_wcwidth letters_terminal ([0x1B, 0x5B] ++ [0x32] ++ [0x40]) = some t1
      ∧ (∀ j : Nat, letters_terminal.cursor.x ≤ j →
          j < min (letters_terminal.cursor.x + 2) letters_terminal.cols →
          grid_at t1.cells letters_terminal.cursor.y j = some (blank_cell letters_terminal))
      ∧ (∀ j : Nat, letters_terminal.cursor.x + 2 ≤ j → j < letters_terminal.cols →
          grid_at t1.cells letters_terminal.cursor.y j
            = grid_at letters_terminal.cells letters_terminal.cursor.y (j - 2))
      ∧ (∀ j : Nat, j < letters_terminal.cursor.x →
          grid_at t1.cells letters_terminal.cursor.y j
            = grid_at letters_terminal.cells letters_terminal.cursor.y j)
      ∧ (∀ r : Nat, r ≠ letters_terminal.cursor.y → t1.cells[r]? = letters_terminal.cells[r]?)
      ∧ t1.cursor = letters_terminal.cursor)
    ∧ (parse ascii_wcwidth letters_terminal [0x1B, 0x5B, 0x32, 0x40]).map
        (fun s => (codes s.cells).getD 0 [])
        = some [some 0x61, some 0x20, some 0x20, some 0x62, some 0x63] :=
  ⟨C26_insert_blank ascii_wcwidth letters_terminal
      ⟨rfl, rfl, by unfold charset_idle; decide, by decide⟩
      (by decide) (by decide) (by decide) (by decide) (by decide) (by decide) [0x32] (by decide)
      2 (by decide) (by decide),
    by decide⟩

end Yaft

namespace Yaft

open esc_state

/-! ## C25: IL and DL on the bottom row of the scroll region -/

/-- With the cursor on the bottom margin, `insert_line` and `delete_line` return the
state unchanged (the sum of the parameters being in the range of `int`):
`scroll_window(y, bottom, ∓n)` is called with `from = to` and returns at its first test
`from >= to`. -/
theorem insert_line_bottom (t : terminal_t) (parm : parm_t)
    (h : t.cursor.y = t.scroll.bottom) (hs : sum parm ≠ none) :
    insert_line t parm = some t ∧ delete_line t parm = some t := by
  have c : ∀ offset : Int, (offset = 0 ∨ (t.cursor.y : Int) ≥ (t.scroll.bottom : Int)) :=
    fun _ => Or.inr (by omega)
  constructor
  · unfold insert_line
    rw [if_neg hs]
    split
    · rfl
    · unfold scroll_window
      rw [if_pos (c _)]
  · unfold delete_line
    rw [if_neg hs]
    split
    · rfl
    · unfold scroll_window
      rw [if_pos (c _)]

/-- C25, failing input: on a terminal of 2 columns and 3 lines, `ESC [ 3 ; 1 H` and `X`
leave the cursor on row 2, the bottom row of the region `[0, 2]`, with `X` in its first
cell. The claim has row 2 blank after `ESC [ L` (IL 1) and after `ESC [ M` (DL 1); the
code leaves `X` in place in both cases. One row higher the same sequences do blank
the row. -/
theorem C25_insert_line_at_bottom :
    (run 2 3 [0x1B, 0x5B, 0x33, 0x3B, 0x31, 0x48, 0x58]).map
        (fun t => (t.cursor.y, t.scroll.top, t.scroll.bottom)) = some (2, 0, 2)
    ∧ code_of (run 2 3 [0x1B, 0x5B, 0x33, 0x3B, 0x31, 0x48, 0x58]) 2 0 = some 0x58
    ∧ code_of (run 2 3 [0x1B, 0x5B, 0x33, 0x3B, 0x31, 0x48, 0x58, 0x1B, 0x5B, 0x4C]) 2 0
        = some 0x58
    ∧ code_of (run 2 3 [0x1B, 0x5B, 0x33, 0x3B, 0x31, 0x48, 0x58, 0x1B, 0x5B, 0x4D]) 2 0
        = some 0x58
    ∧ code_of (run 2 3 [0x1B, 0x5B, 0x32, 0x3B, 0x31, 0x48, 0x58, 0x1B, 0x5B, 0x4C]) 1 0
        = some 0x20
    ∧ code_of (run 2 3 [0x1B, 0x5B, 0x32, 0x3B, 0x31, 0x48, 0x58, 0x1B, 0x5B, 0x4D]) 1 0
        = some 0x20 := by
  set_option maxRecDepth 20000 in
  decide

end Yaft

namespace Yaft

open esc_state

/-! ## C21: CUP with a single parameter -/

/-- With exactly one parameter `curs_pos` returns the state unchanged: the code
handles `argc <= 0` and `argc == 2` and returns on any other count. -/
theorem curs_pos_single (t : terminal_t) (parm : parm_t) (h : parm.argc = 1) :
    curs_pos t parm = some t := by
  unfold curs_pos
  rw [if_neg (by omega), if_neg (by omega)]

/-- C21, failing input: on a terminal of 4 columns and 3 lines, after `ESC [ 2 ; 3 H`
put the cursor at `(y = 1, x = 2)`, the single-parameter forms `ESC [ 3 H` and
`ESC [ 3 f` are read as one parameter and leave the cursor where it is; the claim has
it at `(y = 2, x = 0)`. The forms with no parameter or with a semicolon behave as the
claim says. -/
theorem C21_single_parameter_ignored :
    (csi_parm [0x33]).argc = 1
    ∧ (run 4 3 [0x1B, 0x5B, 0x32, 0x3B, 0x33, 0x48]).map (fun t => t.cursor)
        = some { x := 2, y := 1 }
    ∧ (run 4 3 [0x1B, 0x5B, 0x32, 0x3B, 0x33, 0x48, 0x1B, 0x5B, 0x33, 0x48]).map
        (fun t => t.cursor) = some { x := 2, y := 1 }
    ∧ (run 4 3 [0x1B, 0x5B, 0x32, 0x3B, 0x33, 0x48, 0x1B, 0x5B, 0x33, 0x66]).map
        (fun t => t.cursor) = some { x := 2, y := 1 }
    ∧ (run 4 3 [0x1B, 0x5B, 0x32, 0x3B, 0x33, 0x48, 0x1B, 0x5B, 0x33, 0x3B, 0x48]).map
        (fun t => t.cursor) = some { x := 0, y := 2 }
    ∧ (run 4 3 [0x1B, 0x5B, 0x32, 0x3B, 0x33, 0x48, 0x1B, 0x5B, 0x3B, 0x34, 0x48]).map
        (fun t => t.cursor) = some { x := 3, y := 0 }
    ∧ (run 4 3 [0x1B, 0x5B, 0x32, 0x3B, 0x33, 0x48, 0x1B, 0x5B, 0x48]).map
        (fun t => t.cursor) = some { x := 0, y := 0 }
    ∧ (run 4 3 [0x1B, 0x5B, 0x39, 0x3B, 0x39, 0x48]).map
        (fun t => t.cursor) = some { x := 3, y := 2 } := by
  set_option maxRecDepth 20000 in
  decide

end Yaft

namespace Yaft

open esc_state

/-! ## C22: SM and RM -/

theorem has_bit_set (m : Nat) : has_bit (m ||| MODE_ORIGIN) MODE_ORIGIN = true := by
  unfold has_bit MODE_ORIGIN
  have e : (m ||| 1) &&& 1 = 1 := by
    rw [Nat.and_one_is_mod]
    have h := Nat.or_mod_two_eq_one (a := m) (b := 1)
    exact h.mpr (Or.inr rfl)
  rw [e]
  rfl

theorem has_bit_clear (m : Nat) : has_bit (clear_bit m MODE_ORIGIN) MODE_ORIGIN = false := by
  unfold has_bit clear_bit MODE_ORIGIN
  have e : m &&& (0xFFFFFFFF ^^^ 1) &&& 1 = 0 := by
    rw [Nat.and_assoc]
    have e1 : (0xFFFFFFFF ^^^ 1) &&& 1 = 0 := by decide
    rw [e1, Nat.and_zero]
  rw [e]
  rfl

theorem clear_bit_zero (m : Nat) (h : m < 4294967296) : clear_bit m 0 = m := by
  unfold clear_bit
  have e : (0xFFFFFFFF ^^^ 0 : Nat) = 2 ^ 32 - 1 := by decide
  rw [e, Nat.and_pow_two_sub_one_eq_mod]
  exact Nat.mod_eq_of_lt h

theorem clear_bit_lt (m b : Nat) (h : m < 4294967296) : clear_bit m b < 4294967296 :=
  lt_of_le_of_lt Nat.and_le_left h

theorem clear_bit_merge (m b1 b2 : Nat) (h1 : b1 < 4294967296) (h2 : b2 < 4294967296) :
    clear_bit (clear_bit m b1) b2 = clear_bit m (b1 ||| b2) := by
  unfold clear_bit
  have e : (0xFFFFFFFF : Nat) = 2 ^ 32 - 1 := by decide
  rw [e]
  apply Nat.eq_of_testBit_eq
  intro i
  simp only [Nat.testBit_and, Nat.testBit_xor, Nat.testBit_or, Nat.testBit_two_pow_sub_one]
  by_cases c : i < 32
  · simp only [c, decide_True, Bool.true_xor, Bool.not_or, Bool.and_assoc]
  · have p : (2 : Nat) ^ 32 ≤ 2 ^ i := Nat.pow_le_pow_right (by decide) (by omega)
    have q : (4294967296 : Nat) = 2 ^ 32 := by decide
    have f1 : b1.testBit i = false := Nat.testBit_eq_false_of_lt (by omega)
    have f2 : b2.testBit i = false := Nat.testBit_eq_false_of_lt (by omega)
    simp [c, f1, f2]

theorem mode_bit_lt (p : Int) : mode_bit p < 16 := by
  unfold mode_bit MODE_ORIGIN MODE_AMRIGHT MODE_CURSOR MODE_VWBS
  split_ifs <;> decide

theorem named_bits_lt (vals : List Int) : named_bits vals < 16 := by
  induction vals with
  | nil => exact (by decide : (0 : Nat) < 16)
  | cons p ps ih =>
    have h := mode_bit_lt p
    exact Nat.or_lt_two_pow (n := 4) h ih

end Yaft
namespace Yaft

open esc_state

/-- The stores of the call `set_cursor(term, 0, 0)`: the home position. -/
theorem set_cursor_zero (s : terminal_t) (hc : 1 ≤ s.cols) (hl : 1 ≤ s.lines)
    (hm : s.scroll.top ≤ s.scroll.bottom) (hb : s.scroll.bottom < 65536) :
    set_cursor_to s 0 0
      = { s with cursor := { x := 0, y := home_row s s.scroll.top }, wrap_occured := false } := by
  unfold set_cursor_to home_row
  dsimp only
  have e3 : to_u16 0 = 0 := by decide
  have h1 : ¬ ((0 : Int) < 0) := by omega
  have h2 : ¬ ((0 : Int) ≥ (s.cols : Int)) := by omega
  rw [if_neg h1, if_neg h2, e3]
  by_cases c : has_bit s.mode MODE_ORIGIN = true
  · simp only [c, if_true]
    have e : to_int (0 + (s.scroll.top : Int)) = s.scroll.top := by unfold to_int; omega
    have e2 : to_u16 (s.scroll.top : Int) = s.scroll.top := by unfold to_u16; omega
    have h3 : ¬ ((s.scroll.top : Int) < (s.scroll.top : Int)) := by omega
    have h4 : ¬ ((s.scroll.top : Int) > (s.scroll.bottom : Int)) := by omega
    rw [e, if_neg h3, if_neg h4, e2]
  · simp only [c]
    simp only [Bool.false_eq_true, if_false]
    have h4 : ¬ ((0 : Int) > (s.lines : Int) - 1) := by omega
    rw [if_neg h1, if_neg h4, e3]

/-- One parameter of `set_mode` in a sequence that starts with `?`. -/
theorem set_mode_one (s : terminal_t) (p : Int) (hq : s.esc.buf.getD 1 0 = 0x3F)
    (hc : 1 ≤ s.cols) (hl : 1 ≤ s.lines) (hm : s.scroll.top ≤ s.scroll.bottom)
    (hb : s.scroll.bottom < 65536) :
    (if s.esc.buf.getD 1 0 ≠ 0x3F then s
      else if p = 6 then set_cursor_to { s with mode := s.mode ||| MODE_ORIGIN } 0 0
      else if p = 7 then { s with mode := s.mode ||| MODE_AMRIGHT }
      else if p = 25 then { s with mode := s.mode ||| MODE_CURSOR }
      else if p = 8901 then { s with mode := s.mode ||| MODE_VWBS }
      else s) = mode_set s [p] := by
  rw [if_neg (fun h => h hq)]
  unfold mode_set
  simp only [named_bits]
  unfold mode_bit
  by_cases c6 : p = 6
  · subst c6
    rw [if_pos rfl, set_cursor_zero { s with mode := s.mode ||| MODE_ORIGIN } hc hl hm hb]
    unfold home_row
    dsimp only
    rw [has_bit_set]
    simp
  · have n6 : ¬ ((6 : Int) ∈ [p]) := by
      intro h
      rw [List.mem_singleton] at h
      exact c6 h.symm
    rw [if_neg c6, if_neg c6, if_neg n6, if_neg n6]
    by_cases c7 : p = 7
    · rw [if_pos c7, if_pos c7, Nat.or_zero]
    · rw [if_neg c7, if_neg c7]
      by_cases c25 : p = 25
      · rw [if_pos c25, if_pos c25, Nat.or_zero]
      · rw [if_neg c25, if_neg c25]
        by_cases c89 : p = 8901
        · rw [if_pos c89, if_pos c89, Nat.or_zero]
        · rw [if_neg c89, if_neg c89, Nat.or_zero, Nat.or_zero]

theorem mode_set_merge (s : terminal_t) (p : Int) (rest : List Int) :
    mode_set (mode_set s [p]) rest = mode_set s (p :: rest) := by
  unfold mode_set
  dsimp only
  have e1 : s.mode ||| named_bits [p] ||| named_bits rest = s.mode ||| named_bits (p :: rest) := by
    simp only [named_bits, Nat.or_zero, Nat.lor_assoc]
  rw [e1]
  by_cases c6 : p = 6
  · subst c6
    simp
  · have n6 : ¬ ((6 : Int) ∈ [p]) := by
      intro h
      rw [List.mem_singleton] at h
      exact c6 h.symm
    have n7 : ((6 : Int) ∈ p :: rest) ↔ (6 : Int) ∈ rest := by
      rw [List.mem_cons]
      exact ⟨fun h => h.resolve_left (fun h1 => c6 h1.symm), Or.inr⟩
    simp only [n6, n7, if_false]

/-- The body of the loop of `set_mode` returns, the top margin being a `uint16_t`. -/
theorem set_mode_body_eq (parm : parm_t) (s : terminal_t) (i : Nat)
    (ht : s.scroll.top < 65536) :
    set_mode_body parm s i = some
      (if s.esc.buf.getD 1 0 ≠ 0x3F then s
      else if dec2num (parm.arg i) = 6 then
        set_cursor_to { s with mode := s.mode ||| MODE_ORIGIN } 0 0
      else if dec2num (parm.arg i) = 7 then { s with mode := s.mode ||| MODE_AMRIGHT }
      else if dec2num (parm.arg i) = 25 then { s with mode := s.mode ||| MODE_CURSOR }
      else if dec2num (parm.arg i) = 8901 then { s with mode := s.mode ||| MODE_VWBS }
      else s) := by
  have hin : in_int (0 + (s.scroll.top : Int)) := by unfold in_int; omega
  unfold set_mode_body
  dsimp only
  split_ifs
  · rfl
  · exact set_cursor_total { s with mode := s.mode ||| MODE_ORIGIN } 0 0 hin
  · rfl
  · rfl
  · rfl
  · rfl

/-- The loop of `set_mode` in a sequence that starts with `?`. -/
theorem set_mode_fold (parm : parm_t) : ∀ (l : List Nat) (s : terminal_t),
    s.esc.buf.getD 1 0 = 0x3F → 1 ≤ s.cols → 1 ≤ s.lines → s.scroll.top ≤ s.scroll.bottom →
    s.scroll.bottom < 65536 →
    l.foldl (fun o i => o.bind (fun s => set_mode_body parm s i)) (some s)
      = some (mode_set s (l.map (fun i => dec2num (parm.arg i)))) := by
  intro l
  induction l with
  | nil =>
    intro s _ _ _ _ _
    unfold mode_set
    simp [named_bits]
  | cons i l ih =>
    intro s hq hc hl hm hb
    rw [List.foldl_cons, List.map_cons, Option.some_bind, set_mode_body_eq parm s i (by omega),
      set_mode_one s _ hq hc hl hm hb, ih (mode_set s [dec2num (parm.arg i)]) hq hc hl hm hb,
      mode_set_merge]

end Yaft
namespace Yaft

open esc_state

/-- One parameter of `reset_mode` in a sequence that starts with `?`. -/
theorem reset_mode_one (s : terminal_t) (p : Int) (hq : s.esc.buf.getD 1 0 = 0x3F)
    (hc : 1 ≤ s.cols) (hl : 1 ≤ s.lines) (hm : s.scroll.top ≤ s.scroll.bottom)
    (hb : s.scroll.bottom < 65536) (h32 : s.mode < 4294967296) :
    (if s.esc.buf.getD 1 0 ≠ 0x3F then s
      else if p = 6 then set_cursor_to { s with mode := clear_bit s.mode MODE_ORIGIN } 0 0
      else if p = 7 then { s with mode := clear_bit s.mode MODE_AMRIGHT, wrap_occured := false }
      else if p = 25 then { s with mode := clear_bit s.mode MODE_CURSOR }
      else if p = 8901 then { s with mode := clear_bit s.mode MODE_VWBS }
      else s) = mode_cleared s [p] := by
  rw [if_neg (fun h => h hq)]
  unfold mode_cleared
  simp only [named_bits]
  unfold mode_bit
  by_cases c6 : p = 6
  · subst c6
    rw [if_pos rfl, set_cursor_zero { s with mode := clear_bit s.mode MODE_ORIGIN } hc hl hm hb]
    unfold home_row
    dsimp only
    rw [has_bit_clear]
    simp
  · have n6 : ¬ ((6 : Int) ∈ [p]) := by
      intro h
      rw [List.mem_singleton] at h
      exact c6 h.symm
    rw [if_neg c6, if_neg c6, if_neg n6]
    by_cases c7 : p = 7
    · subst c7
      rw [if_pos rfl, if_pos rfl, Nat.or_zero, if_pos (Or.inr (List.mem_singleton.mpr rfl))]
    · have n7 : ¬ ((6 : Int) ∈ [p] ∨ (7 : Int) ∈ [p]) := by
        intro h
        rcases h with h | h
        · exact n6 h
        · rw [List.mem_singleton] at h
          exact c7 h.symm
      rw [if_neg c7, if_neg c7, if_neg n7]
      by_cases c25 : p = 25
      · rw [if_pos c25, if_pos c25, Nat.or_zero]
      · rw [if_neg c25, if_neg c25]
        by_cases c89 : p = 8901
        · rw [if_pos c89, if_pos c89, Nat.or_zero]
        · rw [if_neg c89, if_neg c89, Nat.or_zero, clear_bit_zero _ h32]

theorem mode_cleared_merge (s : terminal_t) (p : Int) (rest : List Int) :
    mode_cleared (mode_cleared s [p]) rest = mode_cleared s (p :: rest) := by
  unfold mode_cleared
  dsimp only
  have b1 : named_bits [p] < 4294967296 := lt_trans (named_bits_lt _) (by decide)
  have b2 : named_bits rest < 4294967296 := lt_trans (named_bits_lt _) (by decide)
  have e0 : named_bits [p] ||| named_bits rest = named_bits (p :: rest) := by
    simp only [named_bits, Nat.or_zero]
  have e1 : clear_bit (clear_bit s.mode (named_bits [p])) (named_bits rest)
      = clear_bit s.mode (named_bits (p :: rest)) := by
    rw [clear_bit_merge _ _ _ b1 b2, e0]
  rw [e1]
  by_cases c6 : p = 6
  · subst c6
    simp
  · have n6 : ¬ ((6 : Int) ∈ [p]) := by
      intro h
      rw [List.mem_singleton] at h
      exact c6 h.symm
    have m6 : ((6 : Int) ∈ p :: rest) ↔ (6 : Int) ∈ rest := by
      rw [List.mem_cons]
      exact ⟨fun h => h.resolve_left (fun h1 => c6 h1.symm), Or.inr⟩
    by_cases c7 : p = 7
    · subst c7
      simp
    · have n7 : ¬ ((7 : Int) ∈ [p]) := by
        intro h
        rw [List.mem_singleton] at h
        exact c7 h.symm
      have m7 : ((7 : Int) ∈ p :: rest) ↔ (7 : Int) ∈ rest := by
        rw [List.mem_cons]
        exact ⟨fun h => h.resolve_left (fun h1 => c7 h1.symm), Or.inr⟩
      simp only [n6, n7, m6, m7, if_false, or_self]

/-- The body of the loop of `reset_mode` returns, the top margin being a `uint16_t`. -/
theorem reset_mode_body_eq (parm : parm_t) (s : terminal_t) (i : Nat)
    (ht : s.scroll.top < 65536) :
    reset_mode_body parm s i = some
      (if s.esc.buf.getD 1 0 ≠ 0x3F then s
      else if dec2num (parm.arg i) = 6 then
        set_cursor_to { s with mode := clear_bit s.mode MODE_ORIGIN } 0 0
      else if dec2num (parm.arg i) = 7 then
        { s with mode := clear_bit s.mode MODE_AMRIGHT, wrap_occured := false }
      else if dec2num (parm.arg i) = 25 then { s with mode := clear_bit s.mode MODE_CURSOR }
      else if dec2num (parm.arg i) = 8901 then { s with mode := clear_bit s.mode MODE_VWBS }
      else s) := by
  have hin : in_int (0 + (s.scroll.top : Int)) := by unfold in_int; omega
  unfold reset_mode_body
  dsimp only
  split_ifs
  · rfl
  · exact set_cursor_total { s with mode := clear_bit s.mode MODE_ORIGIN } 0 0 hin
  · rfl
  · rfl
  · rfl
  · rfl

/-- The loop of `reset_mode` in a sequence that starts with `?`. -/
theorem reset_mode_fold (parm : parm_t) : ∀ (l : List Nat) (s : terminal_t),
    s.esc.buf.getD 1 0 = 0x3F → 1 ≤ s.cols → 1 ≤ s.lines → s.scroll.top ≤ s.scroll.bottom →
    s.scroll.bottom < 65536 → s.mode < 4294967296 →
    l.foldl (fun o i => o.bind (fun s => reset_mode_body parm s i)) (some s)
      = some (mode_cleared s (l.map (fun i => dec2num (parm.arg i)))) := by
  intro l
  induction l with
  | nil =>
    intro s _ _ _ _ _ h32
    unfold mode_cleared
    simp [named_bits, clear_bit_zero _ h32]
  | cons i l ih =>
    intro s hq hc hl hm hb h32
    rw [List.foldl_cons, List.map_cons, Option.some_bind,
      reset_mode_body_eq parm s i (by omega), reset_mode_one s _ hq hc hl hm hb h32,
      ih (mode_cleared s [dec2num (parm.arg i)]) hq hc hl hm hb (clear_bit_lt _ _ h32),
      mode_cleared_merge]

/-- The loops of `set_mode` and `reset_mode` in a sequence that does not start with
`?`: nothing is done. -/
theorem mode_fold_skip (f : terminal_t → Nat → Option terminal_t)
    (hf : ∀ (s : terminal_t) (i : Nat), s.esc.buf.getD 1 0 ≠ 0x3F → f s i = some s) :
    ∀ (l : List Nat) (s : terminal_t), s.esc.buf.getD 1 0 ≠ 0x3F →
    l.foldl (fun o i => o.bind (fun s => f s i)) (some s) = some s := by
  intro l
  induction l with
  | nil => intro s _; rfl
  | cons i l ih =>
    intro s hq
    rw [List.foldl_cons, Option.some_bind, hf s i hq]
    exact ih s hq

theorem set_mode_body_skip (parm : parm_t) (s : terminal_t) (i : Nat)
    (hq : s.esc.buf.getD 1 0 ≠ 0x3F) : set_mode_body parm s i = some s := by
  unfold set_mode_body
  dsimp only
  rw [if_pos hq]

theorem reset_mode_body_skip (parm : parm_t) (s : terminal_t) (i : Nat)
    (hq : s.esc.buf.getD 1 0 ≠ 0x3F) : reset_mode_body parm s i = some s := by
  unfold reset_mode_body
  dsimp only
  rw [if_pos hq]

end Yaft
namespace Yaft

open esc_state

theorem parse_arg_step_buf (delim : Nat) (is_valid : Nat → Bool) (length : Nat)
    (st : parse_arg_state) (i : Nat) :
    (parse_arg_step delim is_valid length st i).buf
      = if st.buf.getD i 0 = delim then st.buf.set i 0 else st.buf := by
  unfold parse_arg_step push_ptr
  dsimp only
  split_ifs <;> rfl

/-- The first byte of the buffer is `?` after `parse_arg` rewrote the delimiters
exactly when it was `?` before. -/
theorem parse_arg_first (buf : List Nat) (is_valid : Nat → Bool) :
    (parse_arg buf 0x3B is_valid).1.getD 0 0 = 0x3F ↔ buf.getD 0 0 = 0x3F := by
  unfold parse_arg
  dsimp only
  refine foldl_inv (fun st : parse_arg_state => st.buf.getD 0 0 = 0x3F ↔ buf.getD 0 0 = 0x3F)
    _ _ _ Iff.rfl ?_
  intro st i h
  rw [parse_arg_step_buf]
  by_cases c : st.buf.getD i 0 = 0x3B
  · rw [if_pos c]
    by_cases ci : i = 0
    · subst ci
      have h1 : ¬ (st.buf.getD 0 0 = 0x3F) := by rw [c]; decide
      have h2 : ¬ ((st.buf.set 0 0).getD 0 0 = 0x3F) := by
        cases hb : st.buf with
        | nil => simp
        | cons a l => simp
      exact ⟨fun g => absurd g h2, fun g => absurd (h.mpr g) h1⟩
    · have e : (st.buf.set i 0).getD 0 0 = st.buf.getD 0 0 := by
        rw [List.getD_eq_getElem?_getD, List.getD_eq_getElem?_getD,
          List.getElem?_set_ne ci]
      rw [e]
      exact h
  · rw [if_neg c]
    exact h

theorem csi_ready_first (t : terminal_t) (ps : List Nat) (sz : Nat) :
    (csi_ready t ps sz).esc.buf.getD 1 0 = 0x3F ↔ ps.head? = some 0x3F := by
  have e : (csi_ready t ps sz).esc.buf.getD 1 0
      = (parse_arg (ps ++ [0]) 0x3B isdigit).1.getD 0 0 := rfl
  rw [e, parse_arg_first]
  cases ps with
  | nil => simp
  | cons a l => simp

theorem csi_func_h (s : terminal_t) (parm : parm_t) : csi_func 0x68 s parm = set_mode s parm :=
  rfl

theorem csi_func_l (s : terminal_t) (parm : parm_t) : csi_func 0x6C s parm = reset_mode s parm :=
  rfl

end Yaft

namespace Yaft

open esc_state

/-- C22: in a state between two sequences of a terminal with at least one column and
one line, with `scroll.top ≤ scroll.bottom` and the mode word in 32 bits, for every
parameter string `ps`, whose parameters are read as the values `vals`: if `ps` does
not start with `?`, `ESC [ ps h` and `ESC [ ps l` change nothing but the escape
buffer, which is empty again; if `ps` starts with `?`, `ESC [ ps h` sets exactly the
bits named by the values (6 ORIGIN, 7 AUTO_WRAP, 25 CURSOR_VISIBLE, 8901 VWBS) and
`ESC [ ps l` clears exactly these bits, a value 6 moves the cursor to home and clears
the wrap flag, and a value 7 in RM clears the wrap flag. -/
theorem C22_mode_gating (wc : Nat → Int) (t : terminal_t) (hg : Ground t) (hc : 1 ≤ t.cols)
    (hl : 1 ≤ t.lines) (hm : t.scroll.top ≤ t.scroll.bottom) (hb : t.scroll.bottom < 65536)
    (h32 : t.mode < 4294967296) (ps : List Nat) (hps : ∀ p ∈ ps, 0x20 ≤ p ∧ p ≤ 0x3F) :
    (ps.head? ≠ some 0x3F →
      (∃ sz, parse wc t ([0x1B, 0x5B] ++ ps ++ [0x68])
        = some { t with esc := { buf := [], size := sz, state := STATE_RESET } })
      ∧ (∃ sz, parse wc t ([0x1B, 0x5B] ++ ps ++ [0x6C])
        = some { t with esc := { buf := [], size := sz, state := STATE_RESET } }))
    ∧ (ps.head? = some 0x3F →
      (∃ sz, parse wc t ([0x1B, 0x5B] ++ ps ++ [0x68])
        = some { mode_set t (parm_values (csi_parm ps)) with
            esc := { buf := [], size := sz, state := STATE_RESET } })
      ∧ (∃ sz, parse wc t ([0x1B, 0x5B] ++ ps ++ [0x6C])
        = some { mode_cleared t (parm_values (csi_parm ps)) with
            esc := { buf := [], size := sz, state := STATE_RESET } })) := by
  obtain ⟨sz1, e1⟩ := parse_csi_run wc t hg ps 0x68 hps (by decide) (by decide)
  obtain ⟨sz2, e2⟩ := parse_csi_run wc t hg ps 0x6C hps (by decide) (by decide)
  constructor
  · intro hq
    have q1 : (csi_ready t ps sz1).esc.buf.getD 1 0 ≠ 0x3F :=
      fun h => hq ((csi_ready_first t ps sz1).mp h)
    have q2 : (csi_ready t ps sz2).esc.buf.getD 1 0 ≠ 0x3F :=
      fun h => hq ((csi_ready_first t ps sz2).mp h)
    refine ⟨⟨sz1, ?_⟩, ⟨sz2, ?_⟩⟩
    · have e3 : set_mode (csi_ready t ps sz1) (csi_parm ps) = some (csi_ready t ps sz1) := by
        unfold set_mode
        exact mode_fold_skip _ (set_mode_body_skip (csi_parm ps)) _ _ q1
      rw [e1, csi_func_h, e3]
      rfl
    · have e3 : reset_mode (csi_ready t ps sz2) (csi_parm ps) = some (csi_ready t ps sz2) := by
        unfold reset_mode
        exact mode_fold_skip _ (reset_mode_body_skip (csi_parm ps)) _ _ q2
      rw [e2, csi_func_l, e3]
      rfl
  · intro hq
    have q1 : (csi_ready t ps sz1).esc.buf.getD 1 0 = 0x3F := (csi_ready_first t ps sz1).mpr hq
    have q2 : (csi_ready t ps sz2).esc.buf.getD 1 0 = 0x3F := (csi_ready_first t ps sz2).mpr hq
    refine ⟨⟨sz1, ?_⟩, ⟨sz2, ?_⟩⟩
    · have e3 : set_mode (csi_ready t ps sz1) (csi_parm ps)
          = some (mode_set (csi_ready t ps sz1) (parm_values (csi_parm ps))) := by
        unfold set_mode parm_values
        rw [set_mode_fold (csi_parm ps) _ (csi_ready t ps sz1) q1 hc hl hm hb]
      rw [e1, csi_func_h, e3]
      rfl
    · have e3 : reset_mode (csi_ready t ps sz2) (csi_parm ps)
          = some (mode_cleared (csi_ready t ps sz2) (parm_values (csi_parm ps))) := by
        unfold reset_mode parm_values
        rw [reset_mode_fold (csi_parm ps) _ (csi_ready t ps sz2) q2 hc hl hm hb h32]
      rw [e2, csi_func_l, e3]
      rfl

end Yaft
namespace Yaft

open esc_state

/-- C22, witness: on a fresh terminal of 4 columns and 3 lines (mode AUTO_WRAP +
CURSOR_VISIBLE = 6) the sequence `ESC [ ? 6 ; 7 l` is read as the values 6 and 7 and
leaves the mode 2, while `ESC [ 6 ; 7 l` without `?` leaves the mode 6; `ESC [ ? 6 h`
sets ORIGIN. -/
theorem C22_mode_gating_witness :
    (∃ sz, parse ascii_wcwidth (fresh 4 3) ([0x1B, 0x5B] ++ [0x3F, 0x36, 0x3B, 0x37] ++ [0x6C])
      = some { mode_cleared (fresh 4 3) (parm_values (csi_parm [0x3F, 0x36, 0x3B, 0x37])) with
          esc := { buf := [], size := sz, state := STATE_RESET } })
    ∧ parm_values (csi_parm [0x3F, 0x36, 0x3B, 0x37]) = [6, 7]
    ∧ (run 4 3 [0x1B, 0x5B, 0x3F, 0x36, 0x3B, 0x37, 0x6C]).map (fun s => s.mode) = some 2
    ∧ (run 4 3 [0x1B, 0x5B, 0x36, 0x3B, 0x37, 0x6C]).map (fun s => s.mode) = some 6
    ∧ (run 4 3 [0x1B, 0x5B, 0x3F, 0x36, 0x68]).map (fun s => s.mode) = some 7 :=
  ⟨((C22_mode_gating ascii_wcwidth (fresh 4 3) (fresh_ground 4 3) (by decide) (by decide)
      (by decide) (by decide) (by decide) [0x3F, 0x36, 0x3B, 0x37] (by decide)).2 rfl).2,
    by decide, by decide, by decide, by decide⟩

end Yaft

namespace Yaft

open esc_state

/-! ## C24: SGR colour selection -/

theorem set_attr_one (t : terminal_t) (parm : parm_t) (h : parm.argc = 1) :
    set_attr t parm = some (set_attr_step t parm 0).1 := by
  unfold set_attr
  rw [if_neg (by omega), h]
  simp only [set_attr_loop]
  rw [if_pos (by omega)]

theorem set_attr_skip (t : terminal_t) (parm : parm_t) (n : Nat) (h : parm.argc = n + 1)
    (hs : (set_attr_step t parm 0).2 = n) :
    set_attr t parm = some (set_attr_step t parm 0).1 := by
  unfold set_attr
  rw [if_neg (by omega), h]
  simp only [set_attr_loop]
  rw [if_pos (by omega), hs]
  cases n with
  | zero => rfl
  | succ m =>
    simp only [set_attr_loop]
    rw [if_neg (by omega)]

theorem to_u8_small (n : Nat) (h : n < 256) : to_u8 (n : Int) = n := by
  unfold to_u8; omega

end Yaft
namespace Yaft

open esc_state

theorem set_attr_step_index (t : terminal_t) (parm : parm_t) (sel : Int) (N : Nat)
    (hs : sel = 38 ∨ sel = 48) (h0 : dec2num (parm.arg 0) = sel)
    (h1 : dec2num (parm.arg 1) = 5) (h2 : dec2num (parm.arg 2) = N) (hN : N < 256)
    (ha : parm.argc = 3) :
    set_attr_step t parm 0
      = (if sel = 38 then { t with color_pair := { t.color_pair with fg := N } }
         else { t with color_pair := { t.color_pair with bg := N } }, 2) := by
  have e : to_u8 (N : Int) = N := to_u8_small N hN
  have a2 : 0 + 2 < parm.argc := by omega
  unfold set_attr_step
  dsimp only
  rw [h0]
  rcases hs with rfl | rfl
  · simp only [h1, h2, a2, e]
    norm_num
  · simp only [h1, h2, a2, e]
    norm_num

theorem set_attr_step_rgb (t : terminal_t) (parm : parm_t) (sel : Int) (R G B : Nat)
    (hs : sel = 38 ∨ sel = 48) (h0 : dec2num (parm.arg 0) = sel)
    (h1 : dec2num (parm.arg 1) = 2) (h2 : dec2num (parm.arg 2) = R)
    (h3 : dec2num (parm.arg 3) = G) (h4 : dec2num (parm.arg 4) = B)
    (hR : R < 256) (hG : G < 256) (hB : B < 256) (ha : parm.argc = 5) :
    set_attr_step t parm 0
      = (if sel = 38 then { t with color_pair := { t.color_pair with fg := rgb2index R G B } }
         else { t with color_pair := { t.color_pair with bg := rgb2index R G B } }, 4) := by
  have a2 : 0 + 2 < parm.argc := by omega
  have a4 : 0 + 4 < parm.argc := by omega
  unfold set_attr_step
  dsimp only
  rw [h0]
  rcases hs with rfl | rfl
  · simp only [h1, h2, h3, h4, a2, a4, to_u8_small R hR, to_u8_small G hG, to_u8_small B hB]
    norm_num
  · simp only [h1, h2, h3, h4, a2, a4, to_u8_small R hR, to_u8_small G hG, to_u8_small B hB]
    norm_num

end Yaft
namespace Yaft

open esc_state

theorem set_attr_step_fg (t : terminal_t) (parm : parm_t) (n : Nat)
    (h0 : dec2num (parm.arg 0) = n) (h1 : 30 ≤ n) (h2 : n ≤ 37) :
    set_attr_step t parm 0
      = ({ t with color_pair := { t.color_pair with fg := n - 30 } }, 0) := by
  have e : to_u8 ((n : Int) - 30) = n - 30 := by unfold to_u8; omega
  unfold set_attr_step
  dsimp only
  rw [h0]
  repeat rw [if_neg (by omega)]
  rw [if_pos (by omega), e]

theorem set_attr_step_bg (t : terminal_t) (parm : parm_t) (n : Nat)
    (h0 : dec2num (parm.arg 0) = n) (h1 : 40 ≤ n) (h2 : n ≤ 47) :
    set_attr_step t parm 0
      = ({ t with color_pair := { t.color_pair with bg := n - 40 } }, 0) := by
  have e : to_u8 ((n : Int) - 40) = n - 40 := by unfold to_u8; omega
  unfold set_attr_step
  dsimp only
  rw [h0]
  repeat rw [if_neg (by omega)]
  rw [if_pos (by omega), e]

theorem set_attr_step_bright_fg (t : terminal_t) (parm : parm_t) (n : Nat)
    (h0 : dec2num (parm.arg 0) = n) (h1 : 90 ≤ n) (h2 : n ≤ 97) :
    set_attr_step t parm 0
      = ({ t with color_pair := { t.color_pair with fg := n - 90 + 8 } }, 0) := by
  have e : to_u8 ((n : Int) - 90 + ((8 : Nat) : Int)) = n - 90 + 8 := by unfold to_u8; omega
  unfold set_attr_step BRIGHT_INC
  dsimp only
  rw [h0]
  repeat rw [if_neg (by omega)]
  rw [if_pos (by omega), e]

theorem set_attr_step_bright_bg (t : terminal_t) (parm : parm_t) (n : Nat)
    (h0 : dec2num (parm.arg 0) = n) (h1 : 100 ≤ n) (h2 : n ≤ 107) :
    set_attr_step t parm 0
      = ({ t with color_pair := { t.color_pair with bg := n - 100 + 8 } }, 0) := by
  have e : to_u8 ((n : Int) - 100 + ((8 : Nat) : Int)) = n - 100 + 8 := by unfold to_u8; omega
  unfold set_attr_step BRIGHT_INC
  dsimp only
  rw [h0]
  repeat rw [if_neg (by omega)]
  rw [if_pos (by omega), e]

theorem set_attr_step_default (t : terminal_t) (parm : parm_t) :
    (dec2num (parm.arg 0) = 39 → set_attr_step t parm 0
      = ({ t with color_pair := { t.color_pair with fg := DEFAULT_FG } }, 0))
    ∧ (dec2num (parm.arg 0) = 49 → set_attr_step t parm 0
      = ({ t with color_pair := { t.color_pair with bg := DEFAULT_BG } }, 0))
    ∧ (dec2num (parm.arg 0) = 0 → set_attr_step t parm 0
      = ({ t with attr := ATTR_RESET, color_pair := { fg := DEFAULT_FG, bg := DEFAULT_BG } }, 0)) := by
  refine ⟨fun h0 => ?_, fun h0 => ?_, fun h0 => ?_⟩
  · unfold set_attr_step
    dsimp only
    rw [h0]
    norm_num
  · unfold set_attr_step
    dsimp only
    rw [h0]
    norm_num
  · unfold set_attr_step
    dsimp only
    rw [h0]
    norm_num

end Yaft
namespace Yaft

open esc_state

theorem csi_func_m (s : terminal_t) (parm : parm_t) : csi_func 0x6D s parm = set_attr s parm :=
  rfl

/-- An SGR sequence whose first parameter consumes the whole list. -/
theorem sgr_parse (wc : Nat → Int) (t : terminal_t) (hg : Ground t) (ps : List Nat)
    (hps : ∀ p ∈ ps, 0x20 ≤ p ∧ p ≤ 0x3F) (n : Nat) (ha : (csi_parm ps).argc = n + 1) :
    ∃ sz, ∀ s1 : terminal_t,
      set_attr_step (csi_ready t ps sz) (csi_parm ps) 0 = (s1, n) →
      parse wc t ([0x1B, 0x5B] ++ ps ++ [0x6D]) = some (reset_esc s1) := by
  obtain ⟨sz, e⟩ := parse_csi_run wc t hg ps 0x6D hps (by decide) (by decide)
  refine ⟨sz, fun s1 h => ?_⟩
  have h2 : (set_attr_step (csi_ready t ps sz) (csi_parm ps) 0).2 = n := by rw [h]
  rw [e, csi_func_m, set_attr_skip _ _ n ha h2, h]
  rfl

/-- C24: in a state between two sequences, let the parameter bytes `ps` of
`ESC [ ps m` be read as the numbers named below. `38;5;N` sets the foreground and
`48;5;N` the background to `N` (`N ≤ 255`); `38;2;R;G;B` and `48;2;R;G;B` set them
to `rgb2index(R, G, B)` (`R, G, B ≤ 255`); `30..37` and `40..47` set them to `n-30`
and `n-40`, `90..97` and `100..107` to `n-90+8` and `n-100+8`, `39` and `49` to the
defaults 7 and 0; in each case nothing else changes (the other colour and the
attribute included) but the escape buffer, which is empty again. A single `0` or an
empty parameter list resets the attribute to RESET and the colours to fg 7, bg 0. -/
theorem C24_sgr_colours (wc : Nat → Int) (t : terminal_t) (hg : Ground t) (ps : List Nat)
    (hps : ∀ p ∈ ps, 0x20 ≤ p ∧ p ≤ 0x3F) :
    (∀ N : Nat, N < 256 → reads (csi_parm ps) [38, 5, N] →
      ∃ sz, parse wc t ([0x1B, 0x5B] ++ ps ++ [0x6D]) = some (esc_done (with_fg t N) sz))
    ∧ (∀ N : Nat, N < 256 → reads (csi_parm ps) [48, 5, N] →
      ∃ sz, parse wc t ([0x1B, 0x5B] ++ ps ++ [0x6D]) = some (esc_done (with_bg t N) sz))
    ∧ (∀ R G B : Nat, R < 256 → G < 256 → B < 256 → reads (csi_parm ps) [38, 2, R, G, B] →
      ∃ sz, parse wc t ([0x1B, 0x5B] ++ ps ++ [0x6D])
        = some (esc_done (with_fg t (rgb2index R G B)) sz))
    ∧ (∀ R G B : Nat, R < 256 → G < 256 → B < 256 → reads (csi_parm ps) [48, 2, R, G, B] →
      ∃ sz, parse wc t ([0x1B, 0x5B] ++ ps ++ [0x6D])
        = some (esc_done (with_bg t (rgb2index R G B)) sz))
    ∧ (∀ n : Nat, 30 ≤ n → n ≤ 37 → reads (csi_parm ps) [(n : Int)] →
      ∃ sz, parse wc t ([0x1B, 0x5B] ++ ps ++ [0x6D]) = some (esc_done (with_fg t (n - 30)) sz))
    ∧ (∀ n : Nat, 40 ≤ n → n ≤ 47 → reads (csi_parm ps) [(n : Int)] →
      ∃ sz, parse wc t ([0x1B, 0x5B] ++ ps ++ [0x6D]) = some (esc_done (with_bg t (n - 40)) sz))
    ∧ (∀ n : Nat, 90 ≤ n → n ≤ 97 → reads (csi_parm ps) [(n : Int)] →
      ∃ sz, parse wc t ([0x1B, 0x5B] ++ ps ++ [0x6D])
        = some (esc_done (with_fg t (n - 90 + 8)) sz))
    ∧ (∀ n : Nat, 100 ≤ n → n ≤ 107 → reads (csi_parm ps) [(n : Int)] →
      ∃ sz, parse wc t ([0x1B, 0x5B] ++ ps ++ [0x6D])
        = some (esc_done (with_bg t (n - 100 + 8)) sz))
    ∧ (reads (csi_parm ps) [39] →
      ∃ sz, parse wc t ([0x1B, 0x5B] ++ ps ++ [0x6D]) = some (esc_done (with_fg t 7) sz))
    ∧ (reads (csi_parm ps) [49] →
      ∃ sz, parse wc t ([0x1B, 0x5B] ++ ps ++ [0x6D]) = some (esc_done (with_bg t 0) sz))
    ∧ (reads (csi_parm ps) [0] ∨ reads (csi_parm ps) [] →
      ∃ sz, parse wc t ([0x1B, 0x5B] ++ ps ++ [0x6D]) = some (esc_done (sgr_reset t) sz)) := by
  refine ⟨?_, ?_, ?_, ?_, ?_, ?_, ?_, ?_, ?_, ?_, ?_⟩
  · intro N hN hr
    obtain ⟨sz, h⟩ := sgr_parse wc t hg ps hps 2 hr.1
    refine ⟨sz, ?_⟩
    rw [h _ (set_attr_step_index _ _ 38 N (Or.inl rfl) (hr.2 0 (by simp)) (hr.2 1 (by simp))
      (hr.2 2 (by simp)) hN hr.1)]
    rfl
  · intro N hN hr
    obtain ⟨sz, h⟩ := sgr_parse wc t hg ps hps 2 hr.1
    refine ⟨sz, ?_⟩
    rw [h _ (set_attr_step_index _ _ 48 N (Or.inr rfl) (hr.2 0 (by simp)) (hr.2 1 (by simp))
      (hr.2 2 (by simp)) hN hr.1)]
    rfl
  · intro R G B hR hG hB hr
    obtain ⟨sz, h⟩ := sgr_parse wc t hg ps hps 4 hr.1
    refine ⟨sz, ?_⟩
    rw [h _ (set_attr_step_rgb _ _ 38 R G B (Or.inl rfl) (hr.2 0 (by simp)) (hr.2 1 (by simp))
      (hr.2 2 (by simp)) (hr.2 3 (by simp)) (hr.2 4 (by simp)) hR hG hB hr.1)]
    rfl
  · intro R G B hR hG hB hr
    obtain ⟨sz, h⟩ := sgr_parse wc t hg ps hps 4 hr.1
    refine ⟨sz, ?_⟩
    rw [h _ (set_attr_step_rgb _ _ 48 R G B (Or.inr rfl) (hr.2 0 (by simp)) (hr.2 1 (by simp))
      (hr.2 2 (by simp)) (hr.2 3 (by simp)) (hr.2 4 (by simp)) hR hG hB hr.1)]
    rfl
  · intro n h1 h2 hr
    obtain ⟨sz, h⟩ := sgr_parse wc t hg ps hps 0 hr.1
    refine ⟨sz, ?_⟩
    rw [h _ (set_attr_step_fg _ _ n (hr.2 0 (by simp)) h1 h2)]
    rfl
  · intro n h1 h2 hr
    obtain ⟨sz, h⟩ := sgr_parse wc t hg ps hps 0 hr.1
    refine ⟨sz, ?_⟩
    rw [h _ (set_attr_step_bg _ _ n (hr.2 0 (by simp)) h1 h2)]
    rfl
  · intro n h1 h2 hr
    obtain ⟨sz, h⟩ := sgr_parse wc t hg ps hps 0 hr.1
    refine ⟨sz, ?_⟩
    rw [h _ (set_attr_step_bright_fg _ _ n (hr.2 0 (by simp)) h1 h2)]
    rfl
  · intro n h1 h2 hr
    obtain ⟨sz, h⟩ := sgr_parse wc t hg ps hps 0 hr.1
    refine ⟨sz, ?_⟩
    rw [h _ (set_attr_step_bright_bg _ _ n (hr.2 0 (by simp)) h1 h2)]
    rfl
  · intro hr
    obtain ⟨sz, h⟩ := sgr_parse wc t hg ps hps 0 hr.1
    refine ⟨sz, ?_⟩
    rw [h _ ((set_attr_step_default _ _).1 (hr.2 0 (by simp)))]
    rfl
  · intro hr
    obtain ⟨sz, h⟩ := sgr_parse wc t hg ps hps 0 hr.1
    refine ⟨sz, ?_⟩
    rw [h _ ((set_attr_step_default _ _).2.1 (hr.2 0 (by simp)))]
    rfl
  · intro hr
    rcases hr with hr | hr
    · obtain ⟨sz, h⟩ := sgr_parse wc t hg ps hps 0 hr.1
      refine ⟨sz, ?_⟩
      rw [h _ ((set_attr_step_default _ _).2.2 (hr.2 0 (by simp)))]
      rfl
    · obtain ⟨sz, e⟩ := parse_csi_run wc t hg ps 0x6D hps (by decide) (by decide)
      refine ⟨sz, ?_⟩
      have ha : (csi_parm ps).argc = 0 := hr.1
      rw [e, csi_func_m]
      unfold set_attr
      rw [if_pos (by omega)]
      rfl

end Yaft
namespace Yaft

open esc_state

/-- C24, witness: on a fresh terminal `ESC [ 3 8 ; 5 ; 1 9 6 m` sets the foreground to
196, `ESC [ 4 8 ; 2 ; 2 5 5 ; 0 ; 0 m` sets the background to `rgb2index(255, 0, 0)`,
which is 196, and `ESC [ 9 4 m` sets the foreground to 12. -/
theorem C24_sgr_colours_witness :
    (∃ sz, parse ascii_wcwidth (fresh 3 2)
        ([0x1B, 0x5B] ++ [0x33, 0x38, 0x3B, 0x35, 0x3B, 0x31, 0x39, 0x36] ++ [0x6D])
      = some (esc_done (with_fg (fresh 3 2) 196) sz))
    ∧ (∃ sz, parse ascii_wcwidth (fresh 3 2)
        ([0x1B, 0x5B] ++ [0x34, 0x38, 0x3B, 0x32, 0x3B, 0x32, 0x35, 0x35, 0x3B, 0x30, 0x3B, 0x30]
          ++ [0x6D])
      = some (esc_done (with_bg (fresh 3 2) (rgb2index 255 0 0)) sz))
    ∧ (∃ sz, parse ascii_wcwidth (fresh 3 2) ([0x1B, 0x5B] ++ [0x39, 0x34] ++ [0x6D])
      = some (esc_done (with_fg (fresh 3 2) (94 - 90 + 8)) sz))
    ∧ (run 3 2 [0x1B, 0x5B, 0x34, 0x38, 0x3B, 0x32, 0x3B, 0x32, 0x35, 0x35, 0x3B, 0x30, 0x3B,
        0x30, 0x6D]).map (fun s => (s.color_pair, s.attr)) = some ({ fg := 7, bg := 196 }, 0)
    ∧ (run 3 2 [0x1B, 0x5B, 0x31, 0x3B, 0x39, 0x34, 0x6D, 0x1B, 0x5B, 0x6D]).map
        (fun s => (s.color_pair, s.attr)) = some ({ fg := 7, bg := 0 }, 0) :=
  ⟨(C24_sgr_colours ascii_wcwidth (fresh 3 2) (fresh_ground 3 2)
      [0x33, 0x38, 0x3B, 0x35, 0x3B, 0x31, 0x39, 0x36] (by decide)).1 196 (by decide) (by decide),
    (C24_sgr_colours ascii_wcwidth (fresh 3 2) (fresh_ground 3 2)
      [0x34, 0x38, 0x3B, 0x32, 0x3B, 0x32, 0x35, 0x35, 0x3B, 0x30, 0x3B, 0x30]
      (by decide)).2.2.2.1 255 0 0 (by decide) (by decide) (by decide) (by decide),
    (C24_sgr_colours ascii_wcwidth (fresh 3 2) (fresh_ground 3 2) [0x39, 0x34]
      (by decide)).2.2.2.2.2.2.1 94 (by decide) (by decide) (by decide),
    by decide, by decide⟩

end Yaft

namespace Yaft

open esc_state

/-! ## The saved-state slot is written by `save_state` and `reset` only -/

theorem Kept.here (t : terminal_t) : Kept t t := ⟨rfl, rfl⟩

theorem Kept.next {a b c : terminal_t} (h1 : Kept a b) (h2 : Kept b c) : Kept a c :=
  ⟨h2.1.trans h1.1, h2.2.trans h1.2⟩

theorem cell_store_kept {t t1 : terminal_t} {y x : Int} {c : cell_t}
    (h : cell_store t y x c = some t1) : Kept t t1 := by
  unfold cell_store at h
  split at h
  · cases h; exact ⟨rfl, rfl⟩
  · exact absurd h (by simp)

theorem line_dirty_store_kept {t t1 : terminal_t} {y : Int} {b : Bool}
    (h : line_dirty_store t y b = some t1) : Kept t t1 := by
  unfold line_dirty_store at h
  split at h
  · cases h; exact ⟨rfl, rfl⟩
  · exact absurd h (by simp)

theorem tabstop_store_kept {t t1 : terminal_t} {x : Int} {b : Bool}
    (h : tabstop_store t x b = some t1) : Kept t t1 := by
  unfold tabstop_store at h
  split at h
  · cases h; exact ⟨rfl, rfl⟩
  · exact absurd h (by simp)

theorem swap_lines_kept {t t1 : terminal_t} {i j : Int} (h : swap_lines t i j = some t1) :
    Kept t t1 := by
  unfold swap_lines at h
  split at h
  · cases h; exact ⟨rfl, rfl⟩
  · exact absurd h (by simp)

theorem erase_cell_kept {t t1 : terminal_t} {y x : Int} (h : erase_cell t y x = some t1) :
    Kept t t1 := by
  unfold erase_cell at h
  split at h
  · exact absurd h (by simp)
  · rename_i t2 h2
    exact (cell_store_kept h2).next (line_dirty_store_kept h)

theorem copy_cell_kept {t t1 : terminal_t} {dy dx sy sx : Int}
    (h : copy_cell t dy dx sy sx = some t1) : Kept t t1 := by
  unfold copy_cell at h
  split at h
  · exact absurd h (by simp)
  · split at h
    · cases h; exact Kept.here t
    · split at h
      · exact erase_cell_kept h
      · split at h
        · exact absurd h (by simp)
        · rename_i t2 h2
          have a := cell_store_kept h2
          split at h
          · split at h
            · exact absurd h (by simp)
            · rename_i t3 h3
              exact a.next ((cell_store_kept h3).next (line_dirty_store_kept h))
          · exact a.next (line_dirty_store_kept h)

theorem set_cell_kept {t t1 : terminal_t} {y x w : Int} {g : glyph_t}
    (h : set_cell t y x g = some (t1, w)) : Kept t t1 := by
  unfold set_cell at h
  simp only at h
  split at h
  · exact absurd h (by simp)
  · rename_i t2 h2
    have a := cell_store_kept h2
    split at h
    · exact absurd h (by simp)
    · rename_i t3 h3
      have ab := a.next (line_dirty_store_kept h3)
      split at h
      · split at h
        · exact absurd h (by simp)
        · rename_i t4 h4
          simp only [Option.some.injEq, Prod.mk.injEq] at h
          rw [← h.1]
          exact ab.next (cell_store_kept h4)
      · split at h
        · split at h
          · exact absurd h (by simp)
          · split at h
            · split at h
              · exact absurd h (by simp)
              · rename_i t4 h4
                simp only [Option.some.injEq, Prod.mk.injEq] at h
                rw [← h.1]
                exact ab.next (erase_cell_kept h4)
            · simp only [Option.some.injEq, Prod.mk.injEq] at h
              rw [← h.1]
              exact ab
        · simp only [Option.some.injEq, Prod.mk.injEq] at h
          rw [← h.1]
          exact ab

theorem erase_loop_kept {t t1 : terminal_t} {lo hi y : Int}
    (h : for_up lo hi (fun s i => erase_cell s y i) t = some t1) : Kept t t1 :=
  for_up_inv (fun s => Kept t s) _ _ _ _ _
    (fun _ _ _ _ _ ha hab => ha.next (erase_cell_kept hab)) (Kept.here t) h

theorem erase_row_kept {t t1 : terminal_t} {y : Int} (h : erase_row t y = some t1) :
    Kept t t1 := by
  unfold erase_row at h
  exact erase_loop_kept h

theorem scroll_window_kept {t t1 : terminal_t} {frm til offset : Int}
    (h : scroll_window t frm til offset = some t1) : Kept t t1 := by
  unfold scroll_window at h
  split at h
  · cases h; exact Kept.here t
  · split at h
    · exact absurd h (by simp)
    split at h
    · exact absurd h (by simp)
    · rename_i ta hta
      have d := for_up_inv (fun s => Kept t s) _ _ _ _ _
        (fun a i b _ _ ha hab => ha.next (line_dirty_store_kept hab)) (Kept.here t) hta
      simp only at h
      split at h
      · split at h
        · exact absurd h (by simp)
        · rename_i tb htb
          have sw := for_up_inv (fun s => Kept ta s) _ _ _ _ _
            (fun a i b _ _ ha hab => ha.next (swap_lines_kept hab)) (Kept.here ta) htb
          have er := for_up_inv (fun s => Kept tb s) _ _ _ _ _
            (fun a i b _ _ ha hab => ha.next (erase_row_kept hab)) (Kept.here tb) h
          exact d.next (sw.next er)
      · split at h
        · exact absurd h (by simp)
        · rename_i tb htb
          have sw := for_down_inv (fun s => Kept ta s) _ _ _ _ _
            (fun a i b _ _ ha hab => ha.next (swap_lines_kept hab)) (Kept.here ta) htb
          have er := for_up_inv (fun s => Kept tb s) _ _ _ _ _
            (fun a i b _ _ ha hab => ha.next (erase_row_kept hab)) (Kept.here tb) h
          exact d.next (sw.next er)

theorem move_cursor_x_kept (t : terminal_t) (dx : Int) : Kept t (move_cursor_x t dx) := by
  unfold move_cursor_x
  simp only
  split_ifs <;> exact ⟨rfl, rfl⟩

theorem set_cursor_kept (t : terminal_t) (y x : Int) : Kept t (set_cursor_to t y x) := by
  unfold set_cursor_to
  exact ⟨rfl, rfl⟩

theorem set_cursor_keeps {t t1 : terminal_t} {y x : Int} (h : set_cursor t y x = some t1) :
    Kept t t1 := by
  rw [set_cursor_some h]; exact set_cursor_kept t y x

theorem store_cursor_y_kept (t : terminal_t) (y : Int) : Kept t (store_cursor_y t y) :=
  ⟨rfl, rfl⟩

theorem move_cursor_kept {t t1 : terminal_t} {dy dx : Int}
    (h : move_cursor t dy dx = some t1) : Kept t t1 := by
  unfold move_cursor at h
  simp only at h
  have hx := move_cursor_x_kept t dx
  split at h
  · exact absurd h (by simp)
  split at h
  · split at h
    · exact absurd h (by simp)
    · rename_i t2 hsw
      simp only [Option.some.injEq] at h
      subst h
      exact hx.next ((scroll_window_kept hsw).next (store_cursor_y_kept _ _))
  · split at h
    · split at h
      · exact absurd h (by simp)
      · rename_i t2 hsw
        simp only [Option.some.injEq] at h
        subst h
        exact hx.next ((scroll_window_kept hsw).next (store_cursor_y_kept _ _))
    · simp only [Option.some.injEq] at h
      subst h
      exact hx.next (store_cursor_y_kept _ _)

theorem add_char_kept {wc : Nat → Int} {t t1 : terminal_t} {code : Nat}
    (h : add_char wc t code = some t1) : Kept t t1 := by
  unfold add_char at h
  simp only at h
  split at h
  · cases h; exact Kept.here t
  · split at h
    · exact absurd h (by simp)
    · split at h
      · exact absurd h (by simp)
      · rename_i ta hta
        have s1 : Kept t ta := by
          split at hta
          · obtain ⟨tc, hc1, hc2⟩ := Option.bind_eq_some.mp hta
            exact (set_cursor_keeps hc1).next (move_cursor_kept hc2)
          · cases hta; exact Kept.here t
        split at h
        · exact absurd h (by simp)
        · rename_i tb w hsc
          have s2 : Kept ta { ta with wrap_occured := false } := ⟨rfl, rfl⟩
          exact s1.next (s2.next ((set_cell_kept hsc).next (move_cursor_kept h)))

theorem emit_char_kept {wc : Nat → Int} {t t1 : terminal_t} {code : Nat}
    (h : emit_char wc t code = some t1) : Kept t t1 := by
  unfold emit_char at h
  split at h
  · exact absurd h (by simp)
  · rename_i ta hta
    cases h
    exact (add_char_kept hta).next ⟨rfl, rfl⟩

theorem utf8_charset_kept {wc : Nat → Int} {t t1 : terminal_t} {ch : Nat}
    (h : utf8_charset wc t ch = some t1) : Kept t t1 := by
  unfold utf8_charset at h
  have fr : ∀ cs : charset_t, Kept t { t with charset := cs } := fun cs => ⟨rfl, rfl⟩
  split at h
  · simp only at h
    split at h
    · split at h
      · exact (fr _).next (emit_char_kept h)
      · exact (fr _).next (emit_char_kept h)
    · cases h; exact fr _
  · split at h
    · cases h; exact fr _
    · exact emit_char_kept h

theorem bs_kept {t t1 : terminal_t} (h : bs t = some t1) : Kept t t1 := by
  unfold bs at h
  split at h
  · split at h
    · exact absurd h (by simp)
    · split at h
      · exact move_cursor_kept h
      · exact move_cursor_kept h
  · exact move_cursor_kept h

theorem tab_loop_kept (t : terminal_t) : ∀ (n : Nat) (i : Int) (t1 : terminal_t),
    tab_loop t n i = some t1 → Kept t t1 := by
  intro n
  induction n with
  | zero =>
    intro i t1 h
    simp only [tab_loop] at h
    exact set_cursor_keeps h
  | succ n ih =>
    intro i t1 h
    simp only [tab_loop] at h
    split at h
    · exact absurd h (by simp)
    · exact set_cursor_keeps h
    · exact ih _ _ h

theorem carriage_return_kept {t t1 : terminal_t} (h : carriage_return t = some t1) :
    Kept t t1 := by
  unfold carriage_return at h
  exact set_cursor_keeps h

end Yaft
namespace Yaft

open esc_state

theorem insert_blank_kept {t t1 : terminal_t} {parm : parm_t}
    (h : insert_blank t parm = some t1) : Kept t t1 := by
  unfold insert_blank at h
  replace h := (guard_some h).2
  refine for_down_inv (fun s => Kept t s) _ _ _ _ _ ?_ (Kept.here t) h
  intro a i b _ _ ha hab
  split at hab
  · exact ha.next (copy_cell_kept hab)
  · exact ha.next (erase_cell_kept hab)

theorem curs_up_kept {t t1 : terminal_t} {parm : parm_t}
    (h : curs_up t parm = some t1) : Kept t t1 := by
  unfold curs_up at h
  exact move_cursor_kept (guard_some h).2

theorem curs_down_kept {t t1 : terminal_t} {parm : parm_t}
    (h : curs_down t parm = some t1) : Kept t t1 := by
  unfold curs_down at h
  exact move_cursor_kept (guard_some h).2

theorem curs_forward_kept {t t1 : terminal_t} {parm : parm_t}
    (h : curs_forward t parm = some t1) : Kept t t1 := by
  unfold curs_forward at h
  exact move_cursor_kept (guard_some h).2

theorem curs_back_kept {t t1 : terminal_t} {parm : parm_t}
    (h : curs_back t parm = some t1) : Kept t t1 := by
  unfold curs_back at h
  exact move_cursor_kept (guard_some h).2

theorem curs_nl_kept {t t1 : terminal_t} {parm : parm_t}
    (h : curs_nl t parm = some t1) : Kept t t1 := by
  unfold curs_nl at h
  obtain ⟨t2, h2, h3⟩ := Option.bind_eq_some.mp (guard_some h).2
  exact (move_cursor_kept h2).next (carriage_return_kept h3)

theorem curs_pl_kept {t t1 : terminal_t} {parm : parm_t}
    (h : curs_pl t parm = some t1) : Kept t t1 := by
  unfold curs_pl at h
  obtain ⟨t2, h2, h3⟩ := Option.bind_eq_some.mp (guard_some h).2
  exact (move_cursor_kept h2).next (carriage_return_kept h3)

theorem curs_col_kept {t t1 : terminal_t} {parm : parm_t}
    (h : curs_col t parm = some t1) : Kept t t1 := by
  unfold curs_col at h
  exact set_cursor_keeps (guard_some h).2

theorem curs_pos_kept {t t1 : terminal_t} {parm : parm_t}
    (h : curs_pos t parm = some t1) : Kept t t1 := by
  unfold curs_pos at h
  split at h
  · exact set_cursor_keeps h
  · split at h
    · exact set_cursor_keeps (guard_some h).2
    · simp only [Option.some.injEq] at h
      rw [← h]; exact Kept.here t

theorem curs_line_kept {t t1 : terminal_t} {parm : parm_t}
    (h : curs_line t parm = some t1) : Kept t t1 := by
  unfold curs_line at h
  exact set_cursor_keeps (guard_some h).2

theorem erase_loops_kept {t t1 : terminal_t} {lo hi lo2 hi2 : Int} {c : Int → Int → Prop}
    [∀ i j, Decidable (c i j)]
    (h : for_up lo hi (fun s i =>
      for_up lo2 hi2 (fun s1 j => if c i j then erase_cell s1 i j else some s1) s) t = some t1) :
    Kept t t1 := by
  refine for_up_inv (fun s => Kept t s) _ _ _ _ _ ?_ (Kept.here t) h
  intro a i b _ _ ha hab
  refine ha.next (for_up_inv (fun s => Kept a s) _ _ _ _ _ ?_ (Kept.here a) hab)
  intro a1 j b1 _ _ ha1 hab1
  split at hab1
  · exact ha1.next (erase_cell_kept hab1)
  · simp only [Option.some.injEq] at hab1
    rw [← hab1]; exact ha1

theorem erase_display_kept {t t1 : terminal_t} {parm : parm_t}
    (h : erase_display t parm = some t1) : Kept t t1 := by
  unfold erase_display at h
  simp only at h
  split at h
  · simp only [Option.some.injEq] at h
    rw [← h]; exact Kept.here t
  · split at h
    · exact erase_loops_kept h
    · split at h
      · exact erase_loops_kept h
      · refine for_up_inv (fun s => Kept t s) _ _ _ _ _ ?_ (Kept.here t) h
        intro a i b _ _ ha hab
        exact ha.next (erase_loop_kept hab)

theorem erase_line_kept {t t1 : terminal_t} {parm : parm_t}
    (h : erase_line t parm = some t1) : Kept t t1 := by
  unfold erase_line at h
  simp only at h
  split at h
  · simp only [Option.some.injEq] at h
    rw [← h]; exact Kept.here t
  · split at h
    · exact erase_loop_kept h
    · split at h
      · exact erase_loop_kept h
      · exact erase_loop_kept h

theorem insert_line_kept {t t1 : terminal_t} {parm : parm_t}
    (h : insert_line t parm = some t1) : Kept t t1 := by
  unfold insert_line at h
  replace h := (guard_some h).2
  split at h
  · simp only [Option.some.injEq] at h
    rw [← h]; exact Kept.here t
  · exact scroll_window_kept h

theorem delete_line_kept {t t1 : terminal_t} {parm : parm_t}
    (h : delete_line t parm = some t1) : Kept t t1 := by
  unfold delete_line at h
  replace h := (guard_some h).2
  split at h
  · simp only [Option.some.injEq] at h
    rw [← h]; exact Kept.here t
  · exact scroll_window_kept h

theorem delete_char_kept {t t1 : terminal_t} {parm : parm_t}
    (h : delete_char t parm = some t1) : Kept t t1 := by
  unfold delete_char at h
  replace h := (guard_some h).2
  refine for_up_inv (fun s => Kept t s) _ _ _ _ _ ?_ (Kept.here t) h
  intro a i b _ _ ha hab
  replace hab := (guard_some hab).2
  split at hab
  · exact ha.next (copy_cell_kept hab)
  · exact ha.next (erase_cell_kept hab)

theorem erase_char_kept {t t1 : terminal_t} {parm : parm_t}
    (h : erase_char t parm = some t1) : Kept t t1 := by
  unfold erase_char at h
  split at h
  · exact absurd h (by simp)
  · exact erase_loop_kept (guard_some (guard_some h).2).2

theorem kept_ite {t : terminal_t} {c : Prop} [Decidable c] {a b : terminal_t × Nat}
    (ha : Kept t a.1) (hb : Kept t b.1) : Kept t (if c then a else b).1 := by
  split <;> assumption

theorem set_attr_step_kept (t : terminal_t) (parm : parm_t) (i : Nat) :
    Kept t (set_attr_step t parm i).1 := by
  unfold set_attr_step
  dsimp only
  repeat first
    | exact ⟨rfl, rfl⟩
    | apply kept_ite

theorem set_attr_loop_kept (parm : parm_t) : ∀ (fuel i : Nat) (t : terminal_t),
    Kept t (set_attr_loop parm fuel i t) := by
  intro fuel
  induction fuel with
  | zero => intro i t; exact Kept.here t
  | succ n ih =>
    intro i t
    simp only [set_attr_loop]
    split
    · exact (set_attr_step_kept t parm i).next (ih _ _)
    · exact Kept.here t

theorem set_attr_kept {t t1 : terminal_t} {parm : parm_t}
    (h : set_attr t parm = some t1) : Kept t t1 := by
  unfold set_attr at h
  split at h
  · simp only [Option.some.injEq] at h
    rw [← h]; exact ⟨rfl, rfl⟩
  · simp only [Option.some.injEq] at h
    rw [← h]; exact set_attr_loop_kept _ _ _ _

theorem status_report_kept {t t1 : terminal_t} {parm : parm_t}
    (h : status_report t parm = some t1) : Kept t t1 := by
  unfold status_report at h
  simp only [Option.some.injEq] at h
  rw [← h]
  refine foldl_inv (fun s => Kept t s) _ _ _ (Kept.here t) ?_
  intro b a hb
  dsimp only
  split_ifs
  · exact hb.next ⟨rfl, rfl⟩
  · exact hb.next ⟨rfl, rfl⟩
  · exact hb.next ⟨rfl, rfl⟩
  · exact hb

theorem device_attribute_kept {t t1 : terminal_t} {parm : parm_t}
    (h : device_attribute t parm = some t1) : Kept t t1 := by
  unfold device_attribute at h
  simp only [Option.some.injEq] at h
  rw [← h]; exact ⟨rfl, rfl⟩

theorem set_mode_kept {t t1 : terminal_t} {parm : parm_t}
    (h : set_mode t parm = some t1) : Kept t t1 := by
  unfold set_mode at h
  refine foldl_bind_inv (fun s => Kept t s) _ _ _ t1 ?_ ?_ h
  · intro s hs; cases hs; exact Kept.here t
  intro b a b2 hb hab
  have fr : ∀ m : Nat, Kept b { b with mode := m } := fun m => ⟨rfl, rfl⟩
  unfold set_mode_body at hab
  dsimp only at hab
  split_ifs at hab
  · cases hab; exact hb
  · exact hb.next ((fr _).next (set_cursor_keeps hab))
  · cases hab; exact hb.next (fr _)
  · cases hab; exact hb.next (fr _)
  · cases hab; exact hb.next (fr _)
  · cases hab; exact hb

theorem reset_mode_kept {t t1 : terminal_t} {parm : parm_t}
    (h : reset_mode t parm = some t1) : Kept t t1 := by
  unfold reset_mode at h
  refine foldl_bind_inv (fun s => Kept t s) _ _ _ t1 ?_ ?_ h
  · intro s hs; cases hs; exact Kept.here t
  intro b a b2 hb hab
  have fr : ∀ (m : Nat) (w : Bool), Kept b { b with mode := m, wrap_occured := w } :=
    fun m w => ⟨rfl, rfl⟩
  unfold reset_mode_body at hab
  dsimp only at hab
  split_ifs at hab
  · cases hab; exact hb
  · exact hb.next ((fr _ b.wrap_occured).next (set_cursor_keeps hab))
  · cases hab; exact hb.next (fr _ false)
  · cases hab; exact hb.next (fr _ b.wrap_occured)
  · cases hab; exact hb.next (fr _ b.wrap_occured)
  · cases hab; exact hb

theorem set_margin_kept {t t1 : terminal_t} {parm : parm_t}
    (h : set_margin t parm = some t1) : Kept t t1 := by
  unfold set_margin at h
  replace h := (guard_some h).2
  split at h
  · split at h
    · cases h; exact Kept.here t
    · have fr : ∀ m : margin_t, Kept t { t with scroll := m } := fun m => ⟨rfl, rfl⟩
      exact (fr _).next (set_cursor_keeps h)
  · cases h; exact Kept.here t

theorem tabstop_loop_kept {t t1 : terminal_t} {lo hi : Int}
    (h : for_up lo hi (fun s j => tabstop_store s j false) t = some t1) : Kept t t1 :=
  for_up_inv (fun s => Kept t s) _ _ _ _ _
    (fun _ _ _ _ _ ha hab => ha.next (tabstop_store_kept hab)) (Kept.here t) h

theorem clear_tabstop_loop_kept (parm : parm_t) : ∀ (fuel i : Nat) (t t1 : terminal_t),
    clear_tabstop_loop parm fuel i t = some t1 → Kept t t1 := by
  intro fuel
  induction fuel with
  | zero =>
    intro i t t1 h
    simp only [clear_tabstop_loop, Option.some.injEq] at h
    rw [← h]; exact Kept.here t
  | succ n ih =>
    intro i t t1 h
    simp only [clear_tabstop_loop] at h
    split at h
    · split at h
      · exact absurd h (by simp)
      · rename_i t2 h2
        exact (tabstop_store_kept h2).next (ih _ _ _ h)
    · split at h
      · exact tabstop_loop_kept h
      · exact ih _ _ _ h

theorem clear_tabstop_kept {t t1 : terminal_t} {parm : parm_t}
    (h : clear_tabstop t parm = some t1) : Kept t t1 := by
  unfold clear_tabstop at h
  split at h
  · exact tabstop_store_kept h
  · exact clear_tabstop_loop_kept _ _ _ _ _ h

theorem csi_func_kept {t t1 : terminal_t} {parm : parm_t} {ch : Nat}
    (h : csi_func ch t parm = some t1) : Kept t t1 := by
  unfold csi_func at h
  by_cases c0 : ch = 0x40
  · rw [if_pos c0] at h; exact insert_blank_kept h
  rw [if_neg c0] at h
  by_cases c1 : ch = 0x41
  · rw [if_pos c1] at h; exact curs_up_kept h
  rw [if_neg c1] at h
  by_cases c2 : ch = 0x42
  · rw [if_pos c2] at h; exact curs_down_kept h
  rw [if_neg c2] at h
  by_cases c3 : ch = 0x43
  · rw [if_pos c3] at h; exact curs_forward_kept h
  rw [if_neg c3] at h
  by_cases c4 : ch = 0x44
  · rw [if_pos c4] at h; exact curs_back_kept h
  rw [if_neg c4] at h
  by_cases c5 : ch = 0x45
  · rw [if_pos c5] at h; exact curs_nl_kept h
  rw [if_neg c5] at h
  by_cases c6 : ch = 0x46
  · rw [if_pos c6] at h; exact curs_pl_kept h
  rw [if_neg c6] at h
  by_cases c7 : ch = 0x47
  · rw [if_pos c7] at h; exact curs_col_kept h
  rw [if_neg c7] at h
  by_cases c8 : ch = 0x48
  · rw [if_pos c8] at h; exact curs_pos_kept h
  rw [if_neg c8] at h
  by_cases c9 : ch = 0x4A
  · rw [if_pos c9] at h; exact erase_display_kept h
  rw [if_neg c9] at h
  by_cases c10 : ch = 0x4B
  · rw [if_pos c10] at h; exact erase_line_kept h
  rw [if_neg c10] at h
  by_cases c11 : ch = 0x4C
  · rw [if_pos c11] at h; exact insert_line_kept h
  rw [if_neg c11] at h
  by_cases c12 : ch = 0x4D
  · rw [if_pos c12] at h; exact delete_line_kept h
  rw [if_neg c12] at h
  by_cases c13 : ch = 0x50
  · rw [if_pos c13] at h; exact delete_char_kept h
  rw [if_neg c13] at h
  by_cases c14 : ch = 0x58
  · rw [if_pos c14] at h; exact erase_char_kept h
  rw [if_neg c14] at h
  by_cases c15 : ch = 0x61
  · rw [if_pos c15] at h; exact curs_forward_kept h
  rw [if_neg c15] at h
  by_cases c16 : ch = 0x63
  · rw [if_pos c16] at h; exact device_attribute_kept h
  rw [if_neg c16] at h
  by_cases c17 : ch = 0x64
  · rw [if_pos c17] at h; exact curs_line_kept h
  rw [if_neg c17] at h
  by_cases c18 : ch = 0x65
  · rw [if_pos c18] at h; exact curs_down_kept h
  rw [if_neg c18] at h
  by_cases c19 : ch = 0x66
  · rw [if_pos c19] at h; exact curs_pos_kept h
  rw [if_neg c19] at h
  by_cases c20 : ch = 0x67
  · rw [if_pos c20] at h; exact clear_tabstop_kept h
  rw [if_neg c20] at h
  by_cases c21 : ch = 0x68
  · rw [if_pos c21] at h; exact set_mode_kept h
  rw [if_neg c21] at h
  by_cases c22 : ch = 0x6C
  · rw [if_pos c22] at h; exact reset_mode_kept h
  rw [if_neg c22] at h
  by_cases c23 : ch = 0x6D
  · rw [if_pos c23] at h; exact set_attr_kept h
  rw [if_neg c23] at h
  by_cases c24 : ch = 0x6E
  · rw [if_pos c24] at h; exact status_report_kept h
  rw [if_neg c24] at h
  by_cases c25 : ch = 0x72
  · rw [if_pos c25] at h; exact set_margin_kept h
  rw [if_neg c25] at h
  by_cases c26 : ch = 0x60
  · rw [if_pos c26] at h; exact curs_col_kept h
  rw [if_neg c26] at h
  cases h; exact Kept.here t

end Yaft

namespace Yaft

open esc_state

theorem push_esc_slot (t : terminal_t) (ch : Nat) : (push_esc t ch).1.state = t.state := by
  unfold push_esc
  simp only
  split <;> split_ifs <;> rfl

theorem ctrl_func_slot {t t1 : terminal_t} {ch : Nat} (h : ctrl_func ch t = some t1) :
    t1.state = t.state := by
  unfold ctrl_func at h
  split_ifs at h
  · exact (bs_kept h).1
  · exact (tab_loop_kept t _ _ _ h).1
  · exact (move_cursor_kept h).1
  · exact (carriage_return_kept h).1
  · unfold enter_esc at h
    cases h; rfl
  · cases h; rfl

theorem esc_func_slot {t t1 : terminal_t} {ch : Nat} (h7 : ch ≠ 0x37) (hc : ch ≠ 0x63)
    (h : esc_func ch t = some t1) : t1.state = t.state := by
  unfold esc_func at h
  rw [if_neg h7] at h
  by_cases c2 : ch = 0x38
  · rw [if_pos c2] at h
    unfold restore_state at h
    cases h; rfl
  rw [if_neg c2] at h
  by_cases c3 : ch = 0x44
  · rw [if_pos c3] at h; exact (move_cursor_kept h).1
  rw [if_neg c3] at h
  by_cases c4 : ch = 0x45
  · rw [if_pos c4] at h
    unfold crnl at h
    split at h
    · exact absurd h (by simp)
    · rename_i t2 h2
      exact ((carriage_return_kept h2).next (move_cursor_kept h)).1
  rw [if_neg c4] at h
  by_cases c5 : ch = 0x48
  · rw [if_pos c5] at h; exact (tabstop_store_kept h).1
  rw [if_neg c5] at h
  by_cases c6 : ch = 0x4D
  · rw [if_pos c6] at h; exact (move_cursor_kept h).1
  rw [if_neg c6] at h
  by_cases c7 : ch = 0x50
  · rw [if_pos c7] at h
    unfold enter_dcs at h
    cases h; rfl
  rw [if_neg c7] at h
  by_cases c8 : ch = 0x5A
  · rw [if_pos c8] at h
    unfold identify at h
    cases h; rfl
  rw [if_neg c8] at h
  by_cases c9 : ch = 0x5B
  · rw [if_pos c9] at h
    unfold enter_csi at h
    cases h; rfl
  rw [if_neg c9] at h
  by_cases c10 : ch = 0x5D
  · rw [if_pos c10] at h
    unfold enter_osc at h
    cases h; rfl
  rw [if_neg c10, if_neg hc] at h
  cases h; rfl

theorem esc_sequence_slot {t t1 : terminal_t} {ch : Nat}
    (hn : ¬ ((c_str t.esc.buf).length = 1 ∧ (ch = 0x37 ∨ ch = 0x63)))
    (h : esc_sequence t ch = some t1) : t1.state = t.state := by
  unfold esc_sequence at h
  split at h
  · exact absurd h (by simp)
  split at h
  · exact absurd h (by simp)
  · rename_i t2 h2
    have a : t2.state = t.state := by
      split at h2
      · rename_i hlen
        exact esc_func_slot (fun c => hn ⟨hlen, Or.inl c⟩) (fun c => hn ⟨hlen, Or.inr c⟩) h2
      · cases h2; rfl
    split at h
    · cases h; exact a
    · cases h; exact a

theorem csi_sequence_slot {t t1 : terminal_t} {ch : Nat}
    (h : csi_sequence t ch = some t1) : t1.state = t.state := by
  unfold csi_sequence at h
  dsimp only at h
  split at h
  · exact absurd h (by simp)
  · rename_i t2 h2
    cases h
    exact (csi_func_kept h2).1

/-- One byte that triggers neither `save_state` nor `reset` leaves the saved-state
slot as it is. -/
theorem parse_byte_slot {wc : Nat → Int} {t t1 : terminal_t} {ch : Nat}
    (hn : ¬ saves t ch) (h : parse_byte wc t ch = some t1) : t1.state = t.state := by
  have hp := push_esc_slot t ch
  unfold parse_byte at h
  split at h
  · split at h
    · exact absurd h (by simp)
    · rename_i t2 h2
      have a : t2.state = t.state := by
        split at h2
        · exact (emit_char_kept h2).1
        · cases h2; rfl
      split at h
      · unfold control_character at h
        exact (ctrl_func_slot (guard_some h).2).trans a
      · split at h
        · exact (add_char_kept h).1.trans a
        · exact (utf8_charset_kept h).1.trans a
  · rename_i hst
    split at h
    · rename_i hfin
      refine (esc_sequence_slot (fun c => hn ⟨hst, hfin, c.1, c.2⟩) h).trans hp
    · cases h; exact hp
  · split at h
    · exact (csi_sequence_slot h).trans hp
    · cases h; exact hp
  · split at h
    · cases h; exact hp
    · cases h; exact hp
  · split at h
    · cases h; exact hp
    · cases h; exact hp

/-- A run of bytes none of which triggers `save_state` or `reset` leaves the
saved-state slot as it is. -/
theorem parse_slot {wc : Nat → Int} : ∀ (bytes : List Nat) {t t1 : terminal_t},
    quiet wc t bytes = true → parse wc t bytes = some t1 → t1.state = t.state := by
  intro bytes
  induction bytes with
  | nil => intro t t1 _ h; cases h; rfl
  | cons ch rest ih =>
    intro t t1 hq h
    rw [parse] at h
    rw [quiet, Bool.and_eq_true] at hq
    obtain ⟨q1, q2⟩ := hq
    have hn : ¬ saves t ch := by simpa using q1
    split at h
    · exact absurd h (by simp)
    · rename_i t2 h2
      rw [h2] at q2
      exact (ih q2 h).trans (parse_byte_slot hn h2)

end Yaft
namespace Yaft

open esc_state

/-- The byte ESC in escape state RESET enters escape state ESC and leaves the escape
buffer as it is (a pending UTF-8 sequence is replaced first). -/
theorem esc_byte_enters {wc : Nat → Int} {t ta : terminal_t} (h0 : t.esc.state = STATE_RESET)
    (h1 : parse_byte wc t 0x1B = some ta) :
    ta.esc.state = STATE_ESC ∧ ta.esc.buf = t.esc.buf := by
  unfold parse_byte at h1
  simp only [h0] at h1
  split at h1
  · exact absurd h1 (by simp)
  · rename_i tb hb2
    have a : Kept t tb := by
      split at hb2
      · exact emit_char_kept hb2
      · cases hb2; exact Kept.here t
    rw [if_pos (by decide)] at h1
    unfold control_character at h1
    replace h1 := (guard_some h1).2
    have e : ctrl_func 0x1B tb = enter_esc tb := rfl
    rw [e] at h1
    unfold enter_esc at h1
    cases h1
    have e2 : tb.esc.buf = t.esc.buf := congrArg esc_t.buf a.2
    exact ⟨rfl, e2⟩

/-- The byte ESC in escape state RESET with no UTF-8 sequence under way, when it is
processed: only the escape state changes. -/
theorem esc_byte_idle {wc : Nat → Int} {t ta : terminal_t} (h0 : t.esc.state = STATE_RESET)
    (hi : charset_idle t) (h1 : parse_byte wc t 0x1B = some ta) :
    ta = { t with esc := { t.esc with state := STATE_ESC } } := by
  unfold charset_idle at hi
  unfold parse_byte at h1
  simp only [h0] at h1
  rw [if_neg (by omega)] at h1
  simp only at h1
  rw [if_pos (by decide)] at h1
  unfold control_character at h1
  replace h1 := (guard_some h1).2
  have e : ctrl_func 0x1B t = enter_esc t := rfl
  rw [e] at h1
  unfold enter_esc at h1
  exact (Option.some.inj h1).symm

/-- A final byte of an `ESC` sequence that is not an introducer, with an empty escape
buffer: if the buffer has room for the terminating NUL, the function of the table is
called and the buffer is reset. -/
theorem esc_final_run (wc : Nat → Int) (ta : terminal_t) (hst : ta.esc.state = STATE_ESC)
    (hbuf : ta.esc.buf = []) (f : Nat) (h1 : 0x30 ≤ f) (h2 : f ≤ 0x7E) (h3 : f ≠ 0x5B)
    (h4 : f ≠ 0x5D) (h5 : f ≠ 0x50) :
    parse_byte wc ta f
      = if (esc_pushed ta f).esc.buf.length ≥ (esc_pushed ta f).esc.size then none
        else (esc_func f (esc_pushed ta f)).map reset_esc := by
  have hl : (c_str (esc_pushed ta f).esc.buf).length = 1 := by
    unfold esc_pushed
    dsimp only
    rw [hbuf]
    unfold c_str
    have hf : (f != 0) = true := by
      rw [bne_iff_ne]; omega
    simp [List.takeWhile, hf]
  have hn : ¬ (f = 0x5B ∨ f = 0x5D ∨ f = 0x50) := by omega
  unfold parse_byte
  simp only [hst]
  rw [push_esc_esc_final ta f hst h1 h2]
  simp only [if_true]
  unfold esc_sequence
  rw [if_pos hl]
  cases esc_func f (esc_pushed ta f) with
  | none => rfl
  | some t2 =>
    dsimp only
    rw [if_neg hn]
    rfl

theorem has_bit_and (m : Nat) : has_bit (m &&& MODE_ORIGIN) MODE_ORIGIN = has_bit m MODE_ORIGIN := by
  unfold has_bit MODE_ORIGIN
  rw [Nat.and_assoc]
  rfl

theorem clear_bit_set (m : Nat) : clear_bit (m ||| MODE_ORIGIN) MODE_ORIGIN = clear_bit m MODE_ORIGIN := by
  unfold clear_bit MODE_ORIGIN
  rw [Nat.and_distrib_right]
  have e : (1 : Nat) &&& (0xFFFFFFFF ^^^ 1) = 0 := by decide
  rw [e, Nat.or_zero]

theorem clear_bit_twice (m : Nat) :
    clear_bit (clear_bit m MODE_ORIGIN) MODE_ORIGIN = clear_bit m MODE_ORIGIN := by
  rw [clear_bit_merge _ _ _ (by decide) (by decide)]
  rfl

end Yaft
namespace Yaft

open esc_state

theorem esc_func_7 (s : terminal_t) : esc_func 0x37 s = save_state s := rfl

theorem esc_func_8 (s : terminal_t) : esc_func 0x38 s = restore_state s := rfl

/-- The bytes `ESC 7` in escape state RESET with an empty escape buffer: the slot
holds the cursor, the ORIGIN bit and the attribute of the state they end in. -/
theorem esc7_saved {wc : Nat → Int} {t t7 : terminal_t} (h0 : t.esc.state = STATE_RESET)
    (hb : t.esc.buf = []) (h7 : parse wc t [0x1B, 0x37] = some t7) :
    t7.state = { cursor := t7.cursor, mode := t7.mode &&& MODE_ORIGIN, attr := t7.attr } := by
  simp only [parse] at h7
  split at h7
  · exact absurd h7 (by simp)
  · rename_i ta h1
    obtain ⟨e1, e2⟩ := esc_byte_enters h0 h1
    rw [esc_final_run wc ta e1 (by rw [e2, hb]) 0x37 (by decide) (by decide) (by decide)
      (by decide) (by decide), esc_func_7] at h7
    unfold save_state at h7
    split at h7
    · exact absurd h7 (by simp)
    · rename_i tb h8
      replace h8 := (guard_some h8).2
      cases h7
      cases h8
      rfl

/-- The bytes `ESC 8` between two sequences: the cursor and the attribute of the slot
are restored and the ORIGIN bit is set or cleared as the slot says. -/
theorem esc8_restored (wc : Nat → Int) (t2 : terminal_t) (hg : Ground t2) :
    ∃ t3, parse wc t2 [0x1B, 0x38] = some t3
      ∧ t3.cursor = t2.state.cursor ∧ t3.attr = t2.state.attr
      ∧ t3.mode = (if has_bit t2.state.mode MODE_ORIGIN then t2.mode ||| MODE_ORIGIN
          else clear_bit t2.mode MODE_ORIGIN)
      ∧ t3.color_pair = t2.color_pair := by
  have e : parse wc t2 [0x1B, 0x38]
      = (esc_func 0x38 (esc_pushed { t2 with esc := { t2.esc with state := STATE_ESC } } 0x38)).map
          reset_esc := by
    have e0 := esc_final_run wc { t2 with esc := { t2.esc with state := STATE_ESC } } rfl
      hg.2.1 0x38 (by decide) (by decide) (by decide) (by decide) (by decide)
    simp only [parse]
    rw [parse_byte_esc wc t2 hg]
    dsimp only
    rw [e0, if_neg (esc_pushed_room { t2 with esc := { t2.esc with state := STATE_ESC } } _
      hg.2.1 hg.2.2.2)]
    cases esc_func 0x38 (esc_pushed { t2 with esc := { t2.esc with state := STATE_ESC } } 0x38)
      <;> rfl
  rw [e, esc_func_8]
  unfold restore_state
  exact ⟨_, rfl, rfl, rfl, rfl, rfl⟩

end Yaft

namespace Yaft

open esc_state

/-- C23: from a state in escape state RESET with an empty escape buffer, let `t7` be
the state after `ESC 7`, and let `mid` be bytes that are processed from `t7` without
triggering `save_state` or `reset` and end, in `t2`, between two sequences (escape
state RESET, empty escape buffer of at least the `ESCSEQ_SIZE` bytes it is allocated
with, no UTF-8 sequence under way). Then the slot of `t7` holds the cursor,
the ORIGIN bit and the attribute of `t7` (those at the moment `ESC 7` was processed),
and `ESC 7 mid ESC 8` is processed without error and ends in a state whose cursor,
attribute and ORIGIN bit are those of `t7`, whose other mode bits are those of `t2`
and whose colour pair is that of `t2`. If no UTF-8 sequence was under way at the
start, the cursor, the attribute and the mode of `t7` are those of the start state. -/
theorem C23_save_restore (wc : Nat → Int) (t t7 t2 : terminal_t) (mid : List Nat)
    (h0 : t.esc.state = STATE_RESET) (hb : t.esc.buf = [])
    (h7 : parse wc t [0x1B, 0x37] = some t7) (hq : quiet wc t7 mid = true)
    (h2 : parse wc t7 mid = some t2) (hg : Ground t2) :
    t7.state = { cursor := t7.cursor, mode := t7.mode &&& MODE_ORIGIN, attr := t7.attr }
    ∧ (∃ t3, parse wc t ([0x1B, 0x37] ++ mid ++ [0x1B, 0x38]) = some t3
      ∧ t3.cursor = t7.cursor ∧ t3.attr = t7.attr
      ∧ has_bit t3.mode MODE_ORIGIN = has_bit t7.mode MODE_ORIGIN
      ∧ clear_bit t3.mode MODE_ORIGIN = clear_bit t2.mode MODE_ORIGIN
      ∧ t3.color_pair = t2.color_pair)
    ∧ (charset_idle t → t7.cursor = t.cursor ∧ t7.attr = t.attr ∧ t7.mode = t.mode) := by
  have hs := esc7_saved h0 hb h7
  have hk : t2.state = t7.state := parse_slot mid hq h2
  obtain ⟨t3, e3, c1, c2, c3, c4⟩ := esc8_restored wc t2 hg
  refine ⟨hs, ⟨t3, ?_, ?_, ?_, ?_, ?_, c4⟩, ?_⟩
  · rw [parse_append, parse_append, h7]
    dsimp only [Option.bind]
    rw [h2]
    exact e3
  · rw [c1, hk, hs]
  · rw [c2, hk, hs]
  · rw [c3, hk, hs]
    dsimp only
    rw [has_bit_and]
    by_cases c : has_bit t7.mode MODE_ORIGIN = true
    · rw [if_pos c, has_bit_set, c]
    · rw [if_neg c, has_bit_clear]
      simp only [Bool.not_eq_true] at c
      rw [c]
  · rw [c3]
    split
    · exact clear_bit_set _
    · exact clear_bit_twice _
  · intro hi
    simp only [parse] at h7
    split at h7
    · exact absurd h7 (by simp)
    · rename_i ta h1
      have ea := esc_byte_idle h0 hi h1
      subst ea
      rw [esc_final_run wc { t with esc := { t.esc with state := STATE_ESC } } rfl hb 0x37
        (by decide) (by decide) (by decide) (by decide) (by decide), esc_func_7] at h7
      unfold save_state at h7
      split at h7
      · exact absurd h7 (by simp)
      · rename_i tb h8
        replace h8 := (guard_some h8).2
        cases h7
        cases h8
        exact ⟨rfl, rfl, rfl⟩

end Yaft
namespace Yaft

open esc_state

theorem eq_some_getD {α : Type} (o : Option α) (d : α) (h : o.isSome = true) :
    o = some (o.getD d) := by
  cases o with
  | none => exact absurd h (by simp)
  | some a => rfl

/-- C23, witness: with the cursor at `(y = 1, x = 2)`, `ESC 7`, then `a`, `ESC [ 1 m`,
`ESC [ ? 6 h` and LF (bold set, origin mode set, cursor moved), then `ESC 8`: the
cursor is back at `(1, 2)`, the attribute is 0 again and the mode is 6 again. -/
theorem C23_save_restore_witness :
    (parse ascii_wcwidth moved_terminal [0x1B, 0x37] = some saved_example
      ∧ parse ascii_wcwidth saved_example busy_bytes = some busy_example
      ∧ saved_example.state =
          { cursor := saved_example.cursor, mode := saved_example.mode &&& MODE_ORIGIN,
            attr := saved_example.attr }
      ∧ (∃ t3, parse ascii_wcwidth moved_terminal ([0x1B, 0x37] ++ busy_bytes ++ [0x1B, 0x38])
          = some t3
        ∧ t3.cursor = saved_example.cursor ∧ t3.attr = saved_example.attr
        ∧ has_bit t3.mode MODE_ORIGIN = has_bit saved_example.mode MODE_ORIGIN
        ∧ clear_bit t3.mode MODE_ORIGIN = clear_bit busy_example.mode MODE_ORIGIN
        ∧ t3.color_pair = busy_example.color_pair)
      ∧ (charset_idle moved_terminal →
          saved_example.cursor = moved_terminal.cursor ∧ saved_example.attr = moved_terminal.attr
            ∧ saved_example.mode = moved_terminal.mode))
    ∧ (parse ascii_wcwidth moved_terminal ([0x1B, 0x37] ++ busy_bytes)).map
        (fun s => (s.cursor, s.attr, s.mode)) = some ({ x := 0, y := 1 }, 1, 7)
    ∧ (parse ascii_wcwidth moved_terminal ([0x1B, 0x37] ++ busy_bytes ++ [0x1B, 0x38])).map
        (fun s => (s.cursor, s.attr, s.mode)) = some ({ x := 2, y := 1 }, 0, 6) :=
  ⟨⟨eq_some_getD _ _ (by decide), eq_some_getD _ _ (by decide),
      C23_save_restore ascii_wcwidth moved_terminal saved_example busy_example busy_bytes rfl rfl
        (eq_some_getD _ _ (by decide)) (by decide) (eq_some_getD _ _ (by decide))
        (by unfold Ground charset_idle; decide)⟩,
    by decide, by decide⟩

end Yaft

namespace Yaft

open esc_state

/-! ## C31: the grayscale branch of `rgb2index` -/

set_option maxRecDepth 20000 in
/-- C31: for every `v` in 0..255, with `(v - 8) / 10` the truncating division of C,
`(v - 8) / 10 ≥ 24` holds exactly from `v = 248` on, where `rgb2index v v v` is 231;
below that `rgb2index v v v` is `232 + clamp((v - 8) / 10, 0, 23)`; every `v ≤ 17` maps
to 232, and the result always lies in 231..255. -/
theorem C31_gray_formula : ∀ v : Nat, v < 256 →
    (Int.tdiv ((v : Int) - 8) 10 ≥ 24 ↔ 248 ≤ v)
    ∧ (248 ≤ v → rgb2index v v v = 231)
    ∧ (v < 248 → (rgb2index v v v : Int) = 232 + clamp (Int.tdiv ((v : Int) - 8) 10) 0 23)
    ∧ (v ≤ 17 → rgb2index v v v = 232)
    ∧ 231 ≤ rgb2index v v v ∧ rgb2index v v v ≤ 255 := by
  decide

/-- C31, witness at `v = 17`, the last value that maps to 232, with the values next to
the two boundaries: 18 maps to 233, 247 to 255 and 248 to 231. -/
theorem C31_gray_formula_witness :
    ((Int.tdiv (((17 : Nat) : Int) - 8) 10 ≥ 24 ↔ 248 ≤ 17)
      ∧ (248 ≤ 17 → rgb2index 17 17 17 = 231)
      ∧ (17 < 248 →
          (rgb2index 17 17 17 : Int) = 232 + clamp (Int.tdiv (((17 : Nat) : Int) - 8) 10) 0 23)
      ∧ (17 ≤ 17 → rgb2index 17 17 17 = 232)
      ∧ 231 ≤ rgb2index 17 17 17 ∧ rgb2index 17 17 17 ≤ 255)
    ∧ rgb2index 0 0 0 = 232 ∧ rgb2index 17 17 17 = 232 ∧ rgb2index 18 18 18 = 233
    ∧ rgb2index 247 247 247 = 255 ∧ rgb2index 248 248 248 = 231
    ∧ rgb2index 255 255 255 = 231 :=
  ⟨C31_gray_formula 17 (by decide), by decide, by decide, by decide, by decide, by decide,
    by decide⟩

end Yaft
namespace Yaft

open esc_state

/-! ## C33: CR, HT and CHA in origin mode -/

/-- In origin mode `set_cursor(cursor.y, x)` adds the top margin to the row it is
given: the cursor leaves its row for row `min(cursor.y + scroll.top, scroll.bottom)`. -/
theorem set_cursor_row_origin (t : terminal_t) (x : Int)
    (ho : has_bit t.mode MODE_ORIGIN = true) (hy : t.cursor.y < 65536)
    (hm : t.scroll.top ≤ t.scroll.bottom) (hb : t.scroll.bottom < 65536) :
    (set_cursor_to t t.cursor.y x).cursor.y = min (t.cursor.y + t.scroll.top) t.scroll.bottom := by
  have ei : to_int ((t.cursor.y : Int) + (t.scroll.top : Int)) = t.cursor.y + t.scroll.top := by
    unfold to_int; omega
  have h1 : ¬ ((t.cursor.y : Int) + (t.scroll.top : Int) < (t.scroll.top : Int)) := by omega
  unfold set_cursor_to
  dsimp only
  simp only [ho, if_true]
  rw [ei, if_neg h1]
  by_cases c : (t.cursor.y : Int) + (t.scroll.top : Int) > (t.scroll.bottom : Int)
  · rw [if_pos c]
    unfold to_u16; omega
  · rw [if_neg c]
    unfold to_u16; omega

/-- Every exit of the loop of `tab` is a call `set_cursor(cursor.y, x)`. -/
theorem tab_loop_call (t : terminal_t) (n : Nat) (i : Int) (t1 : terminal_t)
    (h : tab_loop t n i = some t1) : ∃ x, t1 = set_cursor_to t t.cursor.y x := by
  induction n generalizing i with
  | zero =>
    unfold tab_loop at h
    exact ⟨_, set_cursor_some h⟩
  | succ n ih =>
    unfold tab_loop at h
    split at h
    · exact absurd h (by simp)
    · exact ⟨_, set_cursor_some h⟩
    · exact ih _ h

/-- In origin mode with a top margin `top > 0`, CR, HT and CHA take the cursor from a
row `y < scroll.bottom` to row `min(y + top, bottom)`, which is not row `y`. -/
theorem row_moves_in_origin (t : terminal_t) (parm : parm_t)
    (ho : has_bit t.mode MODE_ORIGIN = true) (ht : 0 < t.scroll.top)
    (hm : t.scroll.top ≤ t.scroll.bottom) (hy : t.cursor.y < t.scroll.bottom)
    (hb : t.scroll.bottom < 65536) :
    min (t.cursor.y + t.scroll.top) t.scroll.bottom ≠ t.cursor.y
    ∧ (∀ t1, carriage_return t = some t1 →
        t1.cursor.y = min (t.cursor.y + t.scroll.top) t.scroll.bottom)
    ∧ (∀ t1, tab t = some t1 → t1.cursor.y = min (t.cursor.y + t.scroll.top) t.scroll.bottom)
    ∧ (∀ t1, curs_col t parm = some t1 →
        t1.cursor.y = min (t.cursor.y + t.scroll.top) t.scroll.bottom) := by
  have k := fun x => set_cursor_row_origin t x ho (by omega) hm hb
  refine ⟨by omega, ?_, ?_, ?_⟩
  · intro t1 h
    unfold carriage_return at h
    rw [set_cursor_some h]
    exact k _
  · intro t1 h
    unfold tab at h
    obtain ⟨x, e⟩ := tab_loop_call t _ _ t1 h
    rw [e]
    exact k _
  · intro t1 h
    unfold curs_col at h
    rw [set_cursor_some (guard_some h).2]
    exact k _

/-- C33, failing input: on a terminal of 4 columns and 4 lines, `ESC [ 2 ; 4 r` sets the
scroll region to rows 1..3 and `ESC [ ? 6 h` turns origin mode on, which leaves the
cursor at `(y = 1, x = 0)`. From there CR takes the cursor to row 2, HT to row 2 (column
3) and `ESC [ 3 G` to row 2 (column 2); the claim has the cursor stay on row 1. A second
CR takes it to row 3. With origin mode off the same three inputs keep the row. -/
theorem C33_row_changes_in_origin :
    (run 4 4 [0x1B, 0x5B, 0x32, 0x3B, 0x34, 0x72, 0x1B, 0x5B, 0x3F, 0x36, 0x68]).map
        (fun t => (t.cursor, t.scroll.top, t.scroll.bottom, has_bit t.mode MODE_ORIGIN))
      = some ({ x := 0, y := 1 }, 1, 3, true)
    ∧ (run 4 4 [0x1B, 0x5B, 0x32, 0x3B, 0x34, 0x72, 0x1B, 0x5B, 0x3F, 0x36, 0x68, 0x0D]).map
        (fun t => t.cursor) = some { x := 0, y := 2 }
    ∧ (run 4 4 [0x1B, 0x5B, 0x32, 0x3B, 0x34, 0x72, 0x1B, 0x5B, 0x3F, 0x36, 0x68, 0x09]).map
        (fun t => t.cursor) = some { x := 3, y := 2 }
    ∧ (run 4 4 [0x1B, 0x5B, 0x32, 0x3B, 0x34, 0x72, 0x1B, 0x5B, 0x3F, 0x36, 0x68,
                0x1B, 0x5B, 0x33, 0x47]).map
        (fun t => t.cursor) = some { x := 2, y := 2 }
    ∧ (run 4 4 [0x1B, 0x5B, 0x32, 0x3B, 0x34, 0x72, 0x1B, 0x5B, 0x3F, 0x36, 0x68, 0x0D,
                0x0D]).map
        (fun t => t.cursor) = some { x := 0, y := 3 }
    ∧ (run 4 4 [0x1B, 0x5B, 0x32, 0x3B, 0x34, 0x72, 0x1B, 0x5B, 0x32, 0x3B, 0x32, 0x48]).map
        (fun t => (t.cursor, has_bit t.mode MODE_ORIGIN)) = some ({ x := 1, y := 1 }, false)
    ∧ (run 4 4 [0x1B, 0x5B, 0x32, 0x3B, 0x34, 0x72, 0x1B, 0x5B, 0x32, 0x3B, 0x32, 0x48,
                0x0D]).map
        (fun t => t.cursor) = some { x := 0, y := 1 }
    ∧ (run 4 4 [0x1B, 0x5B, 0x32, 0x3B, 0x34, 0x72, 0x1B, 0x5B, 0x32, 0x3B, 0x32, 0x48,
                0x09]).map
        (fun t => t.cursor) = some { x := 3, y := 1 }
    ∧ (run 4 4 [0x1B, 0x5B, 0x32, 0x3B, 0x34, 0x72, 0x1B, 0x5B, 0x32, 0x3B, 0x32, 0x48,
                0x1B, 0x5B, 0x33, 0x47]).map
        (fun t => t.cursor) = some { x := 2, y := 1 } := by
  set_option maxRecDepth 20000 in
  decide

end Yaft
namespace Yaft

open esc_state

/-! ## C34: printing with AUTO_WRAP off -/

theorem same_but_grid_self (t : terminal_t) : SameButGrid t t := rfl

theorem same_but_grid_chain {a b c : terminal_t} (h1 : SameButGrid a b) (h2 : SameButGrid b c) :
    SameButGrid a c := by
  unfold SameButGrid at h1 h2 ⊢
  have e : ({ c with cells := a.cells, line_dirty := a.line_dirty } : terminal_t)
      = { ({ c with cells := b.cells, line_dirty := b.line_dirty } : terminal_t) with
          cells := a.cells, line_dirty := a.line_dirty } := rfl
  rw [e, h2, h1]

theorem cell_store_same {t t1 : terminal_t} {y x : Int} {c : cell_t}
    (h : cell_store t y x c = some t1) : SameButGrid t t1 := by
  unfold cell_store at h
  split at h
  · cases h; rfl
  · exact absurd h (by simp)

theorem line_dirty_store_same {t t1 : terminal_t} {y : Int} {b : Bool}
    (h : line_dirty_store t y b = some t1) : SameButGrid t t1 := by
  unfold line_dirty_store at h
  split at h
  · cases h; rfl
  · exact absurd h (by simp)

theorem erase_cell_same {t t1 : terminal_t} {y x : Int} (h : erase_cell t y x = some t1) :
    SameButGrid t t1 := by
  unfold erase_cell at h
  split at h
  · exact absurd h (by simp)
  · rename_i t2 h2
    exact same_but_grid_chain (cell_store_same h2) (line_dirty_store_same h)

theorem set_cell_same {t t1 : terminal_t} {y x w : Int} {g : glyph_t}
    (h : set_cell t y x g = some (t1, w)) : SameButGrid t t1 := by
  unfold set_cell at h
  simp only at h
  split at h
  · exact absurd h (by simp)
  · rename_i t2 h2
    have a := cell_store_same h2
    split at h
    · exact absurd h (by simp)
    · rename_i t3 h3
      have ab := same_but_grid_chain a (line_dirty_store_same h3)
      split at h
      · split at h
        · exact absurd h (by simp)
        · rename_i t4 h4
          simp only [Option.some.injEq, Prod.mk.injEq] at h
          rw [← h.1]
          exact same_but_grid_chain ab (cell_store_same h4)
      · split at h
        · split at h
          · exact absurd h (by simp)
          · split at h
            · split at h
              · exact absurd h (by simp)
              · rename_i t4 h4
                simp only [Option.some.injEq, Prod.mk.injEq] at h
                rw [← h.1]
                exact same_but_grid_chain ab (erase_cell_same h4)
            · simp only [Option.some.injEq, Prod.mk.injEq] at h
              rw [← h.1]
              exact ab
        · simp only [Option.some.injEq, Prod.mk.injEq] at h
          rw [← h.1]
          exact ab

/-- With AUTO_WRAP off, the column step of `move_cursor` by 0, 1 or 2 columns writes
`cursor.x` only: the new column is inside the grid, and a cursor in the last column
stays there. -/
theorem move_cursor_x_quiet (s : terminal_t) (w : Int)
    (hm : has_bit s.mode MODE_AMRIGHT = false) (hw : 0 ≤ w ∧ w ≤ 2)
    (hx16 : s.cursor.x < 65536) (hx : s.cursor.x < s.cols) :
    ∃ X, move_cursor_x s w = { s with cursor := { s.cursor with x := X } }
      ∧ X < s.cols ∧ (s.cursor.x + 1 = s.cols → X = s.cursor.x) := by
  have ei : to_int ((s.cursor.x : Int) + w) = (s.cursor.x : Int) + w := by unfold to_int; omega
  have h1 : ¬ ((s.cursor.x : Int) + w < 0) := by omega
  unfold move_cursor_x
  dsimp only
  rw [ei, if_neg h1]
  by_cases c : (s.cursor.x : Int) + w ≥ (s.cols : Int)
  · rw [if_pos c]
    simp only [hm]
    simp only [Bool.false_eq_true, if_false]
    refine ⟨to_u16 ((s.cols : Int) - 1), rfl, ?_, ?_⟩
    · unfold to_u16; omega
    · intro e; unfold to_u16; omega
  · rw [if_neg c]
    refine ⟨to_u16 ((s.cursor.x : Int) + w), rfl, ?_, ?_⟩
    · unfold to_u16; omega
    · intro e; unfold to_u16; omega

/-- With AUTO_WRAP off, `move_cursor(0, w)` for `w` in 0..2 writes `cursor.x` only. -/
theorem move_cursor_flat (s : terminal_t) (w : Int)
    (hm : has_bit s.mode MODE_AMRIGHT = false) (hw : 0 ≤ w ∧ w ≤ 2)
    (hx16 : s.cursor.x < 65536) (hx : s.cursor.x < s.cols) (hy : s.cursor.y < s.lines)
    (hy16 : s.cursor.y < 65536) :
    ∃ X, move_cursor s 0 w = some { s with cursor := { x := X, y := s.cursor.y } }
      ∧ X < s.cols ∧ (s.cursor.x + 1 = s.cols → X = s.cursor.x) := by
  obtain ⟨X, hX, b1, b2⟩ := move_cursor_x_quiet s w hm hw hx16 hx
  have e1 : to_int ((s.cursor.y : Int) + 0) = s.cursor.y := by unfold to_int; omega
  have e3 : to_u16 (s.cursor.y : Int) = s.cursor.y := by unfold to_u16; omega
  have h1 : ¬ ((s.cursor.y : Int) < 0) := by omega
  have h2 : ¬ ((s.cursor.y : Int) ≥ (s.lines : Int)) := by omega
  refine ⟨X, ?_, b1, b2⟩
  unfold move_cursor
  rw [if_neg (move_cursor_defined s 0 w hx16 hy16 (by omega) (by omega) (by omega) (by omega))]
  dsimp only
  rw [hX, e1]
  dsimp only
  simp only [lt_self_iff_false, gt_iff_lt, and_false, if_false]
  rw [if_neg h1, if_neg h2]
  unfold store_cursor_y
  dsimp only
  rw [e3]

end Yaft
namespace Yaft

open esc_state

/-- One printable character with AUTO_WRAP off and no wrap pending, unless it is wide
and arrives in the last column: `add_char` stores its cell at the cursor and moves the
cursor inside its row. Only the grid, the dirty flags and `cursor.x` are written, and
in the grid only the row of the cursor. -/
theorem add_char_level {wc : Nat → Int} {s : terminal_t} {c : Nat} (hs : Shape s)
    (hb : Bounds s) (hm : has_bit s.mode MODE_AMRIGHT = false) (hw : s.wrap_occured = false)
    (hp : printable wc s c) (he : ¬ (wc c = 2 ∧ s.cursor.x + 1 = s.cols)) :
    ∃ s1 g, select_glyph s c (wc c) = some g ∧ add_char wc s c = some s1
      ∧ grid_frame s1 s = s ∧ s1.cursor.y = s.cursor.y
      ∧ (∀ r, r ≠ s.cursor.y → s1.cells[r]? = s.cells[r]?)
      ∧ grid_at s1.cells s.cursor.y s.cursor.x = some (make_cell s g)
      ∧ (s.cursor.x + 1 = s.cols → s1.cursor.x = s.cursor.x)
      ∧ Shape s1 ∧ Bounds s1 := by
  unfold printable at hp
  split at hp
  · exact absurd hp id
  · rename_i g hsel
    obtain ⟨hg12, hgw⟩ := hp
    have hpos : ¬ (wc c ≤ 0) := by
      unfold HALF WIDE at hg12; omega
    have hcond : ¬ ((s.wrap_occured = true ∧ (s.cursor.x : Int) = (s.cols : Int) - 1)
        ∨ (g.width = WIDE ∧ (s.cursor.x : Int) = (s.cols : Int) - 1)) := by
      rintro (⟨a, _⟩ | ⟨a, b⟩)
      · rw [hw] at a; exact absurd a (by simp)
      · unfold WIDE at a
        exact he ⟨by omega, by omega⟩
    have es : ({ s with wrap_occured := false } : terminal_t) = s := by
      rw [← hw]
    obtain ⟨t3, w, hset, hstored⟩ :=
      set_cell_store g hb.cur_y hb.cur_x hs.rows hs.row_len
    obtain ⟨htouch, _, hw12⟩ := set_cell_touch hset
    have hsame := set_cell_same hset
    have k1 : t3.mode = s.mode := by
      have c := congrArg terminal_t.mode hsame; exact c
    have k2 : t3.cols = s.cols := htouch.cols
    have k3 : t3.lines = s.lines := htouch.lines
    have k4 : t3.cursor = s.cursor := htouch.cursor
    obtain ⟨X, hmove, b1, b2⟩ := move_cursor_flat t3 w (by rw [k1]; exact hm) (by omega)
      (by rw [k4]; exact hs.x_u16) (by rw [k4, k2]; exact hb.cur_x)
      (by rw [k4, k3]; exact hb.cur_y) (by rw [k4]; exact hs.y_u16)
    have hadd : add_char wc s c = some { t3 with cursor := { x := X, y := t3.cursor.y } } := by
      unfold add_char
      dsimp only
      rw [if_neg hpos, hsel]
      dsimp only
      rw [if_neg hcond]
      dsimp only
      rw [es, hset]
      dsimp only
      exact hmove
    have hstep := add_char_step hs hadd
    refine ⟨_, g, hsel, hadd, ?_, ?_, ?_, ?_, ?_, hstep.shape hs, hstep.bounds hs hb⟩
    · unfold grid_frame
      dsimp only
      unfold SameButGrid at hsame
      have c := congrArg (fun u : terminal_t => { u with cursor := s.cursor }) hsame
      exact c
    · dsimp only
      rw [k4]
    · intro r hr
      dsimp only
      exact htouch.same r (by simpa using hr)
    · dsimp only
      exact hstored
    · intro e
      dsimp only
      rw [b2 (by rw [k4, k2]; exact e), k4]

end Yaft
namespace Yaft

open esc_state

theorem select_glyph_table {s t : terminal_t} (h : s.glyph = t.glyph) (c : Nat) (w : Int) :
    select_glyph s c w = select_glyph t c w := by
  unfold select_glyph substitute_glyph
  rw [h]

theorem printable_table {wc : Nat → Int} {s t : terminal_t} (h : s.glyph = t.glyph) (c : Nat)
    (hp : printable wc t c) : printable wc s c := by
  unfold printable at hp ⊢
  rw [select_glyph_table h]
  exact hp

theorem grid_frame_next {a b c : terminal_t} (h1 : grid_frame b a = a)
    (h2 : grid_frame c b = b) : grid_frame c a = a := by
  have e : grid_frame c a = grid_frame (grid_frame c b) a := rfl
  rw [e, h2, h1]

theorem add_chars_append (wc : Nat → Int) (t : terminal_t) (a b : List Nat) :
    add_chars wc t (a ++ b) = (add_chars wc t a).bind (fun s => add_chars wc s b) := by
  induction a generalizing t with
  | nil => rfl
  | cons c a ih =>
    simp only [List.cons_append, add_chars]
    cases add_char wc t c with
    | none => rfl
    | some t1 => exact ih t1

theorem clear_of_edge_append (wc : Nat → Int) (t : terminal_t) (a b : List Nat)
    (h : clear_of_edge wc t (a ++ b) = true) :
    clear_of_edge wc t a = true
      ∧ ∀ s, add_chars wc t a = some s → clear_of_edge wc s b = true := by
  induction a generalizing t with
  | nil =>
    refine ⟨rfl, fun s hs => ?_⟩
    simp only [add_chars, Option.some.injEq] at hs
    rw [← hs]; exact h
  | cons c a ih =>
    simp only [List.cons_append, clear_of_edge, Bool.and_eq_true] at h ⊢
    simp only [add_chars]
    cases hc : add_char wc t c with
    | none =>
      refine ⟨⟨h.1, rfl⟩, fun s hs => ?_⟩
      exact absurd hs (by simp)
    | some t1 =>
      rw [hc] at h
      have k := ih t1 h.2
      exact ⟨⟨h.1, k.1⟩, k.2⟩

/-- A run of printable characters with AUTO_WRAP off and no wrap pending, none of them
a wide character arriving in the last column: every call of `add_char` succeeds, and
the state after the run differs from the first one in the grid, the dirty flags and
`cursor.x` only, and in the grid only in the row of the cursor; a cursor that was in
the last column is still there. -/
theorem add_chars_level {wc : Nat → Int} (cs : List Nat) :
    ∀ s : terminal_t, Shape s → Bounds s → has_bit s.mode MODE_AMRIGHT = false →
      s.wrap_occured = false → (∀ c ∈ cs, printable wc s c) → clear_of_edge wc s cs = true →
      ∃ s1, add_chars wc s cs = some s1
        ∧ grid_frame s1 s = s ∧ s1.cursor.y = s.cursor.y
        ∧ (∀ r, r ≠ s.cursor.y → s1.cells[r]? = s.cells[r]?)
        ∧ (s.cursor.x + 1 = s.cols → s1.cursor.x = s.cursor.x)
        ∧ Shape s1 ∧ Bounds s1 := by
  induction cs with
  | nil =>
    intro s hs hb _ _ _ _
    exact ⟨s, rfl, rfl, rfl, fun _ _ => rfl, fun _ => rfl, hs, hb⟩
  | cons c cs ih =>
    intro s hs hb hm hw hp he
    simp only [clear_of_edge, Bool.and_eq_true, Bool.not_eq_true', Bool.and_eq_false_imp,
      decide_eq_true_eq, decide_eq_false_iff_not] at he
    have hne : ¬ (wc c = 2 ∧ s.cursor.x + 1 = s.cols) := fun a => he.1 a.1 a.2
    obtain ⟨s1, g, _, hadd, hf, hy, hrows, _, hedge, hs1, hb1⟩ :=
      add_char_level hs hb hm hw (hp c (List.mem_cons_self _ _)) hne
    obtain ⟨f1, f2, _, _, f5, f6, _, _, f9, _⟩ := printed_frame hf
    have he2 := he.2
    rw [hadd] at he2
    obtain ⟨s2, hrun, hf2, hy2, hrows2, hedge2, hs2, hb2⟩ :=
      ih s1 hs1 hb1 (by rw [f9]; exact hm) (by rw [f6]; exact hw)
        (fun d hd => printable_table f5 d (hp d (List.mem_cons_of_mem _ hd))) he2
    refine ⟨s2, ?_, grid_frame_next hf hf2, by rw [hy2, hy], ?_, ?_, hs2, hb2⟩
    · simp only [add_chars, hadd]
      exact hrun
    · intro r hr
      rw [hrows2 r (by rw [hy]; exact hr), hrows r hr]
    · intro e
      have e1 := hedge e
      rw [hedge2 (by rw [e1, f1]; exact e), e1]

end Yaft
namespace Yaft

open esc_state

theorem take_snoc_getD (cs : List Nat) (k : Nat) (hk : k < cs.length) :
    cs.take (k + 1) = cs.take k ++ [cs.getD k 0] := by
  rw [List.take_succ, List.getD_eq_getElem _ _ hk, List.getElem?_eq_getElem hk]
  rfl

theorem split_at_getD (cs : List Nat) (k : Nat) (hk : k < cs.length) :
    cs = cs.take k ++ (cs.getD k 0 :: cs.drop (k + 1)) := by
  rw [List.getD_eq_getElem _ _ hk, ← List.drop_eq_getElem_cons hk, List.take_append_drop]

/-- C34 (amended): from a well-formed state with AUTO_WRAP off and no wrap pending, for
every sequence `cs` of printable characters (half-width or wide) in which no wide
character arrives with the cursor in the last column, every call of `add_char`
succeeds, and after each character `k`: the cursor is in the row it started in, the wrap
flag is clear, the state differs from the first one in the grid, the dirty flags and
`cursor.x` only, no row other than the cursor's has changed (nothing scrolled), and the
cell of the character is in the cursor's row at the column the cursor had when the
character arrived. Once the cursor has reached the last column (after `j ≤ k`
characters), character `k` arrives in the last column and leaves the cursor there. -/
theorem C34_no_wrap (wc : Nat → Int) (t : terminal_t) (cs : List Nat) (hs : Shape t)
    (hb : Bounds t) (hm : has_bit t.mode MODE_AMRIGHT = false) (hw : t.wrap_occured = false)
    (hp : ∀ c ∈ cs, printable wc t c) (he : clear_of_edge wc t cs = true) :
    ∀ k, k < cs.length → ∃ s s1 g,
      add_chars wc t (cs.take k) = some s
      ∧ select_glyph t (cs.getD k 0) (wc (cs.getD k 0)) = some g
      ∧ add_char wc s (cs.getD k 0) = some s1
      ∧ add_chars wc t (cs.take (k + 1)) = some s1
      ∧ s1.cursor.y = t.cursor.y ∧ s1.wrap_occured = false
      ∧ grid_frame s1 t = t
      ∧ (∀ r, r ≠ t.cursor.y → s1.cells[r]? = t.cells[r]?)
      ∧ grid_at s1.cells t.cursor.y s.cursor.x = some (make_cell t g)
      ∧ (∀ j u, j ≤ k → add_chars wc t (cs.take j) = some u → u.cursor.x + 1 = t.cols →
          s.cursor.x + 1 = t.cols ∧ s1.cursor.x + 1 = t.cols) := by
  intro k hk
  have hsplit := split_at_getD cs k hk
  have he0 : clear_of_edge wc t (cs.take k ++ (cs.getD k 0 :: cs.drop (k + 1))) = true := by
    rw [← hsplit]; exact he
  obtain ⟨e1, e2⟩ := clear_of_edge_append wc t _ _ he0
  obtain ⟨s, hrun, hf, hy, hrows, _, hs1, hb1⟩ :=
    add_chars_level (cs.take k) t hs hb hm hw (fun c hc => hp c (List.mem_of_mem_take hc)) e1
  obtain ⟨f1, f2, _, _, f5, f6, f7, f8, f9, _⟩ := printed_frame hf
  have e3 := e2 s hrun
  simp only [clear_of_edge, Bool.and_eq_true, Bool.not_eq_true', Bool.and_eq_false_imp,
    decide_eq_true_eq, decide_eq_false_iff_not] at e3
  have hne : ¬ (wc (cs.getD k 0) = 2 ∧ s.cursor.x + 1 = s.cols) := fun a => e3.1 a.1 a.2
  have hmem : cs.getD k 0 ∈ cs := by
    rw [List.getD_eq_getElem _ _ hk]; exact List.getElem_mem _
  obtain ⟨s1, g, hsel, hadd, hf1, hy1, hrows1, hput, hedge1, _, _⟩ :=
    add_char_level hs1 hb1 (by rw [f9]; exact hm) (by rw [f6]; exact hw)
      (printable_table f5 _ (hp _ hmem)) hne
  obtain ⟨_, _, _, _, _, g6, _, _, _, _⟩ := printed_frame (grid_frame_next hf hf1)
  refine ⟨s, s1, g, hrun, ?_, hadd, ?_, by rw [hy1, hy], by rw [g6]; exact hw,
    grid_frame_next hf hf1, ?_, ?_, ?_⟩
  · rw [← select_glyph_table f5]; exact hsel
  · rw [take_snoc_getD cs k hk, add_chars_append, hrun]
    simp only [Option.some_bind, add_chars, hadd]
  · intro r hr
    rw [hrows1 r (by rw [hy]; exact hr), hrows r hr]
  · rw [← hy, ← make_cell_congr g f7 f8]
    exact hput
  · intro j u hj hu hx
    have et : cs.take k = cs.take j ++ (cs.take k).drop j := by
      have a := List.take_append_drop j (cs.take k)
      rw [List.take_take, Nat.min_eq_left hj] at a
      exact a.symm
    have he1 : clear_of_edge wc t (cs.take j ++ (cs.take k).drop j) = true := by
      rw [← et]; exact e1
    obtain ⟨d1, d2⟩ := clear_of_edge_append wc t _ _ he1
    obtain ⟨u1, hru, hfu, _, _, _, hsu, hbu⟩ :=
      add_chars_level (cs.take j) t hs hb hm hw
        (fun c hc => hp c (List.mem_of_mem_take hc)) d1
    have eu : u1 = u := by
      rw [hru] at hu
      exact Option.some.inj hu
    rw [eu] at hru hfu hsu hbu
    obtain ⟨u1c, _, _, _, u5, u6, _, _, u9, _⟩ := printed_frame hfu
    obtain ⟨s2, hr2, _, _, _, hedge2, _, _⟩ :=
      add_chars_level ((cs.take k).drop j) u hsu hbu (by rw [u9]; exact hm)
        (by rw [u6]; exact hw)
        (fun c hc => printable_table u5 c
          (hp c (List.mem_of_mem_take (List.mem_of_mem_drop hc))))
        (d2 u hru)
    have es : s2 = s := by
      have a := add_chars_append wc t (cs.take j) ((cs.take k).drop j)
      rw [← et, hrun, hru] at a
      simp only [Option.some_bind] at a
      rw [hr2] at a
      exact (Option.some.inj a).symm
    rw [es] at hedge2
    have x1 : s.cursor.x = u.cursor.x := hedge2 (by rw [u1c]; exact hx)
    have x2 : s1.cursor.x = s.cursor.x := hedge1 (by rw [x1, f1]; exact hx)
    exact ⟨by rw [x1]; exact hx, by rw [x2, x1]; exact hx⟩

end Yaft
namespace Yaft

open esc_state

/-- C34, witness of the amended claim: on a fresh terminal of 3 columns with AUTO_WRAP
off, the characters `a`, U+3000 (wide, arriving in column 1), `b`, `c` stay in row 0;
`b` and `c` arrive in the last column and are both written there. -/
theorem C34_no_wrap_witness :
    (∀ k, k < sample_chars.length → ∃ s s1 g,
      add_chars ascii_wcwidth nowrap_terminal (sample_chars.take k) = some s
      ∧ select_glyph nowrap_terminal (sample_chars.getD k 0)
          (ascii_wcwidth (sample_chars.getD k 0)) = some g
      ∧ add_char ascii_wcwidth s (sample_chars.getD k 0) = some s1
      ∧ add_chars ascii_wcwidth nowrap_terminal (sample_chars.take (k + 1)) = some s1
      ∧ s1.cursor.y = nowrap_terminal.cursor.y ∧ s1.wrap_occured = false
      ∧ grid_frame s1 nowrap_terminal = nowrap_terminal
      ∧ (∀ r, r ≠ nowrap_terminal.cursor.y → s1.cells[r]? = nowrap_terminal.cells[r]?)
      ∧ grid_at s1.cells nowrap_terminal.cursor.y s.cursor.x
          = some (make_cell nowrap_terminal g)
      ∧ (∀ j u, j ≤ k →
          add_chars ascii_wcwidth nowrap_terminal (sample_chars.take j) = some u →
          u.cursor.x + 1 = nowrap_terminal.cols →
          s.cursor.x + 1 = nowrap_terminal.cols ∧ s1.cursor.x + 1 = nowrap_terminal.cols))
    ∧ (add_chars ascii_wcwidth nowrap_terminal sample_chars).map
        (fun s => (s.cursor, s.wrap_occured, codes s.cells))
      = some ({ x := 2, y := 0 }, false,
          [[some 0x61, some 0x3000, some 0x63], [some 0x20, some 0x20, some 0x20]])
    ∧ (add_chars ascii_wcwidth nowrap_terminal [0x61, 0x3000, 0x62]).map
        (fun s => (s.cursor, s.wrap_occured, codes s.cells))
      = some ({ x := 2, y := 0 }, false,
          [[some 0x61, some 0x3000, some 0x62], [some 0x20, some 0x20, some 0x20]]) :=
  ⟨C34_no_wrap ascii_wcwidth nowrap_terminal sample_chars (by constructor <;> decide)
      (by constructor <;> decide) (by decide) (by decide) (by decide) (by decide),
    by decide, by decide⟩

/-- C34, counterexample: on a terminal of 3 columns and 2 lines, `ESC [ ? 7 l` turns
AUTO_WRAP off and `a`, `b` leave the cursor in the last column of row 0 with no wrap
pending. The wide character U+3000 is printable, and `add_char` for it takes the cursor
to row 1 (also when it comes as the bytes `E3 80 80`). With the cursor in the last column
of the bottom row instead, the same character scrolls the screen: row 0, which was
blank, now holds `a b`. -/
theorem C34_counterexample :
    (run 3 2 [0x1B, 0x5B, 0x3F, 0x37, 0x6C, 0x61, 0x62]).map
        (fun t => (has_bit t.mode MODE_AMRIGHT, t.wrap_occured, t.cursor))
      = some (false, false, { x := 2, y := 0 })
    ∧ printable ascii_wcwidth (fresh 3 2) 0x3000
    ∧ ((run 3 2 [0x1B, 0x5B, 0x3F, 0x37, 0x6C, 0x61, 0x62]).bind
        (fun t => add_char ascii_wcwidth t 0x3000)).map (fun s => (s.cursor, codes s.cells))
      = some ({ x := 2, y := 1 },
          [[some 0x61, some 0x62, some 0x20], [some 0x3000, some 0x3000, some 0x20]])
    ∧ (run 3 2 [0x1B, 0x5B, 0x3F, 0x37, 0x6C, 0x61, 0x62, 0xE3, 0x80, 0x80]).map
        (fun s => s.cursor) = some { x := 2, y := 1 }
    ∧ (run 3 2 [0x1B, 0x5B, 0x3F, 0x37, 0x6C, 0x1B, 0x5B, 0x32, 0x3B, 0x31, 0x48, 0x61,
                0x62]).map
        (fun t => (has_bit t.mode MODE_AMRIGHT, t.wrap_occured, t.cursor))
      = some (false, false, { x := 2, y := 1 })
    ∧ (run 3 2 [0x1B, 0x5B, 0x3F, 0x37, 0x6C, 0x1B, 0x5B, 0x32, 0x3B, 0x31, 0x48, 0x61,
                0x62]).map
        (fun t => codes t.cells)
      = some [[some 0x20, some 0x20, some 0x20], [some 0x61, some 0x62, some 0x20]]
    ∧ ((run 3 2 [0x1B, 0x5B, 0x3F, 0x37, 0x6C, 0x1B, 0x5B, 0x32, 0x3B, 0x31, 0x48, 0x61,
                 0x62]).bind
        (fun t => add_char ascii_wcwidth t 0x3000)).map (fun s => (s.cursor, codes s.cells))
      = some ({ x := 2, y := 1 },
          [[some 0x61, some 0x62, some 0x20], [some 0x3000, some 0x3000, some 0x20]]) := by
  set_option maxRecDepth 20000 in
  exact ⟨by decide, by decide, by decide, by decide, by decide, by decide, by decide⟩

end Yaft
namespace Yaft

open esc_state

/-! ## C32: the parameters `parse_arg` reads from a CSI parameter string -/

theorem push_ptr_eq (st : parse_arg_state) :
    push_ptr st = { st with argc := (add_ptr (st.argc, st.ptrs) st.vp).1,
                            ptrs := (add_ptr (st.argc, st.ptrs) st.vp).2 } := by
  unfold push_ptr add_ptr
  dsimp only
  split_ifs <;> rfl

theorem getD_set_self (l : List Nat) (i : Nat) : (l.set i 0).getD i 0 = 0 := by
  rw [List.getD_eq_getElem?_getD]
  by_cases h : i < l.length
  · rw [List.getElem?_set_self h]; rfl
  · rw [List.getElem?_eq_none (by rw [List.length_set]; omega)]; rfl

/-- One iteration of the loop of `parse_arg` on a `;`. -/
theorem parse_arg_step_delim (L : Nat) (st : parse_arg_state) (i : Nat)
    (hc : st.buf.getD i 0 = 0x3B) :
    parse_arg_step 0x3B isdigit L st i
      = if i + 1 = L then
          { buf := st.buf.set i 0, vp := none,
            argc := (add_ptr (add_ptr (st.argc, st.ptrs) st.vp) none).1,
            ptrs := (add_ptr (add_ptr (st.argc, st.ptrs) st.vp) none).2 }
        else
          { buf := st.buf.set i 0, vp := none,
            argc := (add_ptr (st.argc, st.ptrs) st.vp).1,
            ptrs := (add_ptr (st.argc, st.ptrs) st.vp).2 } := by
  have h1 : ¬ (st.vp = none ∧ isdigit (st.buf.getD i 0) = true) := by
    rw [hc]; exact fun h => absurd h.2 (by decide)
  unfold parse_arg_step
  dsimp only
  rw [if_neg h1, if_pos hc]
  rw [push_ptr_eq]
  dsimp only
  by_cases hl : i + 1 = L
  · rw [if_pos hl, if_pos ⟨hl, Or.inr (getD_set_self _ _)⟩, push_ptr_eq]
  · rw [if_neg hl, if_neg (fun h => hl h.1)]

/-- One iteration of the loop of `parse_arg` on a digit. -/
theorem parse_arg_step_digit (L : Nat) (st : parse_arg_state) (i : Nat)
    (hc : isdigit (st.buf.getD i 0) = true) :
    parse_arg_step 0x3B isdigit L st i
      = if i + 1 = L then
          { buf := st.buf, vp := if st.vp = none then some i else st.vp,
            argc := (add_ptr (st.argc, st.ptrs) (if st.vp = none then some i else st.vp)).1,
            ptrs := (add_ptr (st.argc, st.ptrs) (if st.vp = none then some i else st.vp)).2 }
        else
          { buf := st.buf, vp := if st.vp = none then some i else st.vp,
            argc := st.argc, ptrs := st.ptrs } := by
  have h2 : ¬ (st.buf.getD i 0 = 0x3B) := by
    intro e; rw [e] at hc; exact absurd hc (by decide)
  unfold parse_arg_step
  dsimp only
  by_cases hv : st.vp = none
  · have h1 : st.vp = none ∧ isdigit (st.buf.getD i 0) = true := ⟨hv, hc⟩
    rw [if_pos h1, if_pos hv]
    dsimp only
    rw [if_neg h2]
    by_cases hl : i + 1 = L
    · have h3 : i + 1 = L ∧ ((some i : Option Nat) ≠ none ∨ st.buf.getD i 0 = 0) :=
        ⟨hl, Or.inl (by simp)⟩
      rw [if_pos hl, if_pos h3, push_ptr_eq]
    · have h3 : ¬ (i + 1 = L ∧ ((some i : Option Nat) ≠ none ∨ st.buf.getD i 0 = 0)) :=
        fun h => hl h.1
      rw [if_neg hl, if_neg h3]
  · have h1 : ¬ (st.vp = none ∧ isdigit (st.buf.getD i 0) = true) := fun h => hv h.1
    rw [if_neg h1, if_neg hv, if_neg h2]
    by_cases hl : i + 1 = L
    · have h3 : i + 1 = L ∧ (st.vp ≠ none ∨ st.buf.getD i 0 = 0) := ⟨hl, Or.inl hv⟩
      rw [if_pos hl, if_pos h3, push_ptr_eq]
    · have h3 : ¬ (i + 1 = L ∧ (st.vp ≠ none ∨ st.buf.getD i 0 = 0)) := fun h => hl h.1
      rw [if_neg hl, if_neg h3]

end Yaft
namespace Yaft

open esc_state

theorem getD_at_length (pre : List Nat) (c : Nat) (r : List Nat) :
    (pre ++ c :: r).getD pre.length 0 = c := by
  rw [List.getD_eq_getElem?_getD, List.getElem?_append_right (le_refl _)]
  simp

theorem set_at_length (pre : List Nat) (c d : Nat) (r : List Nat) :
    (pre ++ c :: r).set pre.length d = pre ++ d :: r := by
  induction pre with
  | nil => rfl
  | cons a pre ih => simp only [List.cons_append, List.length_cons, List.set_cons_succ, ih]

/-- The loop of `parse_arg` over the bytes `rest` (digits and `;`, the last bytes of
the string) from offset `k` on: every `;` is rewritten to NUL and the pointers of
`ptr_run` are handed to `add_parm`. -/
theorem parse_arg_loop (L : Nat) (rest : List Nat) :
    ∀ (k : Nat) (pre : List Nat) (st : parse_arg_state), pre.length = k →
      L = k + rest.length → rest ≠ [] → (∀ c ∈ rest, isdigit c = true ∨ c = 0x3B) →
      st.buf = pre ++ rest ++ [0] →
      ∃ v, (List.range' k rest.length).foldl (parse_arg_step 0x3B isdigit L) st
        = { buf := pre ++ cut rest ++ [0], vp := v,
            argc := ((ptr_run k st.vp rest).foldl add_ptr (st.argc, st.ptrs)).1,
            ptrs := ((ptr_run k st.vp rest).foldl add_ptr (st.argc, st.ptrs)).2 } := by
  induction rest with
  | nil => intro _ _ _ _ _ h; exact absurd rfl h
  | cons c cs ih =>
    intro k pre st hk hL _ hd hbuf
    have hbuf2 : st.buf = pre ++ c :: (cs ++ [0]) := by
      rw [hbuf]; simp
    have hget : st.buf.getD k 0 = c := by
      rw [hbuf2, ← hk]; exact getD_at_length _ _ _
    have hset : st.buf.set k 0 = pre ++ 0 :: (cs ++ [0]) := by
      rw [hbuf2, ← hk]; exact set_at_length _ _ _ _
    have hcs : cs = [] ∨ cs ≠ [] := by
      cases cs with
      | nil => exact Or.inl rfl
      | cons a l => exact Or.inr (by simp)
    rcases hd c (List.mem_cons_self _ _) with hdig | hsemi
    · have hne : ¬ (c = 0x3B) := by
        intro e; rw [e] at hdig; exact absurd hdig (by decide)
      have hstep := parse_arg_step_digit L st k (by rw [hget]; exact hdig)
      have hcut : cut (c :: cs) = c :: cut cs := by
        unfold cut; simp only [List.map_cons, if_neg hne]
      rcases hcs with e | e
      · subst e
        have hl : k + 1 = L := by rw [hL]; rfl
        rw [if_pos hl] at hstep
        refine ⟨if st.vp = none then some k else st.vp, ?_⟩
        simp only [List.length_singleton, List.range'_one, List.foldl_cons, List.foldl_nil]
        rw [hstep, hbuf]
        simp only [ptr_run, if_neg hne, List.foldl_cons, List.foldl_nil, hcut]
        rfl
      · have hl : ¬ (k + 1 = L) := by
          have : 0 < cs.length := List.length_pos.mpr e
          rw [hL, List.length_cons]; omega
        rw [if_neg hl] at hstep
        obtain ⟨v, hv⟩ := ih (k + 1) (pre ++ [c]) _ (by rw [List.length_append, hk]; rfl)
          (by rw [hL, List.length_cons]; omega) e
          (fun d hdm => hd d (List.mem_cons_of_mem _ hdm))
          (show (parse_arg_step 0x3B isdigit L st k).buf = pre ++ [c] ++ cs ++ [0] by
            rw [hstep, hbuf]; simp)
        refine ⟨v, ?_⟩
        rw [List.length_cons, List.range'_succ, List.foldl_cons, hv, hstep]
        simp only [ptr_run, if_neg hne, hcut, List.append_assoc, List.singleton_append]
    · subst hsemi
      have hstep := parse_arg_step_delim L st k hget
      have hcut : cut (0x3B :: cs) = 0 :: cut cs := by
        unfold cut; simp only [List.map_cons, if_true]
      rcases hcs with e | e
      · subst e
        have hl : k + 1 = L := by rw [hL]; rfl
        rw [if_pos hl] at hstep
        refine ⟨none, ?_⟩
        simp only [List.length_singleton, List.range'_one, List.foldl_cons, List.foldl_nil]
        rw [hstep, hset]
        simp only [ptr_run, if_true, List.foldl_cons, List.foldl_nil, hcut]
        simp [cut]
      · have hl : ¬ (k + 1 = L) := by
          have : 0 < cs.length := List.length_pos.mpr e
          rw [hL, List.length_cons]; omega
        rw [if_neg hl] at hstep
        obtain ⟨v, hv⟩ := ih (k + 1) (pre ++ [0]) _ (by rw [List.length_append, hk]; rfl)
          (by rw [hL, List.length_cons]; omega) e
          (fun d hdm => hd d (List.mem_cons_of_mem _ hdm))
          (show (parse_arg_step 0x3B isdigit L st k).buf = pre ++ [0] ++ cs ++ [0] by
            rw [hstep, hset]; simp)
        refine ⟨v, ?_⟩
        rw [List.length_cons, List.range'_succ, List.foldl_cons, hv, hstep]
        simp only [ptr_run, if_true, hcut, List.append_assoc, List.singleton_append,
          List.foldl_cons]

end Yaft
namespace Yaft

open esc_state

/-- The calls of `add_parm` for the pointers `P`, from `a ≤ 16` arguments stored: the
count stops at 16, the arguments stored before stay, and the pointers of `P` follow them
in order as far as there is room. -/
theorem add_ptr_run (P : List (Option Nat)) :
    ∀ (a : Nat) (ptrs : List (Option Nat)), a ≤ 16 → ptrs.length = 16 →
      (P.foldl add_ptr (a, ptrs)).1 = min (a + P.length) 16
      ∧ ∀ i, i < min (a + P.length) 16 →
          (P.foldl add_ptr (a, ptrs)).2[i]? = if i < a then ptrs[i]? else P[i - a]? := by
  induction P with
  | nil =>
    intro a ptrs ha _
    refine ⟨by simp only [List.foldl_nil, List.length_nil]; omega, fun i hi => ?_⟩
    simp only [List.length_nil] at hi
    simp only [List.foldl_nil]
    rw [if_pos (by omega)]
  | cons p P ih =>
    intro a ptrs ha hl
    simp only [List.foldl_cons, List.length_cons]
    by_cases c : a ≥ MAX_ARGS
    · have e : add_ptr (a, ptrs) p = (a, ptrs) := by
        unfold add_ptr; rw [if_pos c]
      have c16 : a = 16 := by unfold MAX_ARGS at c; omega
      obtain ⟨k1, k2⟩ := ih a ptrs ha hl
      rw [e]
      refine ⟨by rw [k1]; omega, fun i hi => ?_⟩
      rw [k2 i (by omega), if_pos (by omega), if_pos (by omega)]
    · have e : add_ptr (a, ptrs) p = (a + 1, ptrs.set a p) := by
        unfold add_ptr; rw [if_neg c]
      have c16 : a < 16 := by unfold MAX_ARGS at c; omega
      obtain ⟨k1, k2⟩ := ih (a + 1) (ptrs.set a p) (by omega) (by rw [List.length_set]; exact hl)
      rw [e]
      refine ⟨by rw [k1]; omega, fun i hi => ?_⟩
      rw [k2 i (by omega)]
      by_cases c1 : i < a
      · rw [if_pos (by omega), if_pos c1, List.getElem?_set_ne (by omega)]
      · rw [if_neg c1]
        by_cases c2 : i = a
        · subst c2
          rw [if_pos (by omega), List.getElem?_set_self (by omega)]
          simp
        · rw [if_neg (by omega)]
          have e3 : i - a = (i - (a + 1)) + 1 := by omega
          rw [e3, List.getElem?_cons_succ]

/-- The C string at offset `i` of the rewritten buffer is the run of bytes of the
parameter string from offset `i` up to the next `;`. -/
theorem c_str_cut (l : List Nat) (hd : ∀ c ∈ l, isdigit c = true ∨ c = 0x3B) :
    ∀ i, c_str ((cut l ++ [0]).drop i) = (l.drop i).takeWhile (fun c => c != 0x3B) := by
  induction l with
  | nil =>
    intro i
    cases i with
    | zero => rfl
    | succ i => simp [cut, c_str]
  | cons a l ih =>
    intro i
    cases i with
    | zero =>
      have k := ih (fun c hc => hd c (List.mem_cons_of_mem _ hc)) 0
      simp only [List.drop_zero] at k ⊢
      rcases hd a (List.mem_cons_self _ _) with h | h
      · have h1 : ¬ (a = 0x3B) := by
          intro e; rw [e] at h; exact absurd h (by decide)
        have h2 : ¬ (a = 0) := by
          intro e; rw [e] at h; exact absurd h (by decide)
        have e1 : cut (a :: l) = a :: cut l := by
          unfold cut; simp only [List.map_cons, if_neg h1]
        rw [e1]
        unfold c_str at k ⊢
        rw [List.cons_append, List.takeWhile_cons_of_pos (by simpa using h2),
          List.takeWhile_cons_of_pos (by simpa using h1), k]
      · subst h
        have e1 : cut (0x3B :: l) = 0 :: cut l := by
          unfold cut; simp only [List.map_cons, if_true]
        rw [e1]
        unfold c_str
        rw [List.cons_append, List.takeWhile_cons_of_neg (by simp),
          List.takeWhile_cons_of_neg (by simp)]
    | succ i =>
      have k := ih (fun c hc => hd c (List.mem_cons_of_mem _ hc)) i
      have e1 : cut (a :: l) = (if a = 0x3B then 0 else a) :: cut l := by
        unfold cut; rfl
      rw [e1, List.cons_append, List.drop_succ_cons, List.drop_succ_cons]
      exact k

end Yaft
namespace Yaft

open esc_state

theorem splitOn_semicolon (cs : List Nat) :
    (0x3B :: cs).splitOn 0x3B = [] :: cs.splitOn 0x3B := by
  unfold List.splitOn
  rw [List.splitOnP_cons, if_pos (by simp)]

theorem splitOn_digit (c : Nat) (cs : List Nat) (h : ¬ (c = 0x3B)) :
    (c :: cs).splitOn 0x3B = (cs.splitOn 0x3B).modifyHead (List.cons c) := by
  unfold List.splitOn
  rw [List.splitOnP_cons, if_neg (by simpa using h)]

/-- The pointers handed to `add_parm` resolve to the `;`-separated fields, in order:
an empty field gives a NULL pointer and any other field a pointer to its first byte.
The bytes `cur` are those of the field that was begun before offset `k`. -/
theorem ptr_run_fields (rest : List Nat) :
    ∀ (k : Nat) (pre : List Nat) (vp : Option Nat) (cur : List Nat), pre.length = k →
      ((vp = none ∧ cur = []) ∨ (∃ j, vp = some j ∧ j < k ∧ cur = pre.drop j)) →
      (∀ c ∈ cur, ¬ (c = 0x3B)) →
      (ptr_run k vp rest).map
          (fun p => p.map (fun j => ((pre ++ rest).drop j).takeWhile (fun c => c != 0x3B)))
        = ((rest.splitOn 0x3B).modifyHead (fun f => cur ++ f)).map field_arg := by
  induction rest with
  | nil =>
    intro k pre vp cur hk hv hc
    have e1 : (fun c : Nat => c != 0x3B) = (fun c : Nat => !(c == 0x3B)) := rfl
    simp only [ptr_run, List.splitOn_nil, List.modifyHead_cons, List.map_cons, List.map_nil,
      List.append_nil]
    rcases hv with ⟨a, b⟩ | ⟨j, a, b, d⟩
    · rw [a, b]; rfl
    · have hne : cur ≠ [] := by
        rw [d]; intro e
        have := congrArg List.length e
        simp only [List.length_drop, List.length_nil] at this
        omega
      have ht : cur.takeWhile (fun c => c != 0x3B) = cur :=
        List.takeWhile_eq_self_iff.mpr (fun x hx => by simpa using hc x hx)
      rw [a]
      simp only [Option.map_some', ← d, ht]
      unfold field_arg
      rw [if_neg hne]
  | cons c cs ih =>
    intro k pre vp cur hk hv hc
    have happ : pre ++ c :: cs = (pre ++ [c]) ++ cs := by simp
    have hlen : (pre ++ [c]).length = k + 1 := by rw [List.length_append, hk]; rfl
    by_cases h : c = 0x3B
    · subst h
      have k1 := ih (k + 1) (pre ++ [0x3B]) none [] hlen (Or.inl ⟨rfl, rfl⟩)
        (fun _ hx => absurd hx (List.not_mem_nil _))
      have e0 : (fun f : List Nat => ([] : List Nat) ++ f) = id := by
        funext f; rfl
      rw [e0, List.modifyHead_id] at k1
      simp only [ptr_run, if_true, List.map_cons, splitOn_semicolon, List.modifyHead_cons,
        List.append_nil]
      rw [happ, k1]
      simp only [id_eq]
      congr 1
      rcases hv with ⟨a, b⟩ | ⟨j, a, b, d⟩
      · rw [a, b]; rfl
      · have hne : cur ≠ [] := by
          rw [d]; intro e
          have := congrArg List.length e
          simp only [List.length_drop, List.length_nil] at this
          omega
        rw [a]
        simp only [Option.map_some']
        rw [List.drop_append_of_le_length (by omega : j ≤ (pre ++ [0x3B]).length),
          List.drop_append_of_le_length (by omega : j ≤ pre.length), List.append_assoc, ← d,
          List.takeWhile_append_of_pos (fun x hx => by simpa using hc x hx)]
        simp only [List.singleton_append]
        rw [List.takeWhile_cons_of_neg (by simp), List.append_nil]
        unfold field_arg
        rw [if_neg hne]
    · have hv2 : ((if vp = none then some k else vp) = none ∧ cur ++ [c] = [])
          ∨ (∃ j, (if vp = none then some k else vp) = some j ∧ j < k + 1
              ∧ cur ++ [c] = (pre ++ [c]).drop j) := by
        refine Or.inr ?_
        rcases hv with ⟨a, b⟩ | ⟨j, a, b, d⟩
        · refine ⟨k, by rw [if_pos a], by omega, ?_⟩
          rw [b, ← hk, List.drop_append_of_le_length (le_refl _), List.drop_length]
        · refine ⟨j, by rw [a]; rfl, by omega, ?_⟩
          rw [List.drop_append_of_le_length (by omega), d]
      have k1 := ih (k + 1) (pre ++ [c]) (if vp = none then some k else vp) (cur ++ [c]) hlen
        hv2 (fun x hx => by
          rcases List.mem_append.mp hx with m | m
          · exact hc x m
          · rw [List.mem_singleton.mp m]; exact h)
      have e0 : (fun f : List Nat => cur ++ [c] ++ f)
          = (fun f : List Nat => cur ++ f) ∘ List.cons c := by
        funext f; simp
      simp only [ptr_run, if_neg h, splitOn_digit c cs h, List.modifyHead_modifyHead]
      rw [happ, k1, e0]

end Yaft
namespace Yaft

open esc_state

theorem splitOn_length (ps : List Nat) : (ps.splitOn 0x3B).length = ps.count 0x3B + 1 := by
  induction ps with
  | nil => rfl
  | cons c cs ih =>
    by_cases h : c = 0x3B
    · subst h
      rw [splitOn_semicolon, List.length_cons, ih, List.count_cons_self]
    · rw [splitOn_digit c cs h, List.length_modifyHead, ih,
        List.count_cons_of_ne (fun e => h e.symm)]

theorem splitOn_fields (ps : List Nat) :
    ∀ f ∈ ps.splitOn 0x3B, ∀ c ∈ f, c ∈ ps ∧ ¬ (c = 0x3B) := by
  induction ps with
  | nil =>
    intro f hf c hc
    rw [List.splitOn_nil, List.mem_singleton] at hf
    rw [hf] at hc
    exact absurd hc (List.not_mem_nil _)
  | cons a cs ih =>
    intro f hf c hc
    by_cases h : a = 0x3B
    · subst h
      rw [splitOn_semicolon] at hf
      rcases List.mem_cons.mp hf with e | m
      · rw [e] at hc; exact absurd hc (List.not_mem_nil _)
      · exact ⟨List.mem_cons_of_mem _ (ih f m c hc).1, (ih f m c hc).2⟩
    · rw [splitOn_digit a cs h] at hf
      cases hs : cs.splitOn 0x3B with
      | nil => rw [hs] at hf; exact absurd hf (List.not_mem_nil _)
      | cons f0 fs =>
        rw [hs, List.modifyHead_cons] at hf
        rcases List.mem_cons.mp hf with e | m
        · rw [e] at hc
          rcases List.mem_cons.mp hc with e2 | m2
          · rw [e2]; exact ⟨List.mem_cons_self _ _, h⟩
          · have k := ih f0 (by rw [hs]; exact List.mem_cons_self _ _) c m2
            exact ⟨List.mem_cons_of_mem _ k.1, k.2⟩
        · have k := ih f (by rw [hs]; exact List.mem_cons_of_mem _ m) c hc
          exact ⟨List.mem_cons_of_mem _ k.1, k.2⟩

theorem isdigit_range {c : Nat} (h : isdigit c = true) : 0x30 ≤ c ∧ c ≤ 0x39 := by
  unfold isdigit at h
  simpa using h

/-- What `dec2num` reads from a non-empty string of decimal digits: its decimal value
narrowed to `int`, or 0 when `strtol` reports `LONG_MAX`. -/
theorem dec2num_digits (f : List Nat) (hne : f ≠ []) (hd : ∀ c ∈ f, isdigit c = true) :
    dec2num (some f)
      = if (decimal_value f : Int) ≥ LONG_MAX then 0 else to_int (decimal_value f) := by
  cases f with
  | nil => exact absurd rfl hne
  | cons c r =>
    have hc := isdigit_range (hd c (List.mem_cons_self _ _))
    have h1 : (c :: r).dropWhile isspace = c :: r := by
      rw [List.dropWhile_cons_of_neg]
      unfold isspace
      simp
      omega
    have h2 : digits_value (c :: r) = decimal_value (c :: r) := by
      unfold digits_value decimal_value
      rw [List.takeWhile_eq_self_iff.mpr hd]
    have h3 : strtol (c :: r)
        = if (decimal_value (c :: r) : Int) > LONG_MAX then LONG_MAX
          else (decimal_value (c :: r) : Int) := by
      unfold strtol
      dsimp only
      rw [h1]
      refine (congrArg (fun v : Int => if v > LONG_MAX then LONG_MAX
        else if v < LONG_MIN then LONG_MIN else v)
        (?_ : _ = (decimal_value (c :: r) : Int))).trans ?_
      · split
        · rename_i heq
          have := (List.cons.inj heq).1
          omega
        · rename_i heq
          have := (List.cons.inj heq).1
          omega
        · rw [h2]
      · dsimp only
        have : ¬ ((decimal_value (c :: r) : Int) < LONG_MIN) := by
          unfold LONG_MIN; omega
        split_ifs <;> rfl
    unfold dec2num estrtol
    dsimp only
    rw [h3]
    by_cases g : (decimal_value (c :: r) : Int) ≥ LONG_MAX
    · rw [if_pos g]
      by_cases g2 : (decimal_value (c :: r) : Int) > LONG_MAX
      · rw [if_pos g2, if_pos (Or.inr rfl)]; rfl
      · have e : (decimal_value (c :: r) : Int) = LONG_MAX := by omega
        rw [if_neg g2, if_pos (Or.inr e)]; rfl
    · have g2 : ¬ ((decimal_value (c :: r) : Int) > LONG_MAX) := by omega
      have g3 : ¬ ((decimal_value (c :: r) : Int) = LONG_MIN
          ∨ (decimal_value (c :: r) : Int) = LONG_MAX) := by
        unfold LONG_MIN LONG_MAX; unfold LONG_MAX at g; omega
      rw [if_neg g, if_neg g2, if_neg g3]

end Yaft
namespace Yaft

open esc_state

theorem c_str_terminated (ps : List Nat) (hd : ∀ c ∈ ps, isdigit c = true ∨ c = 0x3B) :
    c_str (ps ++ [0]) = ps := by
  unfold c_str
  rw [List.takeWhile_append_of_pos]
  · simp
  · intro a ha
    rcases hd a ha with h | h
    · have := isdigit_range h
      simp only [bne_iff_ne, ne_eq]
      omega
    · rw [h]; rfl

/-- The parameters `parse_arg` reads from a non-empty string of digits and `;`: the
count is the number of fields, at most 16, and the arguments are the fields in order,
an empty field as a NULL argument. -/
theorem csi_parm_fields (ps : List Nat) (hne : ps ≠ [])
    (hd : ∀ c ∈ ps, isdigit c = true ∨ c = 0x3B) :
    (csi_parm ps).argc = min (ps.count 0x3B + 1) 16
    ∧ ∀ i, i < min (ps.count 0x3B + 1) 16 →
        (csi_parm ps).arg i = field_arg ((ps.splitOn 0x3B).getD i []) := by
  have hfields := ptr_run_fields ps 0 [] none [] rfl (Or.inl ⟨rfl, rfl⟩)
    (fun _ hx => absurd hx (List.not_mem_nil _))
  have e0 : (fun f : List Nat => ([] : List Nat) ++ f) = id := by
    funext f; rfl
  rw [e0, List.modifyHead_id] at hfields
  simp only [List.nil_append, id_eq] at hfields
  have hlenP : (ptr_run 0 none ps).length = ps.count 0x3B + 1 := by
    have := congrArg List.length hfields
    simp only [List.length_map] at this
    rw [this, splitOn_length]
  obtain ⟨v, hv⟩ := parse_arg_loop ps.length ps 0 [] 
    { buf := ps ++ [0], vp := none, argc := 0, ptrs := List.replicate MAX_ARGS none }
    rfl (by simp) hne hd (by simp)
  obtain ⟨r1, r2⟩ := add_ptr_run (ptr_run 0 none ps) 0 (List.replicate MAX_ARGS none)
    (by omega) (by simp [MAX_ARGS])
  rw [Nat.zero_add, hlenP] at r1 r2
  have hparm : csi_parm ps
      = { argc := ((ptr_run 0 none ps).foldl add_ptr (0, List.replicate MAX_ARGS none)).1,
          argv := (((ptr_run 0 none ps).foldl add_ptr (0, List.replicate MAX_ARGS none)).2).map
            (fun p => p.map (fun i => c_str ((cut ps ++ [0]).drop i))) } := by
    unfold csi_parm parse_arg
    dsimp only
    rw [c_str_terminated ps hd, List.range_eq_range', hv]
    simp only [List.nil_append]
  rw [hparm]
  refine ⟨r1, fun i hi => ?_⟩
  unfold parm_t.arg
  dsimp only
  rw [List.getD_eq_getElem?_getD, List.getElem?_map, r2 i hi, if_neg (by omega),
    Nat.sub_zero]
  have hi2 : i < (ps.splitOn 0x3B).length := by
    rw [splitOn_length]; omega
  have k := congrArg (fun l : List (Option (List Nat)) => l[i]?) hfields
  simp only [List.getElem?_map] at k
  have ec : (fun p : Option Nat => p.map (fun i => c_str ((cut ps ++ [0]).drop i)))
      = (fun p : Option Nat =>
          p.map (fun j => (ps.drop j).takeWhile (fun c => c != 0x3B))) := by
    funext p
    cases p with
    | none => rfl
    | some j => simp only [Option.map_some', c_str_cut ps hd j]
  rw [ec, k, List.getElem?_eq_getElem hi2, List.getD_eq_getElem _ _ hi2]
  rfl

end Yaft
namespace Yaft

open esc_state

/-- C32 (amended): for every parameter string `ps` of decimal digits and `;` with `m`
semicolons, as `csi_sequence` hands it to `parse_arg`: the empty string gives zero
parameters; a non-empty string has `m + 1` fields and gives exactly `min(m + 1, 16)`
parameters, the `i`-th being the `i`-th `;`-separated field in order: an empty field
(leading, trailing or between two semicolons) is a NULL parameter, which `dec2num` reads
as 0, and a non-empty field is the C string of its digits, which `dec2num` reads as
its decimal value when this value is at most 2147483647. -/
theorem C32_parse_arg_fields (ps : List Nat) (hd : ∀ c ∈ ps, isdigit c = true ∨ c = 0x3B) :
    (ps = [] → (csi_parm ps).argc = 0)
    ∧ (ps ≠ [] →
        (ps.splitOn 0x3B).length = ps.count 0x3B + 1
        ∧ (csi_parm ps).argc = min (ps.count 0x3B + 1) 16
        ∧ ∀ i, i < min (ps.count 0x3B + 1) 16 →
            (csi_parm ps).arg i = field_arg ((ps.splitOn 0x3B).getD i [])
            ∧ ((ps.splitOn 0x3B).getD i [] = [] →
                (csi_parm ps).arg i = none ∧ dec2num ((csi_parm ps).arg i) = 0)
            ∧ ((ps.splitOn 0x3B).getD i [] ≠ [] →
                (csi_parm ps).arg i = some ((ps.splitOn 0x3B).getD i [])
                ∧ (decimal_value ((ps.splitOn 0x3B).getD i []) ≤ 2147483647 →
                    dec2num ((csi_parm ps).arg i)
                      = decimal_value ((ps.splitOn 0x3B).getD i [])))) := by
  refine ⟨fun e => by rw [e]; rfl, fun hne => ?_⟩
  obtain ⟨h1, h2⟩ := csi_parm_fields ps hne hd
  refine ⟨splitOn_length ps, h1, fun i hi => ?_⟩
  have hi2 : i < (ps.splitOn 0x3B).length := by
    rw [splitOn_length]; omega
  have hmem : (ps.splitOn 0x3B).getD i [] ∈ ps.splitOn 0x3B := by
    rw [List.getD_eq_getElem _ _ hi2]; exact List.getElem_mem _
  refine ⟨h2 i hi, fun e => ?_, fun e => ?_⟩
  · have a : (csi_parm ps).arg i = none := by
      rw [h2 i hi, e]; rfl
    exact ⟨a, by rw [a]; rfl⟩
  · have a : (csi_parm ps).arg i = some ((ps.splitOn 0x3B).getD i []) := by
      rw [h2 i hi]; unfold field_arg; rw [if_neg e]
    refine ⟨a, fun hv => ?_⟩
    have hdig : ∀ c ∈ (ps.splitOn 0x3B).getD i [], isdigit c = true := by
      intro c hc
      obtain ⟨m1, m2⟩ := splitOn_fields ps _ hmem c hc
      rcases hd c m1 with g | g
      · exact g
      · exact absurd g m2
    have g1 : ¬ ((decimal_value ((ps.splitOn 0x3B).getD i []) : Int) ≥ LONG_MAX) := by
      unfold LONG_MAX; omega
    have g2 : to_int (decimal_value ((ps.splitOn 0x3B).getD i []) : Int)
        = (decimal_value ((ps.splitOn 0x3B).getD i []) : Int) := by
      unfold to_int; omega
    rw [a, dec2num_digits _ e hdig, if_neg g1, g2]

set_option maxRecDepth 20000 in
/-- C32, witness of the amended claim at the parameter string `1;;23`: three fields
`1`, the empty field and `23`, read as the values 1, 0 and 23; a string of 17
semicolons has 18 fields and gives 16 parameters. -/
theorem C32_parse_arg_fields_witness :
    ((sample_parameters = [] → (csi_parm sample_parameters).argc = 0)
      ∧ (sample_parameters ≠ [] →
        (sample_parameters.splitOn 0x3B).length = sample_parameters.count 0x3B + 1
        ∧ (csi_parm sample_parameters).argc = min (sample_parameters.count 0x3B + 1) 16
        ∧ ∀ i, i < min (sample_parameters.count 0x3B + 1) 16 →
            (csi_parm sample_parameters).arg i
              = field_arg ((sample_parameters.splitOn 0x3B).getD i [])
            ∧ ((sample_parameters.splitOn 0x3B).getD i [] = [] →
                (csi_parm sample_parameters).arg i = none
                ∧ dec2num ((csi_parm sample_parameters).arg i) = 0)
            ∧ ((sample_parameters.splitOn 0x3B).getD i [] ≠ [] →
                (csi_parm sample_parameters).arg i
                  = some ((sample_parameters.splitOn 0x3B).getD i [])
                ∧ (decimal_value ((sample_parameters.splitOn 0x3B).getD i []) ≤ 2147483647 →
                    dec2num ((csi_parm sample_parameters).arg i)
                      = decimal_value ((sample_parameters.splitOn 0x3B).getD i [])))))
    ∧ sample_parameters.splitOn 0x3B = [[0x31], [], [0x32, 0x33]]
    ∧ (csi_parm sample_parameters).argc = 3
    ∧ (csi_parm sample_parameters).argv.take 4 = [some [0x31], none, some [0x32, 0x33], none]
    ∧ parm_values (csi_parm sample_parameters) = [1, 0, 23]
    ∧ (csi_parm (List.replicate 17 0x3B)).argc = 16
    ∧ (csi_parm []).argc = 0 :=
  ⟨C32_parse_arg_fields sample_parameters (by decide), by decide, by decide, by decide,
    by decide, by decide, by decide⟩

set_option maxRecDepth 20000 in
/-- C32, counterexample: the parameter string `2147483648` consists of decimal digits
only and is one non-empty field, handed over as the C string of its digits; its decimal
value is 2147483648, and `dec2num` reads it as -2147483648. A field of twenty digits
`9` is read as 0. -/
theorem C32_counterexample :
    (∀ c ∈ wide_parameter, isdigit c = true ∨ c = 0x3B)
    ∧ wide_parameter.splitOn 0x3B = [wide_parameter]
    ∧ (csi_parm wide_parameter).argc = 1
    ∧ (csi_parm wide_parameter).arg 0 = some wide_parameter
    ∧ decimal_value wide_parameter = 2147483648
    ∧ dec2num ((csi_parm wide_parameter).arg 0) = -2147483648
    ∧ decimal_value (List.replicate 20 0x39) = 99999999999999999999
    ∧ (csi_parm (List.replicate 20 0x39)).arg 0 = some (List.replicate 20 0x39)
    ∧ dec2num ((csi_parm (List.replicate 20 0x39)).arg 0) = 0 :=
  ⟨by decide, by decide, by decide, by decide, by decide, by decide, by decide, by decide,
    by decide⟩

end Yaft

namespace Yaft

open esc_state

/-! ## C28: `move_cursor`, with the rows it scrolls -/

theorem store_cursor_y_frame (b : terminal_t) (v : Int) :
    (store_cursor_y b v).cursor.x = b.cursor.x
      ∧ (store_cursor_y b v).wrap_occured = b.wrap_occured
      ∧ (store_cursor_y b v).cells = b.cells
      ∧ (store_cursor_y b v).line_dirty = b.line_dirty
      ∧ (store_cursor_y b v).cursor.y = to_u16 v :=
  ⟨rfl, rfl, rfl, rfl, rfl⟩

/-- The state after `scroll_window` in `move_cursor`, with the row stored: everything
but the cursor, the wrap flag, the grid and the dirty flags is as in `t`. -/
theorem scrolled_frame {t b : terminal_t} (dx : Int) (v : Int)
    (hg : Grid (shifted t dx) b) :
    ({ store_cursor_y b v with
        cursor := t.cursor
        wrap_occured := t.wrap_occured
        cells := t.cells
        line_dirty := t.line_dirty } : terminal_t) = t := by
  have h := congrArg (fun u : terminal_t =>
    ({ u with cursor := t.cursor, wrap_occured := t.wrap_occured } : terminal_t)) hg.1
  exact h

/-- C28 (amended): on a terminal with `1 ≤ cols ≤ 65536` and `1 ≤ lines ≤ 65536` whose
arrays have their sizes and whose scroll region satisfies `top < bottom ≤ lines-1`,
for offsets `(dy, dx)` such that `x + dx` and `y + dy` are in the range of a C `int`
and, in the two scrolling cases, `|dy|` is at most the height `bottom - top + 1` of
the region, `move_cursor(dy, dx)` returns and: the new column is
`clamp(x + dx, 0, cols-1)`; the wrap flag is set when `x + dx ≥ cols` with AUTO_WRAP on
and unchanged otherwise; at the top margin with `dy < 0` the row is `scroll.top`, and
at the bottom margin with `dy > 0` the row is `scroll.bottom`, and in both cases the
rows `top .. bottom` are scrolled by `dy` (a row whose source row `r + dy` is in the
region holds its former content, the other rows of the region are erased, the rows
outside are unchanged, the rows of the region are dirty); otherwise the row is
`clamp(y + dy, 0, lines-1)` and neither a cell nor a dirty flag changes. Nothing but
the cursor, the wrap flag, the grid and the dirty flags is written. -/
theorem C28_move_cursor (t : terminal_t) (dy dx : Int) (hc1 : 1 ≤ t.cols)
    (hc2 : t.cols ≤ 65536) (hl1 : 1 ≤ t.lines) (hl2 : t.lines ≤ 65536)
    (hr : t.cells.length = t.lines) (hrl : ∀ row ∈ t.cells, row.length = t.cols)
    (hd : t.line_dirty.length = t.lines)
    (hm : t.scroll.top < t.scroll.bottom) (hb : t.scroll.bottom < t.lines)
    (hx : -2147483648 ≤ t.cursor.x + dx ∧ t.cursor.x + dx < 2147483648)
    (hy : -2147483648 ≤ t.cursor.y + dy ∧ t.cursor.y + dy < 2147483648)
    (hk : (t.cursor.y = t.scroll.top ∧ dy < 0) ∨ (t.cursor.y = t.scroll.bottom ∧ dy > 0) →
      dy.natAbs ≤ t.scroll.bottom - t.scroll.top + 1) :
    ∃ s, move_cursor t dy dx = some s ∧ move_cursor_post t dy dx s := by
  have ei : to_int ((t.cursor.y : Int) + dy) = t.cursor.y + dy := by unfold to_int; omega
  have ec := clamp_code ((t.cursor.y : Int) + dy) 0 ((t.lines : Int) - 1) (by omega)
  have ec2 : (if (t.cursor.y : Int) + dy < 0 then (0 : Int)
      else if (t.cursor.y : Int) + dy ≥ (t.lines : Int) then (t.lines : Int) - 1
      else (t.cursor.y : Int) + dy) = clamp ((t.cursor.y : Int) + dy) 0 ((t.lines : Int) - 1) := by
    rw [← ec]
    by_cases c1 : (t.cursor.y : Int) + dy < 0
    · rw [if_pos c1, if_pos c1]
    · rw [if_neg c1, if_neg c1]
      by_cases c2 : (t.cursor.y : Int) + dy ≥ (t.lines : Int)
      · rw [if_pos c2, if_pos (by omega)]
      · rw [if_neg c2, if_neg (by omega)]
  have eu : to_u16 (clamp ((t.cursor.y : Int) + dy) 0 ((t.lines : Int) - 1))
      = (clamp ((t.cursor.y : Int) + dy) 0 ((t.lines : Int) - 1)).toNat :=
    to_u16_clamp _ _ _ (by omega) (le_refl _) (by omega)
  have hin : ¬ ¬ (in_int ((t.cursor.x : Int) + dx) ∧ in_int ((t.cursor.y : Int) + dy)) := by
    unfold in_int; omega
  have hgr : Grid (shifted t dx) (shifted t dx) := ⟨rfl, hr, hrl, hd⟩
  have etop : to_u16 (t.scroll.top : Int) = t.scroll.top := by unfold to_u16; omega
  have ebot : to_u16 (t.scroll.bottom : Int) = t.scroll.bottom := by unfold to_u16; omega
  unfold move_cursor
  rw [if_neg hin]
  dsimp only
  rw [move_cursor_x_eq t dx hc1 hc2 hx, ei, ec2, shifted_row]
  by_cases c1 : t.cursor.y = t.scroll.top ∧ dy < 0
  · have c1a : (t.cursor.y : Int) = (t.scroll.top : Int) ∧ dy < 0 := ⟨by omega, c1.2⟩
    have c2 : ¬ (t.cursor.y = t.scroll.bottom ∧ dy > 0) := by omega
    have hk1 := hk (Or.inl c1)
    obtain ⟨k, ek⟩ : ∃ k : Nat, dy = -(k : Int) := ⟨dy.natAbs, by omega⟩
    subst ek
    rw [Int.natAbs_neg, Int.natAbs_ofNat] at hk1
    obtain ⟨b, e, g, r1, r2, r3, r4, r5⟩ := scroll_window_down hgr t.scroll.top
      t.scroll.bottom k hm hb (by omega) hk1 (by show t.lines < 2147483648; omega)
    rw [if_pos c1a]
    have e1 : scroll_window (shifted t dx) (t.scroll.top : Int) (t.scroll.bottom : Int)
        (-(k : Int)) = some b := e
    rw [e1]
    have ex : b.cursor.x = (shifted t dx).cursor.x := by
      have := congrArg (fun u : terminal_t => u.cursor.x) g.1; exact this
    have ew : b.wrap_occured = (shifted t dx).wrap_occured := by
      have := congrArg (fun u : terminal_t => u.wrap_occured) g.1; exact this
    refine ⟨_, rfl, ?_⟩
    unfold move_cursor_post
    refine ⟨ex, ew, fun _ => ⟨etop, ?_⟩, fun h => absurd h c2,
      fun h => absurd c1 h, scrolled_frame dx _ g⟩
    clear ex ew ei ec ec2 eu hin etop ebot hx hy
    refine ⟨fun r h1 h2 h3 h4 => ?_, fun r h1 h2 h3 x hx1 => ?_, r3, r4, r5⟩
    · have e2 : ((r : Int) + -(k : Int)).toNat = r - k := by omega
      rw [e2]
      exact r1 r (by omega) h2
    · exact r2 r h1 (by omega) x hx1
  · have c1a : ¬ ((t.cursor.y : Int) = (t.scroll.top : Int) ∧ dy < 0) :=
      fun h => c1 ⟨by omega, h.2⟩
    rw [if_neg c1a]
    by_cases c2 : t.cursor.y = t.scroll.bottom ∧ dy > 0
    · have c2a : (t.cursor.y : Int) = (t.scroll.bottom : Int) ∧ dy > 0 := ⟨by omega, c2.2⟩
      have hk1 := hk (Or.inr c2)
      obtain ⟨k, ek⟩ : ∃ k : Nat, dy = (k : Int) := ⟨dy.natAbs, by omega⟩
      subst ek
      rw [Int.natAbs_ofNat] at hk1
      obtain ⟨b, e, g, r1, r2, r3, r4, r5⟩ := scroll_window_up hgr t.scroll.top
        t.scroll.bottom k hm hb (by omega) hk1 (by show t.lines < 2147483648; omega)
      rw [if_pos c2a]
      have e1 : scroll_window (shifted t dx) (t.scroll.top : Int) (t.scroll.bottom : Int)
          (k : Int) = some b := e
      rw [e1]
      have ex : b.cursor.x = (shifted t dx).cursor.x := by
        have := congrArg (fun u : terminal_t => u.cursor.x) g.1; exact this
      have ew : b.wrap_occured = (shifted t dx).wrap_occured := by
        have := congrArg (fun u : terminal_t => u.wrap_occured) g.1; exact this
      refine ⟨_, rfl, ?_⟩
      unfold move_cursor_post
      refine ⟨ex, ew, fun h => absurd h c1, fun _ => ⟨ebot, ?_⟩,
        fun _ h => absurd c2 h, scrolled_frame dx _ g⟩
      clear ex ew ei ec ec2 eu hin etop ebot hx hy
      refine ⟨fun r h1 h2 h3 h4 => ?_, fun r h1 h2 h3 x hx1 => ?_, r3, r4, r5⟩
      · have e2 : ((r : Int) + (k : Int)).toNat = r + k := by omega
        rw [e2]
        exact r1 r h1 (by omega)
      · exact r2 r (by omega) h2 x hx1
    · have c2a : ¬ ((t.cursor.y : Int) = (t.scroll.bottom : Int) ∧ dy > 0) :=
        fun h => c2 ⟨by omega, h.2⟩
      rw [if_neg c2a]
      refine ⟨_, rfl, ?_⟩
      unfold move_cursor_post
      exact ⟨rfl, rfl, fun h => absurd h c1, fun h => absurd h c2,
        fun _ _ => ⟨eu, rfl, rfl⟩, rfl⟩

/-- C28, witness: the terminal of 1 column and 4 lines whose rows hold `a b c d`, with
the cursor at home on the top margin of the region `[0, 3]`: `move_cursor(-1, 0)` keeps
the cursor on row 0 and scrolls the region by -1, so that the rows hold
`blank a b c`; and on a fresh terminal of 4 columns and 3 lines `move_cursor(1, 5)` ends
at `(y = 1, x = 3)` with the wrap flag set. -/
theorem C28_move_cursor_witness :
    (∃ s, move_cursor rows_terminal (-1) 0 = some s ∧ move_cursor_post rows_terminal (-1) 0 s)
    ∧ (move_cursor rows_terminal (-1) 0).map (fun s => (s.cursor, codes s.cells))
        = some ({ x := 0, y := 0 }, [[some 0x20], [some 0x61], [some 0x62], [some 0x63]])
    ∧ (∃ s, move_cursor (fresh 4 3) 1 5 = some s ∧ move_cursor_post (fresh 4 3) 1 5 s)
    ∧ (move_cursor (fresh 4 3) 1 5).map (fun s => (s.cursor, s.wrap_occured))
        = some ({ x := 3, y := 1 }, true) :=
  ⟨C28_move_cursor rows_terminal (-1) 0 (by decide) (by decide) (by decide) (by decide)
      (by decide) (by decide) (by decide) (by decide) (by decide) (by decide) (by decide)
      (by decide),
    by decide,
    C28_move_cursor (fresh 4 3) 1 5 (by decide) (by decide) (by decide) (by decide)
      (reset_result_shape (term_alloc 4 3 ascii_glyphs)).rows
      (reset_result_shape (term_alloc 4 3 ascii_glyphs)).row_len
      (reset_result_shape (term_alloc 4 3 ascii_glyphs)).dirty_len
      (by decide) (by decide) (by decide) (by decide) (by decide),
    by decide⟩

/-- C28, counterexample: on a terminal of 65537 columns the cursor at home is in
bounds and `move_cursor(0, 65536)` leaves `cursor.x = 0`, while
`clamp(x + dx, 0, cols-1)` is 65536: `cursor.x` is a `uint16_t`. -/
theorem C28_counterexample :
    (term_init 65537 2 ascii_glyphs).bind (fun t =>
      (move_cursor t 0 65536).map (fun s =>
        (s.cursor.x, clamp ((t.cursor.x : Int) + 65536) 0 ((t.cols : Int) - 1))))
      = some (0, 65536) := by
  rw [term_init_fresh 65537 2 (by decide)]
  decide

end Yaft
